import Mathlib

/-!
# SMPL body model (`SMPLWrapper.cpp`): shallow embedding and verified properties

Conventions of the embedding.

* A C++ `double` is idealised as an element of a linearly ordered field `α`
  (exact arithmetic, no rounding).  The embedded functions are generic in `α` and
  computable; they run on `ℚ` and are reasoned about on every ordered field,
  the real numbers included.
* The `<cmath>` functions used by the code (`sqrt`, `sin`, `cos`, `atan2`) are
  collected in a record `Libm α` passed to every function that needs them.
  What a theorem needs of them (such as `sqrt 0 = 0`) is a hypothesis of that
  theorem; `realLibm` is their interpretation on `ℝ`.
* The compile-time constants of `SMPLWrapper.h` (`JOINTS_NUM`, `VERTICES_NUM`,
  `SHAPE_SIZE`, `POSE_BLENDSHAPES_NUM`) are fields of the model; `SPACE_DIM = 3`
  and `HOMO_SIZE = 4` are fixed, as the code asserts.
* Dynamically sized Eigen matrices with `SPACE_DIM` columns are functions
  `Nat → Fin 3 → α` (row index first); C arrays are functions of a `Nat` index.
  Reading outside the allocated range is undefined behaviour in C++ and is not
  given a meaning here: the theorems only speak about indices in range.
* A member function that mutates the object takes the object and returns the
  new object; a function that can throw returns `Except Err`.
* A function with optional Jacobian output arguments is embedded twice: the plain
  function is the call with the arguments at their default `nullptr`, and a second
  function (`updateJointsFKTransforms_withDerivatives`, `poseSMPL_withJac`,
  `calcModelJac`) is the call that asks for the derivatives.  An Eigen matrix that has
  not been assigned (size 0) is `none`.
-/

namespace SMPL

/-- The `<cmath>` functions the code calls. -/
structure Libm (α : Type) where
  sqrt : α → α
  sin : α → α
  cos : α → α
  atan2 : α → α → α

/-- The exceptions the code throws: `std::out_of_range`, `std::invalid_argument`, and a plain
`std::exception`. -/
inductive Err where
  | out_of_range
  | invalid_argument
  | exception
  deriving DecidableEq, Repr

/-- `E::Vector3d`. -/
abbrev Vec3 (α : Type) := Fin 3 → α
/-- A 3x3 matrix. -/
abbrev Mat3 (α : Type) := Matrix (Fin 3) (Fin 3) α
/-- `EHomoCoordMatrix`: a 4x4 matrix in homogeneous coordinates. -/
abbrev Mat4 (α : Type) := Matrix (Fin 4) (Fin 4) α
/-- `E::MatrixXd` / `ERMatrixXd` with `SPACE_DIM` columns. -/
abbrev MatX3 (α : Type) := Nat → Fin 3 → α

/-- `E::Triplet<double>`: one stored entry `(row, col, value)` of a sparse matrix. -/
structure Triplet (α : Type) where
  row : Nat
  col : Nat
  value : α

/-- `E::SparseMatrix<double>` as the list of its entries; entries that share a
position add up (`setFromTriplets`). -/
abbrev SparseMat (α : Type) := List (Triplet α)

namespace Eigen

variable {α : Type}

/-- `a.dot(b)`. -/
def dot [Field α] (a b : Vec3 α) : α := a 0 * b 0 + a 1 * b 1 + a 2 * b 2

/-- `a.cross(b)`. -/
def cross [Field α] (a b : Vec3 α) : Vec3 α :=
  ![a 1 * b 2 - a 2 * b 1, a 2 * b 0 - a 0 * b 2, a 0 * b 1 - a 1 * b 0]

/-- `a.norm()`: the square root of the squared norm. -/
def norm [Field α] (M : Libm α) (a : Vec3 α) : α := M.sqrt (dot a a)

/-- `a.normalized()`: `a / a.norm()`, and `a` itself when its squared norm is not positive. -/
def normalized [LinearOrderedField α] (M : Libm α) (a : Vec3 α) : Vec3 α :=
  if dot a a > 0 then fun i => a i / M.sqrt (dot a a) else a

/-- `m * s` for a scalar `s`. -/
def mulScalar [Field α] {n : Type} (m : Matrix n n α) (s : α) : Matrix n n α := fun i j => m i j * s

/-- `m / s` for a scalar `s`. -/
def divScalar [Field α] {n : Type} (m : Matrix n n α) (s : α) : Matrix n n α := fun i j => m i j / s

/-- `m.block(0, 0, 3, 3)` of a 4x4 matrix. -/
def block33 (m : Mat4 α) : Mat3 α := fun i j => m i.castSucc j.castSucc

/-- `m.block(0, 3, 3, 1)`: the first three entries of the last column. -/
def lastCol (m : Mat4 α) : Vec3 α := fun i => m i.castSucc 3

/-- `m.block(0, 0, 3, 3) = r`. -/
def setBlock33 (m : Mat4 α) (r : Mat3 α) : Mat4 α :=
  fun i j => if h : i.val < 3 ∧ j.val < 3 then r ⟨i.val, h.1⟩ ⟨j.val, h.2⟩ else m i j

/-- `m.block(0, 3, 3, 1) = t`. -/
def setLastCol (m : Mat4 α) (t : Vec3 α) : Mat4 α :=
  fun i j => if h : i.val < 3 ∧ j.val = 3 then t ⟨i.val, h.1⟩ else m i j

/-- The skew-symmetric matrix written `<< 0, -w[2], w[1], w[2], 0, -w[0], -w[1], w[0], 0`. -/
def skew [Field α] (w : Vec3 α) : Mat3 α :=
  !![0, -w 2, w 1; w 2, 0, -w 0; -w 1, w 0, 0]

/-- `verts.colwise().mean()` of a matrix with `n` rows. -/
def colwiseMean [Field α] (n : Nat) (verts : MatX3 α) : Vec3 α :=
  fun c => (∑ v in Finset.range n, verts v c) / (n : α)

/-- Dense product of an `r x n` matrix with an `n x 3` matrix, row `i`. -/
def mulDense [Field α] (n : Nat) (a : Nat → Nat → α) (b : MatX3 α) : MatX3 α :=
  fun i c => ∑ k in Finset.range n, a i k * b k c

/-- Product of a sparse matrix with a dense matrix: entry `(r, c)` adds
`value * b(col, c)` over the stored entries of row `r`. -/
def mulSparse [Field α] (a : SparseMat α) (b : MatX3 α) : MatX3 α :=
  fun r c => ((a.filter (fun t => t.row = r)).map (fun t => t.value * b t.col c)).sum

/-- The coefficient `a.coeff(r, c)` of a sparse matrix. -/
def coeff [Field α] (a : SparseMat α) (r c : Nat) : α :=
  ((a.filter (fun t => t.row = r ∧ t.col = c)).map (fun t => t.value)).sum

end Eigen

/-- `SMPLWrapper::State`: the parameters of one body. -/
structure State (α : Type) where
  pose : MatX3 α
  shape : Nat → α
  translation : Vec3 α
  displacements : MatX3 α

/-- The forward-kinematics members `fk_transforms_` and `local_rotations_`. -/
structure FKCache (α : Type) where
  fk_transforms_ : Nat → Mat4 α
  local_rotations_ : Nat → Mat3 α

/-- The data members of `SMPLWrapper` that the embedded functions read or write. -/
structure SMPLWrapper (α : Type) where
  JOINTS_NUM : Nat
  VERTICES_NUM : Nat
  SHAPE_SIZE : Nat
  POSE_BLENDSHAPES_NUM : Nat
  use_pose_blendshapes_ : Bool
  verts_template_normalized_ : MatX3 α
  jointRegressorMat_ : Nat → Nat → α
  weights_ : SparseMat α
  shape_diffs_ : Nat → MatX3 α
  pose_diffs_ : Nat → MatX3 α
  joints_parents_ : Nat → Int
  joint_names_ : List (String × Nat)
  state_ : State α
  /-- `none` stands for the empty matrix (`size() == 0`) before the constructor fills it. -/
  joint_locations_template_ : Option (MatX3 α)
  joint_locations_ : MatX3 α
  fk_transforms_ : Nat → Mat4 α
  local_rotations_ : Nat → Mat3 α
  /-- The header constant `POSE_SIZE` (number of pose coordinates). -/
  POSE_SIZE : Nat := JOINTS_NUM * 3
  /-- `fk_derivatives_[joint][coordinate]`; `none` stands for an empty matrix (`size() == 0`),
  which is what every slot holds before the first call that asks for derivatives. -/
  fk_derivatives_ : Nat → Nat → Option (Mat4 α) := fun _ _ => none
  local_rotations_jac_ : Nat → Mat3 α
  blendshapes_derivatives_ : Nat → MatX3 α

namespace SMPLWrapper

variable {α : Type} [LinearOrderedField α]

/-- `SMPLWrapper::get3DTranslationMat_`. -/
def get3DTranslationMat_ (translationVector : Vec3 α) : Mat4 α :=
  Eigen.setLastCol (1 : Mat4 α) translationVector

/-- `SMPLWrapper::get3DLocalTransformMat_`. -/
def get3DLocalTransformMat_ (M : Libm α) (jointAxisAngleRotation jointToParentDist : Vec3 α) :
    Mat4 α :=
  let localTransform : Mat4 α := Eigen.setLastCol (1 : Mat4 α) jointToParentDist
  let w := jointAxisAngleRotation
  let norm := Eigen.norm M w
  let w_skew : Mat3 α := Eigen.divScalar (Eigen.skew w) norm
  let exponent : Mat3 α := 1
  if norm > 0.0001 then
    let exponent := exponent +
      (Eigen.mulScalar w_skew (M.sin norm) + Eigen.mulScalar (w_skew * w_skew) (1 - M.cos norm))
    Eigen.setBlock33 localTransform exponent
  else
    localTransform

/-- One iteration of the loop of `updateJointsFKTransforms_` (`calc_derivatives == false`). -/
def fkLoopBody (M : Libm α) (joints_parents_ : Nat → Int) (pose t_pose_joints_locations : MatX3 α)
    (c : FKCache α) (joint_id : Nat) : FKCache α :=
  let parent := (joints_parents_ joint_id).toNat
  let localTransform := get3DLocalTransformMat_ M (pose joint_id)
    (t_pose_joints_locations joint_id - t_pose_joints_locations parent)
  { local_rotations_ := Function.update c.local_rotations_ joint_id (Eigen.block33 localTransform)
    fk_transforms_ := Function.update c.fk_transforms_ joint_id
      (c.fk_transforms_ parent * localTransform) }

/-- `SMPLWrapper::updateJointsFKTransforms_` with `calc_derivatives == false`: the root, then
the joints `1 .. JOINTS_NUM - 1` in index order. -/
def updateJointsFKTransforms_ (self : SMPLWrapper α) (M : Libm α)
    (pose t_pose_joints_locations : MatX3 α) : SMPLWrapper α :=
  let fk0 := get3DLocalTransformMat_ M (pose 0) (t_pose_joints_locations 0)
  let c0 : FKCache α :=
    { fk_transforms_ := Function.update self.fk_transforms_ 0 fk0
      local_rotations_ := Function.update self.local_rotations_ 0 (Eigen.block33 fk0) }
  let c := (List.range' 1 (self.JOINTS_NUM - 1)).foldl
    (fkLoopBody M self.joints_parents_ pose t_pose_joints_locations) c0
  { self with fk_transforms_ := c.fk_transforms_, local_rotations_ := c.local_rotations_ }

/-- `SMPLWrapper::extractJointLocationFromFKTransform_`: row `j` of the result is set to the
last column of `fk_transform[j]`, for `j = 0 .. JOINTS_NUM - 1`. -/
def extractJointLocationFromFKTransform_ (self : SMPLWrapper α) (fk_transform : Nat → Mat4 α) :
    MatX3 α :=
  (List.range self.JOINTS_NUM).foldl (fun joints_locations j =>
    Function.update joints_locations j (Eigen.lastCol (fk_transform j))) 0

/-- `SMPLWrapper::extractLBSJointTransformFromFKTransform_` with `jacsTotal == nullptr`: the
stacked `(HOMO_SIZE * JOINTS_NUM) x SPACE_DIM` matrix.  Iteration `j` writes
`joints_transform.block(HOMO_SIZE * j, 0, HOMO_SIZE, SPACE_DIM)`.  (The matrix is allocated
without initial values and every row is written; the initial content is taken as zero.) -/
def extractLBSJointTransformFromFKTransform_ (self : SMPLWrapper α) (fk_transform : Nat → Mat4 α)
    (t_pose_joints_locations : MatX3 α) : MatX3 α :=
  (List.range self.JOINTS_NUM).foldl (fun joints_transform j =>
    let inverse_t_pose_translate := get3DTranslationMat_ (-(t_pose_joints_locations j))
    let tmpPointGlobalTransform := fk_transform j * inverse_t_pose_translate
    fun k c =>
      if h : 4 * j ≤ k ∧ k < 4 * j + 4 then
        tmpPointGlobalTransform.transpose ⟨k - 4 * j, by omega⟩ c.castSucc
      else
        joints_transform k c) 0

/-- `SMPLWrapper::getLBSMatrix_`: for every stored weight, `dim` entries
`weight * verts(idx_vert, idx_dim)` and one entry `weight`, in columns
`idx_joint * (dim + 1) + 0 .. idx_joint * (dim + 1) + dim`. -/
def getLBSMatrix_ (self : SMPLWrapper α) (verts : MatX3 α) : SparseMat α :=
  self.weights_.flatMap fun it =>
    let weight := it.value
    let idx_vert := it.row
    let idx_joint := it.col
    [⟨idx_vert, idx_joint * (3 + 1) + 0, weight * verts idx_vert 0⟩,
     ⟨idx_vert, idx_joint * (3 + 1) + 1, weight * verts idx_vert 1⟩,
     ⟨idx_vert, idx_joint * (3 + 1) + 2, weight * verts idx_vert 2⟩,
     ⟨idx_vert, idx_joint * (3 + 1) + 3, weight⟩]

/-- `SMPLWrapper::shapeSMPL_` with `shape_jac == nullptr`. -/
def shapeSMPL_ (self : SMPLWrapper α) (shape : Nat → α) (verts : MatX3 α) : MatX3 α :=
  (List.range self.SHAPE_SIZE).foldl (fun verts i => verts + shape i • self.shape_diffs_ i) verts

/-- `SMPLWrapper::translate_`. -/
def translate_ (translation : Vec3 α) (verts : MatX3 α) : MatX3 α :=
  fun v c => verts v c + translation c

/-- `SMPLWrapper::addJointPoseBlendshape_`: columns in the outer loop, rows in the inner one. -/
def addJointPoseBlendshape_ (self : SMPLWrapper α) (blendshape_id_offset : Nat) (coeff : Mat3 α)
    (verts : MatX3 α) : Except Err (MatX3 α) :=
  (List.finRange 3).foldlM (fun verts col =>
    (List.finRange 3).foldlM (fun verts row =>
      let blendshape_id := blendshape_id_offset + row.val * 3 + col.val
      if blendshape_id ≥ self.POSE_BLENDSHAPES_NUM then
        Except.error Err.out_of_range
      else
        Except.ok (verts + coeff row col • self.pose_diffs_ blendshape_id)) verts) verts

/-- `SMPLWrapper::addPoseBlendshapes_`. -/
def addPoseBlendshapes_ (self : SMPLWrapper α) (local_rotations_ : Nat → Mat3 α)
    (verts : MatX3 α) : Except Err (MatX3 α) :=
  (List.range' 1 (self.JOINTS_NUM - 1)).foldlM (fun verts joint =>
    let coeff : Mat3 α := local_rotations_ joint - 1
    self.addJointPoseBlendshape_ ((joint - 1) * 3 * 3) coeff verts) verts

/-- `SMPLWrapper::poseSMPL_` with `pose_jac == nullptr`.  Returns the posed vertices (or the
exception) and the object with its updated members. -/
def poseSMPL_ (self : SMPLWrapper α) (M : Libm α) (pose : MatX3 α) (verts : MatX3 α)
    (displacement : Option (MatX3 α)) (use_previous_pose_matrix : Bool) :
    Except Err (MatX3 α) × SMPLWrapper α :=
  let self :=
    if !use_previous_pose_matrix then
      let self := { self with
        joint_locations_ := Eigen.mulDense self.VERTICES_NUM self.jointRegressorMat_ verts }
      self.updateJointsFKTransforms_ M pose self.joint_locations_
    else self
  let joints_global_transform :=
    self.extractLBSJointTransformFromFKTransform_ self.fk_transforms_ self.joint_locations_
  let blended : Except Err (MatX3 α) :=
    if self.use_pose_blendshapes_ then self.addPoseBlendshapes_ self.local_rotations_ verts
    else Except.ok verts
  match blended with
  | Except.error e => (Except.error e, self)
  | Except.ok verts =>
    let LBSMat :=
      match displacement with
      | some d => self.getLBSMatrix_ (verts + d)
      | none => self.getLBSMatrix_ verts
    (Except.ok (Eigen.mulSparse LBSMat joints_global_transform), self)

/-- `SMPLWrapper::calcModel(translation, pose, shape, displacement)`; an omitted (`nullptr`)
argument is `none`. -/
def calcModel (self : SMPLWrapper α) (M : Libm α) (translation : Option (Vec3 α))
    (pose : Option (MatX3 α)) (shape : Option (Nat → α)) (displacement : Option (MatX3 α)) :
    Except Err (MatX3 α) × SMPLWrapper α :=
  let verts := self.verts_template_normalized_
  let verts :=
    match shape with
    | some s => self.shapeSMPL_ s verts
    | none => verts
  let posed : Except Err (MatX3 α) × SMPLWrapper α :=
    match pose with
    | some p => self.poseSMPL_ M p verts displacement false
    | none =>
      match displacement with
      | some d => (Except.ok (verts + d), self)
      | none => (Except.ok verts, self)
  match posed with
  | (Except.error e, self) => (Except.error e, self)
  | (Except.ok verts, self) =>
    match translation with
    | some t => (Except.ok (translate_ t verts), self)
    | none => (Except.ok verts, self)

/-- `SMPLWrapper::calcModel()`: the model for the current state. -/
def calcModelCurrent (self : SMPLWrapper α) (M : Libm α) : Except Err (MatX3 α) × SMPLWrapper α :=
  self.calcModel M (some self.state_.translation) (some self.state_.pose)
    (some self.state_.shape) (some self.state_.displacements)

/-- `SMPLWrapper::calcJointLocations_`. -/
def calcJointLocations_ (self : SMPLWrapper α) (M : Libm α) (translation : Option (Vec3 α))
    (shape : Option (Nat → α)) (pose : Option (MatX3 α)) : MatX3 α × SMPLWrapper α :=
  let joint_locations : MatX3 α :=
    match self.joint_locations_template_ with
    | some t => t
    | none =>
      Eigen.mulDense self.VERTICES_NUM self.jointRegressorMat_ self.verts_template_normalized_
  let joint_locations :=
    match shape with
    | some s =>
      let verts := self.shapeSMPL_ s self.verts_template_normalized_
      Eigen.mulDense self.VERTICES_NUM self.jointRegressorMat_ verts
    | none => joint_locations
  let posed : MatX3 α × SMPLWrapper α :=
    match pose with
    | some p =>
      let self := self.updateJointsFKTransforms_ M p joint_locations
      (self.extractJointLocationFromFKTransform_ self.fk_transforms_, self)
    | none => (joint_locations, self)
  match translation with
  | some t => (translate_ t posed.1, posed.2)
  | none => posed

/-- `SMPLWrapper::angle_axis_`. -/
def angle_axis_ (M : Libm α) (from_ to_ : Vec3 α) : Vec3 α :=
  if Eigen.norm M from_ * Eigen.norm M to_ > 0 then
    let axis := Eigen.cross from_ to_
    let sin_a := Eigen.norm M axis / (Eigen.norm M from_ * Eigen.norm M to_)
    let cos_a := Eigen.dot from_ to_ / (Eigen.norm M from_ * Eigen.norm M to_)
    let angle := M.atan2 sin_a cos_a
    let axis := Eigen.normalized M axis
    fun i => angle * axis i
  else
    ![0, 0, 0]

/-- `SMPLWrapper::assignJointGlobalRotation_`. -/
def assignJointGlobalRotation_ (self : SMPLWrapper α) (joint_id : Nat) (rotation : Vec3 α)
    (fk_transform : Nat → Mat4 α) : SMPLWrapper α :=
  let rotation_local : Vec3 α :=
    if joint_id > 0 then
      let joint_inverse_rotation := (Eigen.block33 (fk_transform joint_id)).transpose
      joint_inverse_rotation.mulVec rotation
    else
      rotation
  { self with state_ := { self.state_ with
      pose := Function.update self.state_.pose joint_id rotation_local } }

/-- The search `for (i = 0; i < JOINTS_NUM; i++) if (joints_parents_[i] == joint_id) ... break;`
of `rotateLimbToDirection`: the first joint whose parent is `joint_id`, if there is one. -/
def findChild (self : SMPLWrapper α) (joint_id : Nat) : Option Nat :=
  (List.range self.JOINTS_NUM).find? (fun i => decide (self.joints_parents_ i = (joint_id : Int)))

/-- `SMPLWrapper::rotateLimbToDirection`.  The local `child_id` is declared without an
initial value; `child_id_uninit` is the value it holds when the search assigns none. -/
def rotateLimbToDirection (self : SMPLWrapper α) (M : Libm α) (child_id_uninit : Nat)
    (joint_name : String) (direction : Vec3 α) : Except Err Unit × SMPLWrapper α :=
  match self.joint_names_.lookup joint_name with
  | none => (Except.error Err.out_of_range, self)
  | some joint_id =>
    if joint_id = 0 then
      (Except.error Err.out_of_range, self)
    else if joint_name = "LowBack" ∨ joint_name = "MiddleBack" ∨ joint_name = "TopBack" then
      (Except.error Err.out_of_range, self)
    else
      let child_id := (self.findChild joint_id).getD child_id_uninit
      let located := self.calcJointLocations_ M none none (some self.state_.pose)
      let joint_locations := located.1
      let self := located.2
      let default_dir : Vec3 α := joint_locations child_id - joint_locations joint_id
      let self :=
        if Eigen.norm M direction * Eigen.norm M default_dir > 0 then
          let axis := angle_axis_ M default_dir direction
          self.assignJointGlobalRotation_ joint_id axis self.fk_transforms_
        else self
      let self := (self.calcJointLocations_ M none none (some self.state_.pose)).2
      match self.calcModelCurrent M with
      | (Except.error e, self) => (Except.error e, self)
      | (Except.ok _, self) => (Except.ok (), self)

/-- `SMPLWrapper::calcJointLocations()`: the joint locations for the current state. -/
def calcJointLocations (self : SMPLWrapper α) (M : Libm α) : MatX3 α × SMPLWrapper α :=
  self.calcJointLocations_ M (some self.state_.translation) (some self.state_.shape)
    (some self.state_.pose)

/-- `SMPLWrapper::rotate_by_angle_axis_`. -/
def rotate_by_angle_axis_ (M : Libm α) (vector angle_axis_rotation : Vec3 α) : Vec3 α :=
  let angle := Eigen.norm M angle_axis_rotation
  let axis := Eigen.normalized M angle_axis_rotation
  fun i => M.cos angle * vector i
    + M.sin angle * Eigen.cross axis vector i
    + (1 - M.cos angle) * Eigen.dot axis vector * axis i

/-- `SMPLWrapper::combine_two_angle_axis_`. -/
def combine_two_angle_axis_ (M : Libm α) (first second : Vec3 α) : Vec3 α :=
  let angle_first := Eigen.norm M first
  let axis_first := Eigen.normalized M first
  let angle_second := Eigen.norm M second
  let axis_second := Eigen.normalized M second
  let axis_sin_scaled : Vec3 α := fun i =>
    M.cos (angle_first / 2) * M.sin (angle_second / 2) * axis_second i
    + M.sin (angle_first / 2) * M.cos (angle_second / 2) * axis_first i
    + M.sin (angle_first / 2) * M.sin (angle_second / 2) * Eigen.cross second first i
  let axis := Eigen.normalized M axis_sin_scaled
  let angle_half_sin := Eigen.norm M axis_sin_scaled
  let angle_half_cos := M.cos (angle_first / 2) * M.cos (angle_second / 2)
    - Eigen.dot axis_first axis_second * M.sin (angle_first / 2) * M.sin (angle_second / 2)
  let angle := 2 * M.atan2 angle_half_sin angle_half_cos
  fun i => angle * axis i

/-- `SMPLWrapper::rotateRoot`. -/
def rotateRoot (self : SMPLWrapper α) (M : Libm α) (body_up body_left_to_right : Vec3 α) :
    Except Err Unit × SMPLWrapper α :=
  let default_Y : Vec3 α := ![0, 1, 0]
  let rotation_match_body_up := angle_axis_ M default_Y body_up
  let X_updated := rotate_by_angle_axis_ M ![1, 0, 0] rotation_match_body_up
  let Y_matched := rotate_by_angle_axis_ M default_Y rotation_match_body_up
  let left_to_right_projected : Vec3 α := fun i =>
    body_left_to_right i - Eigen.dot body_left_to_right Y_matched * Y_matched i
  let cross_product := Eigen.cross X_updated left_to_right_projected
  let sin_sign : α := if Eigen.dot cross_product Y_matched ≥ 0 then 1 else -1
  let angle := M.atan2 (sin_sign * Eigen.norm M cross_product)
    (Eigen.dot X_updated left_to_right_projected)
  let rotation_match_hips : Vec3 α := fun i => angle * Y_matched i
  let combined_rotation :=
    combine_two_angle_axis_ M rotation_match_body_up rotation_match_hips
  let self := self.assignJointGlobalRotation_ 0 combined_rotation self.fk_transforms_
  match self.calcModelCurrent M with
  | (Except.error e, self) => (Except.error e, self)
  | (Except.ok _, self) => (Except.ok (), self)

/-- `SMPLWrapper::translateTo`. -/
def translateTo (self : SMPLWrapper α) (M : Libm α) (center_point : Vec3 α) :
    Except Err Unit × SMPLWrapper α :=
  match self.calcModelCurrent M with
  | (Except.error e, self) => (Except.error e, self)
  | (Except.ok verts, self) =>
    let mean_point := Eigen.colwiseMean self.VERTICES_NUM verts
    let self := { self with state_ := { self.state_ with
      translation := center_point - mean_point } }
    match self.calcModelCurrent M with
    | (Except.error e, self) => (Except.error e, self)
    | (Except.ok _, self) => (Except.ok (), self)

/-- Modelled from the spec: `SMPLWrapper::rotateJointToDirection`, the member function
`OpenPoseWrapper::mapToSmpl` calls, is not among the source files at hand.  The specification
describes it as the generic rotate-to-direction operation of the model, which "fails if
jointName unknown, is the root (use root-specific op), or is one of the three spine joints
(use twist op)" and otherwise re-points the bone of the named joint: the behaviour of
`rotateLimbToDirection`, which stands for it here. -/
def rotateJointToDirection (self : SMPLWrapper α) (M : Libm α) (child_id_uninit : Nat)
    (joint_name : String) (direction : Vec3 α) : Except Err Unit × SMPLWrapper α :=
  self.rotateLimbToDirection M child_id_uninit joint_name direction

end SMPLWrapper

section TextFiles

variable {α : Type} [LinearOrderedField α]

/-! ### Text files of parameters

A text file is kept as its lines, a line as its whitespace-separated tokens.  A number
token stands for the printed form of a value that reads back as the same value; how a
`double` is printed and parsed is not part of the embedding. -/

/-- A whitespace-separated token of a text file. -/
inductive Token (α : Type) where
  | num (x : α)
  | word (s : String)

/-- A text file: the list of its lines. -/
abbrev Text (α : Type) := List (List (Token α))

/-- A `std::ifstream`: what is left of the current line and the lines after it, and the
fail bit. -/
structure IStream (α : Type) where
  rest : Text α
  failed : Bool

/-- `std::ifstream in(filename)`; a file that cannot be opened leaves the fail bit set. -/
def IStream.open_ (file : Option (Text α)) : IStream α :=
  match file with
  | some text => { rest := text, failed := false }
  | none => { rest := [], failed := true }

/-- `in.ignore(std::numeric_limits<std::streamsize>::max(), '\n')`: drops the rest of the
current line. -/
def IStream.ignoreLine (s : IStream α) : IStream α :=
  if s.failed then s
  else
    match s.rest with
    | [] => s
    | _ :: lines => { s with rest := lines }

/-- The next token of a text, with the text after it; whitespace and line ends before the
token are skipped. -/
def nextToken : Text α → Option (Token α × Text α)
  | [] => none
  | [] :: lines => nextToken lines
  | (t :: line) :: lines => some (t, line :: lines)

/-- `in >> x` for a `double` variable holding `old`: the value read, or `0` with the fail bit
set when the next token is not a number; at the end of the file, and with the fail bit
already set, the variable keeps its value. -/
def IStream.readDouble (s : IStream α) (old : α) : α × IStream α :=
  if s.failed then (old, s)
  else
    match nextToken s.rest with
    | none => (old, { rest := [], failed := true })
    | some (Token.num x, rest) => (x, { rest := rest, failed := false })
    | some (Token.word _, _) => (0, { s with failed := true })

/-- `in >> trash` for a `std::string`: skips the next token. -/
def IStream.readString (s : IStream α) : IStream α :=
  if s.failed then s
  else
    match nextToken s.rest with
    | none => { rest := [], failed := true }
    | some (_, rest) => { rest := rest, failed := false }

/-- The tokens of `out << x << " , "` for each of the values `xs`. -/
def commaSeparated (xs : List α) : List (Token α) :=
  xs.flatMap (fun x => [Token.num x, Token.word ","])

end TextFiles

namespace SMPLWrapper

variable {α : Type} [LinearOrderedField α]

/-- `SMPLWrapper::logParameters`, up to and including the shape block. -/
def logParametersHead (self : SMPLWrapper α) : Text α :=
  [[Token.word "Translation", Token.word "["],
   commaSeparated ((List.finRange 3).map (fun i => self.state_.translation i)),
   [Token.word "]"],
   [Token.word "Pose", Token.word "params", Token.word "["]]
  ++ (List.range self.JOINTS_NUM).map (fun i =>
      commaSeparated ((List.finRange 3).map (fun j => self.state_.pose i j)))
  ++ [[Token.word "]"],
      [Token.word "Shape", Token.word "(betas)", Token.word "params", Token.word "["],
      commaSeparated ((List.range self.SHAPE_SIZE).map (fun i => self.state_.shape i)),
      [Token.word "]"]]

/-- `SMPLWrapper::logParameters`: the text written to the file, and the object after the call
to `calcJointLocations()`.  The joint locations are printed one joint a line (an empty
matrix prints as an empty line). -/
def logParameters (self : SMPLWrapper α) (M : Libm α) : Text α × SMPLWrapper α :=
  let located := self.calcJointLocations M
  (self.logParametersHead
    ++ [[Token.word "Joints", Token.word "locations", Token.word "for", Token.word "posed",
         Token.word "and", Token.word "shaped", Token.word "model", Token.word "["]]
    ++ (if self.JOINTS_NUM = 0 then [[]]
        else (List.range self.JOINTS_NUM).map (fun j =>
          (List.finRange 3).map (fun c => Token.num (located.1 j c))))
    ++ [[Token.word "]"]],
   located.2)

/-- The loop `for (i ...) in >> state_.translation[i] >> trash;` of `loadParametersFromFile`. -/
def loadTranslation (translation : Vec3 α) (s : IStream α) : Vec3 α × IStream α :=
  (List.finRange 3).foldl (fun acc i =>
    let r := acc.2.readDouble (acc.1 i)
    (Function.update acc.1 i r.1, r.2.readString)) (translation, s)

/-- The loops `for (i ...) for (j ...) in >> state_.pose(i, j) >> trash;`. -/
def loadPose (joints_num : Nat) (pose : MatX3 α) (s : IStream α) : MatX3 α × IStream α :=
  (List.range joints_num).foldl (fun acc i =>
    (List.finRange 3).foldl (fun acc j =>
      let r := acc.2.readDouble (acc.1 i j)
      (Function.update acc.1 i (Function.update (acc.1 i) j r.1), r.2.readString)) acc)
    (pose, s)

/-- The loop `for (i ...) in >> state_.shape[i] >> trash;`. -/
def loadShape (shape_size : Nat) (shape : Nat → α) (s : IStream α) : (Nat → α) × IStream α :=
  (List.range shape_size).foldl (fun acc i =>
    let r := acc.2.readDouble (acc.1 i)
    (Function.update acc.1 i r.1, r.2.readString)) (shape, s)

/-- `SMPLWrapper::loadParametersFromFile`; `file` is the content of the file, `none` when it
cannot be opened. -/
def loadParametersFromFile (self : SMPLWrapper α) (M : Libm α) (file : Option (Text α)) :
    Except Err Unit × SMPLWrapper α :=
  let in_ := IStream.open_ file
  let in_ := in_.ignoreLine
  let t := loadTranslation self.state_.translation in_
  let in_ := t.2.ignoreLine.ignoreLine
  let in_ := in_.ignoreLine
  let p := loadPose self.JOINTS_NUM self.state_.pose in_
  let in_ := p.2.ignoreLine.ignoreLine
  let in_ := in_.ignoreLine
  let sh := loadShape self.SHAPE_SIZE self.state_.shape in_
  let self := { self with state_ := { self.state_ with
    translation := t.1, pose := p.1, shape := sh.1 } }
  match self.calcModelCurrent M with
  | (Except.error e, self) => (Except.error e, self)
  | (Except.ok _, self) => (Except.ok (), self)

end SMPLWrapper

/-- The data member `last_pose_` of `OpenPoseWrapper`: one row `(x, y, z, score)` for every
keypoint; `none` stands for the empty matrix (`size() == 0`). -/
structure OpenPoseWrapper (α : Type) where
  last_pose_ : Option (Nat → Fin 4 → α)

namespace OpenPoseWrapper

variable {α : Type} [LinearOrderedField α]

/-- The pairs of keypoints `directions_to_match` of `OpenPoseWrapper::mapToSmpl`. -/
def directions_to_match : List (Nat × Nat) :=
  [(8, 1), (1, 0), (2, 3), (3, 4), (5, 6), (6, 7), (9, 10), (10, 11), (11, 22), (12, 13),
   (13, 14), (14, 19)]

/-- `OpenPoseWrapper::isDetected_`, for a non-empty `last_pose_`. -/
def isDetected_ (last_pose_ : Nat → Fin 4 → α) (keypoint : Nat) : Bool :=
  decide (last_pose_ keypoint 3 > 0)

/-- The body of the loop of `OpenPoseWrapper::mapToSmpl` for one pair, while no exception is
in flight.  `keypoints_names` is the table `op::getPoseBodyPartMapping(op::PoseModel::BODY_25)`
of the OpenPose library. -/
def mapPair (M : Libm α) (child_id_uninit : Nat) (keypoints_names : List (Nat × String))
    (last_pose_ : Nat → Fin 4 → α) (smpl : SMPLWrapper α) (pair : Nat × Nat) :
    Except Err Unit × SMPLWrapper α :=
  let keypoint := pair.1
  let child := pair.2
  if !isDetected_ last_pose_ keypoint || !isDetected_ last_pose_ child then
    (Except.ok (), smpl)
  else
    let dir : Vec3 α := fun i => last_pose_ child i.castSucc - last_pose_ keypoint i.castSucc
    if keypoint = 8 then
      smpl.rotateJointToDirection M child_id_uninit "Root" dir
    else
      match keypoints_names.lookup keypoint with
      | none => (Except.error Err.out_of_range, smpl)
      | some name => smpl.rotateJointToDirection M child_id_uninit name dir

/-- The loop `for (auto pair : directions_to_match)` of `OpenPoseWrapper::mapToSmpl`, run over
the pairs `pairs` from the state `st`; an exception leaves the loop. -/
def mapLoop (M : Libm α) (child_id_uninit : Nat) (keypoints_names : List (Nat × String))
    (last_pose_ : Nat → Fin 4 → α) (st : Except Err Unit × SMPLWrapper α)
    (pairs : List (Nat × Nat)) : Except Err Unit × SMPLWrapper α :=
  pairs.foldl (fun st pair =>
    match st with
    | (Except.error e, smpl) => (Except.error e, smpl)
    | (Except.ok _, smpl) => mapPair M child_id_uninit keypoints_names last_pose_ smpl pair) st

/-- `OpenPoseWrapper::mapToSmpl`: the exception of the empty table, then the pairs in the order
of `directions_to_match`. -/
def mapToSmpl (self : OpenPoseWrapper α) (M : Libm α) (child_id_uninit : Nat)
    (keypoints_names : List (Nat × String)) (smpl : SMPLWrapper α) :
    Except Err Unit × SMPLWrapper α :=
  match self.last_pose_ with
  | none => (Except.error Err.exception, smpl)
  | some last_pose_ =>
    mapLoop M child_id_uninit keypoints_names last_pose_ (Except.ok (), smpl) directions_to_match

end OpenPoseWrapper

namespace SMPLWrapper

variable {α : Type} [LinearOrderedField α]

/-! ### Definitions used to state the properties -/

/-- The matrix `[r, t; 0, 1]` in homogeneous coordinates. -/
def homo (r : Mat3 α) (t : Vec3 α) : Mat4 α :=
  Eigen.setLastCol (Eigen.setBlock33 (1 : Mat4 α) r) t

/-- The rotation block `get3DLocalTransformMat_` leaves in its result. -/
def localRotation (M : Libm α) (w : Vec3 α) : Mat3 α :=
  Eigen.block33 (get3DLocalTransformMat_ M w 0)

/-- The local transform `updateJointsFKTransforms_` builds for joint `j`. -/
def localTransformOf (M : Libm α) (joints_parents_ : Nat → Int)
    (pose t_pose_joints_locations : MatX3 α) (j : Nat) : Mat4 α :=
  if j = 0 then
    get3DLocalTransformMat_ M (pose 0) (t_pose_joints_locations 0)
  else
    get3DLocalTransformMat_ M (pose j)
      (t_pose_joints_locations j - t_pose_joints_locations (joints_parents_ j).toNat)

/-- The joints on the way from the root to joint `j`, found by following the parent
pointers recursively (at most `fuel` steps); the root comes first, `j` last. -/
def treePath (joints_parents_ : Nat → Int) : Nat → Nat → List Nat
  | 0, _ => [0]
  | fuel + 1, j =>
    if j = 0 then [0] else treePath joints_parents_ fuel (joints_parents_ j).toNat ++ [j]

/-- A kinematic tree stored parents-first: every non-root joint below `n` has its parent at
a smaller index. -/
def ParentsBelow (joints_parents_ : Nat → Int) (n : Nat) : Prop :=
  ∀ j, 0 < j → j < n → 0 ≤ joints_parents_ j ∧ joints_parents_ j < (j : Int)

/-- Rodrigues' formula for the rotation of angle `θ` about the axis `a`:
`I + sin θ [a]ₓ + (1 - cos θ) [a]ₓ²`. -/
def rodrigues (M : Libm α) (θ : α) (a : Vec3 α) : Mat3 α :=
  1 + M.sin θ • Eigen.skew a + (1 - M.cos θ) • (Eigen.skew a * Eigen.skew a)

/-- The object `poseSMPL_` leaves behind: the joint regressor applied to the vertices it was
given, and the forward-kinematics members computed from that. -/
def posedObject (self : SMPLWrapper α) (M : Libm α) (pose verts : MatX3 α) : SMPLWrapper α :=
  { (self.updateJointsFKTransforms_ M pose
      (Eigen.mulDense self.VERTICES_NUM self.jointRegressorMat_ verts)) with
    joint_locations_ := Eigen.mulDense self.VERTICES_NUM self.jointRegressorMat_ verts }

/-- The direct linear-blend-skinning sum of the specification: for vertex `v`, the sum over
the joints `j` of `weights(v, j)` times the first three coordinates of
`fk[j] * Translate(-J[j]) * (X[v], 1)`. -/
def lbsDirect (self : SMPLWrapper α) (fk : Nat → Mat4 α) (J X : MatX3 α) : MatX3 α :=
  fun v c => ∑ j in Finset.range self.JOINTS_NUM,
    Eigen.coeff self.weights_ v j *
      ((fk j * get3DTranslationMat_ (-(J j))).mulVec ![X v 0, X v 1, X v 2, 1]) c.castSucc

/-! ### Concrete `Libm` records and a small concrete model -/

/-- The `<cmath>` functions on the real numbers. -/
noncomputable def realLibm : Libm ℝ where
  sqrt := Real.sqrt
  sin := Real.sin
  cos := Real.cos
  atan2 := fun y x => Complex.arg ⟨x, y⟩

/-- A computable `Libm` on `ℚ`, used only to evaluate the definitions on concrete inputs:
`Rat.sqrt` is exact on squares of rationals, `sin` and `cos` are cut off after the second
term of their power series, and `atan2` is a polynomial stand-in. -/
def ratLibm : Libm ℚ where
  sqrt := Rat.sqrt
  sin := fun x => x - x ^ 3 / 6
  cos := fun x => 1 - x ^ 2 / 2
  atan2 := fun y x => y * x

/-- A body with four joints (`Root`, `LowBack` and `LHip` under the root, `LKnee` under
`LHip`), two vertices and one shape blendshape, in its freshly constructed (all-zero) state. -/
def smallBody (α : Type) [LinearOrderedField α] : SMPLWrapper α where
  JOINTS_NUM := 4
  VERTICES_NUM := 2
  SHAPE_SIZE := 1
  POSE_BLENDSHAPES_NUM := 27
  use_pose_blendshapes_ := true
  verts_template_normalized_ := fun v => if v = 0 then ![1, 0, 0] else ![-1, 0, 0]
  jointRegressorMat_ := fun j v => if v = 0 then (j : α) else 0
  weights_ := [⟨0, 0, 1 / 2⟩, ⟨0, 2, 1 / 2⟩, ⟨1, 3, 1⟩]
  shape_diffs_ := fun _ _ => ![0, 1, 0]
  pose_diffs_ := fun i _ => ![0, 0, (i : α)]
  joints_parents_ := fun j => if j = 0 then -1 else if j = 3 then 2 else 0
  joint_names_ := [("Root", 0), ("LowBack", 1), ("LHip", 2), ("LKnee", 3)]
  state_ := { pose := 0, shape := 0, translation := 0, displacements := 0 }
  joint_locations_template_ := none
  joint_locations_ := 0
  fk_transforms_ := 0
  local_rotations_ := 0
  local_rotations_jac_ := 0
  blendshapes_derivatives_ := 0

/-- A pose of `smallBody` in which only `LHip` (joint 2) is rotated, by the angle `1/20000`
about the z axis. -/
def tinyHipPose (α : Type) [LinearOrderedField α] : MatX3 α :=
  fun k => if k = 2 then ![0, 0, 1 / 20000] else 0

/-- Two objects hold the same model: the compile-time constants, the data read by the
constructor and `joint_locations_template_` agree (the parameters `state_` and the members
recomputed by every evaluation may differ). -/
def SameAssets (a b : SMPLWrapper α) : Prop :=
  a.JOINTS_NUM = b.JOINTS_NUM ∧ a.VERTICES_NUM = b.VERTICES_NUM ∧ a.SHAPE_SIZE = b.SHAPE_SIZE ∧
  a.POSE_BLENDSHAPES_NUM = b.POSE_BLENDSHAPES_NUM ∧
  a.use_pose_blendshapes_ = b.use_pose_blendshapes_ ∧
  a.verts_template_normalized_ = b.verts_template_normalized_ ∧
  a.jointRegressorMat_ = b.jointRegressorMat_ ∧ a.weights_ = b.weights_ ∧
  a.shape_diffs_ = b.shape_diffs_ ∧ a.pose_diffs_ = b.pose_diffs_ ∧
  a.joints_parents_ = b.joints_parents_ ∧ a.joint_names_ = b.joint_names_ ∧
  a.joint_locations_template_ = b.joint_locations_template_

/-- The object `rotateLimbToDirection` holds after its (conditional) call of
`assignJointGlobalRotation_`, for an accepted joint `joint_id` with child `child_id`. -/
def afterLimbAssignment (self : SMPLWrapper α) (M : Libm α) (child_id joint_id : Nat)
    (direction : Vec3 α) : SMPLWrapper α :=
  let located := self.calcJointLocations_ M none none (some self.state_.pose)
  let default_dir : Vec3 α := located.1 child_id - located.1 joint_id
  if Eigen.norm M direction * Eigen.norm M default_dir > 0 then
    located.2.assignJointGlobalRotation_ joint_id (angle_axis_ M default_dir direction)
      located.2.fk_transforms_
  else located.2

/-- The joint name `OpenPoseWrapper::mapToSmpl` passes on for the keypoint `keypoint`. -/
def pairJointName (keypoints_names : List (Nat × String)) (keypoint : Nat) : Option String :=
  if keypoint = 8 then some "Root" else keypoints_names.lookup keypoint

/-- The table `op::getPoseBodyPartMapping(op::PoseModel::BODY_25)` of the OpenPose library. -/
def body25Names : List (Nat × String) :=
  [(0, "Nose"), (1, "Neck"), (2, "RShoulder"), (3, "RElbow"), (4, "RWrist"), (5, "LShoulder"),
   (6, "LElbow"), (7, "LWrist"), (8, "MidHip"), (9, "RHip"), (10, "RKnee"), (11, "RAnkle"),
   (12, "LHip"), (13, "LKnee"), (14, "LAnkle"), (15, "REye"), (16, "LEye"), (17, "REar"),
   (18, "LEar"), (19, "LBigToe"), (20, "LSmallToe"), (21, "LHeel"), (22, "RBigToe"),
   (23, "RSmallToe"), (24, "RHeel"), (25, "Background")]

/-- A keypoint table in which only the keypoints 12 and 13 are detected. -/
def leftThighDetected (α : Type) [LinearOrderedField α] : Nat → Fin 4 → α :=
  fun k => ![0, (k : α), 0, if k = 12 ∨ k = 13 then 1 else 0]

/-- The body `smallBody` with the translation `(1, 0, 0)` stored in its state. -/
def shiftedBody (α : Type) [LinearOrderedField α] : SMPLWrapper α :=
  { smallBody α with state_ := { (smallBody α).state_ with translation := ![1, 0, 0] } }

/-- The object `loadParametersFromFile` holds when the file is read, before it calls
`calcModel()`. -/
def afterReading (self : SMPLWrapper α) (file : Option (Text α)) : SMPLWrapper α :=
  let in_ := IStream.open_ file
  let in_ := in_.ignoreLine
  let t := loadTranslation self.state_.translation in_
  let in_ := t.2.ignoreLine.ignoreLine
  let in_ := in_.ignoreLine
  let p := loadPose self.JOINTS_NUM self.state_.pose in_
  let in_ := p.2.ignoreLine.ignoreLine
  let in_ := in_.ignoreLine
  let sh := loadShape self.SHAPE_SIZE self.state_.shape in_
  { self with state_ := { self.state_ with translation := t.1, pose := p.1, shape := sh.1 } }

/-- The angle `angle_axis_` computes for two vectors: `atan2(sin_a, cos_a)` with
`sin_a = |from x to| / (|from| |to|)` and `cos_a = from . to / (|from| |to|)`. -/
def angleBetween (M : Libm α) (from_ to_ : Vec3 α) : α :=
  M.atan2 (Eigen.norm M (Eigen.cross from_ to_) / (Eigen.norm M from_ * Eigen.norm M to_))
    (Eigen.dot from_ to_ / (Eigen.norm M from_ * Eigen.norm M to_))

/-- The vector `combined_rotation` that `rotateRoot` assigns to the root. -/
def rootRotation (M : Libm α) (body_up body_left_to_right : Vec3 α) : Vec3 α :=
  let default_Y : Vec3 α := ![0, 1, 0]
  let rotation_match_body_up := angle_axis_ M default_Y body_up
  let X_updated := rotate_by_angle_axis_ M ![1, 0, 0] rotation_match_body_up
  let Y_matched := rotate_by_angle_axis_ M default_Y rotation_match_body_up
  let left_to_right_projected : Vec3 α := fun i =>
    body_left_to_right i - Eigen.dot body_left_to_right Y_matched * Y_matched i
  let cross_product := Eigen.cross X_updated left_to_right_projected
  let sin_sign : α := if Eigen.dot cross_product Y_matched ≥ 0 then 1 else -1
  let angle := M.atan2 (sin_sign * Eigen.norm M cross_product)
    (Eigen.dot X_updated left_to_right_projected)
  let rotation_match_hips : Vec3 α := fun i => angle * Y_matched i
  combine_two_angle_axis_ M rotation_match_body_up rotation_match_hips

/-- A rotation matrix: orthogonal, with determinant one. -/
def IsRotation (G : Mat3 α) : Prop := G.transpose * G = 1 ∧ G.det = 1

/-- The body `smallBody` over the real numbers with `LHip` (joint 2) turned by a quarter turn
about the z axis. -/
noncomputable def turnedHipBody : SMPLWrapper ℝ :=
  { smallBody ℝ with state_ := { (smallBody ℝ).state_ with
      pose := fun k => if k = 2 then ![0, 0, Real.pi / 2] else 0 } }

/-- A target direction at a small angle (less than `0.0001`) from the x axis. -/
def nearlyX (α : Type) [LinearOrderedField α] : Vec3 α := ![1, 1 / 20000, 0]

/-- `SMPLWrapper::get3DLocalTransformJac_`: the three matrices written to
`local_transform_jac_out[0 .. 2]`.  Every slot is first set to zero with the last column of
`transform_mat` copied into it; then its rotation block is written. -/
def get3DLocalTransformJac_ (M : Libm α) (jointAxisAngleRotation : Vec3 α)
    (transform_mat : Mat4 α) : Fin 3 → Mat4 α :=
  let local_transform_jac_out : Fin 3 → Mat4 α :=
    fun _ r c => if c = 3 then transform_mat r 3 else 0
  let w := jointAxisAngleRotation
  let norm := Eigen.norm M w
  if norm > 0.0001 then
    let w_skew : Mat3 α := Eigen.divScalar (Eigen.skew w) norm
    let rot_mat : Mat3 α := Eigen.block33 transform_mat
    fun i =>
      let cross : Vec3 α :=
        fun k => Eigen.cross w (fun r => ((1 : Mat3 α) - rot_mat) r i) k / (norm * norm)
      let cross_skew : Mat3 α := Eigen.skew cross
      Eigen.setBlock33 (local_transform_jac_out i)
        ((Eigen.divScalar (Eigen.mulScalar w_skew (w i)) norm + cross_skew) * rot_mat)
  else
    fun i =>
      Eigen.setBlock33 (local_transform_jac_out i)
        (![!![0, 0, 0; 0, 0, -1; 0, 1, 0],
           !![0, 0, 1; 0, 0, 0; -1, 0, 0],
           !![0, -1, 0; 1, 0, 0; 0, 0, 0]] i)

/-- The asset files as the constructor finds them.  For a text file: the integers its header
yields (what `operator>>` leaves in the variables) and the data after the header; for a mesh:
what `igl::readOBJ` delivers (`none` for the template when the read fails). -/
structure AssetFiles (α : Type) where
  shapeAv : Option (MatX3 α × Nat)
  joints_mat_header : Int × Int
  joints_mat : Nat → Nat → α
  stiffness_header : Int × Int
  joint_names_header : Int
  joint_names : List (String × Nat)
  shape_objs : Nat → MatX3 α
  pose_objs : Nat → MatX3 α
  weight_header : Int × Int
  weight : Nat → Nat → α
  jointsHierarchy_header : Int
  jointsHierarchy : List (Nat × Int)

/-- `SMPLWrapper::readTemplate_`; the result carries `verts_template_` as well. -/
def readTemplate_ (self : SMPLWrapper α) (files : AssetFiles α) :
    Except Err (MatX3 α × SMPLWrapper α) :=
  match files.shapeAv with
  | none => Except.error Err.invalid_argument
  | some (verts_template_, rows) =>
    let mean_point := Eigen.colwiseMean rows verts_template_
    Except.ok (verts_template_,
      { self with verts_template_normalized_ := fun v c => verts_template_ v c - mean_point c })

/-- `SMPLWrapper::readJointMat_`. -/
def readJointMat_ (self : SMPLWrapper α) (files : AssetFiles α) : Except Err (SMPLWrapper α) :=
  let joints_n := files.joints_mat_header.1
  let verts_n := files.joints_mat_header.2
  if joints_n ≠ (self.JOINTS_NUM : Int) ∨ verts_n ≠ (self.VERTICES_NUM : Int) then
    Except.error Err.invalid_argument
  else
    Except.ok { self with jointRegressorMat_ := files.joints_mat }

/-- `SMPLWrapper::readPoseStiffnessMat_`; the stiffness matrix itself is not a member the
embedded functions use. -/
def readPoseStiffnessMat_ (self : SMPLWrapper α) (files : AssetFiles α) :
    Except Err (SMPLWrapper α) :=
  let rows := files.stiffness_header.1
  let cols := files.stiffness_header.2
  if rows ≠ cols then
    Except.error Err.invalid_argument
  else if rows ≠ (self.POSE_SIZE : Int) - 3 then
    Except.error Err.invalid_argument
  else
    Except.ok self

/-- `SMPLWrapper::readJointNames_`: `joints_n` entries are inserted; an insertion does not
replace an entry that is already there. -/
def readJointNames_ (self : SMPLWrapper α) (files : AssetFiles α) : Except Err (SMPLWrapper α) :=
  let joints_n := files.joint_names_header
  if joints_n ≠ (self.JOINTS_NUM : Int) then
    Except.error Err.invalid_argument
  else
    Except.ok { self with
      joint_names_ := self.joint_names_ ++ files.joint_names.take joints_n.toNat }

/-- `SMPLWrapper::readShapes_`. -/
def readShapes_ (self : SMPLWrapper α) (files : AssetFiles α) (verts_template_ : MatX3 α) :
    SMPLWrapper α :=
  { self with shape_diffs_ := fun i =>
      if i < self.SHAPE_SIZE then files.shape_objs i - verts_template_ else self.shape_diffs_ i }

/-- `SMPLWrapper::readPoseBlendshapes_`. -/
def readPoseBlendshapes_ (self : SMPLWrapper α) (files : AssetFiles α)
    (verts_template_ : MatX3 α) : SMPLWrapper α :=
  { self with pose_diffs_ := fun i =>
      if i < self.POSE_BLENDSHAPES_NUM then files.pose_objs i - verts_template_
      else self.pose_diffs_ i }

/-- `SMPLWrapper::readWeights_`: vertices in the outer loop, joints in the inner one; only a
weight above `0.00001` is stored. -/
def readWeights_ (self : SMPLWrapper α) (files : AssetFiles α) : Except Err (SMPLWrapper α) :=
  let joints_n := files.weight_header.1
  let verts_n := files.weight_header.2
  if joints_n ≠ (self.JOINTS_NUM : Int) ∨ verts_n ≠ (self.VERTICES_NUM : Int) then
    Except.error Err.invalid_argument
  else
    let tripletList : SparseMat α :=
      (List.range verts_n.toNat).flatMap fun i =>
        (List.range joints_n.toNat).filterMap fun j =>
          let tmp := files.weight i j
          if tmp > 0.00001 then some ⟨i, j, tmp⟩ else none
    Except.ok { self with weights_ := tripletList }

/-- `SMPLWrapper::readHierarchy_`: every line `tmpId parent` sets `joints_parents_[tmpId]`. -/
def readHierarchy_ (self : SMPLWrapper α) (files : AssetFiles α) : Except Err (SMPLWrapper α) :=
  let joints_n := files.jointsHierarchy_header
  if joints_n ≠ (self.JOINTS_NUM : Int) then
    Except.error Err.invalid_argument
  else
    let parents := (files.jointsHierarchy.take joints_n.toNat).foldl
      (fun parents line => Function.update parents line.1 line.2) self.joints_parents_
    Except.ok { self with joints_parents_ := parents }

/-- The constructor `SMPLWrapper::SMPLWrapper(gender, path, pose_blendshapes)`.  `self` is the
object before the body runs (the constants, default-constructed members, `state_` as
`State::State()` leaves it); the files under `path` are `files`.  `fillVertsNeighbours_`
touches none of the embedded members. -/
def construct (self : SMPLWrapper α) (M : Libm α) (gender : Char) (files : AssetFiles α)
    (pose_blendshapes : Bool) : Except Err (SMPLWrapper α) :=
  let self := { self with use_pose_blendshapes_ := pose_blendshapes }
  if gender ≠ 'f' ∧ gender ≠ 'm' then
    Except.error Err.invalid_argument
  else
    match self.readTemplate_ files with
    | Except.error e => Except.error e
    | Except.ok (verts_template_, self) =>
    match self.readJointMat_ files with
    | Except.error e => Except.error e
    | Except.ok self =>
    match self.readPoseStiffnessMat_ files with
    | Except.error e => Except.error e
    | Except.ok self =>
    match self.readJointNames_ files with
    | Except.error e => Except.error e
    | Except.ok self =>
    let self := self.readShapes_ files verts_template_
    let self :=
      if self.use_pose_blendshapes_ then self.readPoseBlendshapes_ files verts_template_
      else self
    match self.readWeights_ files with
    | Except.error e => Except.error e
    | Except.ok self =>
    match self.readHierarchy_ files with
    | Except.error e => Except.error e
    | Except.ok self =>
    let located := self.calcJointLocations M
    let self := { located.2 with joint_locations_template_ := some located.1 }
    match self.calcModelCurrent M with
    | (Except.error e, _) => Except.error e
    | (Except.ok _, self) => Except.ok self

/-- Asset files whose headers fit `smallBody`: four joints, two vertices, a 9 x 9 stiffness
matrix; the data are those of `smallBody`. -/
def smallBodyFiles (α : Type) [LinearOrderedField α] : AssetFiles α where
  shapeAv := some ((smallBody α).verts_template_normalized_, 2)
  joints_mat_header := (4, 2)
  joints_mat := (smallBody α).jointRegressorMat_
  stiffness_header := (9, 9)
  joint_names_header := 4
  joint_names := (smallBody α).joint_names_
  shape_objs := fun _ => 0
  pose_objs := fun _ => 0
  weight_header := (4, 2)
  weight := fun _ _ => 0
  jointsHierarchy_header := 4
  jointsHierarchy := [(0, -1), (1, 0), (2, 0), (3, 2)]

/-- One iteration of the joint loop of `updateJointsFKTransforms_` with
`calc_derivatives == true`.  The iterations of each of the two inner loops write distinct
slots, so a loop is given by the content of the slots after it: coordinate `p` belongs to
joint `p / 3` and is its dimension `p % 3`. -/
def fkLoopBodyJac (M : Libm α) (pose t_pose_joints_locations : MatX3 α) (self : SMPLWrapper α)
    (joint_id : Nat) : SMPLWrapper α :=
  let parent := (self.joints_parents_ joint_id).toNat
  let localTransform := get3DLocalTransformMat_ M (pose joint_id)
    (t_pose_joints_locations joint_id - t_pose_joints_locations parent)
  let local_rotations_ :=
    Function.update self.local_rotations_ joint_id (Eigen.block33 localTransform)
  let fk_transforms_ :=
    Function.update self.fk_transforms_ joint_id (self.fk_transforms_ parent * localTransform)
  let localTransformJac := get3DLocalTransformJac_ M (pose joint_id) localTransform
  let own : Nat → Nat → Option (Mat4 α) := fun j p =>
    if j = joint_id ∧ p / 3 = joint_id then
      some (fk_transforms_ parent * localTransformJac (Fin.ofNat p))
    else self.fk_derivatives_ j p
  let local_rotations_jac_ : Nat → Mat3 α := fun p =>
    if p / 3 = joint_id then Eigen.block33 (localTransformJac (Fin.ofNat p))
    else self.local_rotations_jac_ p
  let fk_derivatives_ : Nat → Nat → Option (Mat4 α) := fun j p =>
    if j = joint_id ∧ (p : Int) < (self.joints_parents_ joint_id + 1) * 3 then
      match own parent p with
      | some d => some (d * localTransform)
      | none => own j p
    else own j p
  { self with
    local_rotations_ := local_rotations_
    fk_transforms_ := fk_transforms_
    fk_derivatives_ := fk_derivatives_
    local_rotations_jac_ := local_rotations_jac_ }

/-- `SMPLWrapper::updateJointsFKTransforms_` with `calc_derivatives == true`: the root, whose
three slots `get3DLocalTransformJac_` writes directly, then the joints
`1 .. JOINTS_NUM - 1` in index order. -/
def updateJointsFKTransforms_withDerivatives (self : SMPLWrapper α) (M : Libm α)
    (pose t_pose_joints_locations : MatX3 α) : SMPLWrapper α :=
  let fk0 := get3DLocalTransformMat_ M (pose 0) (t_pose_joints_locations 0)
  let jac0 := get3DLocalTransformJac_ M (pose 0) fk0
  let fk_derivatives_ : Nat → Nat → Option (Mat4 α) := fun j p =>
    if j = 0 ∧ p < 3 then some (jac0 (Fin.ofNat p)) else self.fk_derivatives_ j p
  let local_rotations_jac_ : Nat → Mat3 α := fun p =>
    if p < 3 then Eigen.block33 (jac0 (Fin.ofNat p)) else self.local_rotations_jac_ p
  let self := { self with
    fk_transforms_ := Function.update self.fk_transforms_ 0 fk0
    local_rotations_ := Function.update self.local_rotations_ 0 (Eigen.block33 fk0)
    fk_derivatives_ := fk_derivatives_
    local_rotations_jac_ := local_rotations_jac_ }
  (List.range' 1 (self.JOINTS_NUM - 1)).foldl
    (fkLoopBodyJac M pose t_pose_joints_locations) self

/-- The array `jacsTotal` that `extractLBSJointTransformFromFKTransform_` fills when it is
given one (and `FKDerivatives`): every matrix starts as zero, and iteration `j` writes the
block of the rows `HOMO_SIZE * j ..` of `jacsTotal[p]`, first for the three coordinates of
joint `j`, then for every `p` below `(joints_parents_[j] + 1) * SPACE_DIM` whose slot at the
parent is not empty.  An empty slot that is read stands for the zero matrix. -/
def extractLBSJointTransformFromFKTransform_jacsTotal (self : SMPLWrapper α)
    (t_pose_joints_locations : MatX3 α) (FKDerivatives : Nat → Nat → Option (Mat4 α)) :
    Nat → MatX3 α :=
  (List.range self.JOINTS_NUM).foldl (fun jacsTotal j =>
    let inverse_t_pose_translate := get3DTranslationMat_ (-(t_pose_joints_locations j))
    fun p k c =>
      if h : 4 * j ≤ k ∧ k < 4 * j + 4 then
        let tmpPointGlobalJac := (FKDerivatives j p).getD 0 * inverse_t_pose_translate
        if (p : Int) < (self.joints_parents_ j + 1) * 3 ∧
            (FKDerivatives (self.joints_parents_ j).toNat p).isSome then
          tmpPointGlobalJac.transpose ⟨k - 4 * j, by omega⟩ c.castSucc
        else if p / 3 = j then
          tmpPointGlobalJac.transpose ⟨k - 4 * j, by omega⟩ c.castSucc
        else
          jacsTotal p k c
      else
        jacsTotal p k c) (fun _ => 0)

/-- `SMPLWrapper::calcPoseBlendshapesJac_`: the array `blendshapes_jac` after the call. -/
def calcPoseBlendshapesJac_ (self : SMPLWrapper α) (local_rotations_jac_ : Nat → Mat3 α)
    (blendshapes_jac : Nat → MatX3 α) : Except Err (Nat → MatX3 α) :=
  let blendshapes_jac : Nat → MatX3 α := fun p => if p < 3 then 0 else blendshapes_jac p
  (List.range' 1 (self.JOINTS_NUM - 1)).foldlM (fun blendshapes_jac joint =>
    let blendshape_id_offset := (joint - 1) * 3 * 3
    (List.range 3).foldlM (fun blendshapes_jac dim =>
      let param_id := joint * 3 + dim
      match self.addJointPoseBlendshape_ blendshape_id_offset (local_rotations_jac_ param_id)
          0 with
      | Except.error e => Except.error e
      | Except.ok jac => Except.ok (Function.update blendshapes_jac param_id jac))
      blendshapes_jac) blendshapes_jac

/-- `SMPLWrapper::poseSMPL_` with `pose_jac != nullptr`: the posed vertices together with the
array `pose_jac`, and the object with its updated members.  (When
`calcPoseBlendshapesJac_` throws, `blendshapes_derivatives_` is reported as it was before the
call; nothing reads it after an exception.) -/
def poseSMPL_withJac (self : SMPLWrapper α) (M : Libm α) (pose : MatX3 α) (verts : MatX3 α)
    (displacement : Option (MatX3 α)) (use_previous_pose_matrix : Bool) :
    Except Err (MatX3 α × (Nat → MatX3 α)) × SMPLWrapper α :=
  let self :=
    if !use_previous_pose_matrix then
      let self := { self with
        joint_locations_ := Eigen.mulDense self.VERTICES_NUM self.jointRegressorMat_ verts }
      self.updateJointsFKTransforms_withDerivatives M pose self.joint_locations_
    else self
  let joints_global_transform :=
    self.extractLBSJointTransformFromFKTransform_ self.fk_transforms_ self.joint_locations_
  let pose_jac :=
    self.extractLBSJointTransformFromFKTransform_jacsTotal self.joint_locations_
      self.fk_derivatives_
  let blended : Except Err (MatX3 α × SMPLWrapper α) :=
    if self.use_pose_blendshapes_ then
      match self.addPoseBlendshapes_ self.local_rotations_ verts with
      | Except.error e => Except.error e
      | Except.ok verts =>
        if !use_previous_pose_matrix then
          match self.calcPoseBlendshapesJac_ self.local_rotations_jac_
              self.blendshapes_derivatives_ with
          | Except.error e => Except.error e
          | Except.ok jac => Except.ok (verts, { self with blendshapes_derivatives_ := jac })
        else Except.ok (verts, self)
    else Except.ok (verts, self)
  match blended with
  | Except.error e => (Except.error e, self)
  | Except.ok (verts, self) =>
    let LBSMat :=
      match displacement with
      | some d => self.getLBSMatrix_ (verts + d)
      | none => self.getLBSMatrix_ verts
    let pose_jac : Nat → MatX3 α := fun pose_component =>
      if pose_component < self.POSE_SIZE then
        let rotational := Eigen.mulSparse LBSMat (pose_jac pose_component)
        if self.use_pose_blendshapes_ then
          let blendshape_LBSMat :=
            self.getLBSMatrix_ (self.blendshapes_derivatives_ pose_component)
          rotational + Eigen.mulSparse blendshape_LBSMat joints_global_transform
        else rotational
      else pose_jac pose_component
    (Except.ok (Eigen.mulSparse LBSMat joints_global_transform, pose_jac), self)

/-- The Jacobian arrays a caller hands to `calcModel`: `none` is `nullptr`, `some a` an array
with its current content. -/
structure Jacobians (α : Type) where
  pose_jac : Option (Nat → MatX3 α)
  shape_jac : Option (Nat → MatX3 α)
  displacement_jac : Option (Nat → MatX3 α)

/-- The loop `for i < SHAPE_SIZE: poseSMPL_(*pose, shape_jac[i], displacement)` of
`calcModel`. -/
def poseShapeJac (self : SMPLWrapper α) (M : Libm α) (pose : MatX3 α)
    (displacement : Option (MatX3 α)) (shape_jac : Nat → MatX3 α) :
    Except Err (Nat → MatX3 α) × SMPLWrapper α :=
  (List.range self.SHAPE_SIZE).foldl (fun acc i =>
    match acc with
    | (Except.error e, self) => (Except.error e, self)
    | (Except.ok shape_jac, self) =>
      match self.poseSMPL_ M pose (shape_jac i) displacement false with
      | (Except.error e, self) => (Except.error e, self)
      | (Except.ok verts, self) => (Except.ok (Function.update shape_jac i verts), self))
    (Except.ok shape_jac, self)

/-- The loop over `axis` of `calcModel` that fills `displacement_jac`: a zero matrix with ones
in column `axis`, posed with `use_previous_pose_matrix == true`. -/
def poseDisplacementJac (self : SMPLWrapper α) (M : Libm α) (pose : MatX3 α)
    (displacement_jac : Nat → MatX3 α) : Except Err (Nat → MatX3 α) × SMPLWrapper α :=
  (List.finRange 3).foldl (fun acc axis =>
    match acc with
    | (Except.error e, self) => (Except.error e, self)
    | (Except.ok displacement_jac, self) =>
      let ones : MatX3 α := fun v c => if v < self.VERTICES_NUM ∧ c = axis then 1 else 0
      match self.poseSMPL_ M pose ones none true with
      | (Except.error e, self) => (Except.error e, self)
      | (Except.ok verts, self) =>
        (Except.ok (Function.update displacement_jac axis.val verts), self))
    (Except.ok displacement_jac, self)

/-- `SMPLWrapper::calcModel` with its Jacobian arguments: the vertices and the arrays as the
call leaves them (after an exception the arrays are not described). -/
def calcModelJac (self : SMPLWrapper α) (M : Libm α) (translation : Option (Vec3 α))
    (pose : Option (MatX3 α)) (shape : Option (Nat → α)) (displacement : Option (MatX3 α))
    (jac : Jacobians α) : Except Err (MatX3 α × Jacobians α) × SMPLWrapper α :=
  let verts := self.verts_template_normalized_
  let verts :=
    match shape with
    | some s => self.shapeSMPL_ s verts
    | none => verts
  let shape_jac : Option (Nat → MatX3 α) :=
    match shape with
    | some _ =>
      jac.shape_jac.map fun a i => if i < self.SHAPE_SIZE then self.shape_diffs_ i else a i
    | none => jac.shape_jac
  let posed : Except Err (MatX3 α × Jacobians α) × SMPLWrapper α :=
    match pose with
    | some p =>
      let first : Except Err (MatX3 α × Option (Nat → MatX3 α)) × SMPLWrapper α :=
        match jac.pose_jac with
        | some _ =>
          match self.poseSMPL_withJac M p verts displacement false with
          | (Except.error e, self) => (Except.error e, self)
          | (Except.ok (verts, pose_jac), self) => (Except.ok (verts, some pose_jac), self)
        | none =>
          match self.poseSMPL_ M p verts displacement false with
          | (Except.error e, self) => (Except.error e, self)
          | (Except.ok verts, self) => (Except.ok (verts, none), self)
      match first with
      | (Except.error e, self) => (Except.error e, self)
      | (Except.ok (verts, pose_jac), self) =>
        let second : Except Err (Option (Nat → MatX3 α)) × SMPLWrapper α :=
          match shape_jac with
          | some a =>
            match self.poseShapeJac M p displacement a with
            | (Except.error e, self) => (Except.error e, self)
            | (Except.ok a, self) => (Except.ok (some a), self)
          | none => (Except.ok none, self)
        match second with
        | (Except.error e, self) => (Except.error e, self)
        | (Except.ok shape_jac, self) =>
          let third : Except Err (Option (Nat → MatX3 α)) × SMPLWrapper α :=
            match jac.displacement_jac with
            | some a =>
              match self.poseDisplacementJac M p a with
              | (Except.error e, self) => (Except.error e, self)
              | (Except.ok a, self) => (Except.ok (some a), self)
            | none => (Except.ok none, self)
          match third with
          | (Except.error e, self) => (Except.error e, self)
          | (Except.ok displacement_jac, self) =>
            (Except.ok (verts, ⟨pose_jac, shape_jac, displacement_jac⟩), self)
    | none =>
      match displacement with
      | some d => (Except.ok (verts + d, ⟨jac.pose_jac, shape_jac, jac.displacement_jac⟩), self)
      | none => (Except.ok (verts, ⟨jac.pose_jac, shape_jac, jac.displacement_jac⟩), self)
  match posed with
  | (Except.error e, self) => (Except.error e, self)
  | (Except.ok (verts, jac), self) =>
    match translation with
    | some t => (Except.ok (translate_ t verts, jac), self)
    | none => (Except.ok (verts, jac), self)

/-- The rotation block `get3DLocalTransformJac_` writes to slot `i` when it is given the
transform `get3DLocalTransformMat_` built from the same rotation vector. -/
def localRotationJac (M : Libm α) (w : Vec3 α) (i : Fin 3) : Mat3 α :=
  Eigen.block33 (get3DLocalTransformJac_ M w (get3DLocalTransformMat_ M w 0) i)

/-- The local derivative `updateJointsFKTransforms_` builds for joint `j` and dimension
`i`. -/
def localTransformJacOf (M : Libm α) (joints_parents_ : Nat → Int)
    (pose t_pose_joints_locations : MatX3 α) (j : Nat) (i : Fin 3) : Mat4 α :=
  get3DLocalTransformJac_ M (pose j)
    (localTransformOf M joints_parents_ pose t_pose_joints_locations j) i

/-- A body of two joints and one vertex: the vertex sits at the rest location of the second
joint `Tip` (the joint regressor of `Tip` is that vertex) and is bound to it with weight 1;
the root rests at the origin.  No pose blendshapes. -/
def pivotBody (α : Type) [LinearOrderedField α] : SMPLWrapper α where
  JOINTS_NUM := 2
  VERTICES_NUM := 1
  SHAPE_SIZE := 1
  POSE_BLENDSHAPES_NUM := 9
  use_pose_blendshapes_ := false
  verts_template_normalized_ := fun _ => ![1, 0, 0]
  jointRegressorMat_ := fun j v => if j = 1 ∧ v = 0 then 1 else 0
  weights_ := [⟨0, 1, 1⟩]
  shape_diffs_ := fun _ _ => ![0, 1, 0]
  pose_diffs_ := 0
  joints_parents_ := fun j => if j = 0 then -1 else 0
  joint_names_ := [("Root", 0), ("Tip", 1)]
  state_ := { pose := 0, shape := 0, translation := 0, displacements := 0 }
  joint_locations_template_ := none
  joint_locations_ := 0
  fk_transforms_ := 0
  local_rotations_ := 0
  local_rotations_jac_ := 0
  blendshapes_derivatives_ := 0

/-- The product of the transforms on the path from the root to joint `j` in which the local
transform of the joint `p / 3` is replaced by its local derivative for dimension `p % 3`. -/
def pathDerivative (M : Libm α) (joints_parents_ : Nat → Int)
    (pose t_pose_joints_locations : MatX3 α) (j p : Nat) : Mat4 α :=
  ((treePath joints_parents_ j j).map fun k =>
    if k = p / 3 then
      localTransformJacOf M joints_parents_ pose t_pose_joints_locations k (Fin.ofNat p)
    else localTransformOf M joints_parents_ pose t_pose_joints_locations k).prod

/-- The matrix whose first three rows `extractLBSJointTransformFromFKTransform_` writes
(transposed) as the block of joint `j` of `jacsTotal[p]`; zero when the block is not
written. -/
def jacBlock (self : SMPLWrapper α) (t_pose_joints_locations : MatX3 α)
    (FKDerivatives : Nat → Nat → Option (Mat4 α)) (j p : Nat) : Mat4 α :=
  if ((p : Int) < (self.joints_parents_ j + 1) * 3 ∧
      (FKDerivatives (self.joints_parents_ j).toNat p).isSome) ∨ p / 3 = j then
    (FKDerivatives j p).getD 0 * get3DTranslationMat_ (-(t_pose_joints_locations j))
  else 0

/-- The object `poseSMPL_` leaves behind when it is asked for the pose Jacobian: as
`posedObject`, with the derivative members filled. -/
def posedObjectJac (self : SMPLWrapper α) (M : Libm α) (pose verts : MatX3 α) : SMPLWrapper α :=
  ({ self with
      joint_locations_ := Eigen.mulDense self.VERTICES_NUM self.jointRegressorMat_ verts }
    ).updateJointsFKTransforms_withDerivatives M pose
      (Eigen.mulDense self.VERTICES_NUM self.jointRegressorMat_ verts)

/-- The vertices the skinning matrix is built from: `verts + *displacement`, or `verts`
when no displacement is given. -/
def displaced (verts : MatX3 α) (displacement : Option (MatX3 α)) : MatX3 α :=
  match displacement with
  | some d => verts + d
  | none => verts

/-- The product `getLBSMatrix_(X) * extractLBSJointTransformFromFKTransform_(fk, J)`. -/
def skinned (self : SMPLWrapper α) (fk : Nat → Mat4 α) (J X : MatX3 α) : MatX3 α :=
  Eigen.mulSparse (self.getLBSMatrix_ X) (self.extractLBSJointTransformFromFKTransform_ fk J)

/-- The rest joint locations `jointRegressorMat_ * verts`. -/
def restJoints (self : SMPLWrapper α) (verts : MatX3 α) : MatX3 α :=
  Eigen.mulDense self.VERTICES_NUM self.jointRegressorMat_ verts

/-- The array `pose_jac` that `poseSMPL_` returns on an object without pose blendshapes. -/
def plainPoseJac (self : SMPLWrapper α) (M : Libm α) (pose verts : MatX3 α)
    (displacement : Option (MatX3 α)) : Nat → MatX3 α :=
  fun p =>
    if p < self.POSE_SIZE then
      Eigen.mulSparse (self.getLBSMatrix_ (displaced verts displacement))
        (self.extractLBSJointTransformFromFKTransform_jacsTotal (restJoints self verts)
          (posedObjectJac self M pose verts).fk_derivatives_ p)
    else
      self.extractLBSJointTransformFromFKTransform_jacsTotal (restJoints self verts)
        (posedObjectJac self M pose verts).fk_derivatives_ p

/-- The unit displacement field of `calcModel`: zero with ones in column `axis`. -/
def onesColumn (n : Nat) (axis : Fin 3) : MatX3 α :=
  fun v c => if v < n ∧ c = axis then 1 else 0

/-- The rotation `I + (s ι) [w]ₓ + ((1 - c) ι²) [w]ₓ²`: Rodrigues' formula for the rotation
vector `w` when `ι` is the inverse of its norm and `s`, `c` are the sine and cosine of the
norm. -/
def rotationPoly (w : Vec3 α) (ι s c : α) : Mat3 α :=
  1 + (s * ι) • Eigen.skew w + ((1 - c) * ι * ι) • (Eigen.skew w * Eigen.skew w)

/-- The block `(w_i [w]ₓ + [w × (I - R) e_i]ₓ) / |w|² * R` that `get3DLocalTransformJac_`
writes, in terms of the inverse norm `ι`. -/
def jacCode (w : Vec3 α) (ι s c : α) (i : Fin 3) : Mat3 α :=
  ((w i * ι * ι) • Eigen.skew w +
      Eigen.skew (fun k =>
        Eigen.cross w (fun r => ((1 : Mat3 α) - rotationPoly w ι s c) r i) k * (ι * ι))) *
    rotationPoly w ι s c

/-- The derivative of `rotationPoly` along coordinate `i` obtained term by term: the
derivatives of `sin |w| / |w|` and of `(1 - cos |w|) / |w|²` times the matrices, plus the
coefficients times the derivatives of `[w]ₓ` and `[w]ₓ²`. -/
def jacTermwise (w : Vec3 α) (ι s c : α) (i : Fin 3) : Mat3 α :=
  ((c - s * ι) * w i * ι * ι) • Eigen.skew w + (s * ι) • Eigen.skew (Pi.single i 1)
    + ((s * ι - 2 * (1 - c) * ι * ι) * w i * ι * ι) • (Eigen.skew w * Eigen.skew w)
    + ((1 - c) * ι * ι) • (Eigen.skew (Pi.single i 1) * Eigen.skew w
        + Eigen.skew w * Eigen.skew (Pi.single i 1))

/-! ## Properties -/

theorem smallBody_parentsBelow (α : Type) [LinearOrderedField α] :
    ParentsBelow (smallBody α).joints_parents_ (smallBody α).JOINTS_NUM := by
  intro j h0 hj
  have hj' : j < 4 := hj
  interval_cases j <;> simp [smallBody]

/-! ### Forward kinematics -/

theorem fkLoopBody_fold_other (M : Libm α) (parents : Nat → Int) (pose rest : MatX3 α)
    (l : List Nat) (c : FKCache α) (j : Nat) (hj : j ∉ l) :
    (l.foldl (fkLoopBody M parents pose rest) c).fk_transforms_ j = c.fk_transforms_ j ∧
    (l.foldl (fkLoopBody M parents pose rest) c).local_rotations_ j = c.local_rotations_ j := by
  induction l generalizing c with
  | nil => exact ⟨rfl, rfl⟩
  | cons a l ih =>
    have hne : j ≠ a := fun h => hj (h ▸ List.mem_cons_self _ _)
    have hl : j ∉ l := fun h => hj (List.mem_cons_of_mem _ h)
    rw [List.foldl_cons]
    refine ⟨(ih _ hl).1.trans ?_, (ih _ hl).2.trans ?_⟩
    · simp [fkLoopBody, Function.update_noteq hne]
    · simp [fkLoopBody, Function.update_noteq hne]

theorem fkLoopBody_fold_range (M : Libm α) (parents : Nat → Int) (pose rest : MatX3 α)
    (c : FKCache α) (n : Nat) (hpar : ParentsBelow parents (n + 1)) (j : Nat) (h1 : 0 < j)
    (hn : j ≤ n) :
    ((List.range' 1 n).foldl (fkLoopBody M parents pose rest) c).fk_transforms_ j =
      ((List.range' 1 n).foldl (fkLoopBody M parents pose rest) c).fk_transforms_
        (parents j).toNat * localTransformOf M parents pose rest j ∧
    ((List.range' 1 n).foldl (fkLoopBody M parents pose rest) c).local_rotations_ j =
      Eigen.block33 (localTransformOf M parents pose rest j) := by
  induction n with
  | zero => omega
  | succ n ih =>
    have hpar' : ParentsBelow parents (n + 1) := fun k hk hk' => hpar k hk (by omega)
    rw [List.range'_concat, List.foldl_concat]
    have e : 1 + 1 * n = n + 1 := by omega
    rw [e]
    have hp := hpar j h1 (by omega)
    have hpj : (parents j).toNat < j := by omega
    by_cases hjn : j = n + 1
    · subst hjn
      have hne : (parents (n + 1)).toNat ≠ n + 1 := by omega
      simp only [fkLoopBody, Function.update_same, Function.update_noteq hne, localTransformOf,
        if_neg (Nat.succ_ne_zero n)]
      exact ⟨trivial, trivial⟩
    · have hne : (parents j).toNat ≠ n + 1 := by omega
      have := ih hpar' (by omega)
      simp only [fkLoopBody, Function.update_noteq hjn, Function.update_noteq hne]
      exact this

/-- After `updateJointsFKTransforms_`, the root holds its local transform and every other
joint the product of its parent's transform with its own local transform. -/
theorem updateJointsFKTransforms_rec (self : SMPLWrapper α) (M : Libm α) (pose rest : MatX3 α)
    (hpar : ParentsBelow self.joints_parents_ self.JOINTS_NUM) (j : Nat)
    (hj : j < self.JOINTS_NUM) :
    (self.updateJointsFKTransforms_ M pose rest).fk_transforms_ j =
      (if j = 0 then localTransformOf M self.joints_parents_ pose rest 0
       else (self.updateJointsFKTransforms_ M pose rest).fk_transforms_
          (self.joints_parents_ j).toNat * localTransformOf M self.joints_parents_ pose rest j) ∧
    (self.updateJointsFKTransforms_ M pose rest).local_rotations_ j =
      Eigen.block33 (localTransformOf M self.joints_parents_ pose rest j) := by
  have hmem : (0 : Nat) ∉ List.range' 1 (self.JOINTS_NUM - 1) := by
    simp only [List.mem_range']
    rintro ⟨i, _, hi⟩
    omega
  by_cases h0 : j = 0
  · subst h0
    simp only [updateJointsFKTransforms_, if_true]
    refine ⟨(fkLoopBody_fold_other M _ pose rest _ _ 0 hmem).1.trans ?_,
      (fkLoopBody_fold_other M _ pose rest _ _ 0 hmem).2.trans ?_⟩
    · simp [localTransformOf]
    · simp [localTransformOf]
  · have hpar' : ParentsBelow self.joints_parents_ (self.JOINTS_NUM - 1 + 1) := by
      have : self.JOINTS_NUM - 1 + 1 = self.JOINTS_NUM := by omega
      rw [this]; exact hpar
    simp only [updateJointsFKTransforms_, if_neg h0]
    exact fkLoopBody_fold_range M _ pose rest _ _ hpar' j (by omega) (by omega)

theorem treePath_zero (parents : Nat → Int) (fuel : Nat) : treePath parents fuel 0 = [0] := by
  cases fuel <;> simp [treePath]

theorem treePath_fuel (parents : Nat → Int) (n : Nat) (hpar : ParentsBelow parents n) (j : Nat) :
    j < n → ∀ fuel, j ≤ fuel → treePath parents fuel j = treePath parents j j := by
  induction j using Nat.strong_induction_on with
  | _ j ih =>
    intro hj fuel hfuel
    cases j with
    | zero => rw [treePath_zero, treePath_zero]
    | succ k =>
      cases fuel with
      | zero => omega
      | succ f =>
        have hp := hpar (k + 1) (by omega) hj
        have hlt : (parents (k + 1)).toNat < k + 1 := by omega
        simp only [treePath, if_neg (Nat.succ_ne_zero k)]
        rw [ih _ hlt (by omega) f (by omega), ih _ hlt (by omega) k (by omega)]

theorem treePath_prod_succ (parents : Nat → Int) (n : Nat) (hpar : ParentsBelow parents n)
    (loc : Nat → Mat4 α) (j : Nat) (h0 : 0 < j) (hj : j < n) :
    ((treePath parents j j).map loc).prod =
      ((treePath parents (parents j).toNat (parents j).toNat).map loc).prod * loc j := by
  cases j with
  | zero => omega
  | succ k =>
    have hp := hpar (k + 1) (by omega) hj
    have hlt : (parents (k + 1)).toNat < k + 1 := by omega
    simp only [treePath, if_neg (Nat.succ_ne_zero k)]
    rw [treePath_fuel parents n hpar _ (by omega) k (by omega)]
    simp

/-- The transform stored for joint `j` is the ordered product of the local transforms on
the path from the root to `j`. -/
theorem updateJointsFKTransforms_path (self : SMPLWrapper α) (M : Libm α) (pose rest : MatX3 α)
    (hpar : ParentsBelow self.joints_parents_ self.JOINTS_NUM) (j : Nat) :
    j < self.JOINTS_NUM →
    (self.updateJointsFKTransforms_ M pose rest).fk_transforms_ j =
      ((treePath self.joints_parents_ j j).map
        (localTransformOf M self.joints_parents_ pose rest)).prod := by
  induction j using Nat.strong_induction_on with
  | _ j ih =>
    intro hj
    have hrec := (updateJointsFKTransforms_rec self M pose rest hpar j hj).1
    by_cases h0 : j = 0
    · subst h0
      rw [hrec, treePath_zero]
      simp
    · have hp := hpar j (by omega) hj
      have hlt : (self.joints_parents_ j).toNat < j := by omega
      rw [hrec, if_neg h0, ih _ hlt (by omega),
        treePath_prod_succ self.joints_parents_ _ hpar _ j (by omega) hj]

/-! ### Homogeneous transforms -/

theorem homo_eq (r : Mat3 α) (t : Vec3 α) :
    homo r t = !![r 0 0, r 0 1, r 0 2, t 0; r 1 0, r 1 1, r 1 2, t 1; r 2 0, r 2 1, r 2 2, t 2; 0, 0, 0, 1] := by
  ext i j
  fin_cases i <;> fin_cases j <;> rfl

theorem block33_homo (r : Mat3 α) (t : Vec3 α) : Eigen.block33 (homo r t) = r := by
  ext i j
  fin_cases i <;> fin_cases j <;> rfl

theorem lastCol_homo (r : Mat3 α) (t : Vec3 α) : Eigen.lastCol (homo r t) = t := by
  ext i
  fin_cases i <;> rfl

theorem homo_mul (r1 r2 : Mat3 α) (t1 t2 : Vec3 α) :
    homo r1 t1 * homo r2 t2 = homo (r1 * r2) (r1.mulVec t2 + t1) := by
  rw [homo_eq, homo_eq, homo_eq]
  ext i j
  fin_cases i <;> fin_cases j <;>
    simp [Matrix.mul_apply, Fin.sum_univ_four,
      Fin.sum_univ_three, Matrix.mulVec, Matrix.dotProduct]

theorem homo_one_eq (t : Vec3 α) : homo (1 : Mat3 α) t = Eigen.setLastCol (1 : Mat4 α) t := by
  ext i j
  fin_cases i <;> fin_cases j <;> rfl

theorem homo_block33_lastCol (m : Mat4 α) (h : ∀ j : Fin 3, m 3 j.castSucc = 0) (h1 : m 3 3 = 1) :
    homo (Eigen.block33 m) (Eigen.lastCol m) = m := by
  have h30 := h 0
  have h31 := h 1
  have h32 := h 2
  ext i j
  fin_cases i <;> fin_cases j <;> first | rfl | (symm; assumption)

theorem get3DLocalTransformMat_eq_homo (M : Libm α) (w t : Vec3 α) :
    get3DLocalTransformMat_ M w t = homo (localRotation M w) t := by
  unfold localRotation get3DLocalTransformMat_
  by_cases h : Eigen.norm M w > 0.0001
  · simp only [if_pos h]
    ext i j
    fin_cases i <;> fin_cases j <;> rfl
  · simp only [if_neg h]
    ext i j
    fin_cases i <;> fin_cases j <;> rfl

theorem get3DTranslationMat_eq_homo (t : Vec3 α) : get3DTranslationMat_ t = homo 1 t := by
  rw [homo_one_eq]; rfl

theorem localRotation_of_le (M : Libm α) (w : Vec3 α) (h : ¬ Eigen.norm M w > 0.0001) :
    localRotation M w = 1 := by
  unfold localRotation get3DLocalTransformMat_
  simp only [if_neg h]
  ext i j
  fin_cases i <;> fin_cases j <;> rfl

theorem localRotation_of_gt (M : Libm α) (w : Vec3 α) (h : Eigen.norm M w > 0.0001) :
    localRotation M w = 1 +
      (Eigen.mulScalar (Eigen.divScalar (Eigen.skew w) (Eigen.norm M w)) (M.sin (Eigen.norm M w)) +
       Eigen.mulScalar (Eigen.divScalar (Eigen.skew w) (Eigen.norm M w) *
          Eigen.divScalar (Eigen.skew w) (Eigen.norm M w)) (1 - M.cos (Eigen.norm M w))) := by
  unfold localRotation get3DLocalTransformMat_
  simp only [if_pos h]
  ext i j
  fin_cases i <;> fin_cases j <;> rfl

/-! ### Claims about the forward-kinematics chain -/

theorem extractJointLocation_apply (self : SMPLWrapper α) (fk : Nat → Mat4 α) (j : Nat)
    (hj : j < self.JOINTS_NUM) :
    self.extractJointLocationFromFKTransform_ fk j = Eigen.lastCol (fk j) := by
  unfold extractJointLocationFromFKTransform_
  generalize self.JOINTS_NUM = n at hj
  induction n with
  | zero => omega
  | succ n ih =>
    rw [List.range_succ, List.foldl_concat]
    by_cases h : j = n
    · subst h
      rw [Function.update_same]
    · rw [Function.update_noteq h]
      exact ih (by omega)


/-- C2: when every non-root joint has its parent at a smaller index,
`updateJointsFKTransforms_` leaves `fk_transforms_[0] = local[0]` and
`fk_transforms_[j] = fk_transforms_[parent[j]] * local[j]`, so `fk_transforms_[j]` is the
ordered product of the local transforms along the path from the root to `j` found by
following the parent pointers recursively, and the joint position read by
`extractJointLocationFromFKTransform_` is the last column of that product. -/
theorem C2_fk_parent_composition (self : SMPLWrapper α) (M : Libm α) (pose rest : MatX3 α)
    (hpar : ParentsBelow self.joints_parents_ self.JOINTS_NUM) (j : Nat)
    (hj : j < self.JOINTS_NUM) :
    (self.updateJointsFKTransforms_ M pose rest).fk_transforms_ 0 =
      localTransformOf M self.joints_parents_ pose rest 0 ∧
    (0 < j → (self.updateJointsFKTransforms_ M pose rest).fk_transforms_ j =
      (self.updateJointsFKTransforms_ M pose rest).fk_transforms_ (self.joints_parents_ j).toNat *
        localTransformOf M self.joints_parents_ pose rest j) ∧
    (self.updateJointsFKTransforms_ M pose rest).fk_transforms_ j =
      ((treePath self.joints_parents_ j j).map
        (localTransformOf M self.joints_parents_ pose rest)).prod ∧
    (∀ c : Fin 3,
      self.extractJointLocationFromFKTransform_
          (self.updateJointsFKTransforms_ M pose rest).fk_transforms_ j c =
        ((treePath self.joints_parents_ j j).map
          (localTransformOf M self.joints_parents_ pose rest)).prod c.castSucc 3) := by
  refine ⟨?_, ?_, updateJointsFKTransforms_path self M pose rest hpar j hj, ?_⟩
  · have h := (updateJointsFKTransforms_rec self M pose rest hpar 0 (by omega)).1
    rw [h, if_pos rfl]
  · intro h0
    have h := (updateJointsFKTransforms_rec self M pose rest hpar j hj).1
    rw [if_neg (by omega)] at h
    exact h
  · intro c
    rw [extractJointLocation_apply self _ j hj, Eigen.lastCol,
      updateJointsFKTransforms_path self M pose rest hpar j hj]

theorem C2_fk_parent_composition_witness :
    ParentsBelow (smallBody ℚ).joints_parents_ (smallBody ℚ).JOINTS_NUM ∧
    ((smallBody ℚ).updateJointsFKTransforms_ ratLibm (fun _ => ![3, 4, 0])
        (fun j => ![(j : ℚ), 0, 0])).fk_transforms_ 3 =
      ((treePath (smallBody ℚ).joints_parents_ 3 3).map
        (localTransformOf ratLibm (smallBody ℚ).joints_parents_ (fun _ => ![3, 4, 0])
          (fun j => ![(j : ℚ), 0, 0]))).prod :=
  ⟨smallBody_parentsBelow ℚ,
   (C2_fk_parent_composition (smallBody ℚ) ratLibm (fun _ => ![3, 4, 0])
      (fun j => ![(j : ℚ), 0, 0]) (smallBody_parentsBelow ℚ) 3 (by decide)).2.2.1⟩

theorem divScalar_skew (w : Vec3 α) (n : α) :
    Eigen.divScalar (Eigen.skew w) n = Eigen.skew (fun i => w i / n) := by
  ext i j
  fin_cases i <;> fin_cases j <;> simp [Eigen.divScalar, Eigen.skew, neg_div]

theorem mulScalar_eq_smul (m : Mat3 α) (s : α) : Eigen.mulScalar m s = s • m := by
  ext i j
  simp [Eigen.mulScalar, mul_comm]

/-- C3: for a rotation vector `w` with `|w| > 1e-4`, `get3DLocalTransformMat_ w t` has the
Rodrigues rotation `I + sin|w| K + (1 - cos|w|) K K` (`K` the skew matrix of `w/|w|`) as its
upper-left block, `(t, 1)` as last column and `(0, 0, 0, 1)` as bottom row; and
`updateJointsFKTransforms_` multiplies the parent transform of a non-root joint `j` with the
local transform built from the offset `rest[j] - rest[parent[j]]`. -/
theorem C3_local_transform_rodrigues (M : Libm α) (w t : Vec3 α)
    (hw : Eigen.norm M w > 0.0001)
    (self : SMPLWrapper α) (pose rest : MatX3 α)
    (hpar : ParentsBelow self.joints_parents_ self.JOINTS_NUM)
    (j : Nat) (h0 : 0 < j) (hj : j < self.JOINTS_NUM) :
    (Eigen.block33 (get3DLocalTransformMat_ M w t) =
      1 + M.sin (Eigen.norm M w) • Eigen.skew (fun i => w i / Eigen.norm M w)
        + (1 - M.cos (Eigen.norm M w)) •
          (Eigen.skew (fun i => w i / Eigen.norm M w) *
            Eigen.skew (fun i => w i / Eigen.norm M w))) ∧
    (∀ i : Fin 3, get3DLocalTransformMat_ M w t i.castSucc 3 = t i) ∧
    (∀ k : Fin 3, get3DLocalTransformMat_ M w t 3 k.castSucc = 0) ∧
    get3DLocalTransformMat_ M w t 3 3 = 1 ∧
    (self.updateJointsFKTransforms_ M pose rest).fk_transforms_ j =
      (self.updateJointsFKTransforms_ M pose rest).fk_transforms_ (self.joints_parents_ j).toNat *
        get3DLocalTransformMat_ M (pose j) (rest j - rest (self.joints_parents_ j).toNat) ∧
    Eigen.lastCol (get3DLocalTransformMat_ M (pose j) (rest j - rest (self.joints_parents_ j).toNat))
      = rest j - rest (self.joints_parents_ j).toNat := by
  refine ⟨?_, ?_, ?_, ?_, ?_, ?_⟩
  · rw [get3DLocalTransformMat_eq_homo, block33_homo, localRotation_of_gt M w hw,
      divScalar_skew, mulScalar_eq_smul, mulScalar_eq_smul, add_assoc]
  · intro i
    rw [get3DLocalTransformMat_eq_homo]
    exact congrFun (lastCol_homo _ t) i
  · intro k
    rw [get3DLocalTransformMat_eq_homo, homo_eq]
    fin_cases k <;> rfl
  · rw [get3DLocalTransformMat_eq_homo, homo_eq]
    rfl
  · have h := (updateJointsFKTransforms_rec self M pose rest hpar j hj).1
    rw [if_neg (by omega)] at h
    rw [h]
    simp [localTransformOf, show j ≠ 0 by omega]
  · rw [get3DLocalTransformMat_eq_homo, lastCol_homo]

theorem ratLibm_norm_345 : Eigen.norm ratLibm ![3, 4, 0] = 5 := by
  have h : Eigen.dot (![3, 4, 0] : Vec3 ℚ) ![3, 4, 0] = 5 * 5 := by
    simp [Eigen.dot]; norm_num
  simp only [Eigen.norm, h, ratLibm, Rat.sqrt_eq]
  norm_num

theorem C3_local_transform_rodrigues_witness :
    Eigen.norm ratLibm ![3, 4, 0] > 0.0001 ∧
    ParentsBelow (smallBody ℚ).joints_parents_ (smallBody ℚ).JOINTS_NUM ∧
    (∀ i : Fin 3, get3DLocalTransformMat_ ratLibm ![3, 4, 0] ![1, 2, 3] i.castSucc 3 =
      (![1, 2, 3] : Vec3 ℚ) i) :=
  ⟨by rw [ratLibm_norm_345]; norm_num, smallBody_parentsBelow ℚ,
   (C3_local_transform_rodrigues ratLibm ![3, 4, 0] ![1, 2, 3]
      (by rw [ratLibm_norm_345]; norm_num) (smallBody ℚ) (fun _ => ![3, 4, 0])
      (fun j => ![(j : ℚ), 0, 0]) (smallBody_parentsBelow ℚ) 3 (by decide) (by decide)).2.1⟩

/-! ### Shape blendshapes and omitted parameter groups -/

theorem foldl_add_range (f : Nat → MatX3 α) (v0 : MatX3 α) (n : Nat) :
    (List.range n).foldl (fun v i => v + f i) v0 = v0 + ∑ i in Finset.range n, f i := by
  induction n with
  | zero => simp
  | succ n ih => rw [List.range_succ, List.foldl_concat, ih, Finset.sum_range_succ, add_assoc]

theorem shapeSMPL_eq (self : SMPLWrapper α) (shape : Nat → α) (verts : MatX3 α) :
    self.shapeSMPL_ shape verts =
      verts + ∑ i in Finset.range self.SHAPE_SIZE, shape i • self.shape_diffs_ i := by
  unfold shapeSMPL_
  exact foldl_add_range (fun i => shape i • self.shape_diffs_ i) verts self.SHAPE_SIZE

theorem shapeSMPL_zero (self : SMPLWrapper α) (verts : MatX3 α) :
    self.shapeSMPL_ 0 verts = verts := by
  rw [shapeSMPL_eq]; simp

theorem translate_zero (verts : MatX3 α) : translate_ (0 : Vec3 α) verts = verts := by
  funext v c; simp [translate_]

theorem calcModel_no_pose (self : SMPLWrapper α) (M : Libm α) (translation : Option (Vec3 α))
    (shape : Option (Nat → α)) (displacement : Option (MatX3 α)) :
    self.calcModel M translation none shape displacement =
      (Except.ok (fun v c =>
        self.verts_template_normalized_ v c
        + (match shape with
           | some s => ∑ i in Finset.range self.SHAPE_SIZE, s i * self.shape_diffs_ i v c
           | none => 0)
        + (match displacement with
           | some d => d v c
           | none => 0)
        + (match translation with
           | some t => t c
           | none => 0)), self) := by
  cases translation <;> cases shape <;> cases displacement <;>
    simp only [calcModel, shapeSMPL_eq] <;>
    refine Prod.ext (congrArg Except.ok ?_) rfl <;> funext v c <;>
    simp [translate_, Finset.sum_apply]

/-- C6: for all shape vectors `s1`, `s2`, `calcModel` with shape `s1 + s2`, the pose omitted,
no displacement and no translation returns
`template + Σ s1[i] * shape_diffs[i] + Σ s2[i] * shape_diffs[i]`; equivalently the offsets
from the template add up: `evaluate(s1 + s2) - template =
(evaluate(s1) - template) + (evaluate(s2) - template)`. -/
theorem C6_shape_superposition (self : SMPLWrapper α) (M : Libm α) (s1 s2 : Nat → α) :
    self.calcModel M none none (some (s1 + s2)) none =
      (Except.ok (self.verts_template_normalized_
        + ∑ i in Finset.range self.SHAPE_SIZE, s1 i • self.shape_diffs_ i
        + ∑ i in Finset.range self.SHAPE_SIZE, s2 i • self.shape_diffs_ i), self) ∧
    ∃ v12 v1 v2 : MatX3 α,
      (self.calcModel M none none (some (s1 + s2)) none).1 = Except.ok v12 ∧
      (self.calcModel M none none (some s1) none).1 = Except.ok v1 ∧
      (self.calcModel M none none (some s2) none).1 = Except.ok v2 ∧
      v12 - self.verts_template_normalized_ =
        (v1 - self.verts_template_normalized_) + (v2 - self.verts_template_normalized_) := by
  have h : ∀ s : Nat → α, self.calcModel M none none (some s) none =
      (Except.ok (self.verts_template_normalized_
        + ∑ i in Finset.range self.SHAPE_SIZE, s i • self.shape_diffs_ i), self) := by
    intro s
    simp only [calcModel, shapeSMPL_eq]
  have hsum : ∑ i in Finset.range self.SHAPE_SIZE, (s1 + s2) i • self.shape_diffs_ i =
      ∑ i in Finset.range self.SHAPE_SIZE, s1 i • self.shape_diffs_ i
      + ∑ i in Finset.range self.SHAPE_SIZE, s2 i • self.shape_diffs_ i := by
    rw [← Finset.sum_add_distrib]
    exact Finset.sum_congr rfl (fun i _ => by rw [Pi.add_apply, add_smul])
  refine ⟨by rw [h, hsum, add_assoc], _, _, _, by rw [h], by rw [h], by rw [h], ?_⟩
  rw [hsum]
  abel

theorem poseSMPL_zero_displacement (self : SMPLWrapper α) (M : Libm α) (pose verts : MatX3 α)
    (b : Bool) :
    self.poseSMPL_ M pose verts none b = self.poseSMPL_ M pose verts (some 0) b := by
  simp only [poseSMPL_, add_zero]

/-- C9: `calcModel` does not fail because a parameter group is omitted.  With the pose
omitted it returns, for every vertex `v`,
`template[v] + Σ shape[i] * shape_diffs[i][v] + displacement[v] + translation`, the term of an
omitted group being dropped; and, whatever the pose argument, omitting the shape equals
passing the zero shape, omitting the displacement equals passing the zero displacement and
omitting the translation equals passing the zero translation. -/
theorem C9_omitted_groups (self : SMPLWrapper α) (M : Libm α) (translation : Option (Vec3 α))
    (pose : Option (MatX3 α)) (shape : Option (Nat → α)) (displacement : Option (MatX3 α)) :
    self.calcModel M translation none shape displacement =
      (Except.ok (fun v c =>
        self.verts_template_normalized_ v c
        + (match shape with
           | some s => ∑ i in Finset.range self.SHAPE_SIZE, s i * self.shape_diffs_ i v c
           | none => 0)
        + (match displacement with
           | some d => d v c
           | none => 0)
        + (match translation with
           | some t => t c
           | none => 0)), self) ∧
    self.calcModel M translation pose none displacement =
      self.calcModel M translation pose (some 0) displacement ∧
    self.calcModel M translation pose shape none =
      self.calcModel M translation pose shape (some 0) ∧
    self.calcModel M none pose shape displacement =
      self.calcModel M (some 0) pose shape displacement := by
  refine ⟨calcModel_no_pose self M translation shape displacement, ?_, ?_, ?_⟩
  · simp only [calcModel, shapeSMPL_zero]
  · cases pose with
    | none => simp only [calcModel, add_zero]
    | some p => simp only [calcModel, poseSMPL_zero_displacement]
  · simp only [calcModel, translate_zero]

/-! ### Pose blendshapes -/

theorem addJointPoseBlendshape_ok (self : SMPLWrapper α) (offset : Nat) (coeff : Mat3 α)
    (verts : MatX3 α) (h : offset + 9 ≤ self.POSE_BLENDSHAPES_NUM) :
    self.addJointPoseBlendshape_ offset coeff verts =
      Except.ok (verts + ∑ row : Fin 3, ∑ col : Fin 3,
        coeff row col • self.pose_diffs_ (offset + row.val * 3 + col.val)) := by
  have e : List.finRange 3 = [0, 1, 2] := rfl
  unfold addJointPoseBlendshape_
  rw [e]
  have hif : ∀ (r c : Fin 3), ¬ (offset + r.val * 3 + c.val ≥ self.POSE_BLENDSHAPES_NUM) := by
    intro r c; omega
  simp only [List.foldlM_cons, List.foldlM_nil, if_neg (hif _ _), Except.bind, bind, pure,
    Except.pure]
  congr 1
  simp only [Fin.sum_univ_three]
  abel

theorem foldlM_ok_sum {β : Type} (step : MatX3 α → β → Except Err (MatX3 α)) (g : β → MatX3 α)
    (l : List β) (h : ∀ j ∈ l, ∀ v, step v j = Except.ok (v + g j)) (v : MatX3 α) :
    l.foldlM step v = Except.ok (v + (l.map g).sum) := by
  induction l generalizing v with
  | nil => simp [pure, Except.pure]
  | cons a l ih =>
    rw [List.foldlM_cons, h a (List.mem_cons_self _ _) v]
    simp only [bind, Except.bind]
    rw [ih (fun j hj => h j (List.mem_cons_of_mem _ hj))]
    simp [add_assoc]

theorem sum_map_range'_one (g : Nat → MatX3 α) (n : Nat) :
    ((List.range' 1 n).map g).sum = ∑ j in Finset.Ico 1 (n + 1), g j := by
  induction n with
  | zero => simp
  | succ n ih =>
    have e : 1 + 1 * n = n + 1 := by omega
    rw [List.range'_concat, List.map_append, List.sum_append, ih,
      Finset.sum_Ico_succ_top (show 1 ≤ n + 1 by omega) g, e]
    simp

theorem addPoseBlendshapes_ok (self : SMPLWrapper α) (lr : Nat → Mat3 α) (verts : MatX3 α)
    (h : (self.JOINTS_NUM - 1) * 9 ≤ self.POSE_BLENDSHAPES_NUM) :
    self.addPoseBlendshapes_ lr verts =
      Except.ok (verts + ∑ j in Finset.Ico 1 self.JOINTS_NUM, ∑ row : Fin 3, ∑ col : Fin 3,
        (lr j - 1) row col • self.pose_diffs_ ((j - 1) * 9 + row.val * 3 + col.val)) := by
  unfold addPoseBlendshapes_
  by_cases hJ : self.JOINTS_NUM = 0
  · simp [hJ, pure, Except.pure]
  rw [foldlM_ok_sum _ (fun j => ∑ row : Fin 3, ∑ col : Fin 3,
        (lr j - 1) row col • self.pose_diffs_ ((j - 1) * 9 + row.val * 3 + col.val)),
    sum_map_range'_one]
  · have : self.JOINTS_NUM - 1 + 1 = self.JOINTS_NUM := by omega
    rw [this]
  · intro j hj v
    rw [List.mem_range'] at hj
    obtain ⟨i, hi, rfl⟩ := hj
    have e : (1 + 1 * i - 1) * 3 * 3 = (1 + 1 * i - 1) * 9 := by omega
    rw [e]
    exact addJointPoseBlendshape_ok self _ _ v (by
      have : 1 + 1 * i - 1 = i := by omega
      rw [this]
      have : (i + 1) * 9 ≤ (self.JOINTS_NUM - 1) * 9 := Nat.mul_le_mul_right 9 (by omega)
      omega)

theorem addPoseBlendshapes_identity (self : SMPLWrapper α) (lr : Nat → Mat3 α)
    (verts : MatX3 α) (hnum : (self.JOINTS_NUM - 1) * 9 ≤ self.POSE_BLENDSHAPES_NUM)
    (h : ∀ j, 0 < j → j < self.JOINTS_NUM → lr j = 1) :
    self.addPoseBlendshapes_ lr verts = Except.ok verts := by
  rw [addPoseBlendshapes_ok self lr verts hnum]
  congr 1
  have : ∀ j ∈ Finset.Ico 1 self.JOINTS_NUM, (∑ row : Fin 3, ∑ col : Fin 3,
      (lr j - 1) row col • self.pose_diffs_ ((j - 1) * 9 + row.val * 3 + col.val)) = 0 := by
    intro j hj
    have hj' := Finset.mem_Ico.mp hj
    rw [h j (by omega) hj'.2]
    simp
  rw [Finset.sum_eq_zero this, add_zero]

/-- C7: `addPoseBlendshapes_` adds to the vertices the sum, over the non-root joints
`j = 1 .. JOINTS_NUM - 1` and `row, col = 0 .. 2`, of
`(localRotation[j] - I)[row, col] * pose_diffs[(j - 1) * 9 + row * 3 + col]`; the rotation of
the root does not enter, and when every non-root local rotation is the identity the vertices
are unchanged.  (`POSE_BLENDSHAPES_NUM` holds the `(JOINTS_NUM - 1) * 9` blendshapes.) -/
theorem C7_pose_blendshapes (self : SMPLWrapper α) (lr lr2 : Nat → Mat3 α) (verts : MatX3 α)
    (hnum : (self.JOINTS_NUM - 1) * 9 ≤ self.POSE_BLENDSHAPES_NUM) :
    self.addPoseBlendshapes_ lr verts =
      Except.ok (verts + ∑ j in Finset.Ico 1 self.JOINTS_NUM, ∑ row : Fin 3, ∑ col : Fin 3,
        (lr j - 1) row col • self.pose_diffs_ ((j - 1) * 9 + row.val * 3 + col.val)) ∧
    ((∀ j, 0 < j → lr2 j = lr j) →
      self.addPoseBlendshapes_ lr2 verts = self.addPoseBlendshapes_ lr verts) ∧
    ((∀ j, 0 < j → j < self.JOINTS_NUM → lr j = 1) →
      self.addPoseBlendshapes_ lr verts = Except.ok verts) := by
  refine ⟨addPoseBlendshapes_ok self lr verts hnum, ?_, ?_⟩
  · intro h
    rw [addPoseBlendshapes_ok self lr verts hnum, addPoseBlendshapes_ok self lr2 verts hnum]
    congr 2
    refine Finset.sum_congr rfl (fun j hj => ?_)
    rw [h j (by have := (Finset.mem_Ico.mp hj).1; omega)]
  · exact addPoseBlendshapes_identity self lr verts hnum

theorem C7_pose_blendshapes_witness :
    ((smallBody ℚ).JOINTS_NUM - 1) * 9 ≤ (smallBody ℚ).POSE_BLENDSHAPES_NUM ∧
    (smallBody ℚ).addPoseBlendshapes_ (fun _ => 1) (smallBody ℚ).verts_template_normalized_ =
      Except.ok (smallBody ℚ).verts_template_normalized_ :=
  ⟨by decide,
   (C7_pose_blendshapes (smallBody ℚ) (fun _ => 1) (fun _ => 1)
      (smallBody ℚ).verts_template_normalized_ (by decide)).2.2 (fun _ _ _ => rfl)⟩

/-! ### Linear blend skinning -/

theorem mulSparse_getLBSMatrix (self : SMPLWrapper α) (X B : MatX3 α) (r : Nat) (c : Fin 3) :
    Eigen.mulSparse (self.getLBSMatrix_ X) B r c =
      ((self.weights_.filter (fun t => t.row = r)).map (fun t =>
        t.value * (X r 0 * B (t.col * 4 + 0) c + X r 1 * B (t.col * 4 + 1) c
          + X r 2 * B (t.col * 4 + 2) c + B (t.col * 4 + 3) c))).sum := by
  unfold getLBSMatrix_ Eigen.mulSparse
  induction self.weights_ with
  | nil => simp
  | cons t ws ih =>
    rw [List.flatMap_cons, List.filter_append, List.map_append, List.sum_append, ih]
    by_cases h : t.row = r
    · simp [List.filter_cons, h]
      ring
    · simp [List.filter_cons, h]

theorem sum_filter_row_eq_sum_coeff (ws : SparseMat α) (n : Nat) (hcol : ∀ t ∈ ws, t.col < n)
    (g : Nat → α) (r : Nat) :
    ((ws.filter (fun t => t.row = r)).map (fun t => t.value * g t.col)).sum =
      ∑ j in Finset.range n, Eigen.coeff ws r j * g j := by
  induction ws with
  | nil => simp [Eigen.coeff]
  | cons t ws ih =>
    have ih' := ih (fun t ht => hcol t (List.mem_cons_of_mem _ ht))
    have htc : t.col ∈ Finset.range n := Finset.mem_range.mpr (hcol t (List.mem_cons_self _ _))
    have hc : ∀ j, Eigen.coeff (t :: ws) r j =
        (if t.row = r ∧ t.col = j then t.value else 0) + Eigen.coeff ws r j := by
      intro j
      by_cases h : t.row = r ∧ t.col = j
      · simp [Eigen.coeff, List.filter_cons, h]
      · simp [Eigen.coeff, List.filter_cons, h]
    simp only [hc, add_mul, Finset.sum_add_distrib, ← ih']
    by_cases h : t.row = r
    · simp [List.filter_cons, h, Finset.sum_ite_eq, htc, ite_mul]
    · simp [List.filter_cons, h]

theorem extractLBS_apply (self : SMPLWrapper α) (fk : Nat → Mat4 α) (J : MatX3 α) (j : Nat)
    (hj : j < self.JOINTS_NUM) (d : Fin 4) (c : Fin 3) :
    self.extractLBSJointTransformFromFKTransform_ fk J (j * 4 + d.val) c =
      (fk j * get3DTranslationMat_ (-(J j))) c.castSucc d := by
  unfold extractLBSJointTransformFromFKTransform_
  generalize self.JOINTS_NUM = n at hj
  induction n with
  | zero => omega
  | succ n ih =>
    rw [List.range_succ, List.foldl_concat]
    have hd := d.isLt
    by_cases h : j = n
    · subst h
      have hin : 4 * j ≤ j * 4 + d.val ∧ j * 4 + d.val < 4 * j + 4 := by omega
      have hidx : (⟨j * 4 + d.val - 4 * j, by omega⟩ : Fin 4) = d := Fin.ext (by simp; omega)
      simp only [dif_pos hin, Matrix.transpose_apply, hidx]
    · have hout : ¬ (4 * n ≤ j * 4 + d.val ∧ j * 4 + d.val < 4 * n + 4) := by omega
      simp only [dif_neg hout]
      exact ih (by omega)

theorem mulSparse_LBS_row (self : SMPLWrapper α) (fk : Nat → Mat4 α) (J X : MatX3 α)
    (hcol : ∀ t ∈ self.weights_, t.col < self.JOINTS_NUM) (r : Nat) (c : Fin 3) :
    Eigen.mulSparse (self.getLBSMatrix_ X)
        (self.extractLBSJointTransformFromFKTransform_ fk J) r c =
      ((self.weights_.filter (fun t => t.row = r)).map (fun t =>
        t.value * ((fk t.col * get3DTranslationMat_ (-(J t.col))).mulVec
          ![X r 0, X r 1, X r 2, 1]) c.castSucc)).sum := by
  rw [mulSparse_getLBSMatrix]
  congr 1
  refine List.map_congr_left (fun t ht => ?_)
  have htc := hcol t (List.mem_of_mem_filter ht)
  have e0 := extractLBS_apply self fk J t.col htc 0 c
  have e1 := extractLBS_apply self fk J t.col htc 1 c
  have e2 := extractLBS_apply self fk J t.col htc 2 c
  have e3 := extractLBS_apply self fk J t.col htc 3 c
  simp only [Fin.val_zero, Fin.val_one, Fin.val_two] at e0 e1 e2
  have e3' : self.extractLBSJointTransformFromFKTransform_ fk J (t.col * 4 + 3) c =
      (fk t.col * get3DTranslationMat_ (-(J t.col))) c.castSucc 3 := e3
  rw [e0, e1, e2, e3']
  have x0 : (![X r 0, X r 1, X r 2, 1] : Fin 4 → α) 0 = X r 0 := rfl
  have x1 : (![X r 0, X r 1, X r 2, 1] : Fin 4 → α) 1 = X r 1 := rfl
  have x2 : (![X r 0, X r 1, X r 2, 1] : Fin 4 → α) 2 = X r 2 := rfl
  have x3 : (![X r 0, X r 1, X r 2, 1] : Fin 4 → α) 3 = 1 := rfl
  simp only [Matrix.mulVec, Matrix.dotProduct, Fin.sum_univ_four, x0, x1, x2, x3]
  ring

/-- C5: row `v` of `getLBSMatrix_(X) * extractLBSJointTransformFromFKTransform_(fk, J)` is
the direct linear-blend-skinning sum over the joints `j` of `weights(v, j)` times the first
three coordinates of `fk[j] * Translate(-J[j]) * (X[v], 1)`. -/
theorem C5_lbs_matrix_is_weighted_sum (self : SMPLWrapper α) (fk : Nat → Mat4 α) (J X : MatX3 α)
    (hcol : ∀ t ∈ self.weights_, t.col < self.JOINTS_NUM) (v : Nat) (c : Fin 3) :
    Eigen.mulSparse (self.getLBSMatrix_ X)
        (self.extractLBSJointTransformFromFKTransform_ fk J) v c =
      lbsDirect self fk J X v c := by
  rw [mulSparse_LBS_row self fk J X hcol]
  exact sum_filter_row_eq_sum_coeff self.weights_ self.JOINTS_NUM hcol
    (fun j => ((fk j * get3DTranslationMat_ (-(J j))).mulVec ![X v 0, X v 1, X v 2, 1]) c.castSucc) v

theorem C5_lbs_matrix_is_weighted_sum_witness :
    (∀ t ∈ (smallBody ℚ).weights_, t.col < (smallBody ℚ).JOINTS_NUM) ∧
    Eigen.mulSparse ((smallBody ℚ).getLBSMatrix_ (smallBody ℚ).verts_template_normalized_)
        ((smallBody ℚ).extractLBSJointTransformFromFKTransform_ (fun _ => 1)
          (fun j => ![(j : ℚ), 0, 0])) 0 0 =
      lbsDirect (smallBody ℚ) (fun _ => 1) (fun j => ![(j : ℚ), 0, 0])
        (smallBody ℚ).verts_template_normalized_ 0 0 :=
  ⟨by simp [smallBody],
   C5_lbs_matrix_is_weighted_sum (smallBody ℚ) (fun _ => 1) (fun j => ![(j : ℚ), 0, 0])
      (smallBody ℚ).verts_template_normalized_ (by simp [smallBody]) 0 0⟩

/-! ### The identity path -/

theorem localRotation_zero (M : Libm α) (hsqrt : M.sqrt 0 = 0) :
    localRotation M (0 : Vec3 α) = 1 := by
  apply localRotation_of_le
  have : Eigen.norm M (0 : Vec3 α) = 0 := by simp [Eigen.norm, Eigen.dot, hsqrt]
  rw [this]
  norm_num

theorem homo_one_mul_homo (r : Mat3 α) (t1 t2 : Vec3 α) :
    homo 1 t1 * homo r t2 = homo r (t2 + t1) := by
  rw [homo_mul, one_mul, Matrix.one_mulVec]

theorem homo_one_zero : homo (1 : Mat3 α) 0 = 1 := by
  rw [homo_one_eq]
  ext i j
  fin_cases i <;> fin_cases j <;> rfl

/-- While every joint before `n` has a zero pose row, the transform of each of them is the
translation to its rest location. -/
theorem updateJointsFKTransforms_zero_prefix (self : SMPLWrapper α) (M : Libm α)
    (pose rest : MatX3 α) (hsqrt : M.sqrt 0 = 0)
    (hpar : ParentsBelow self.joints_parents_ self.JOINTS_NUM) (n : Nat)
    (hzero : ∀ k, k < n → pose k = 0) (j : Nat) :
    j < n → j < self.JOINTS_NUM →
    (self.updateJointsFKTransforms_ M pose rest).fk_transforms_ j = homo 1 (rest j) ∧
    (self.updateJointsFKTransforms_ M pose rest).local_rotations_ j = 1 := by
  induction j using Nat.strong_induction_on with
  | _ j ih =>
    intro hjn hj
    have hrec := updateJointsFKTransforms_rec self M pose rest hpar j hj
    have hloc : localTransformOf M self.joints_parents_ pose rest j =
        homo 1 (if j = 0 then rest 0 else rest j - rest (self.joints_parents_ j).toNat) := by
      unfold localTransformOf
      split_ifs with h0
      · rw [get3DLocalTransformMat_eq_homo, hzero 0 (by omega), localRotation_zero M hsqrt]
      · rw [get3DLocalTransformMat_eq_homo, hzero j hjn, localRotation_zero M hsqrt]
    refine ⟨?_, ?_⟩
    · rw [hrec.1]
      by_cases h0 : j = 0
      · subst h0
        rw [if_pos rfl, hloc, if_pos rfl]
      · have hp := hpar j (by omega) hj
        have hlt : (self.joints_parents_ j).toNat < j := by omega
        rw [if_neg h0, hloc, if_neg h0, (ih _ hlt (by omega) (by omega)).1, homo_one_mul_homo,
          sub_add_cancel]
    · rw [hrec.2, hloc, block33_homo]

theorem row_sum_mul (ws : SparseMat α) (r : Nat) (x : α) :
    ((ws.filter (fun t => t.row = r)).map (fun t => t.value * x)).sum =
      ((ws.filter (fun t => t.row = r)).map (fun t => t.value)).sum * x := by
  induction ws.filter (fun t => t.row = r) with
  | nil => simp
  | cons t l ih => simp [ih, add_mul]

theorem poseSMPL_eq (self : SMPLWrapper α) (M : Libm α) (pose verts : MatX3 α)
    (displacement : Option (MatX3 α)) :
    self.poseSMPL_ M pose verts displacement false =
      (match (if self.use_pose_blendshapes_ then
          self.addPoseBlendshapes_ (posedObject self M pose verts).local_rotations_ verts
        else Except.ok verts) with
      | Except.error e => (Except.error e, posedObject self M pose verts)
      | Except.ok blended =>
        (Except.ok (Eigen.mulSparse
          (self.getLBSMatrix_ (match displacement with
            | some d => blended + d
            | none => blended))
          (self.extractLBSJointTransformFromFKTransform_
            (posedObject self M pose verts).fk_transforms_
            (Eigen.mulDense self.VERTICES_NUM self.jointRegressorMat_ verts))),
         posedObject self M pose verts)) := by
  cases displacement <;> rfl

theorem homogeneous_castSucc (x : Vec3 α) (c : Fin 3) :
    (![x 0, x 1, x 2, 1] : Fin 4 → α) c.castSucc = x c := by
  fin_cases c <;> rfl

theorem posedObject_zero_pose (self : SMPLWrapper α) (M : Libm α) (verts : MatX3 α)
    (hsqrt : M.sqrt 0 = 0) (hpar : ParentsBelow self.joints_parents_ self.JOINTS_NUM)
    (j : Nat) (hj : j < self.JOINTS_NUM) :
    (posedObject self M 0 verts).fk_transforms_ j =
      homo 1 (Eigen.mulDense self.VERTICES_NUM self.jointRegressorMat_ verts j) ∧
    (posedObject self M 0 verts).local_rotations_ j = 1 :=
  updateJointsFKTransforms_zero_prefix self M 0 _ hsqrt hpar self.JOINTS_NUM (fun _ _ => rfl) j hj hj

/-- C1: assuming the skinning weights stored for every vertex sum to 1, `calcModel` called
with all-zero translation, pose, shape and displacement returns exactly the template vertices
`verts_template_normalized_`, for every kinematic tree with `parent[j] < j` and with pose
blendshapes enabled or disabled.  (`sqrt 0 = 0`; the stored weights refer to joints below
`JOINTS_NUM`; `POSE_BLENDSHAPES_NUM` holds the `(JOINTS_NUM - 1) * 9` blendshapes.) -/
theorem C1_zero_parameters_give_template (self : SMPLWrapper α) (M : Libm α)
    (hsqrt : M.sqrt 0 = 0)
    (hpar : ParentsBelow self.joints_parents_ self.JOINTS_NUM)
    (hnum : self.use_pose_blendshapes_ = true →
      (self.JOINTS_NUM - 1) * 9 ≤ self.POSE_BLENDSHAPES_NUM)
    (hcol : ∀ t ∈ self.weights_, t.col < self.JOINTS_NUM)
    (hsum : ∀ v, v < self.VERTICES_NUM →
      ((self.weights_.filter (fun t => t.row = v)).map (fun t => t.value)).sum = 1) :
    ∃ verts : MatX3 α,
      (self.calcModel M (some 0) (some 0) (some 0) (some 0)).1 = Except.ok verts ∧
      ∀ v, v < self.VERTICES_NUM → verts v = self.verts_template_normalized_ v := by
  have hbl : (if self.use_pose_blendshapes_ then
        self.addPoseBlendshapes_
          (posedObject self M 0 self.verts_template_normalized_).local_rotations_
          self.verts_template_normalized_
      else Except.ok self.verts_template_normalized_) =
      Except.ok self.verts_template_normalized_ := by
    split_ifs with hb
    · exact addPoseBlendshapes_identity self _ _ (hnum hb)
        (fun j _ hj => (posedObject_zero_pose self M _ hsqrt hpar j hj).2)
    · rfl
  simp only [calcModel, shapeSMPL_zero, poseSMPL_eq, hbl, translate_zero, add_zero]
  refine ⟨_, rfl, ?_⟩
  intro v hv
  funext c
  rw [mulSparse_LBS_row self _ _ _ hcol]
  have hterm : ∀ t ∈ self.weights_.filter (fun t => t.row = v),
      t.value * ((posedObject self M 0 self.verts_template_normalized_).fk_transforms_ t.col *
        get3DTranslationMat_ (-(Eigen.mulDense self.VERTICES_NUM self.jointRegressorMat_
          self.verts_template_normalized_ t.col))).mulVec
          ![self.verts_template_normalized_ v 0, self.verts_template_normalized_ v 1,
            self.verts_template_normalized_ v 2, 1] c.castSucc =
      t.value * self.verts_template_normalized_ v c := by
    intro t ht
    have htc := hcol t (List.mem_of_mem_filter ht)
    rw [(posedObject_zero_pose self M _ hsqrt hpar t.col htc).1, get3DTranslationMat_eq_homo,
      homo_one_mul_homo, neg_add_cancel, homo_one_zero, Matrix.one_mulVec, homogeneous_castSucc]
  rw [List.map_congr_left hterm, row_sum_mul, hsum v hv, one_mul]

theorem C1_zero_parameters_give_template_witness :
    ratLibm.sqrt 0 = 0 ∧
    ParentsBelow (smallBody ℚ).joints_parents_ (smallBody ℚ).JOINTS_NUM ∧
    (∀ t ∈ (smallBody ℚ).weights_, t.col < (smallBody ℚ).JOINTS_NUM) ∧
    (∀ v, v < (smallBody ℚ).VERTICES_NUM →
      (((smallBody ℚ).weights_.filter (fun t => t.row = v)).map (fun t => t.value)).sum = 1) ∧
    ∃ verts : MatX3 ℚ,
      ((smallBody ℚ).calcModel ratLibm (some 0) (some 0) (some 0) (some 0)).1 = Except.ok verts ∧
      ∀ v, v < (smallBody ℚ).VERTICES_NUM → verts v = (smallBody ℚ).verts_template_normalized_ v :=
  have hs : ratLibm.sqrt 0 = 0 := by simp [ratLibm, Rat.sqrt]
  have hc : ∀ t ∈ (smallBody ℚ).weights_, t.col < (smallBody ℚ).JOINTS_NUM := by
    simp [smallBody]
  have hw : ∀ v, v < (smallBody ℚ).VERTICES_NUM →
      (((smallBody ℚ).weights_.filter (fun t => t.row = v)).map (fun t => t.value)).sum = 1 := by
    intro v hv
    have hv' : v < 2 := hv
    interval_cases v <;> norm_num [smallBody, List.filter_cons]
  ⟨hs, smallBody_parentsBelow ℚ, hc, hw,
   C1_zero_parameters_give_template (smallBody ℚ) ratLibm hs (smallBody_parentsBelow ℚ)
     (fun _ => by decide) hc hw⟩

/-! ### Displacement and the joint regressor -/

theorem poseSMPL_snd (self : SMPLWrapper α) (M : Libm α) (pose verts : MatX3 α)
    (displacement : Option (MatX3 α)) :
    (self.poseSMPL_ M pose verts displacement false).2 = posedObject self M pose verts := by
  rw [poseSMPL_eq]
  split <;> rfl

theorem calcModel_snd (self : SMPLWrapper α) (M : Libm α) (translation : Option (Vec3 α))
    (pose : MatX3 α) (shape : Option (Nat → α)) (displacement : Option (MatX3 α)) :
    (self.calcModel M translation (some pose) shape displacement).2 =
      posedObject self M pose
        (match shape with
         | some s => self.shapeSMPL_ s self.verts_template_normalized_
         | none => self.verts_template_normalized_) := by
  simp only [calcModel]
  generalize (match shape with
     | some s => self.shapeSMPL_ s self.verts_template_normalized_
     | none => self.verts_template_normalized_) = V
  have h := poseSMPL_snd self M pose V displacement
  generalize self.poseSMPL_ M pose V displacement false = q at h
  obtain ⟨r, s⟩ := q
  cases r <;> cases translation <;> exact h

theorem calcModel_error_iff (self : SMPLWrapper α) (M : Libm α) (translation : Option (Vec3 α))
    (pose : MatX3 α) (shape : Option (Nat → α)) (displacement : Option (MatX3 α)) (e : Err) :
    (self.calcModel M translation (some pose) shape displacement).1 = Except.error e ↔
      (if self.use_pose_blendshapes_ then
        self.addPoseBlendshapes_
          (posedObject self M pose
            (match shape with
             | some s => self.shapeSMPL_ s self.verts_template_normalized_
             | none => self.verts_template_normalized_)).local_rotations_
          (match shape with
           | some s => self.shapeSMPL_ s self.verts_template_normalized_
           | none => self.verts_template_normalized_)
      else Except.ok
          (match shape with
           | some s => self.shapeSMPL_ s self.verts_template_normalized_
           | none => self.verts_template_normalized_)) = Except.error e := by
  simp only [calcModel, poseSMPL_eq]
  generalize (match shape with
     | some s => self.shapeSMPL_ s self.verts_template_normalized_
     | none => self.verts_template_normalized_) = V
  generalize (if self.use_pose_blendshapes_ then
        self.addPoseBlendshapes_ (posedObject self M pose V).local_rotations_ V
      else Except.ok V) = q
  cases q <;> cases translation <;> simp

/-- C8: for every pose, shape and translation and any two displacement arguments `d1`, `d2`,
`calcModel` leaves the same object behind, in particular the same rest joint locations
`joint_locations_` and the same forward-kinematics transforms: the joint regressor is applied
to the shaped vertices without displacement, and the displacement only enters `poseSMPL_`
where the skinning matrix is built, as `getLBSMatrix_(verts + displacement)`.  Whether the
call throws does not depend on the displacement either. -/
theorem C8_displacement_does_not_reach_joints (self : SMPLWrapper α) (M : Libm α)
    (translation : Option (Vec3 α)) (pose : MatX3 α) (shape : Option (Nat → α))
    (d1 d2 : Option (MatX3 α)) (verts d : MatX3 α) :
    (self.calcModel M translation (some pose) shape d1).2 =
      (self.calcModel M translation (some pose) shape d2).2 ∧
    (self.calcModel M translation (some pose) shape d1).2.joint_locations_ =
      Eigen.mulDense self.VERTICES_NUM self.jointRegressorMat_
        (match shape with
         | some s => self.shapeSMPL_ s self.verts_template_normalized_
         | none => self.verts_template_normalized_) ∧
    (self.calcModel M translation (some pose) shape d1).2.fk_transforms_ =
      (self.updateJointsFKTransforms_ M pose
        (Eigen.mulDense self.VERTICES_NUM self.jointRegressorMat_
          (match shape with
           | some s => self.shapeSMPL_ s self.verts_template_normalized_
           | none => self.verts_template_normalized_))).fk_transforms_ ∧
    (∀ e, (self.calcModel M translation (some pose) shape d1).1 = Except.error e ↔
      (self.calcModel M translation (some pose) shape d2).1 = Except.error e) ∧
    self.poseSMPL_ M pose verts (some d) false =
      (match (if self.use_pose_blendshapes_ then
          self.addPoseBlendshapes_ (posedObject self M pose verts).local_rotations_ verts
        else Except.ok verts) with
      | Except.error e => (Except.error e, posedObject self M pose verts)
      | Except.ok blended =>
        (Except.ok (Eigen.mulSparse (self.getLBSMatrix_ (blended + d))
          (self.extractLBSJointTransformFromFKTransform_
            (posedObject self M pose verts).fk_transforms_
            (Eigen.mulDense self.VERTICES_NUM self.jointRegressorMat_ verts))),
         posedObject self M pose verts)) := by
  refine ⟨?_, ?_, ?_, ?_, poseSMPL_eq self M pose verts (some d)⟩
  · rw [calcModel_snd, calcModel_snd]
  · rw [calcModel_snd]; rfl
  · rw [calcModel_snd]; rfl
  · intro e
    rw [calcModel_error_iff, calcModel_error_iff]

/-! ### A single rotated joint -/

theorem calcJointLocations_pose (self : SMPLWrapper α) (M : Libm α) (shape : Option (Nat → α))
    (pose : MatX3 α) :
    self.calcJointLocations_ M none shape (some pose) =
      (self.extractJointLocationFromFKTransform_
        (self.updateJointsFKTransforms_ M pose
          (self.calcJointLocations_ M none shape none).1).fk_transforms_,
       self.updateJointsFKTransforms_ M pose (self.calcJointLocations_ M none shape none).1) := by
  cases shape <;> rfl

/-- Positions of a joint `j` and of a child `c` of `j` when every joint other than `j` has a
zero pose row. -/
theorem single_joint_positions (self : SMPLWrapper α) (M : Libm α) (pose rest : MatX3 α)
    (j c : Nat) (hsqrt : M.sqrt 0 = 0)
    (hpar : ParentsBelow self.joints_parents_ self.JOINTS_NUM)
    (hj : j < self.JOINTS_NUM) (hc : c < self.JOINTS_NUM) (hc0 : 0 < c)
    (hchild : self.joints_parents_ c = (j : Int))
    (hzero : ∀ k, k < self.JOINTS_NUM → k ≠ j → pose k = 0) :
    (self.updateJointsFKTransforms_ M pose rest).fk_transforms_ j =
      homo (localRotation M (pose j)) (rest j) ∧
    (self.updateJointsFKTransforms_ M pose rest).fk_transforms_ c =
      homo (localRotation M (pose j))
        ((localRotation M (pose j)).mulVec (rest c - rest j) + rest j) := by
  have hbelow := updateJointsFKTransforms_zero_prefix self M pose rest hsqrt hpar j
    (fun k hk => hzero k (by omega) (by omega))
  have hfj : (self.updateJointsFKTransforms_ M pose rest).fk_transforms_ j =
      homo (localRotation M (pose j)) (rest j) := by
    rw [(updateJointsFKTransforms_rec self M pose rest hpar j hj).1]
    by_cases h0 : j = 0
    · subst h0
      rw [if_pos rfl]
      simp only [localTransformOf, if_true, get3DLocalTransformMat_eq_homo]
    · have hp := hpar j (by omega) hj
      have hlt : (self.joints_parents_ j).toNat < j := by omega
      rw [if_neg h0, (hbelow _ hlt (by omega)).1]
      simp only [localTransformOf, if_neg h0, get3DLocalTransformMat_eq_homo]
      rw [homo_one_mul_homo, sub_add_cancel]
  refine ⟨hfj, ?_⟩
  have hpc := hpar c hc0 hc
  have hcj : c ≠ j := by omega
  have hpn : (self.joints_parents_ c).toNat = j := by omega
  rw [(updateJointsFKTransforms_rec self M pose rest hpar c hc).1, if_neg (by omega), hpn, hfj]
  simp only [localTransformOf, if_neg (show c ≠ 0 by omega), get3DLocalTransformMat_eq_homo, hpn,
    hzero c hc hcj, localRotation_zero M hsqrt]
  rw [homo_mul, mul_one]

theorem localRotation_axis_angle (M : Libm α) (θ : α) (a : Vec3 α)
    (hsqrtθ : M.sqrt (θ * θ) = θ) (hunit : Eigen.dot a a = 1) (hθ : θ > 0.0001) :
    localRotation M (fun i => θ * a i) = rodrigues M θ a := by
  have hnorm : Eigen.norm M (fun i => θ * a i) = θ := by
    have : Eigen.dot (fun i => θ * a i) (fun i => θ * a i) = θ * θ * Eigen.dot a a := by
      simp only [Eigen.dot]; ring
    rw [Eigen.norm, this, hunit, mul_one, hsqrtθ]
  have hθ0 : θ ≠ 0 := by
    intro h
    rw [h] at hθ
    norm_num at hθ
  have hdiv : (fun i => θ * a i / θ) = a := by
    funext i
    field_simp
  rw [localRotation_of_gt M _ (by rw [hnorm]; exact hθ), hnorm, divScalar_skew, hdiv,
    mulScalar_eq_smul, mulScalar_eq_smul, rodrigues, add_assoc]

theorem single_joint_locations (self : SMPLWrapper α) (M : Libm α) (shape : Option (Nat → α))
    (pose : MatX3 α) (j c : Nat) (hsqrt : M.sqrt 0 = 0)
    (hpar : ParentsBelow self.joints_parents_ self.JOINTS_NUM)
    (hj : j < self.JOINTS_NUM) (hc : c < self.JOINTS_NUM) (hc0 : 0 < c)
    (hchild : self.joints_parents_ c = (j : Int))
    (hzero : ∀ k, k < self.JOINTS_NUM → k ≠ j → pose k = 0) :
    (self.calcJointLocations_ M none shape (some pose)).1 c
        - (self.calcJointLocations_ M none shape (some pose)).1 j =
      (localRotation M (pose j)).mulVec
        ((self.calcJointLocations_ M none shape none).1 c
          - (self.calcJointLocations_ M none shape none).1 j) ∧
    (self.calcJointLocations_ M none shape (some pose)).1 j =
      (self.calcJointLocations_ M none shape none).1 j := by
  have h := single_joint_positions self M pose (self.calcJointLocations_ M none shape none).1
    j c hsqrt hpar hj hc hc0 hchild hzero
  rw [calcJointLocations_pose]
  simp only [extractJointLocation_apply self _ c hc, extractJointLocation_apply self _ j hj,
    h.1, h.2, lastCol_homo]
  exact ⟨add_sub_cancel_right _ _, trivial⟩

/-- C4 (amended): let joint `j` have the pose row `θ * a` for a unit axis `a` and an angle
`θ > 1e-4`, every other joint a zero pose row, and let `c` be a child of `j`.  Then the posed
position of `c` computed by `calcJointLocations_` minus the posed position of `j` is the rest
offset `restLocation[c] - restLocation[j]` rotated by the Rodrigues rotation for `(θ, a)`, and
the posed position of `j` is its rest location.  (`sqrt 0 = 0`, `sqrt (θ * θ) = θ`, and the
tree stores parents first.) -/
theorem C4_single_joint_rotation (self : SMPLWrapper α) (M : Libm α)
    (shape : Option (Nat → α)) (pose : MatX3 α) (θ : α) (a : Vec3 α) (j c : Nat)
    (hsqrt : M.sqrt 0 = 0) (hsqrtθ : M.sqrt (θ * θ) = θ)
    (hpar : ParentsBelow self.joints_parents_ self.JOINTS_NUM)
    (hj : j < self.JOINTS_NUM) (hc : c < self.JOINTS_NUM) (hc0 : 0 < c)
    (hchild : self.joints_parents_ c = (j : Int))
    (hunit : Eigen.dot a a = 1) (hθ : θ > 0.0001)
    (hposej : pose j = fun i => θ * a i)
    (hzero : ∀ k, k < self.JOINTS_NUM → k ≠ j → pose k = 0) :
    (self.calcJointLocations_ M none shape (some pose)).1 c
        - (self.calcJointLocations_ M none shape (some pose)).1 j =
      (rodrigues M θ a).mulVec
        ((self.calcJointLocations_ M none shape none).1 c
          - (self.calcJointLocations_ M none shape none).1 j) ∧
    (self.calcJointLocations_ M none shape (some pose)).1 j =
      (self.calcJointLocations_ M none shape none).1 j := by
  have h := single_joint_locations self M shape pose j c hsqrt hpar hj hc hc0 hchild hzero
  rw [hposej, localRotation_axis_angle M θ a hsqrtθ hunit hθ] at h
  exact h

theorem C4_single_joint_rotation_witness :
    ratLibm.sqrt 0 = 0 ∧ ratLibm.sqrt (5 * 5) = 5 ∧
    ParentsBelow (smallBody ℚ).joints_parents_ (smallBody ℚ).JOINTS_NUM ∧
    (smallBody ℚ).joints_parents_ 3 = ((2 : Nat) : Int) ∧
    Eigen.dot (![0, 0, 1] : Vec3 ℚ) ![0, 0, 1] = 1 ∧ (5 : ℚ) > 0.0001 ∧
    ((smallBody ℚ).calcJointLocations_ ratLibm none none
        (some (fun k => if k = 2 then (fun i => 5 * (![0, 0, 1] : Vec3 ℚ) i) else 0))).1 2 =
      ((smallBody ℚ).calcJointLocations_ ratLibm none none none).1 2 :=
  have hs : ratLibm.sqrt 0 = 0 := by simp [ratLibm, Rat.sqrt]
  have hs5 : ratLibm.sqrt (5 * 5) = 5 := by
    show Rat.sqrt (5 * 5) = 5
    rw [Rat.sqrt_eq]; norm_num
  have hp : (smallBody ℚ).joints_parents_ 3 = ((2 : Nat) : Int) := by simp [smallBody]
  have hu : Eigen.dot (![0, 0, 1] : Vec3 ℚ) ![0, 0, 1] = 1 := by simp [Eigen.dot]
  have h5 : (5 : ℚ) > 0.0001 := by norm_num
  ⟨hs, hs5, smallBody_parentsBelow ℚ, hp, hu, h5,
   (C4_single_joint_rotation (smallBody ℚ) ratLibm none
      (fun k => if k = 2 then (fun i => 5 * (![0, 0, 1] : Vec3 ℚ) i) else 0) 5 ![0, 0, 1] 2 3
      hs hs5 (smallBody_parentsBelow ℚ) (by decide) (by decide) (by decide) hp hu h5
      (by simp) (fun k _ hk => by simp [hk])).2⟩

theorem realLibm_sqrt_zero : realLibm.sqrt 0 = 0 := Real.sqrt_zero

theorem realLibm_sqrt_mul_self (θ : ℝ) (h : 0 ≤ θ) : realLibm.sqrt (θ * θ) = θ :=
  Real.sqrt_mul_self h

theorem smallBody_rest (α : Type) [LinearOrderedField α] (M : Libm α) (j : Nat) :
    ((smallBody α).calcJointLocations_ M none none none).1 j = ![(j : α), 0, 0] := by
  funext c
  simp only [calcJointLocations_, smallBody, Eigen.mulDense, Finset.sum_range_succ,
    Finset.sum_range_zero]
  fin_cases c <;> simp

theorem realLibm_norm_tiny : Eigen.norm realLibm (tinyHipPose ℝ 2) = 1 / 20000 := by
  have h : Eigen.dot (tinyHipPose ℝ 2) (tinyHipPose ℝ 2) = (1 / 20000) ^ 2 := by
    simp [Eigen.dot, tinyHipPose]; norm_num
  rw [Eigen.norm, h]
  exact Real.sqrt_sq (by norm_num)

/-- C4 as stated fails for an angle `θ ≤ 1e-4`: in `smallBody` over the reals, with `LHip`
rotated by `1/20000` about the unit axis `(0, 0, 1)` and all other pose rows zero, the offset
from `LHip` to its child `LKnee` is left unrotated by `calcJointLocations_`, while the
Rodrigues rotation moves it by `sin (1/20000) ≠ 0` in the second coordinate. -/
theorem C4_counterexample :
    Eigen.dot (![0, 0, 1] : Vec3 ℝ) ![0, 0, 1] = 1 ∧
    tinyHipPose ℝ 2 = (fun i => (1 / 20000 : ℝ) * (![0, 0, 1] : Vec3 ℝ) i) ∧
    (∀ k, k ≠ 2 → tinyHipPose ℝ k = 0) ∧
    (smallBody ℝ).joints_parents_ 3 = 2 ∧
    ((smallBody ℝ).calcJointLocations_ realLibm none none (some (tinyHipPose ℝ))).1 3
        - ((smallBody ℝ).calcJointLocations_ realLibm none none (some (tinyHipPose ℝ))).1 2 ≠
      (rodrigues realLibm (1 / 20000) ![0, 0, 1]).mulVec
        (((smallBody ℝ).calcJointLocations_ realLibm none none none).1 3
          - ((smallBody ℝ).calcJointLocations_ realLibm none none none).1 2) := by
  refine ⟨by simp [Eigen.dot], ?_, fun k hk => by simp [tinyHipPose, hk], by simp [smallBody], ?_⟩
  · funext i
    fin_cases i <;> simp [tinyHipPose]
  · have hloc : localRotation realLibm (tinyHipPose ℝ 2) = 1 := by
      apply localRotation_of_le
      rw [realLibm_norm_tiny]
      norm_num
    have h := (single_joint_locations (smallBody ℝ) realLibm none (tinyHipPose ℝ) 2 3
      Real.sqrt_zero (smallBody_parentsBelow ℝ) (by decide) (by decide) (by decide)
      (by simp [smallBody]) (fun k _ hk => by simp [tinyHipPose, hk])).1
    rw [h, hloc, Matrix.one_mulVec, smallBody_rest, smallBody_rest]
    intro heq
    have h1 := congrFun heq 1
    have hsin : Real.sin (1 / 20000) > 0 :=
      Real.sin_pos_of_pos_of_lt_pi (by norm_num) (by linarith [Real.pi_gt_three])
    simp [rodrigues, realLibm, Eigen.skew, Matrix.mulVec, Matrix.dotProduct, Fin.sum_univ_three,
      Matrix.mul_apply] at h1
    rcases h1 with h1 | h1
    · rw [one_div] at hsin
      linarith
    · norm_num at h1

/-! ### `rotateLimbToDirection`: accepted and rejected joints -/

theorem calcModel_ok (self : SMPLWrapper α) (M : Libm α)
    (hnum : self.use_pose_blendshapes_ = true →
      (self.JOINTS_NUM - 1) * 9 ≤ self.POSE_BLENDSHAPES_NUM)
    (translation : Option (Vec3 α)) (pose : Option (MatX3 α)) (shape : Option (Nat → α))
    (displacement : Option (MatX3 α)) :
    ∃ verts, (self.calcModel M translation pose shape displacement).1 = Except.ok verts := by
  cases pose with
  | none => exact ⟨_, congrArg Prod.fst (calcModel_no_pose self M translation shape displacement)⟩
  | some p =>
    rcases h : (self.calcModel M translation (some p) shape displacement).1 with e | v
    · exfalso
      rw [calcModel_error_iff] at h
      split_ifs at h with hb
      rw [addPoseBlendshapes_ok self _ _ (hnum hb)] at h
      exact Except.noConfusion h
    · exact ⟨v, rfl⟩

theorem calcJointLocations_snd_assets (self : SMPLWrapper α) (M : Libm α)
    (translation : Option (Vec3 α)) (shape : Option (Nat → α)) (pose : Option (MatX3 α)) :
    (self.calcJointLocations_ M translation shape pose).2.JOINTS_NUM = self.JOINTS_NUM ∧
    (self.calcJointLocations_ M translation shape pose).2.POSE_BLENDSHAPES_NUM =
      self.POSE_BLENDSHAPES_NUM ∧
    (self.calcJointLocations_ M translation shape pose).2.use_pose_blendshapes_ =
      self.use_pose_blendshapes_ := by
  cases translation <;> cases shape <;> cases pose <;> exact ⟨rfl, rfl, rfl⟩

theorem rotateLimbToDirection_accepted (self : SMPLWrapper α) (M : Libm α)
    (child_id_uninit : Nat) (joint_name : String) (direction : Vec3 α) (joint_id : Nat)
    (hlook : self.joint_names_.lookup joint_name = some joint_id) (hroot : joint_id ≠ 0)
    (hback : ¬ (joint_name = "LowBack" ∨ joint_name = "MiddleBack" ∨ joint_name = "TopBack")) :
    ∃ s : SMPLWrapper α,
      s.JOINTS_NUM = self.JOINTS_NUM ∧ s.POSE_BLENDSHAPES_NUM = self.POSE_BLENDSHAPES_NUM ∧
      s.use_pose_blendshapes_ = self.use_pose_blendshapes_ ∧
      self.rotateLimbToDirection M child_id_uninit joint_name direction =
        (match s.calcModelCurrent M with
         | (Except.error e, s2) => (Except.error e, s2)
         | (Except.ok _, s2) => (Except.ok (), s2)) := by
  unfold rotateLimbToDirection
  simp only [hlook, if_neg hroot, if_neg hback]
  refine ⟨_, ?_, ?_, ?_, rfl⟩
  · rw [(calcJointLocations_snd_assets _ M none none _).1]
    split_ifs
    · exact (calcJointLocations_snd_assets self M none none _).1
    · exact (calcJointLocations_snd_assets self M none none _).1
  · rw [(calcJointLocations_snd_assets _ M none none _).2.1]
    split_ifs
    · exact (calcJointLocations_snd_assets self M none none _).2.1
    · exact (calcJointLocations_snd_assets self M none none _).2.1
  · rw [(calcJointLocations_snd_assets _ M none none _).2.2]
    split_ifs
    · exact (calcJointLocations_snd_assets self M none none _).2.2
    · exact (calcJointLocations_snd_assets self M none none _).2.2

/-- C10: `rotateLimbToDirection(jointName, direction)` raises `std::out_of_range` if and
only if `jointName` is not a key of the joint-name table, or is mapped to joint id 0 (the
root), or is one of `"LowBack"`, `"MiddleBack"`, `"TopBack"`; for every other known joint
name it does not raise.  (`POSE_BLENDSHAPES_NUM` holds the `(JOINTS_NUM - 1) * 9` blendshapes
when pose blendshapes are enabled, so the final `calcModel()` does not throw.) -/
theorem C10_rotateLimb_fails_iff (self : SMPLWrapper α) (M : Libm α) (child_id_uninit : Nat)
    (joint_name : String) (direction : Vec3 α)
    (hnum : self.use_pose_blendshapes_ = true →
      (self.JOINTS_NUM - 1) * 9 ≤ self.POSE_BLENDSHAPES_NUM) :
    ((self.rotateLimbToDirection M child_id_uninit joint_name direction).1 =
        Except.error Err.out_of_range ↔
      (self.joint_names_.lookup joint_name = none ∨
        self.joint_names_.lookup joint_name = some 0 ∨
        joint_name = "LowBack" ∨ joint_name = "MiddleBack" ∨ joint_name = "TopBack")) ∧
    (¬ (self.joint_names_.lookup joint_name = none ∨
        self.joint_names_.lookup joint_name = some 0 ∨
        joint_name = "LowBack" ∨ joint_name = "MiddleBack" ∨ joint_name = "TopBack") →
      (self.rotateLimbToDirection M child_id_uninit joint_name direction).1 = Except.ok ()) := by
  rcases hlook : self.joint_names_.lookup joint_name with _ | joint_id
  · simp [rotateLimbToDirection, hlook]
  · by_cases hroot : joint_id = 0
    · simp [rotateLimbToDirection, hlook, hroot]
    · by_cases hback : joint_name = "LowBack" ∨ joint_name = "MiddleBack" ∨ joint_name = "TopBack"
      · simp [rotateLimbToDirection, hlook, hroot, hback]
      · obtain ⟨s, h1, h2, h3, hs⟩ :=
          rotateLimbToDirection_accepted self M child_id_uninit joint_name direction joint_id
            hlook hroot hback
        obtain ⟨v, hv⟩ := calcModel_ok s M (by rw [h1, h2, h3]; exact hnum)
          (some s.state_.translation) (some s.state_.pose) (some s.state_.shape)
          (some s.state_.displacements)
        have hres : (self.rotateLimbToDirection M child_id_uninit joint_name direction).1 =
            Except.ok () := by
          rw [hs]
          unfold calcModelCurrent
          generalize s.calcModel M (some s.state_.translation) (some s.state_.pose)
            (some s.state_.shape) (some s.state_.displacements) = q at hv
          obtain ⟨r, s2⟩ := q
          simp only at hv
          subst hv
          rfl
        refine ⟨?_, fun _ => hres⟩
        rw [hres]
        simp [hroot, hback]

theorem C10_rotateLimb_fails_iff_witness :
    ((smallBody ℚ).use_pose_blendshapes_ = true →
      ((smallBody ℚ).JOINTS_NUM - 1) * 9 ≤ (smallBody ℚ).POSE_BLENDSHAPES_NUM) ∧
    ((smallBody ℚ).rotateLimbToDirection ratLibm 0 "LHip" ![0, 1, 0]).1 = Except.ok () ∧
    ((smallBody ℚ).rotateLimbToDirection ratLibm 0 "Root" ![0, 1, 0]).1 =
      Except.error Err.out_of_range :=
  ⟨fun _ => by decide,
   (C10_rotateLimb_fails_iff (smallBody ℚ) ratLibm 0 "LHip" ![0, 1, 0] (fun _ => by decide)).2
     (by simp [smallBody, List.lookup]),
   (C10_rotateLimb_fails_iff (smallBody ℚ) ratLibm 0 "Root" ![0, 1, 0] (fun _ => by decide)).1.mpr
     (by simp [smallBody, List.lookup])⟩

set_option linter.unusedSectionVars false

theorem SameAssets.refl (a : SMPLWrapper α) : SameAssets a a :=
  ⟨rfl, rfl, rfl, rfl, rfl, rfl, rfl, rfl, rfl, rfl, rfl, rfl, rfl⟩

theorem SameAssets.symm {a b : SMPLWrapper α} (h : SameAssets a b) : SameAssets b a := by
  obtain ⟨h1, h2, h3, h4, h5, h6, h7, h8, h9, h10, h11, h12, h13⟩ := h
  exact ⟨h1.symm, h2.symm, h3.symm, h4.symm, h5.symm, h6.symm, h7.symm, h8.symm, h9.symm,
    h10.symm, h11.symm, h12.symm, h13.symm⟩

theorem SameAssets.trans {a b c : SMPLWrapper α} (h : SameAssets a b) (h' : SameAssets b c) :
    SameAssets a c := by
  obtain ⟨h1, h2, h3, h4, h5, h6, h7, h8, h9, h10, h11, h12, h13⟩ := h
  obtain ⟨g1, g2, g3, g4, g5, g6, g7, g8, g9, g10, g11, g12, g13⟩ := h'
  exact ⟨h1.trans g1, h2.trans g2, h3.trans g3, h4.trans g4, h5.trans g5, h6.trans g6,
    h7.trans g7, h8.trans g8, h9.trans g9, h10.trans g10, h11.trans g11, h12.trans g12,
    h13.trans g13⟩

theorem updateJointsFKTransforms_frame (self : SMPLWrapper α) (M : Libm α) (pose rest : MatX3 α) :
    SameAssets (self.updateJointsFKTransforms_ M pose rest) self ∧
    (self.updateJointsFKTransforms_ M pose rest).state_ = self.state_ :=
  ⟨SameAssets.refl _, rfl⟩

theorem calcJointLocations_frame (self : SMPLWrapper α) (M : Libm α)
    (translation : Option (Vec3 α)) (shape : Option (Nat → α)) (pose : Option (MatX3 α)) :
    SameAssets (self.calcJointLocations_ M translation shape pose).2 self ∧
    (self.calcJointLocations_ M translation shape pose).2.state_ = self.state_ := by
  cases translation <;> cases shape <;> cases pose <;> exact ⟨SameAssets.refl _, rfl⟩

theorem posedObject_frame (self : SMPLWrapper α) (M : Libm α) (pose verts : MatX3 α) :
    SameAssets (posedObject self M pose verts) self ∧
    (posedObject self M pose verts).state_ = self.state_ :=
  ⟨SameAssets.refl _, rfl⟩

theorem calcModel_frame (self : SMPLWrapper α) (M : Libm α) (translation : Option (Vec3 α))
    (pose : Option (MatX3 α)) (shape : Option (Nat → α)) (displacement : Option (MatX3 α)) :
    SameAssets (self.calcModel M translation pose shape displacement).2 self ∧
    (self.calcModel M translation pose shape displacement).2.state_ = self.state_ := by
  cases pose with
  | none =>
    rw [calcModel_no_pose]
    exact ⟨SameAssets.refl _, rfl⟩
  | some p =>
    rw [calcModel_snd]
    exact posedObject_frame self M p _

theorem assignJointGlobalRotation_frame (self : SMPLWrapper α) (joint_id : Nat)
    (rotation : Vec3 α) (fk : Nat → Mat4 α) :
    SameAssets (self.assignJointGlobalRotation_ joint_id rotation fk) self ∧
    (self.assignJointGlobalRotation_ joint_id rotation fk).state_.translation =
      self.state_.translation ∧
    (self.assignJointGlobalRotation_ joint_id rotation fk).state_.shape = self.state_.shape ∧
    (self.assignJointGlobalRotation_ joint_id rotation fk).state_.displacements =
      self.state_.displacements ∧
    ∀ k, k ≠ joint_id →
      (self.assignJointGlobalRotation_ joint_id rotation fk).state_.pose k = self.state_.pose k :=
  ⟨SameAssets.refl _, rfl, rfl, rfl, fun k hk => by
    simp [assignJointGlobalRotation_, Function.update_noteq hk]⟩

theorem rotateLimbToDirection_accepted_snd (self : SMPLWrapper α) (M : Libm α)
    (child_id_uninit : Nat) (joint_name : String) (direction : Vec3 α) (joint_id : Nat)
    (hlook : self.joint_names_.lookup joint_name = some joint_id) (hroot : joint_id ≠ 0)
    (hback : ¬ (joint_name = "LowBack" ∨ joint_name = "MiddleBack" ∨ joint_name = "TopBack")) :
    (self.rotateLimbToDirection M child_id_uninit joint_name direction).2 =
      (((afterLimbAssignment self M ((self.findChild joint_id).getD child_id_uninit) joint_id
          direction).calcJointLocations_ M none none
        (some (afterLimbAssignment self M ((self.findChild joint_id).getD child_id_uninit)
          joint_id direction).state_.pose)).2.calcModelCurrent M).2 := by
  unfold rotateLimbToDirection afterLimbAssignment
  simp only [hlook, if_neg hroot, if_neg hback]
  split
  · next heq => rw [heq]
  · next heq => rw [heq]

theorem afterLimbAssignment_frame (self : SMPLWrapper α) (M : Libm α) (child_id joint_id : Nat)
    (direction : Vec3 α) :
    SameAssets (afterLimbAssignment self M child_id joint_id direction) self ∧
    (afterLimbAssignment self M child_id joint_id direction).state_.translation =
      self.state_.translation ∧
    (afterLimbAssignment self M child_id joint_id direction).state_.shape = self.state_.shape ∧
    (afterLimbAssignment self M child_id joint_id direction).state_.displacements =
      self.state_.displacements ∧
    ∀ k, k ≠ joint_id →
      (afterLimbAssignment self M child_id joint_id direction).state_.pose k =
        self.state_.pose k := by
  have hL := calcJointLocations_frame self M none none (some self.state_.pose)
  unfold afterLimbAssignment
  dsimp only
  split_ifs with hpos
  · have hA := assignJointGlobalRotation_frame
      (self.calcJointLocations_ M none none (some self.state_.pose)).2 joint_id
      (angle_axis_ M ((self.calcJointLocations_ M none none (some self.state_.pose)).1 child_id
        - (self.calcJointLocations_ M none none (some self.state_.pose)).1 joint_id) direction)
      (self.calcJointLocations_ M none none (some self.state_.pose)).2.fk_transforms_
    refine ⟨hA.1.trans hL.1, ?_, ?_, ?_, ?_⟩
    · rw [hA.2.1, hL.2]
    · rw [hA.2.2.1, hL.2]
    · rw [hA.2.2.2.1, hL.2]
    · intro k hk
      rw [hA.2.2.2.2 k hk, hL.2]
  · refine ⟨hL.1, ?_, ?_, ?_, ?_⟩
    · rw [hL.2]
    · rw [hL.2]
    · rw [hL.2]
    · intro k _
      rw [hL.2]

/-- What a call of `rotateLimbToDirection` can change: nothing of the model data, and of the
parameters only the pose row of the joint the name stands for. -/
theorem rotateLimbToDirection_frame (self : SMPLWrapper α) (M : Libm α) (child_id_uninit : Nat)
    (joint_name : String) (direction : Vec3 α) :
    SameAssets (self.rotateLimbToDirection M child_id_uninit joint_name direction).2 self ∧
    (self.rotateLimbToDirection M child_id_uninit joint_name direction).2.state_.translation =
      self.state_.translation ∧
    (self.rotateLimbToDirection M child_id_uninit joint_name direction).2.state_.shape =
      self.state_.shape ∧
    (self.rotateLimbToDirection M child_id_uninit joint_name direction).2.state_.displacements =
      self.state_.displacements ∧
    ∀ k, self.joint_names_.lookup joint_name ≠ some k →
      (self.rotateLimbToDirection M child_id_uninit joint_name direction).2.state_.pose k =
        self.state_.pose k := by
  have hfail : (self.rotateLimbToDirection M child_id_uninit joint_name direction).2 = self →
      SameAssets (self.rotateLimbToDirection M child_id_uninit joint_name direction).2 self ∧
      (self.rotateLimbToDirection M child_id_uninit joint_name direction).2.state_.translation =
        self.state_.translation ∧
      (self.rotateLimbToDirection M child_id_uninit joint_name direction).2.state_.shape =
        self.state_.shape ∧
      (self.rotateLimbToDirection M child_id_uninit joint_name direction).2.state_.displacements =
        self.state_.displacements ∧
      ∀ k, self.joint_names_.lookup joint_name ≠ some k →
        (self.rotateLimbToDirection M child_id_uninit joint_name direction).2.state_.pose k =
          self.state_.pose k := by
    intro h
    rw [h]
    exact ⟨SameAssets.refl _, rfl, rfl, rfl, fun _ _ => rfl⟩
  rcases hlook : self.joint_names_.lookup joint_name with _ | joint_id
  · exact hlook ▸ hfail (by simp [rotateLimbToDirection, hlook])
  · by_cases hroot : joint_id = 0
    · exact hlook ▸ hfail (by simp [rotateLimbToDirection, hlook, hroot])
    · by_cases hback : joint_name = "LowBack" ∨ joint_name = "MiddleBack" ∨ joint_name = "TopBack"
      · exact hlook ▸ hfail (by simp [rotateLimbToDirection, hlook, hroot, hback])
      · rw [rotateLimbToDirection_accepted_snd self M child_id_uninit joint_name direction
          joint_id hlook hroot hback]
        have hA := afterLimbAssignment_frame self M
          ((self.findChild joint_id).getD child_id_uninit) joint_id direction
        generalize afterLimbAssignment self M ((self.findChild joint_id).getD child_id_uninit)
          joint_id direction = A at hA
        have hJ := calcJointLocations_frame A M none none (some A.state_.pose)
        generalize (A.calcJointLocations_ M none none (some A.state_.pose)).2 = B at hJ
        have hC := calcModel_frame B M (some B.state_.translation) (some B.state_.pose)
          (some B.state_.shape) (some B.state_.displacements)
        unfold calcModelCurrent
        generalize (B.calcModel M (some B.state_.translation) (some B.state_.pose)
          (some B.state_.shape) (some B.state_.displacements)).2 = C at hC
        refine ⟨(hC.1.trans hJ.1).trans hA.1, ?_, ?_, ?_, ?_⟩
        · rw [hC.2, hJ.2, hA.2.1]
        · rw [hC.2, hJ.2, hA.2.2.1]
        · rw [hC.2, hJ.2, hA.2.2.2.1]
        · intro k hk
          rw [hC.2, hJ.2]
          exact hA.2.2.2.2 k (fun h => hk (by rw [h]))

theorem isDetected_eq_false_iff (last_pose_ : Nat → Fin 4 → α) (keypoint : Nat) :
    OpenPoseWrapper.isDetected_ last_pose_ keypoint = false ↔ last_pose_ keypoint 3 ≤ 0 := by
  simp [OpenPoseWrapper.isDetected_]

theorem mapPair_undetected (M : Libm α) (child_id_uninit : Nat)
    (keypoints_names : List (Nat × String)) (last_pose_ : Nat → Fin 4 → α) (smpl : SMPLWrapper α)
    (pair : Nat × Nat)
    (h : last_pose_ pair.1 3 ≤ 0 ∨ last_pose_ pair.2 3 ≤ 0) :
    OpenPoseWrapper.mapPair M child_id_uninit keypoints_names last_pose_ smpl pair =
      (Except.ok (), smpl) := by
  unfold OpenPoseWrapper.mapPair
  have h2 : (!OpenPoseWrapper.isDetected_ last_pose_ pair.1
      || !OpenPoseWrapper.isDetected_ last_pose_ pair.2) = true := by
    rcases h with h | h
    · rw [(isDetected_eq_false_iff last_pose_ pair.1).2 h]
      rfl
    · rw [(isDetected_eq_false_iff last_pose_ pair.2).2 h]
      simp
  simp only [h2, if_true]

theorem mapLoop_nil (M : Libm α) (child_id_uninit : Nat) (keypoints_names : List (Nat × String))
    (last_pose_ : Nat → Fin 4 → α) (st : Except Err Unit × SMPLWrapper α) :
    OpenPoseWrapper.mapLoop M child_id_uninit keypoints_names last_pose_ st [] = st := rfl

theorem mapLoop_cons_ok (M : Libm α) (child_id_uninit : Nat)
    (keypoints_names : List (Nat × String)) (last_pose_ : Nat → Fin 4 → α) (smpl : SMPLWrapper α)
    (pair : Nat × Nat) (pairs : List (Nat × Nat)) :
    OpenPoseWrapper.mapLoop M child_id_uninit keypoints_names last_pose_ (Except.ok (), smpl)
        (pair :: pairs) =
      OpenPoseWrapper.mapLoop M child_id_uninit keypoints_names last_pose_
        (OpenPoseWrapper.mapPair M child_id_uninit keypoints_names last_pose_ smpl pair) pairs :=
  rfl

theorem mapLoop_error (M : Libm α) (child_id_uninit : Nat)
    (keypoints_names : List (Nat × String)) (last_pose_ : Nat → Fin 4 → α) (e : Err)
    (smpl : SMPLWrapper α) (pairs : List (Nat × Nat)) :
    OpenPoseWrapper.mapLoop M child_id_uninit keypoints_names last_pose_ (Except.error e, smpl)
        pairs = (Except.error e, smpl) := by
  induction pairs with
  | nil => rfl
  | cons pair pairs ih => exact ih

/-- Pairs with an undetected endpoint can be left out of the loop. -/
theorem mapLoop_filter (M : Libm α) (child_id_uninit : Nat)
    (keypoints_names : List (Nat × String)) (last_pose_ : Nat → Fin 4 → α)
    (pairs : List (Nat × Nat)) (st : Except Err Unit × SMPLWrapper α) :
    OpenPoseWrapper.mapLoop M child_id_uninit keypoints_names last_pose_ st pairs =
      OpenPoseWrapper.mapLoop M child_id_uninit keypoints_names last_pose_ st
        (pairs.filter (fun p => OpenPoseWrapper.isDetected_ last_pose_ p.1
          && OpenPoseWrapper.isDetected_ last_pose_ p.2)) := by
  induction pairs generalizing st with
  | nil => rfl
  | cons pair pairs ih =>
    obtain ⟨r, smpl⟩ := st
    cases r with
    | error e => rw [mapLoop_error, mapLoop_error]
    | ok u =>
      by_cases hd : (OpenPoseWrapper.isDetected_ last_pose_ pair.1
          && OpenPoseWrapper.isDetected_ last_pose_ pair.2) = true
      · have e : (pair :: pairs).filter (fun p => OpenPoseWrapper.isDetected_ last_pose_ p.1
            && OpenPoseWrapper.isDetected_ last_pose_ p.2) = pair :: pairs.filter (fun p =>
            OpenPoseWrapper.isDetected_ last_pose_ p.1
              && OpenPoseWrapper.isDetected_ last_pose_ p.2) := List.filter_cons_of_pos hd
        rw [e, mapLoop_cons_ok, mapLoop_cons_ok]
        exact ih _
      · have e : (pair :: pairs).filter (fun p => OpenPoseWrapper.isDetected_ last_pose_ p.1
            && OpenPoseWrapper.isDetected_ last_pose_ p.2) = pairs.filter (fun p =>
            OpenPoseWrapper.isDetected_ last_pose_ p.1
              && OpenPoseWrapper.isDetected_ last_pose_ p.2) := List.filter_cons_of_neg hd
        rw [e, mapLoop_cons_ok]
        have h : last_pose_ pair.1 3 ≤ 0 ∨ last_pose_ pair.2 3 ≤ 0 := by
          rw [← isDetected_eq_false_iff, ← isDetected_eq_false_iff]
          cases h1 : OpenPoseWrapper.isDetected_ last_pose_ pair.1
          · exact Or.inl rfl
          · cases h2 : OpenPoseWrapper.isDetected_ last_pose_ pair.2
            · exact Or.inr rfl
            · rw [h1, h2] at hd
              exact absurd rfl hd
        rw [mapPair_undetected M child_id_uninit keypoints_names last_pose_ smpl pair h]
        exact ih _

/-- What one pass of the loop body of `mapToSmpl` can change. -/
theorem mapPair_frame (M : Libm α) (child_id_uninit : Nat)
    (keypoints_names : List (Nat × String)) (last_pose_ : Nat → Fin 4 → α) (smpl : SMPLWrapper α)
    (pair : Nat × Nat) (joint_id : Nat)
    (h : OpenPoseWrapper.isDetected_ last_pose_ pair.1 = true →
      OpenPoseWrapper.isDetected_ last_pose_ pair.2 = true →
      ∀ n, pairJointName keypoints_names pair.1 = some n →
        smpl.joint_names_.lookup n ≠ some joint_id) :
    SameAssets (OpenPoseWrapper.mapPair M child_id_uninit keypoints_names last_pose_ smpl pair).2
      smpl ∧
    (OpenPoseWrapper.mapPair M child_id_uninit keypoints_names last_pose_ smpl pair).2.state_.pose
      joint_id = smpl.state_.pose joint_id := by
  unfold OpenPoseWrapper.mapPair
  dsimp only
  split_ifs with hd h8
  · exact ⟨SameAssets.refl _, rfl⟩
  · have hd2 : OpenPoseWrapper.isDetected_ last_pose_ pair.1 = true ∧
        OpenPoseWrapper.isDetected_ last_pose_ pair.2 = true := by
      simpa [not_or] using hd
    have hF := rotateLimbToDirection_frame smpl M child_id_uninit "Root"
      (fun i => last_pose_ pair.2 i.castSucc - last_pose_ pair.1 i.castSucc)
    exact ⟨hF.1, hF.2.2.2.2 joint_id
      (h hd2.1 hd2.2 "Root" (by simp [pairJointName, h8]))⟩
  · have hd2 : OpenPoseWrapper.isDetected_ last_pose_ pair.1 = true ∧
        OpenPoseWrapper.isDetected_ last_pose_ pair.2 = true := by
      simpa [not_or] using hd
    rcases hn : keypoints_names.lookup pair.1 with _ | name
    · exact ⟨SameAssets.refl _, rfl⟩
    · have hF := rotateLimbToDirection_frame smpl M child_id_uninit name
        (fun i => last_pose_ pair.2 i.castSucc - last_pose_ pair.1 i.castSucc)
      exact ⟨hF.1, hF.2.2.2.2 joint_id
        (h hd2.1 hd2.2 name (by simp [pairJointName, h8, hn]))⟩

/-- A pose row no detected pair of the loop names is the same after the loop. -/
theorem mapLoop_frame (M : Libm α) (child_id_uninit : Nat)
    (keypoints_names : List (Nat × String)) (last_pose_ : Nat → Fin 4 → α) (smpl : SMPLWrapper α)
    (joint_id : Nat) (pairs : List (Nat × Nat)) (st : Except Err Unit × SMPLWrapper α)
    (hst : SameAssets st.2 smpl ∧ st.2.state_.pose joint_id = smpl.state_.pose joint_id)
    (h : ∀ q ∈ pairs, OpenPoseWrapper.isDetected_ last_pose_ q.1 = true →
      OpenPoseWrapper.isDetected_ last_pose_ q.2 = true →
      ∀ n, pairJointName keypoints_names q.1 = some n →
        smpl.joint_names_.lookup n ≠ some joint_id) :
    SameAssets (OpenPoseWrapper.mapLoop M child_id_uninit keypoints_names last_pose_ st pairs).2
      smpl ∧
    (OpenPoseWrapper.mapLoop M child_id_uninit keypoints_names last_pose_ st pairs).2.state_.pose
      joint_id = smpl.state_.pose joint_id := by
  induction pairs generalizing st with
  | nil => exact hst
  | cons pair pairs ih =>
    obtain ⟨r, s⟩ := st
    cases r with
    | error e =>
      rw [mapLoop_error]
      exact hst
    | ok u =>
      rw [mapLoop_cons_ok]
      have hnames : s.joint_names_ = smpl.joint_names_ := hst.1.2.2.2.2.2.2.2.2.2.2.2.1
      have hP := mapPair_frame M child_id_uninit keypoints_names last_pose_ s pair joint_id
        (fun h1 h2 n hn => by
          rw [hnames]
          exact h pair (List.mem_cons_self _ _) h1 h2 n hn)
      exact ih _ ⟨hP.1.trans hst.1, hP.2.trans hst.2⟩
        (fun q hq => h q (List.mem_cons_of_mem _ hq))

/-- C18: for a non-empty keypoint table and a pair (of the fixed pair list or not) with an endpoint of
confidence `<= 0`, `mapToSmpl` makes no rotation call for the pair (the loop body returns the
model as it is, without an error); the whole call is the loop over the pairs with both
endpoints detected, in list order; and the pose row of a joint that no other detected pair
names is the same after the call. -/
theorem C18_undetected_pair_is_skipped (M : Libm α) (child_id_uninit : Nat)
    (keypoints_names : List (Nat × String)) (last_pose_ : Nat → Fin 4 → α) (smpl : SMPLWrapper α)
    (pair : Nat × Nat) (joint_id : Nat)
    (hund : last_pose_ pair.1 3 ≤ 0 ∨ last_pose_ pair.2 3 ≤ 0)
    (hothers : ∀ q ∈ OpenPoseWrapper.directions_to_match, q ≠ pair →
      OpenPoseWrapper.isDetected_ last_pose_ q.1 = true →
      OpenPoseWrapper.isDetected_ last_pose_ q.2 = true →
      ∀ n, pairJointName keypoints_names q.1 = some n →
        smpl.joint_names_.lookup n ≠ some joint_id) :
    OpenPoseWrapper.mapPair M child_id_uninit keypoints_names last_pose_ smpl pair =
      (Except.ok (), smpl) ∧
    OpenPoseWrapper.mapToSmpl ⟨some last_pose_⟩ M child_id_uninit keypoints_names smpl =
      OpenPoseWrapper.mapLoop M child_id_uninit keypoints_names last_pose_ (Except.ok (), smpl)
        (OpenPoseWrapper.directions_to_match.filter (fun p =>
          OpenPoseWrapper.isDetected_ last_pose_ p.1
            && OpenPoseWrapper.isDetected_ last_pose_ p.2)) ∧
    (OpenPoseWrapper.mapToSmpl ⟨some last_pose_⟩ M child_id_uninit keypoints_names
      smpl).2.state_.pose joint_id = smpl.state_.pose joint_id := by
  refine ⟨mapPair_undetected M child_id_uninit keypoints_names last_pose_ smpl pair hund,
    mapLoop_filter M child_id_uninit keypoints_names last_pose_ _ _, ?_⟩
  refine (mapLoop_frame M child_id_uninit keypoints_names last_pose_ smpl joint_id
    OpenPoseWrapper.directions_to_match (Except.ok (), smpl) ⟨SameAssets.refl _, rfl⟩ ?_).2
  intro q hq h1 h2
  by_cases hqp : q = pair
  · exfalso
    rw [hqp] at h1 h2
    rcases hund with h | h
    · rw [(isDetected_eq_false_iff last_pose_ pair.1).2 h] at h1
      exact Bool.false_ne_true h1
    · rw [(isDetected_eq_false_iff last_pose_ pair.2).2 h] at h2
      exact Bool.false_ne_true h2
  · exact hothers q hq hqp h1 h2

theorem C18_undetected_pair_is_skipped_witness :
    ((13, 14) : Nat × Nat) ∈ OpenPoseWrapper.directions_to_match ∧
    (leftThighDetected ℚ 13 3 ≤ 0 ∨ leftThighDetected ℚ 14 3 ≤ 0) ∧
    OpenPoseWrapper.mapPair ratLibm 0 body25Names (leftThighDetected ℚ) (smallBody ℚ) (13, 14) =
      (Except.ok (), smallBody ℚ) ∧
    OpenPoseWrapper.mapToSmpl ⟨some (leftThighDetected ℚ)⟩ ratLibm 0 body25Names (smallBody ℚ) =
      OpenPoseWrapper.mapLoop ratLibm 0 body25Names (leftThighDetected ℚ)
        (Except.ok (), smallBody ℚ)
        (OpenPoseWrapper.directions_to_match.filter (fun p =>
          OpenPoseWrapper.isDetected_ (leftThighDetected ℚ) p.1
            && OpenPoseWrapper.isDetected_ (leftThighDetected ℚ) p.2)) ∧
    (OpenPoseWrapper.mapToSmpl ⟨some (leftThighDetected ℚ)⟩ ratLibm 0 body25Names
      (smallBody ℚ)).2.state_.pose 3 = (smallBody ℚ).state_.pose 3 := by
  have hund : leftThighDetected ℚ 13 3 ≤ 0 ∨ leftThighDetected ℚ 14 3 ≤ 0 :=
    Or.inr (by simp [leftThighDetected])
  have hpair : ((13, 14) : Nat × Nat) ∈ OpenPoseWrapper.directions_to_match := by
    simp [OpenPoseWrapper.directions_to_match]
  refine ⟨hpair, hund, C18_undetected_pair_is_skipped ratLibm 0 body25Names
    (leftThighDetected ℚ) (smallBody ℚ) (13, 14) 3 hund ?_⟩
  intro q hq hqp h1 h2 n hn
  simp only [OpenPoseWrapper.directions_to_match, List.mem_cons, List.mem_singleton,
    List.not_mem_nil, or_false] at hq
  rcases hq with rfl | rfl | rfl | rfl | rfl | rfl | rfl | rfl | rfl | rfl | rfl | rfl
  all_goals first
    | (simp [OpenPoseWrapper.isDetected_, leftThighDetected] at h1; done)
    | (simp [OpenPoseWrapper.isDetected_, leftThighDetected] at h2; done)
    | exact absurd rfl hqp
    | skip
  simp [pairJointName, body25Names, List.lookup] at hn
  subst hn
  simp [smallBody, List.lookup]

/-- C19: with the empty keypoint table `mapToSmpl` fails, and the model it returns is the
model it was given: no pair is examined and no rotation is made. -/
theorem C19_empty_table_fails (M : Libm α) (child_id_uninit : Nat)
    (keypoints_names : List (Nat × String)) (smpl : SMPLWrapper α) :
    OpenPoseWrapper.mapToSmpl ⟨none⟩ M child_id_uninit keypoints_names smpl =
      (Except.error Err.exception, smpl) := rfl

/-! ### The members recomputed by an evaluation do not influence it -/

theorem SameAssets.parentsBelow {a b : SMPLWrapper α} (h : SameAssets a b)
    (hpar : ParentsBelow a.joints_parents_ a.JOINTS_NUM) :
    ParentsBelow b.joints_parents_ b.JOINTS_NUM := by
  obtain ⟨h1, -, -, -, -, -, -, -, -, -, h11, -, -⟩ := h
  rw [← h1, ← h11]
  exact hpar

theorem updateJointsFKTransforms_congr (a b : SMPLWrapper α) (M : Libm α) (pose rest : MatX3 α)
    (h : SameAssets a b) (hpar : ParentsBelow a.joints_parents_ a.JOINTS_NUM) (j : Nat)
    (hj : j < a.JOINTS_NUM) :
    (a.updateJointsFKTransforms_ M pose rest).fk_transforms_ j =
      (b.updateJointsFKTransforms_ M pose rest).fk_transforms_ j ∧
    (a.updateJointsFKTransforms_ M pose rest).local_rotations_ j =
      (b.updateJointsFKTransforms_ M pose rest).local_rotations_ j := by
  have hparb := h.parentsBelow hpar
  obtain ⟨h1, -, -, -, -, -, -, -, -, -, h11, -, -⟩ := h
  have hjb : j < b.JOINTS_NUM := h1 ▸ hj
  rw [updateJointsFKTransforms_path a M pose rest hpar j hj,
    updateJointsFKTransforms_path b M pose rest hparb j hjb,
    (updateJointsFKTransforms_rec a M pose rest hpar j hj).2,
    (updateJointsFKTransforms_rec b M pose rest hparb j hjb).2, h11]
  exact ⟨rfl, rfl⟩

theorem extractLBS_congr (a b : SMPLWrapper α) (hJ : a.JOINTS_NUM = b.JOINTS_NUM)
    (fk fk2 : Nat → Mat4 α) (J : MatX3 α) (h : ∀ j, j < a.JOINTS_NUM → fk j = fk2 j) :
    a.extractLBSJointTransformFromFKTransform_ fk J =
      b.extractLBSJointTransformFromFKTransform_ fk2 J := by
  unfold extractLBSJointTransformFromFKTransform_
  rw [← hJ]
  generalize a.JOINTS_NUM = n at h
  induction n with
  | zero => rfl
  | succ n ih =>
    rw [List.range_succ, List.foldl_concat, List.foldl_concat, ih (fun j hj => h j (by omega)),
      h n (by omega)]

theorem extractJointLocation_congr (a b : SMPLWrapper α) (hJ : a.JOINTS_NUM = b.JOINTS_NUM)
    (fk fk2 : Nat → Mat4 α) (h : ∀ j, j < a.JOINTS_NUM → fk j = fk2 j) :
    a.extractJointLocationFromFKTransform_ fk = b.extractJointLocationFromFKTransform_ fk2 := by
  unfold extractJointLocationFromFKTransform_
  rw [← hJ]
  generalize a.JOINTS_NUM = n at h
  induction n with
  | zero => rfl
  | succ n ih =>
    rw [List.range_succ, List.foldl_concat, List.foldl_concat, ih (fun j hj => h j (by omega)),
      h n (by omega)]

theorem shapeSMPL_congr (a b : SMPLWrapper α) (h : SameAssets a b) (shape : Nat → α)
    (verts : MatX3 α) : a.shapeSMPL_ shape verts = b.shapeSMPL_ shape verts := by
  obtain ⟨-, -, h3, -, -, -, -, -, h9, -, -, -, -⟩ := h
  rw [shapeSMPL_eq, shapeSMPL_eq, h3, h9]

/-- The joint locations `calcJointLocations_` returns are determined by the model data and the
arguments, not by the members left by earlier evaluations. -/
theorem calcJointLocations_congr (a b : SMPLWrapper α) (M : Libm α)
    (h : SameAssets a b) (hpar : ParentsBelow a.joints_parents_ a.JOINTS_NUM)
    (translation : Option (Vec3 α)) (shape : Option (Nat → α)) (pose : Option (MatX3 α)) :
    (a.calcJointLocations_ M translation shape pose).1 =
      (b.calcJointLocations_ M translation shape pose).1 := by
  have hs := shapeSMPL_congr a b h
  obtain ⟨h1, h2, -, -, -, h6, h7, -, -, -, -, -, h13⟩ := id h
  have hrest : ∀ shape, (a.calcJointLocations_ M none shape none).1 =
      (b.calcJointLocations_ M none shape none).1 := by
    intro shape
    cases shape with
    | none =>
      show (match a.joint_locations_template_ with
        | some t => t
        | none => Eigen.mulDense a.VERTICES_NUM a.jointRegressorMat_
            a.verts_template_normalized_) =
        (match b.joint_locations_template_ with
        | some t => t
        | none => Eigen.mulDense b.VERTICES_NUM b.jointRegressorMat_
            b.verts_template_normalized_)
      rw [h13, h2, h6, h7]
    | some s =>
      show Eigen.mulDense a.VERTICES_NUM a.jointRegressorMat_
          (a.shapeSMPL_ s a.verts_template_normalized_) =
        Eigen.mulDense b.VERTICES_NUM b.jointRegressorMat_
          (b.shapeSMPL_ s b.verts_template_normalized_)
      rw [hs, h2, h6, h7]
  have hnone : ∀ shape pose, (a.calcJointLocations_ M none shape pose).1 =
      (b.calcJointLocations_ M none shape pose).1 := by
    intro shape pose
    cases pose with
    | none => exact hrest shape
    | some p =>
      rw [calcJointLocations_pose, calcJointLocations_pose, hrest]
      exact extractJointLocation_congr _ _ h1 _ _
        (fun j hj => (updateJointsFKTransforms_congr a b M p _ h hpar j hj).1)
  cases translation with
  | none => exact hnone shape pose
  | some t =>
    show translate_ t (a.calcJointLocations_ M none shape pose).1 =
      translate_ t (b.calcJointLocations_ M none shape pose).1
    rw [hnone]

theorem poseSMPL_congr (a b : SMPLWrapper α) (M : Libm α) (h : SameAssets a b)
    (hpar : ParentsBelow a.joints_parents_ a.JOINTS_NUM)
    (hnum : a.use_pose_blendshapes_ = true → (a.JOINTS_NUM - 1) * 9 ≤ a.POSE_BLENDSHAPES_NUM)
    (pose verts : MatX3 α) (displacement : Option (MatX3 α)) :
    (a.poseSMPL_ M pose verts displacement false).1 =
      (b.poseSMPL_ M pose verts displacement false).1 := by
  obtain ⟨h1, h2, -, h4, h5, -, h7, h8, -, h10, -, -, -⟩ := id h
  have hJ : Eigen.mulDense a.VERTICES_NUM a.jointRegressorMat_ verts =
      Eigen.mulDense b.VERTICES_NUM b.jointRegressorMat_ verts := by rw [h2, h7]
  have hfk : ∀ j, j < a.JOINTS_NUM →
      (posedObject a M pose verts).fk_transforms_ j =
        (posedObject b M pose verts).fk_transforms_ j ∧
      (posedObject a M pose verts).local_rotations_ j =
        (posedObject b M pose verts).local_rotations_ j := by
    intro j hj
    have := updateJointsFKTransforms_congr a b M pose
      (Eigen.mulDense a.VERTICES_NUM a.jointRegressorMat_ verts) h hpar j hj
    rw [hJ] at this
    simp only [posedObject]
    rw [hJ]
    exact this
  have hbl : (if a.use_pose_blendshapes_ then
        a.addPoseBlendshapes_ (posedObject a M pose verts).local_rotations_ verts
      else Except.ok verts) =
      (if b.use_pose_blendshapes_ then
        b.addPoseBlendshapes_ (posedObject b M pose verts).local_rotations_ verts
      else Except.ok verts) := by
    rw [← h5]
    split_ifs with hb
    · rw [addPoseBlendshapes_ok a _ _ (hnum hb),
        addPoseBlendshapes_ok b _ _ (by rw [← h1, ← h4]; exact hnum hb), ← h1, ← h10]
      congr 2
      refine Finset.sum_congr rfl (fun j hj => ?_)
      rw [(hfk j (Finset.mem_Ico.mp hj).2).2]
    · rfl
  have hG : ∀ X : MatX3 α, a.getLBSMatrix_ X = b.getLBSMatrix_ X := by
    intro X
    simp only [getLBSMatrix_, h8]
  have hE : a.extractLBSJointTransformFromFKTransform_
        (posedObject a M pose verts).fk_transforms_
        (Eigen.mulDense a.VERTICES_NUM a.jointRegressorMat_ verts) =
      b.extractLBSJointTransformFromFKTransform_
        (posedObject b M pose verts).fk_transforms_
        (Eigen.mulDense b.VERTICES_NUM b.jointRegressorMat_ verts) := by
    rw [hJ]
    exact extractLBS_congr a b h1 _ _ _ (fun j hj => (hfk j hj).1)
  rw [poseSMPL_eq, poseSMPL_eq, hbl, hE]
  generalize (if b.use_pose_blendshapes_ then
        b.addPoseBlendshapes_ (posedObject b M pose verts).local_rotations_ verts
      else Except.ok verts) = q
  cases q with
  | error e => rfl
  | ok bl =>
    cases displacement with
    | none => simp only [hG]
    | some d => simp only [hG]

theorem calcModel_fst (self : SMPLWrapper α) (M : Libm α) (translation : Option (Vec3 α))
    (pose : MatX3 α) (shape : Option (Nat → α)) (displacement : Option (MatX3 α)) :
    (self.calcModel M translation (some pose) shape displacement).1 =
      (match (self.poseSMPL_ M pose
          (match shape with
           | some s => self.shapeSMPL_ s self.verts_template_normalized_
           | none => self.verts_template_normalized_) displacement false).1 with
       | Except.error e => Except.error e
       | Except.ok verts =>
         Except.ok (match translation with
           | some t => translate_ t verts
           | none => verts)) := by
  cases shape <;> cases translation <;> simp only [calcModel] <;> split <;>
    rename_i heq <;> rw [heq]

/-- The vertices `calcModel` returns are determined by the model data and the arguments, not
by the members left by earlier evaluations. -/
theorem calcModel_congr (a b : SMPLWrapper α) (M : Libm α) (h : SameAssets a b)
    (hpar : ParentsBelow a.joints_parents_ a.JOINTS_NUM)
    (hnum : a.use_pose_blendshapes_ = true → (a.JOINTS_NUM - 1) * 9 ≤ a.POSE_BLENDSHAPES_NUM)
    (translation : Option (Vec3 α)) (pose : Option (MatX3 α)) (shape : Option (Nat → α))
    (displacement : Option (MatX3 α)) :
    (a.calcModel M translation pose shape displacement).1 =
      (b.calcModel M translation pose shape displacement).1 := by
  have hs := shapeSMPL_congr a b h
  obtain ⟨-, -, h3, -, -, h6, -, -, h9, -, -, -, -⟩ := id h
  cases pose with
  | none => rw [calcModel_no_pose, calcModel_no_pose, h3, h6, h9]
  | some p =>
    rw [calcModel_fst, calcModel_fst, ← h6, poseSMPL_congr a b M h hpar hnum]
    cases shape with
    | none => rfl
    | some s => simp only [hs]

/-- The translation is added to the vertices `calcModel` returns without it. -/
theorem calcModel_translation (self : SMPLWrapper α) (M : Libm α) (t : Vec3 α)
    (pose : Option (MatX3 α)) (shape : Option (Nat → α)) (displacement : Option (MatX3 α))
    (verts : MatX3 α)
    (h : (self.calcModel M none pose shape displacement).1 = Except.ok verts) :
    (self.calcModel M (some t) pose shape displacement).1 = Except.ok (translate_ t verts) := by
  cases pose with
  | none =>
    rw [calcModel_no_pose] at h
    rw [calcModel_no_pose]
    injection h with h
    rw [← h]
    show Except.ok _ = Except.ok _
    congr 1
    funext v c
    simp [translate_]
  | some p =>
    rw [calcModel_fst] at h ⊢
    revert h
    cases shape <;> dsimp only <;> split <;> intro h
    · exact Except.noConfusion h
    · injection h with h
      rw [← h]
    · exact Except.noConfusion h
    · injection h with h
      rw [← h]

theorem colwiseMean_translate (n : Nat) (hn : 0 < n) (t : Vec3 α) (verts : MatX3 α) :
    Eigen.colwiseMean n (translate_ t verts) = Eigen.colwiseMean n verts + t := by
  funext c
  have hn0 : (n : α) ≠ 0 := Nat.cast_ne_zero.mpr (by omega)
  simp only [Eigen.colwiseMean, translate_, Pi.add_apply, Finset.sum_add_distrib,
    Finset.sum_const, Finset.card_range, nsmul_eq_mul]
  field_simp
  ring

/-- After `translateTo(c)` the mean of the vertices of the new state is `c` minus the
translation the state held before the call: the mean that `translateTo` subtracts is taken
with the old translation applied. -/
theorem translateTo_mean (self : SMPLWrapper α) (M : Libm α) (center_point : Vec3 α)
    (hpar : ParentsBelow self.joints_parents_ self.JOINTS_NUM)
    (hnum : self.use_pose_blendshapes_ = true →
      (self.JOINTS_NUM - 1) * 9 ≤ self.POSE_BLENDSHAPES_NUM)
    (hV : 0 < self.VERTICES_NUM) :
    ∃ (s : SMPLWrapper α) (verts : MatX3 α),
      self.translateTo M center_point = (Except.ok (), s) ∧
      (s.calcModelCurrent M).1 = Except.ok verts ∧
      Eigen.colwiseMean s.VERTICES_NUM verts = center_point - self.state_.translation := by
  obtain ⟨U, hU⟩ := calcModel_ok self M hnum none (some self.state_.pose)
    (some self.state_.shape) (some self.state_.displacements)
  have h1 : (self.calcModelCurrent M).1 = Except.ok (translate_ self.state_.translation U) :=
    calcModel_translation self M _ _ _ _ U hU
  have hF1 := calcModel_frame self M (some self.state_.translation) (some self.state_.pose)
    (some self.state_.shape) (some self.state_.displacements)
  have hval : ∀ (s : SMPLWrapper α), SameAssets s self → s.state_.pose = self.state_.pose →
      s.state_.shape = self.state_.shape →
      s.state_.displacements = self.state_.displacements →
      (s.calcModelCurrent M).1 = Except.ok (translate_ s.state_.translation U) := by
    intro s hs hp hsh hd
    have hpar2 := hs.symm.parentsBelow hpar
    have hnum2 : s.use_pose_blendshapes_ = true →
        (s.JOINTS_NUM - 1) * 9 ≤ s.POSE_BLENDSHAPES_NUM := by
      rw [hs.1, hs.2.2.2.1, hs.2.2.2.2.1]
      exact hnum
    refine calcModel_translation s M _ _ _ _ U ?_
    rw [calcModel_congr s self M hs hpar2 hnum2, hp, hsh, hd]
    exact hU
  unfold translateTo
  rw [show self.calcModelCurrent M = (Except.ok (translate_ self.state_.translation U),
    (self.calcModelCurrent M).2) from Prod.ext h1 rfl]
  dsimp only
  generalize hs1 : (self.calcModelCurrent M).2 = s1
  have hs1a : SameAssets s1 self := hs1 ▸ hF1.1
  have hs1s : s1.state_ = self.state_ := hs1 ▸ hF1.2
  generalize hm : Eigen.colwiseMean s1.VERTICES_NUM (translate_ self.state_.translation U) = m
  generalize hs2 : ({ s1 with state_ := { s1.state_ with translation := center_point - m } } :
    SMPLWrapper α) = s2
  have hs2a : SameAssets s2 self := by
    rw [← hs2]
    exact hs1a
  have hs2p : s2.state_.pose = self.state_.pose := by rw [← hs2, ← hs1s]
  have hs2sh : s2.state_.shape = self.state_.shape := by rw [← hs2, ← hs1s]
  have hs2d : s2.state_.displacements = self.state_.displacements := by rw [← hs2, ← hs1s]
  have hs2t : s2.state_.translation = center_point - m := by rw [← hs2]
  have h2 := hval s2 hs2a hs2p hs2sh hs2d
  have hF2 := calcModel_frame s2 M (some s2.state_.translation) (some s2.state_.pose)
    (some s2.state_.shape) (some s2.state_.displacements)
  rw [show s2.calcModelCurrent M = (Except.ok (translate_ s2.state_.translation U),
    (s2.calcModelCurrent M).2) from Prod.ext h2 rfl]
  dsimp only
  generalize hs3 : (s2.calcModelCurrent M).2 = s3
  have hs3a : SameAssets s3 s2 := hs3 ▸ hF2.1
  have hs3s : s3.state_ = s2.state_ := hs3 ▸ hF2.2
  have h3 := hval s3 (hs3a.trans hs2a) (by rw [hs3s, hs2p]) (by rw [hs3s, hs2sh])
    (by rw [hs3s, hs2d])
  refine ⟨s3, _, rfl, h3, ?_⟩
  have hV1 : s1.VERTICES_NUM = self.VERTICES_NUM := hs1a.2.1
  have hV3 : s3.VERTICES_NUM = self.VERTICES_NUM := (hs3a.trans hs2a).2.1
  rw [hV3, hs3s, hs2t, colwiseMean_translate _ hV, ← hm, hV1, colwiseMean_translate _ hV]
  funext c
  simp only [Pi.add_apply, Pi.sub_apply]
  ring

/-- C16: `translateTo` does not move the mean of the vertices to the target when the state
already holds a translation.  For `shiftedBody` (translation `(1, 0, 0)`) and the target
`c = (0, 0, 0)` the call succeeds, and the mean of the vertices `calcModel()` returns for the
new state is `(-1, 0, 0)`, not `c`. -/
theorem C16_translateTo_misses_target :
    ∃ (s : SMPLWrapper ℚ) (verts : MatX3 ℚ),
      (shiftedBody ℚ).translateTo ratLibm 0 = (Except.ok (), s) ∧
      (s.calcModelCurrent ratLibm).1 = Except.ok verts ∧
      Eigen.colwiseMean s.VERTICES_NUM verts = ![-1, 0, 0] ∧
      Eigen.colwiseMean s.VERTICES_NUM verts ≠ 0 := by
  obtain ⟨s, verts, h1, h2, h3⟩ := translateTo_mean (shiftedBody ℚ) ratLibm 0
    (smallBody_parentsBelow ℚ) (fun _ => by decide) (by decide)
  have h4 : Eigen.colwiseMean s.VERTICES_NUM verts = ![-1, 0, 0] := by
    rw [h3]
    funext c
    fin_cases c <;> simp [shiftedBody]
  refine ⟨s, verts, h1, h2, h4, ?_⟩
  rw [h4]
  intro h
  have := congrFun h 0
  simp at this

/-! ### Writing the parameters to a file and reading them back -/

theorem commaSeparated_cons (x : α) (xs : List α) :
    commaSeparated (x :: xs) = Token.num x :: Token.word "," :: commaSeparated xs := rfl

theorem read_value_and_comma (x old : α) (line : List (Token α)) (lines : Text α) :
    ((IStream.readDouble ⟨(Token.num x :: Token.word "," :: line) :: lines, false⟩ old).1 = x) ∧
    ((IStream.readDouble ⟨(Token.num x :: Token.word "," :: line) :: lines, false⟩
      old).2.readString = ⟨line :: lines, false⟩) :=
  ⟨rfl, rfl⟩

theorem read_value_after_blank (x old : α) (line : List (Token α)) (lines : Text α) :
    IStream.readDouble ⟨[] :: (Token.num x :: line) :: lines, false⟩ old =
      IStream.readDouble ⟨(Token.num x :: line) :: lines, false⟩ old := rfl

/-- Reading back one line of comma-separated values. -/
theorem read_row {σ ι : Type} (get : σ → ι → α) (set : σ → ι → α → σ) (f : ι → α)
    (l : List ι) (st : σ) (line : List (Token α)) (lines : Text α) :
    l.foldl (fun (acc : σ × IStream α) i =>
        (set acc.1 i (acc.2.readDouble (get acc.1 i)).1,
          (acc.2.readDouble (get acc.1 i)).2.readString))
        (st, ⟨(commaSeparated (l.map f) ++ line) :: lines, false⟩) =
      (l.foldl (fun st i => set st i (f i)) st, ⟨line :: lines, false⟩) := by
  induction l generalizing st with
  | nil => rfl
  | cons a l ih =>
    rw [List.foldl_cons, List.foldl_cons, List.map_cons, commaSeparated_cons]
    exact ih (set st a (f a))

/-- The same after the end of the line before. -/
theorem read_row_after_blank {σ ι : Type} (get : σ → ι → α) (set : σ → ι → α → σ) (f : ι → α)
    (l : List ι) (hl : l ≠ []) (st : σ) (line : List (Token α)) (lines : Text α) :
    l.foldl (fun (acc : σ × IStream α) i =>
        (set acc.1 i (acc.2.readDouble (get acc.1 i)).1,
          (acc.2.readDouble (get acc.1 i)).2.readString))
        (st, ⟨[] :: (commaSeparated (l.map f) ++ line) :: lines, false⟩) =
      (l.foldl (fun st i => set st i (f i)) st, ⟨line :: lines, false⟩) := by
  cases l with
  | nil => exact absurd rfl hl
  | cons a l =>
    rw [List.foldl_cons, List.foldl_cons, List.map_cons, commaSeparated_cons]
    exact read_row get set f l (set st a (f a)) line lines

theorem finRange_three : List.finRange 3 = [0, 1, 2] := rfl

theorem update_row (p : MatX3 α) (i : Nat) (r : Vec3 α) :
    (List.finRange 3).foldl (fun (st : MatX3 α) j =>
      Function.update st i (Function.update (st i) j (r j))) p = Function.update p i r := by
  rw [finRange_three]
  have h : Function.update (Function.update (Function.update (p i) 0 (r 0)) 1 (r 1)) 2 (r 2)
      = r := by
    funext c
    fin_cases c <;> simp [Function.update]
  simp only [List.foldl_cons, List.foldl_nil, Function.update_same, Function.update_idem, h]

theorem update_all (p : Vec3 α) (r : Vec3 α) :
    (List.finRange 3).foldl (fun (st : Vec3 α) j => Function.update st j (r j)) p = r := by
  rw [finRange_three]
  funext j
  fin_cases j <;> simp [Function.update]

theorem update_range {β : Type} (n : Nat) (p r : Nat → β) (i : Nat) :
    (List.range n).foldl (fun st k => Function.update st k (r k)) p i =
      if i < n then r i else p i := by
  induction n with
  | zero => simp
  | succ n ih =>
    rw [List.range_succ, List.foldl_concat]
    by_cases h : i = n
    · subst h
      simp
    · rw [Function.update_noteq h, ih]
      by_cases h2 : i < n
      · rw [if_pos h2, if_pos (by omega)]
      · rw [if_neg h2, if_neg (by omega)]

theorem loadTranslation_row (translation f : Vec3 α) (line : List (Token α)) (lines : Text α) :
    loadTranslation translation
        ⟨(commaSeparated ((List.finRange 3).map f) ++ line) :: lines, false⟩ =
      (f, ⟨line :: lines, false⟩) := by
  unfold loadTranslation
  exact (read_row (fun (t : Vec3 α) i => t i) Function.update f (List.finRange 3) translation
    line lines).trans (by rw [update_all])

theorem loadShape_row (shape_size : Nat) (shape f : Nat → α) (line : List (Token α))
    (lines : Text α) :
    loadShape shape_size shape
        ⟨(commaSeparated ((List.range shape_size).map f) ++ line) :: lines, false⟩ =
      ((List.range shape_size).foldl (fun st k => Function.update st k (f k)) shape,
        ⟨line :: lines, false⟩) := by
  unfold loadShape
  exact read_row (fun (t : Nat → α) i => t i) Function.update f (List.range shape_size) shape
    line lines

theorem loadPose_row (p q : MatX3 α) (i : Nat) (lines : Text α) :
    (List.finRange 3).foldl (fun (acc : MatX3 α × IStream α) j =>
        let r := acc.2.readDouble (acc.1 i j)
        (Function.update acc.1 i (Function.update (acc.1 i) j r.1), r.2.readString))
        (p, ⟨commaSeparated ((List.finRange 3).map (fun j => q i j)) :: lines, false⟩) =
      (Function.update p i (q i), ⟨[] :: lines, false⟩) := by
  have h := read_row (fun (t : MatX3 α) j => t i j)
    (fun (t : MatX3 α) j x => Function.update t i (Function.update (t i) j x))
    (fun j => q i j) (List.finRange 3) p [] lines
  rw [List.append_nil, update_row] at h
  exact h

theorem loadPose_row_after_blank (p q : MatX3 α) (i : Nat) (lines : Text α) :
    (List.finRange 3).foldl (fun (acc : MatX3 α × IStream α) j =>
        let r := acc.2.readDouble (acc.1 i j)
        (Function.update acc.1 i (Function.update (acc.1 i) j r.1), r.2.readString))
        (p, ⟨[] :: commaSeparated ((List.finRange 3).map (fun j => q i j)) :: lines, false⟩) =
      (Function.update p i (q i), ⟨[] :: lines, false⟩) := by
  have h := read_row_after_blank (fun (t : MatX3 α) j => t i j)
    (fun (t : MatX3 α) j x => Function.update t i (Function.update (t i) j x))
    (fun j => q i j) (List.finRange 3) (by rw [finRange_three]; exact List.cons_ne_nil _ _)
    p [] lines
  rw [List.append_nil, update_row] at h
  exact h

theorem loadPose_rows_after_blank (q : MatX3 α) (l : List Nat) (p : MatX3 α) (after : Text α) :
    l.foldl (fun (acc : MatX3 α × IStream α) i =>
        (List.finRange 3).foldl (fun (acc : MatX3 α × IStream α) j =>
          let r := acc.2.readDouble (acc.1 i j)
          (Function.update acc.1 i (Function.update (acc.1 i) j r.1), r.2.readString)) acc)
        (p, ⟨[] :: (l.map (fun i => commaSeparated ((List.finRange 3).map (fun j => q i j)))
          ++ after), false⟩) =
      (l.foldl (fun st i => Function.update st i (q i)) p, ⟨[] :: after, false⟩) := by
  induction l generalizing p with
  | nil => rfl
  | cons i l ih =>
    rw [List.foldl_cons, List.foldl_cons, List.map_cons, List.cons_append,
      loadPose_row_after_blank]
    exact ih _

theorem loadPose_rows (q : MatX3 α) (n : Nat) (hn : 0 < n) (p : MatX3 α) (after : Text α) :
    loadPose n p
        ⟨(List.range n).map (fun i => commaSeparated ((List.finRange 3).map (fun j => q i j)))
          ++ after, false⟩ =
      ((List.range n).foldl (fun st i => Function.update st i (q i)) p,
        ⟨[] :: after, false⟩) := by
  unfold loadPose
  generalize hl : List.range n = l
  cases l with
  | nil =>
    exfalso
    have := congrArg List.length hl
    simp at this
    omega
  | cons i l =>
    rw [List.foldl_cons, List.foldl_cons, List.map_cons, List.cons_append, loadPose_row]
    exact loadPose_rows_after_blank q l _ after

theorem loadParametersFromFile_snd (self : SMPLWrapper α) (M : Libm α)
    (file : Option (Text α)) :
    (self.loadParametersFromFile M file).2 = ((afterReading self file).calcModelCurrent M).2 := by
  unfold loadParametersFromFile afterReading
  dsimp only
  split
  · next heq => rw [heq]
  · next heq => rw [heq]

theorem loadParametersFromFile_state (self : SMPLWrapper α) (M : Libm α)
    (file : Option (Text α)) :
    (self.loadParametersFromFile M file).2.state_ = (afterReading self file).state_ := by
  rw [loadParametersFromFile_snd]
  exact (calcModel_frame _ M _ _ _ _).2

/-- Reading back the head of the file `logParameters` writes, whatever follows it. -/
theorem loadParametersFromFile_logParametersHead (self loader : SMPLWrapper α) (M : Libm α)
    (tail : Text α) (hJ : 0 < self.JOINTS_NUM) (hJ2 : loader.JOINTS_NUM = self.JOINTS_NUM)
    (hS : loader.SHAPE_SIZE = self.SHAPE_SIZE) :
    (loader.loadParametersFromFile M (some (self.logParametersHead ++ tail))).2.state_.translation
      = self.state_.translation ∧
    (∀ i, i < self.JOINTS_NUM →
      (loader.loadParametersFromFile M (some (self.logParametersHead ++ tail))).2.state_.pose i
        = self.state_.pose i) ∧
    (∀ i, i < self.SHAPE_SIZE →
      (loader.loadParametersFromFile M (some (self.logParametersHead ++ tail))).2.state_.shape i
        = self.state_.shape i) := by
  rw [loadParametersFromFile_state]
  unfold afterReading
  simp only [hJ2, hS]
  have e1 : ∀ rest : Text α,
      loadTranslation loader.state_.translation
        ⟨commaSeparated ((List.finRange 3).map (fun i => self.state_.translation i)) :: rest,
          false⟩ = (self.state_.translation, ⟨[] :: rest, false⟩) := by
    intro rest
    have h := loadTranslation_row loader.state_.translation self.state_.translation [] rest
    rw [List.append_nil] at h
    exact h
  have e3 : ∀ rest : Text α,
      loadShape self.SHAPE_SIZE loader.state_.shape
        ⟨commaSeparated ((List.range self.SHAPE_SIZE).map (fun i => self.state_.shape i)) :: rest,
          false⟩ =
        ((List.range self.SHAPE_SIZE).foldl
          (fun st k => Function.update st k (self.state_.shape k)) loader.state_.shape,
          ⟨[] :: rest, false⟩) := by
    intro rest
    have h := loadShape_row self.SHAPE_SIZE loader.state_.shape self.state_.shape [] rest
    rw [List.append_nil] at h
    exact h
  simp only [logParametersHead, IStream.open_, IStream.ignoreLine, List.cons_append,
    List.append_assoc, List.nil_append, List.singleton_append, Bool.false_eq_true, if_false,
    e1, loadPose_rows self.state_.pose self.JOINTS_NUM hJ, e3]
  refine ⟨trivial, ?_, ?_⟩
  · intro i hi
    rw [update_range, if_pos hi]
  · intro i hi
    rw [update_range, if_pos hi]

/-- C17: `loadParametersFromFile` applied to the text `logParameters` writes reproduces the
translation, the `JOINTS_NUM` pose rows and the `SHAPE_SIZE` shape values of the state that
was written (a number token reads back as the value printed), and it does so whatever text
follows the shape block in place of the joint-locations block.  (The reading object has the
same `JOINTS_NUM` and `SHAPE_SIZE`, and `JOINTS_NUM` is not zero.) -/
theorem C17_log_load_round_trip (self loader : SMPLWrapper α) (M : Libm α)
    (hJ : 0 < self.JOINTS_NUM) (hJ2 : loader.JOINTS_NUM = self.JOINTS_NUM)
    (hS : loader.SHAPE_SIZE = self.SHAPE_SIZE) :
    ((loader.loadParametersFromFile M (some (self.logParameters M).1)).2.state_.translation
        = self.state_.translation ∧
      (∀ i, i < self.JOINTS_NUM →
        (loader.loadParametersFromFile M (some (self.logParameters M).1)).2.state_.pose i
          = self.state_.pose i) ∧
      (∀ i, i < self.SHAPE_SIZE →
        (loader.loadParametersFromFile M (some (self.logParameters M).1)).2.state_.shape i
          = self.state_.shape i)) ∧
    ∀ tail : Text α,
      (loader.loadParametersFromFile M
          (some (self.logParametersHead ++ tail))).2.state_.translation
        = self.state_.translation ∧
      (∀ i, i < self.JOINTS_NUM →
        (loader.loadParametersFromFile M (some (self.logParametersHead ++ tail))).2.state_.pose i
          = self.state_.pose i) ∧
      (∀ i, i < self.SHAPE_SIZE →
        (loader.loadParametersFromFile M (some (self.logParametersHead ++ tail))).2.state_.shape i
          = self.state_.shape i) := by
  refine ⟨?_, fun tail =>
    loadParametersFromFile_logParametersHead self loader M tail hJ hJ2 hS⟩
  have h : ∃ tail, (self.logParameters M).1 = self.logParametersHead ++ tail := by
    unfold logParameters
    exact ⟨_, (List.append_assoc _ _ _).trans (List.append_assoc _ _ _)⟩
  obtain ⟨tail, ht⟩ := h
  rw [ht]
  exact loadParametersFromFile_logParametersHead self loader M tail hJ hJ2 hS

theorem C17_log_load_round_trip_witness :
    0 < (shiftedBody ℚ).JOINTS_NUM ∧
    (smallBody ℚ).JOINTS_NUM = (shiftedBody ℚ).JOINTS_NUM ∧
    (smallBody ℚ).SHAPE_SIZE = (shiftedBody ℚ).SHAPE_SIZE ∧
    ((smallBody ℚ).loadParametersFromFile ratLibm
      (some ((shiftedBody ℚ).logParameters ratLibm).1)).2.state_.translation = ![1, 0, 0] :=
  ⟨by decide, rfl, rfl,
    (C17_log_load_round_trip (shiftedBody ℚ) (smallBody ℚ) ratLibm (by decide) rfl rfl).1.1⟩

/-! ### Vectors, angles and rotations over the real numbers -/

theorem dot_self_nonneg (v : Vec3 α) : 0 ≤ Eigen.dot v v := by
  unfold Eigen.dot
  nlinarith [mul_self_nonneg (v 0), mul_self_nonneg (v 1), mul_self_nonneg (v 2)]

theorem dot_self_eq_zero (v : Vec3 α) (h : Eigen.dot v v = 0) : v = 0 := by
  unfold Eigen.dot at h
  have h0 : v 0 = 0 := by
    nlinarith [mul_self_nonneg (v 0), mul_self_nonneg (v 1), mul_self_nonneg (v 2)]
  have h1 : v 1 = 0 := by
    nlinarith [mul_self_nonneg (v 0), mul_self_nonneg (v 1), mul_self_nonneg (v 2)]
  have h2 : v 2 = 0 := by
    nlinarith [mul_self_nonneg (v 0), mul_self_nonneg (v 1), mul_self_nonneg (v 2)]
  funext i
  fin_cases i
  · exact h0
  · exact h1
  · exact h2

theorem dot_self_pos (v : Vec3 α) (h : v ≠ 0) : 0 < Eigen.dot v v :=
  lt_of_le_of_ne (dot_self_nonneg v) (fun h0 => h (dot_self_eq_zero v h0.symm))

theorem lagrange_identity (a b : Vec3 α) :
    Eigen.dot (Eigen.cross a b) (Eigen.cross a b) =
      Eigen.dot a a * Eigen.dot b b - Eigen.dot a b * Eigen.dot a b := by
  simp [Eigen.dot, Eigen.cross]
  ring

theorem realLibm_norm (v : Vec3 ℝ) : Eigen.norm realLibm v = Real.sqrt (Eigen.dot v v) := rfl

theorem realLibm_norm_mul_self (v : Vec3 ℝ) :
    Eigen.norm realLibm v * Eigen.norm realLibm v = Eigen.dot v v :=
  Real.mul_self_sqrt (dot_self_nonneg v)

theorem realLibm_norm_nonneg (v : Vec3 ℝ) : 0 ≤ Eigen.norm realLibm v := Real.sqrt_nonneg _

theorem realLibm_norm_pos (v : Vec3 ℝ) (h : v ≠ 0) : 0 < Eigen.norm realLibm v :=
  Real.sqrt_pos.mpr (dot_self_pos v h)

theorem realLibm_norm_zero : Eigen.norm realLibm (0 : Vec3 ℝ) = 0 := by
  rw [realLibm_norm]
  simp [Eigen.dot]

theorem realLibm_atan2_cos_sin (x y : ℝ) (h : x * x + y * y = 1) :
    Real.cos (realLibm.atan2 y x) = x ∧ Real.sin (realLibm.atan2 y x) = y := by
  have habs : Complex.abs ⟨x, y⟩ = 1 := by
    rw [Complex.abs_apply, Complex.normSq_mk, h, Real.sqrt_one]
  have hne : (⟨x, y⟩ : ℂ) ≠ 0 := by
    intro h0
    rw [h0] at habs
    simp at habs
  constructor
  · show Real.cos (Complex.arg ⟨x, y⟩) = x
    rw [Complex.cos_arg hne, habs, div_one]
  · show Real.sin (Complex.arg ⟨x, y⟩) = y
    rw [Complex.sin_arg, habs, div_one]

theorem realLibm_atan2_range (x y : ℝ) (hy : 0 ≤ y) :
    0 ≤ realLibm.atan2 y x ∧ realLibm.atan2 y x ≤ Real.pi :=
  ⟨Complex.arg_nonneg_iff.mpr hy, Complex.arg_le_pi _⟩

theorem realLibm_normalized (c : Vec3 ℝ) (hc : c ≠ 0) :
    Eigen.normalized realLibm c = (fun i => c i / Eigen.norm realLibm c) ∧
    Eigen.dot (Eigen.normalized realLibm c) (Eigen.normalized realLibm c) = 1 := by
  have hpos := dot_self_pos c hc
  have hN := realLibm_norm_pos c hc
  have h1 : Eigen.normalized realLibm c = (fun i => c i / Eigen.norm realLibm c) := by
    unfold Eigen.normalized
    rw [if_pos hpos]
    rfl
  refine ⟨h1, ?_⟩
  rw [h1]
  have h2 := realLibm_norm_mul_self c
  simp only [Eigen.dot] at h2 ⊢
  field_simp
  linarith

theorem realLibm_normalized_zero : Eigen.normalized realLibm (0 : Vec3 ℝ) = 0 := by
  unfold Eigen.normalized
  rw [if_neg]
  simp [Eigen.dot]

theorem realLibm_norm_smul (θ : ℝ) (n : Vec3 ℝ) (hθ : 0 ≤ θ) (hn : Eigen.dot n n = 1) :
    Eigen.norm realLibm (fun i => θ * n i) = θ := by
  have h : Eigen.dot (fun i => θ * n i) (fun i => θ * n i) = θ * θ := by
    have : Eigen.dot (fun i => θ * n i) (fun i => θ * n i) = θ * θ * Eigen.dot n n := by
      simp only [Eigen.dot]
      ring
    rw [this, hn, mul_one]
  rw [realLibm_norm, h]
  exact Real.sqrt_mul_self hθ

theorem realLibm_normalized_smul (θ : ℝ) (n : Vec3 ℝ) (hθ : 0 < θ) (hn : Eigen.dot n n = 1) :
    Eigen.normalized realLibm (fun i => θ * n i) = n := by
  have hne : (fun i => θ * n i) ≠ (0 : Vec3 ℝ) := by
    intro h0
    have h1 := realLibm_norm_smul θ n hθ.le hn
    rw [h0, realLibm_norm_zero] at h1
    exact hθ.ne h1
  rw [(realLibm_normalized _ hne).1, realLibm_norm_smul θ n hθ.le hn]
  funext i
  field_simp

/-- Rodrigues' formula as `rotate_by_angle_axis_` evaluates it for the vector `θ n`, `n` a
unit vector and `θ > 0`. -/
theorem rotate_by_angle_axis_unit (v n : Vec3 ℝ) (θ : ℝ) (hθ : 0 < θ)
    (hn : Eigen.dot n n = 1) :
    rotate_by_angle_axis_ realLibm v (fun i => θ * n i) =
      fun i => Real.cos θ * v i + Real.sin θ * Eigen.cross n v i
        + (1 - Real.cos θ) * Eigen.dot n v * n i := by
  unfold rotate_by_angle_axis_
  simp only [realLibm_norm_smul θ n hθ.le hn, realLibm_normalized_smul θ n hθ hn]
  rfl

theorem rotate_by_angle_axis_zero (v : Vec3 ℝ) : rotate_by_angle_axis_ realLibm v 0 = v := by
  unfold rotate_by_angle_axis_
  simp only [realLibm_norm_zero, realLibm_normalized_zero]
  funext i
  show Real.cos 0 * v i + Real.sin 0 * Eigen.cross 0 v i
    + (1 - Real.cos 0) * Eigen.dot 0 v * (0 : Vec3 ℝ) i = v i
  simp

theorem angle_axis_of_ne_zero (f t : Vec3 ℝ) (hf : f ≠ 0) (ht : t ≠ 0) :
    angle_axis_ realLibm f t = fun i =>
      realLibm.atan2
        (Eigen.norm realLibm (Eigen.cross f t) / (Eigen.norm realLibm f * Eigen.norm realLibm t))
        (Eigen.dot f t / (Eigen.norm realLibm f * Eigen.norm realLibm t))
      * Eigen.normalized realLibm (Eigen.cross f t) i := by
  unfold angle_axis_
  rw [if_pos (mul_pos (realLibm_norm_pos f hf) (realLibm_norm_pos t ht))]

theorem angle_axis_zero_left (t : Vec3 ℝ) : angle_axis_ realLibm 0 t = 0 := by
  unfold angle_axis_
  rw [realLibm_norm_zero, zero_mul, if_neg (lt_irrefl _)]
  funext i
  fin_cases i <;> rfl

theorem angle_axis_zero_right (f : Vec3 ℝ) : angle_axis_ realLibm f 0 = 0 := by
  unfold angle_axis_
  rw [realLibm_norm_zero, mul_zero, if_neg (lt_irrefl _)]
  funext i
  fin_cases i <;> rfl

theorem angle_axis_cos_sin (f t : Vec3 ℝ) (hf : f ≠ 0) (ht : t ≠ 0) :
    Real.cos (realLibm.atan2
        (Eigen.norm realLibm (Eigen.cross f t) / (Eigen.norm realLibm f * Eigen.norm realLibm t))
        (Eigen.dot f t / (Eigen.norm realLibm f * Eigen.norm realLibm t))) =
      Eigen.dot f t / (Eigen.norm realLibm f * Eigen.norm realLibm t) ∧
    Real.sin (realLibm.atan2
        (Eigen.norm realLibm (Eigen.cross f t) / (Eigen.norm realLibm f * Eigen.norm realLibm t))
        (Eigen.dot f t / (Eigen.norm realLibm f * Eigen.norm realLibm t))) =
      Eigen.norm realLibm (Eigen.cross f t) /
        (Eigen.norm realLibm f * Eigen.norm realLibm t) := by
  apply realLibm_atan2_cos_sin
  have hF := realLibm_norm_pos f hf
  have hT := realLibm_norm_pos t ht
  have h1 := realLibm_norm_mul_self f
  have h2 := realLibm_norm_mul_self t
  have h3 := realLibm_norm_mul_self (Eigen.cross f t)
  have h4 := lagrange_identity f t
  field_simp
  nlinarith [h1, h2, h3, h4]

theorem cross_cross_self (f t : Vec3 α) (i : Fin 3) :
    Eigen.cross (Eigen.cross f t) f i = t i * Eigen.dot f f - f i * Eigen.dot f t := by
  fin_cases i <;> simp [Eigen.cross, Eigen.dot] <;> ring

theorem dot_cross_self (f t : Vec3 α) : Eigen.dot (Eigen.cross f t) f = 0 := by
  simp [Eigen.cross, Eigen.dot]
  ring

theorem parallel_of_cross_eq_zero (f t : Vec3 α) (h : Eigen.cross f t = 0) (i : Fin 3) :
    f i * Eigen.dot t t = t i * Eigen.dot f t := by
  have h0 : f 1 * t 2 - f 2 * t 1 = 0 := congrFun h 0
  have h1 : f 2 * t 0 - f 0 * t 2 = 0 := congrFun h 1
  have h2 : f 0 * t 1 - f 1 * t 0 = 0 := congrFun h 2
  fin_cases i
  · show f 0 * Eigen.dot t t = t 0 * Eigen.dot f t
    simp only [Eigen.dot]
    linear_combination t 1 * h2 - t 2 * h1
  · show f 1 * Eigen.dot t t = t 1 * Eigen.dot f t
    simp only [Eigen.dot]
    linear_combination t 2 * h0 - t 0 * h2
  · show f 2 * Eigen.dot t t = t 2 * Eigen.dot f t
    simp only [Eigen.dot]
    linear_combination t 0 * h1 - t 1 * h0

/-- Rotating `f` by `angle_axis_(f, t)` gives the vector of the length of `f` in the direction
of `t`, unless `f` and `t` are anti-parallel. -/
theorem rotate_by_angle_axis_angle_axis (f t : Vec3 ℝ) (hf : f ≠ 0) (ht : t ≠ 0)
    (hanti : ¬ (Eigen.cross f t = 0 ∧ Eigen.dot f t < 0)) :
    rotate_by_angle_axis_ realLibm f (angle_axis_ realLibm f t) =
      fun i => Eigen.norm realLibm f / Eigen.norm realLibm t * t i := by
  have hF := realLibm_norm_pos f hf
  have hT := realLibm_norm_pos t ht
  have hFF := realLibm_norm_mul_self f
  have hTT := realLibm_norm_mul_self t
  obtain ⟨hcos, hsin⟩ := angle_axis_cos_sin f t hf ht
  have hrange := realLibm_atan2_range
    (Eigen.dot f t / (Eigen.norm realLibm f * Eigen.norm realLibm t))
    (Eigen.norm realLibm (Eigen.cross f t) / (Eigen.norm realLibm f * Eigen.norm realLibm t))
    (div_nonneg (realLibm_norm_nonneg _) (mul_pos hF hT).le)
  rw [angle_axis_of_ne_zero f t hf ht]
  generalize realLibm.atan2
    (Eigen.norm realLibm (Eigen.cross f t) / (Eigen.norm realLibm f * Eigen.norm realLibm t))
    (Eigen.dot f t / (Eigen.norm realLibm f * Eigen.norm realLibm t)) = θ at hcos hsin hrange
  by_cases hc : Eigen.cross f t = 0
  · have hdot : 0 ≤ Eigen.dot f t := not_lt.mp (fun h => hanti ⟨hc, h⟩)
    have hlag := lagrange_identity f t
    rw [hc] at hlag
    have hz : Eigen.dot (0 : Vec3 ℝ) 0 = 0 := by simp [Eigen.dot]
    rw [hz] at hlag
    have hdot2 : Eigen.dot f t = Eigen.norm realLibm f * Eigen.norm realLibm t := by
      have h1 : Eigen.dot f t * Eigen.dot f t =
          (Eigen.norm realLibm f * Eigen.norm realLibm t) *
            (Eigen.norm realLibm f * Eigen.norm realLibm t) := by
        nlinarith [hFF, hTT, hlag]
      exact (mul_self_eq_mul_self_iff.mp h1).resolve_right (by
        intro h2
        nlinarith [mul_pos hF hT])
    rw [hc, realLibm_normalized_zero]
    have hzero : (fun i => θ * (0 : Vec3 ℝ) i) = 0 := by
      funext i
      simp
    rw [hzero, rotate_by_angle_axis_zero]
    funext i
    have hp := parallel_of_cross_eq_zero f t hc i
    rw [hdot2, ← hTT] at hp
    field_simp
    nlinarith [hp, hF, hT]
  · have hN := realLibm_norm_pos _ hc
    have hNN := realLibm_norm_mul_self (Eigen.cross f t)
    obtain ⟨hn1, hn2⟩ := realLibm_normalized _ hc
    have hθ : 0 < θ := by
      rcases hrange.1.lt_or_eq with h | h
      · exact h
      · exfalso
        rw [← h, Real.sin_zero] at hsin
        have : 0 < Eigen.norm realLibm (Eigen.cross f t) /
            (Eigen.norm realLibm f * Eigen.norm realLibm t) := div_pos hN (mul_pos hF hT)
        linarith
    rw [rotate_by_angle_axis_unit f _ θ hθ hn2, hcos, hsin, hn1]
    funext i
    have h1 : Eigen.dot (fun i => Eigen.cross f t i / Eigen.norm realLibm (Eigen.cross f t)) f
        = 0 := by
      have := dot_cross_self f t
      simp only [Eigen.dot] at this ⊢
      field_simp
      linarith
    have h2 : Eigen.cross (fun i => Eigen.cross f t i / Eigen.norm realLibm (Eigen.cross f t)) f i
        = (t i * Eigen.dot f f - f i * Eigen.dot f t) / Eigen.norm realLibm (Eigen.cross f t) := by
      rw [← cross_cross_self f t i]
      fin_cases i <;> simp [Eigen.cross] <;> ring
    rw [h1, h2, ← hFF]
    field_simp
    ring

/-- C12: over the real numbers, for non-zero vectors `from` and `to` that are not
anti-parallel, `angle_axis_(from, to)` is `angle * axis`, where
`angle = atan2(|from x to| / (|from||to|), from . to / (|from||to|))` lies in `[0, pi]` and has
the cosine `from . to / (|from||to|)` and the sine `|from x to| / (|from||to|)`, and
`axis = (from x to) / |from x to|` (the result is the zero vector when `from x to = 0`);
`rotate_by_angle_axis_` applied to `from` and that vector returns `(|from| / |to|) * to`; and
`angle_axis_` returns the zero vector when either input is the zero vector. -/
theorem C12_angle_axis_rotates_from_to (f t : Vec3 ℝ) (hf : f ≠ 0) (ht : t ≠ 0)
    (hanti : ¬ (Eigen.cross f t = 0 ∧ Eigen.dot f t < 0)) :
    angle_axis_ realLibm f t =
      (fun i => angleBetween realLibm f t * Eigen.normalized realLibm (Eigen.cross f t) i) ∧
    0 ≤ angleBetween realLibm f t ∧ angleBetween realLibm f t ≤ Real.pi ∧
    Real.cos (angleBetween realLibm f t) =
      Eigen.dot f t / (Eigen.norm realLibm f * Eigen.norm realLibm t) ∧
    Real.sin (angleBetween realLibm f t) =
      Eigen.norm realLibm (Eigen.cross f t) / (Eigen.norm realLibm f * Eigen.norm realLibm t) ∧
    (Eigen.cross f t ≠ 0 → Eigen.normalized realLibm (Eigen.cross f t) =
      fun i => Eigen.cross f t i / Eigen.norm realLibm (Eigen.cross f t)) ∧
    (Eigen.cross f t = 0 → angle_axis_ realLibm f t = 0) ∧
    rotate_by_angle_axis_ realLibm f (angle_axis_ realLibm f t) =
      (fun i => Eigen.norm realLibm f / Eigen.norm realLibm t * t i) ∧
    ∀ v : Vec3 ℝ, angle_axis_ realLibm 0 v = 0 ∧ angle_axis_ realLibm v 0 = 0 := by
  have hA := angle_axis_of_ne_zero f t hf ht
  refine ⟨hA,
    (realLibm_atan2_range _ _ (div_nonneg (realLibm_norm_nonneg _)
      (mul_pos (realLibm_norm_pos f hf) (realLibm_norm_pos t ht)).le)).1,
    (realLibm_atan2_range _ _ (div_nonneg (realLibm_norm_nonneg _)
      (mul_pos (realLibm_norm_pos f hf) (realLibm_norm_pos t ht)).le)).2,
    (angle_axis_cos_sin f t hf ht).1, (angle_axis_cos_sin f t hf ht).2,
    fun hc => (realLibm_normalized _ hc).1, ?_,
    rotate_by_angle_axis_angle_axis f t hf ht hanti,
    fun v => ⟨angle_axis_zero_left v, angle_axis_zero_right v⟩⟩
  intro hc
  rw [hA, hc, realLibm_normalized_zero]
  funext i
  simp

theorem C12_angle_axis_rotates_from_to_witness :
    (![1, 0, 0] : Vec3 ℝ) ≠ 0 ∧ (![0, 1, 0] : Vec3 ℝ) ≠ 0 ∧
    ¬ (Eigen.cross (![1, 0, 0] : Vec3 ℝ) ![0, 1, 0] = 0 ∧
      Eigen.dot (![1, 0, 0] : Vec3 ℝ) ![0, 1, 0] < 0) ∧
    rotate_by_angle_axis_ realLibm ![1, 0, 0] (angle_axis_ realLibm ![1, 0, 0] ![0, 1, 0]) =
      (fun i => Eigen.norm realLibm ![1, 0, 0] / Eigen.norm realLibm ![0, 1, 0]
        * (![0, 1, 0] : Vec3 ℝ) i) :=
  have hf : (![1, 0, 0] : Vec3 ℝ) ≠ 0 := fun h => one_ne_zero (congrFun h 0)
  have ht : (![0, 1, 0] : Vec3 ℝ) ≠ 0 := fun h => one_ne_zero (congrFun h 1)
  have hanti : ¬ (Eigen.cross (![1, 0, 0] : Vec3 ℝ) ![0, 1, 0] = 0 ∧
      Eigen.dot (![1, 0, 0] : Vec3 ℝ) ![0, 1, 0] < 0) := by
    intro h
    have := h.2
    simp [Eigen.dot] at this
  ⟨hf, ht, hanti,
    (C12_angle_axis_rotates_from_to ![1, 0, 0] ![0, 1, 0] hf ht hanti).2.2.2.2.2.2.2.1⟩

/-! ### The composition of two rotations at a concrete input -/

theorem realLibm_atan2_pos_zero (a : ℝ) (ha : 0 < a) : realLibm.atan2 a 0 = Real.pi / 2 :=
  Complex.arg_eq_pi_div_two_iff.mpr ⟨rfl, ha⟩

theorem realLibm_atan2_zero_neg (a : ℝ) (ha : a < 0) : realLibm.atan2 0 a = Real.pi :=
  Complex.arg_eq_pi_iff.mpr ⟨ha, rfl⟩

theorem realLibm_cos : realLibm.cos = Real.cos := rfl

theorem realLibm_sin : realLibm.sin = Real.sin := rfl

theorem quarterTurn_eq :
    (![0, 0, -(Real.pi / 2)] : Vec3 ℝ) = fun i => Real.pi / 2 * (![0, 0, -1] : Vec3 ℝ) i := by
  funext i
  fin_cases i <;> simp

theorem halfTurn_eq :
    (![Real.pi, 0, 0] : Vec3 ℝ) = fun i => Real.pi * (![1, 0, 0] : Vec3 ℝ) i := by
  funext i
  fin_cases i <;> simp

theorem unit_z_neg : Eigen.dot (![0, 0, -1] : Vec3 ℝ) ![0, 0, -1] = 1 := by
  simp [Eigen.dot]

theorem unit_x : Eigen.dot (![1, 0, 0] : Vec3 ℝ) ![1, 0, 0] = 1 := by
  simp [Eigen.dot]

/-- The unit vector along `(1, pi^2 / 2, 0)`. -/
theorem skewedAxis_unit :
    Eigen.dot (fun i => (![1, Real.pi ^ 2 / 2, 0] : Vec3 ℝ) i / Real.sqrt (1 + (Real.pi ^ 2 / 2) ^ 2))
      (fun i => (![1, Real.pi ^ 2 / 2, 0] : Vec3 ℝ) i / Real.sqrt (1 + (Real.pi ^ 2 / 2) ^ 2))
      = 1 := by
  have hpos : (0 : ℝ) < 1 + (Real.pi ^ 2 / 2) ^ 2 := by positivity
  have hs := Real.mul_self_sqrt hpos.le
  have hs0 : Real.sqrt (1 + (Real.pi ^ 2 / 2) ^ 2) ≠ 0 := (Real.sqrt_pos.mpr hpos).ne.symm
  simp only [Eigen.dot]
  simp
  field_simp
  nlinarith [hs]

/-- The value `combine_two_angle_axis_` returns for the quarter turn about `-z` followed by
the half turn about `x`: the half turn about the unit vector along `(1, pi^2 / 2, 0)`. -/
theorem combine_quarterTurn_halfTurn :
    combine_two_angle_axis_ realLibm ![0, 0, -(Real.pi / 2)] ![Real.pi, 0, 0] =
      fun i => Real.pi *
        ((![1, Real.pi ^ 2 / 2, 0] : Vec3 ℝ) i / Real.sqrt (1 + (Real.pi ^ 2 / 2) ^ 2)) := by
  have hpos : (0 : ℝ) < 1 + (Real.pi ^ 2 / 2) ^ 2 := by positivity
  have hs := Real.sqrt_pos.mpr hpos
  have hcross : Eigen.cross (![Real.pi, 0, 0] : Vec3 ℝ) ![0, 0, -(Real.pi / 2)] =
      ![0, Real.pi ^ 2 / 2, 0] := by
    funext i
    fin_cases i <;> simp [Eigen.cross]
    ring
  have hdot : Eigen.dot (![0, 0, -1] : Vec3 ℝ) ![1, 0, 0] = 0 := by simp [Eigen.dot]
  have h4 : Real.pi / 2 / 2 = Real.pi / 4 := by ring
  have hscaled : (fun i =>
      Real.cos (Real.pi / 2 / 2) * Real.sin (Real.pi / 2) * (![1, 0, 0] : Vec3 ℝ) i
      + Real.sin (Real.pi / 2 / 2) * Real.cos (Real.pi / 2) * (![0, 0, -1] : Vec3 ℝ) i
      + Real.sin (Real.pi / 2 / 2) * Real.sin (Real.pi / 2) *
        Eigen.cross (![Real.pi, 0, 0] : Vec3 ℝ) ![0, 0, -(Real.pi / 2)] i) =
      fun i => (Real.sqrt 2 / 2 * Real.sqrt (1 + (Real.pi ^ 2 / 2) ^ 2)) *
        ((![1, Real.pi ^ 2 / 2, 0] : Vec3 ℝ) i / Real.sqrt (1 + (Real.pi ^ 2 / 2) ^ 2)) := by
    rw [hcross, h4, Real.cos_pi_div_four, Real.sin_pi_div_four, Real.sin_pi_div_two,
      Real.cos_pi_div_two]
    funext i
    fin_cases i <;> simp <;> field_simp <;> ring
  have hA : 0 < Real.sqrt 2 / 2 * Real.sqrt (1 + (Real.pi ^ 2 / 2) ^ 2) := by positivity
  unfold combine_two_angle_axis_
  simp only [quarterTurn_eq, halfTurn_eq] at hscaled ⊢
  simp only [realLibm_norm_smul _ _ (by positivity : (0 : ℝ) ≤ Real.pi / 2) unit_z_neg,
    realLibm_norm_smul _ _ Real.pi_pos.le unit_x,
    realLibm_normalized_smul _ _ (by positivity : (0 : ℝ) < Real.pi / 2) unit_z_neg,
    realLibm_normalized_smul _ _ Real.pi_pos unit_x]
  simp only [realLibm_cos, realLibm_sin]
  rw [hscaled, realLibm_norm_smul _ _ hA.le skewedAxis_unit,
    realLibm_normalized_smul _ _ hA skewedAxis_unit, hdot, Real.cos_pi_div_two, mul_zero,
    zero_mul, zero_mul, sub_zero, realLibm_atan2_pos_zero _ hA]
  funext i
  ring

/-- The vector `(0, 1, 0)` rotated by the half turn about the unit vector along
`(1, pi^2 / 2, 0)`: its first coordinate is `pi^2 / (1 + (pi^2 / 2)^2)`, which is not `1`. -/
theorem rotate_by_skewed_halfTurn :
    rotate_by_angle_axis_ realLibm ![0, 1, 0]
        (fun i => Real.pi *
          ((![1, Real.pi ^ 2 / 2, 0] : Vec3 ℝ) i / Real.sqrt (1 + (Real.pi ^ 2 / 2) ^ 2))) 0 =
      Real.pi ^ 2 / (1 + (Real.pi ^ 2 / 2) ^ 2) ∧
    Real.pi ^ 2 / (1 + (Real.pi ^ 2 / 2) ^ 2) ≠ 1 := by
  have hpos : (0 : ℝ) < 1 + (Real.pi ^ 2 / 2) ^ 2 := by positivity
  have hs := Real.mul_self_sqrt hpos.le
  have hs0 : Real.sqrt (1 + (Real.pi ^ 2 / 2) ^ 2) ≠ 0 := (Real.sqrt_pos.mpr hpos).ne.symm
  constructor
  · rw [rotate_by_angle_axis_unit _ _ Real.pi Real.pi_pos skewedAxis_unit]
    simp only [Real.cos_pi, Real.sin_pi, Eigen.dot]
    simp
    field_simp
    nlinarith [hs]
  · intro h
    rw [div_eq_one_iff_eq hpos.ne.symm] at h
    have h2 : (Real.pi ^ 2 / 2 - 1) ^ 2 = 0 := by linear_combination -h
    have h3 : Real.pi ^ 2 / 2 - 1 = 0 := pow_eq_zero_iff (two_ne_zero) |>.mp h2
    nlinarith [Real.pi_gt_three]

/-- The quarter turn about `-z` takes `(0, 1, 0)` to `(1, 0, 0)` and `(1, 0, 0)` to
`(0, -1, 0)`. -/
theorem rotate_by_quarterTurn :
    rotate_by_angle_axis_ realLibm ![0, 1, 0] ![0, 0, -(Real.pi / 2)] = ![1, 0, 0] ∧
    rotate_by_angle_axis_ realLibm ![1, 0, 0] ![0, 0, -(Real.pi / 2)] = ![0, -1, 0] := by
  rw [quarterTurn_eq,
    rotate_by_angle_axis_unit _ _ (Real.pi / 2) (by positivity) unit_z_neg,
    rotate_by_angle_axis_unit _ _ (Real.pi / 2) (by positivity) unit_z_neg]
  constructor <;> funext i <;> fin_cases i <;>
    simp [Real.cos_pi_div_two, Real.sin_pi_div_two, Eigen.dot, Eigen.cross]

/-- The half turn about `x` leaves `(1, 0, 0)` where it is. -/
theorem rotate_by_halfTurn :
    rotate_by_angle_axis_ realLibm ![1, 0, 0] ![Real.pi, 0, 0] = ![1, 0, 0] := by
  rw [halfTurn_eq, rotate_by_angle_axis_unit _ _ Real.pi Real.pi_pos unit_x]
  funext i
  fin_cases i <;> simp [Real.cos_pi, Real.sin_pi, Eigen.dot, Eigen.cross]

/-- The call `rotateRoot` succeeds and leaves `rootRotation` in the pose row of the root. -/
theorem rotateRoot_ok (self : SMPLWrapper α) (M : Libm α) (body_up body_left_to_right : Vec3 α)
    (hnum : self.use_pose_blendshapes_ = true →
      (self.JOINTS_NUM - 1) * 9 ≤ self.POSE_BLENDSHAPES_NUM) :
    ∃ s : SMPLWrapper α,
      self.rotateRoot M body_up body_left_to_right = (Except.ok (), s) ∧
      s.state_.pose 0 = rootRotation M body_up body_left_to_right := by
  unfold rotateRoot
  dsimp only
  generalize hA : self.assignJointGlobalRotation_ 0 _ self.fk_transforms_ = A
  have hp : A.state_.pose 0 = rootRotation M body_up body_left_to_right := by
    rw [← hA]
    simp [assignJointGlobalRotation_, rootRotation]
  have hnumA : A.use_pose_blendshapes_ = true →
      (A.JOINTS_NUM - 1) * 9 ≤ A.POSE_BLENDSHAPES_NUM := by
    rw [← hA]
    exact hnum
  obtain ⟨verts, hv⟩ := calcModel_ok A M hnumA (some A.state_.translation)
    (some A.state_.pose) (some A.state_.shape) (some A.state_.displacements)
  have hF := (calcModel_frame A M (some A.state_.translation)
    (some A.state_.pose) (some A.state_.shape) (some A.state_.displacements)).2
  rw [show A.calcModelCurrent M = (Except.ok verts, (A.calcModelCurrent M).2) from
    Prod.ext hv rfl]
  refine ⟨_, rfl, ?_⟩
  show (A.calcModelCurrent M).2.state_.pose 0 = _
  unfold calcModelCurrent
  rw [hF, hp]

theorem unit_y_norm : Eigen.norm realLibm ![0, 1, 0] = 1 := by
  rw [realLibm_norm]
  simp [Eigen.dot]

theorem unit_x_norm : Eigen.norm realLibm ![1, 0, 0] = 1 := by
  rw [realLibm_norm]
  simp [Eigen.dot]

theorem angle_axis_y_to_x :
    angle_axis_ realLibm ![0, 1, 0] ![1, 0, 0] = ![0, 0, -(Real.pi / 2)] := by
  have hf : (![0, 1, 0] : Vec3 ℝ) ≠ 0 := fun h => one_ne_zero (congrFun h 1)
  have ht : (![1, 0, 0] : Vec3 ℝ) ≠ 0 := fun h => one_ne_zero (congrFun h 0)
  have hc : Eigen.cross (![0, 1, 0] : Vec3 ℝ) ![1, 0, 0] = fun i => 1 * (![0, 0, -1] : Vec3 ℝ) i := by
    funext i
    fin_cases i <;> simp [Eigen.cross]
  have hd : Eigen.dot (![0, 1, 0] : Vec3 ℝ) ![1, 0, 0] = 0 := by simp [Eigen.dot]
  rw [angle_axis_of_ne_zero _ _ hf ht, hc, realLibm_norm_smul 1 _ zero_le_one unit_z_neg,
    realLibm_normalized_smul 1 _ zero_lt_one unit_z_neg, hd, unit_y_norm, unit_x_norm, mul_one,
    div_one, zero_div, realLibm_atan2_pos_zero 1 zero_lt_one]
  funext i
  fin_cases i <;> simp

/-- The root rotation `rotateRoot` computes for `body_up = (1, 0, 0)` and
`body_left_to_right = (0, 1, 0)`. -/
theorem rootRotation_example :
    rootRotation realLibm ![1, 0, 0] ![0, 1, 0] =
      fun i => Real.pi *
        ((![1, Real.pi ^ 2 / 2, 0] : Vec3 ℝ) i / Real.sqrt (1 + (Real.pi ^ 2 / 2) ^ 2)) := by
  have hproj : (fun i => (![0, 1, 0] : Vec3 ℝ) i
      - Eigen.dot (![0, 1, 0] : Vec3 ℝ) ![1, 0, 0] * (![1, 0, 0] : Vec3 ℝ) i) = ![0, 1, 0] := by
    funext i
    fin_cases i <;> simp [Eigen.dot]
  have hcp : Eigen.cross (![0, -1, 0] : Vec3 ℝ) ![0, 1, 0] = 0 := by
    funext i
    fin_cases i <;> simp [Eigen.cross]
  have hd0 : Eigen.dot (0 : Vec3 ℝ) ![1, 0, 0] = 0 := by simp [Eigen.dot]
  have hd1 : Eigen.dot (![0, -1, 0] : Vec3 ℝ) ![0, 1, 0] = -1 := by simp [Eigen.dot]
  have hhips : (fun i => Real.pi * (![1, 0, 0] : Vec3 ℝ) i) = ![Real.pi, 0, 0] := halfTurn_eq.symm
  unfold rootRotation
  simp only [angle_axis_y_to_x, rotate_by_quarterTurn.1, rotate_by_quarterTurn.2, hproj, hcp,
    hd0, hd1, realLibm_norm_zero, ge_iff_le, le_refl, if_true, mul_zero,
    realLibm_atan2_zero_neg (-1) (by norm_num), hhips]
  exact combine_quarterTurn_halfTurn

/-- C13: `rotateRoot` does not always map the default up axis onto `body_up`.  For
`body_up = (1, 0, 0)` and `body_left_to_right = (0, 1, 0)` the call succeeds on `smallBody`,
and the root pose it assigns, applied to `(0, 1, 0)` by `rotate_by_angle_axis_`, gives a
vector with the first coordinate `pi^2 / (1 + (pi^2 / 2)^2)`, which is not the first coordinate
`1` of `body_up / |body_up| = (1, 0, 0)`. -/
theorem C13_rotateRoot_misses_body_up :
    ∃ s : SMPLWrapper ℝ,
      (smallBody ℝ).rotateRoot realLibm ![1, 0, 0] ![0, 1, 0] = (Except.ok (), s) ∧
      rotate_by_angle_axis_ realLibm ![0, 1, 0] (s.state_.pose 0) 0 =
        Real.pi ^ 2 / (1 + (Real.pi ^ 2 / 2) ^ 2) ∧
      rotate_by_angle_axis_ realLibm ![0, 1, 0] (s.state_.pose 0) ≠ ![1, 0, 0] := by
  obtain ⟨s, hs, hp⟩ := rotateRoot_ok (smallBody ℝ) realLibm ![1, 0, 0] ![0, 1, 0]
    (fun _ => by decide)
  rw [rootRotation_example] at hp
  refine ⟨s, hs, ?_, ?_⟩
  · rw [hp]
    exact rotate_by_skewed_halfTurn.1
  · rw [hp]
    intro h
    have h0 := congrFun h 0
    rw [rotate_by_skewed_halfTurn.1] at h0
    exact rotate_by_skewed_halfTurn.2 h0

/-- C14: `combine_two_angle_axis_` is not the composition of the two rotations.  For
`first = (0, 0, -pi/2)` and `second = (pi, 0, 0)`, rotating `(0, 1, 0)` by `first` and then by
`second` gives `(1, 0, 0)`, while rotating it by `combine_two_angle_axis_(first, second)` gives
a vector with the first coordinate `pi^2 / (1 + (pi^2 / 2)^2)`, which is not `1`. -/
theorem C14_combine_is_not_composition :
    rotate_by_angle_axis_ realLibm
        (rotate_by_angle_axis_ realLibm ![0, 1, 0] ![0, 0, -(Real.pi / 2)]) ![Real.pi, 0, 0] =
      ![1, 0, 0] ∧
    rotate_by_angle_axis_ realLibm ![0, 1, 0]
        (combine_two_angle_axis_ realLibm ![0, 0, -(Real.pi / 2)] ![Real.pi, 0, 0]) 0 =
      Real.pi ^ 2 / (1 + (Real.pi ^ 2 / 2) ^ 2) ∧
    rotate_by_angle_axis_ realLibm ![0, 1, 0]
        (combine_two_angle_axis_ realLibm ![0, 0, -(Real.pi / 2)] ![Real.pi, 0, 0]) ≠
      rotate_by_angle_axis_ realLibm
        (rotate_by_angle_axis_ realLibm ![0, 1, 0] ![0, 0, -(Real.pi / 2)])
        ![Real.pi, 0, 0] := by
  have h1 : rotate_by_angle_axis_ realLibm
        (rotate_by_angle_axis_ realLibm ![0, 1, 0] ![0, 0, -(Real.pi / 2)]) ![Real.pi, 0, 0] =
      ![1, 0, 0] := by
    rw [rotate_by_quarterTurn.1, rotate_by_halfTurn]
  refine ⟨h1, ?_, ?_⟩
  · rw [combine_quarterTurn_halfTurn]
    exact rotate_by_skewed_halfTurn.1
  · rw [h1, combine_quarterTurn_halfTurn]
    intro h
    have h0 := congrFun h 0
    rw [rotate_by_skewed_halfTurn.1] at h0
    exact rotate_by_skewed_halfTurn.2 h0

/-! ### Rotation matrices -/

theorem isRotation_one : IsRotation (1 : Mat3 α) := by
  constructor
  · rw [Matrix.transpose_one, Matrix.mul_one]
  · exact Matrix.det_one

theorem IsRotation.mul {A B : Mat3 α} (hA : IsRotation A) (hB : IsRotation B) :
    IsRotation (A * B) := by
  constructor
  · rw [Matrix.transpose_mul, Matrix.mul_assoc, ← Matrix.mul_assoc A.transpose, hA.1,
      Matrix.one_mul, hB.1]
  · rw [Matrix.det_mul, hA.2, hB.2, mul_one]

theorem IsRotation.mul_transpose {G : Mat3 α} (h : IsRotation G) : G * G.transpose = 1 :=
  Matrix.mul_eq_one_comm.mp h.1

theorem skew_mul_skew (n : Vec3 α) :
    Eigen.skew n * Eigen.skew n =
      !![-(n 1 * n 1) - n 2 * n 2, n 0 * n 1, n 0 * n 2;
         n 0 * n 1, -(n 0 * n 0) - n 2 * n 2, n 1 * n 2;
         n 0 * n 2, n 1 * n 2, -(n 0 * n 0) - n 1 * n 1] := by
  ext i j
  fin_cases i <;> fin_cases j <;>
    simp [Eigen.skew, Matrix.mul_apply, Fin.sum_univ_three] <;> ring

theorem rodrigues_entries (s c : α) (n : Vec3 α) :
    1 + s • Eigen.skew n + (1 - c) • (Eigen.skew n * Eigen.skew n) =
      !![1 + (1 - c) * (-(n 1 * n 1) - n 2 * n 2), -(s * n 2) + (1 - c) * (n 0 * n 1),
           s * n 1 + (1 - c) * (n 0 * n 2);
         s * n 2 + (1 - c) * (n 0 * n 1), 1 + (1 - c) * (-(n 0 * n 0) - n 2 * n 2),
           -(s * n 0) + (1 - c) * (n 1 * n 2);
         -(s * n 1) + (1 - c) * (n 0 * n 2), s * n 0 + (1 - c) * (n 1 * n 2),
           1 + (1 - c) * (-(n 0 * n 0) - n 1 * n 1)] := by
  rw [skew_mul_skew]
  ext i j
  fin_cases i <;> fin_cases j <;> simp [Eigen.skew, Matrix.one_apply]

theorem mat3_transpose_mul (a b c d e f g h k : α) :
    (!![a, b, c; d, e, f; g, h, k] : Mat3 α).transpose * !![a, b, c; d, e, f; g, h, k] =
      !![a * a + d * d + g * g, a * b + d * e + g * h, a * c + d * f + g * k;
         b * a + e * d + h * g, b * b + e * e + h * h, b * c + e * f + h * k;
         c * a + f * d + k * g, c * b + f * e + k * h, c * c + f * f + k * k] := by
  have ht : (!![a, b, c; d, e, f; g, h, k] : Mat3 α).transpose =
      !![a, d, g; b, e, h; c, f, k] := by
    ext i j
    fin_cases i <;> fin_cases j <;> rfl
  rw [ht]
  ext i j
  fin_cases i <;> fin_cases j <;> simp [Matrix.mul_apply, Fin.sum_univ_three]

theorem mat3_det (a b c d e f g h k : α) :
    (!![a, b, c; d, e, f; g, h, k] : Mat3 α).det =
      a * e * k - a * f * h - b * d * k + b * f * g + c * d * h - c * e * g := by
  rw [Matrix.det_fin_three]
  rfl

theorem mat3_eq_one (a b c d e f g h k : α) (h00 : a = 1) (h01 : b = 0) (h02 : c = 0)
    (h10 : d = 0) (h11 : e = 1) (h12 : f = 0) (h20 : g = 0) (h21 : h = 0) (h22 : k = 1) :
    (!![a, b, c; d, e, f; g, h, k] : Mat3 α) = 1 := by
  rw [h00, h01, h02, h10, h11, h12, h20, h21, h22]
  exact Matrix.one_fin_three.symm

theorem rodrigues_isRotation (s c : α) (n : Vec3 α) (hsc : s * s + c * c = 1)
    (hn : Eigen.dot n n = 1) :
    IsRotation (1 + s • Eigen.skew n + (1 - c) • (Eigen.skew n * Eigen.skew n)) := by
  rw [rodrigues_entries]
  unfold Eigen.dot at hn
  constructor
  · rw [mat3_transpose_mul]
    apply mat3_eq_one
    · linear_combination (n 1 * n 1 + n 2 * n 2) * hsc
        + ((1 - c) * (1 - c) * (n 1 * n 1 + n 2 * n 2)) * hn
    · linear_combination (-(n 0 * n 1)) * hsc + (-((1 - c) * (1 - c) * (n 0 * n 1))) * hn
    · linear_combination (-(n 0 * n 2)) * hsc + (-((1 - c) * (1 - c) * (n 0 * n 2))) * hn
    · linear_combination (-(n 0 * n 1)) * hsc + (-((1 - c) * (1 - c) * (n 0 * n 1))) * hn
    · linear_combination (n 0 * n 0 + n 2 * n 2) * hsc
        + ((1 - c) * (1 - c) * (n 0 * n 0 + n 2 * n 2)) * hn
    · linear_combination (-(n 1 * n 2)) * hsc + (-((1 - c) * (1 - c) * (n 1 * n 2))) * hn
    · linear_combination (-(n 0 * n 2)) * hsc + (-((1 - c) * (1 - c) * (n 0 * n 2))) * hn
    · linear_combination (-(n 1 * n 2)) * hsc + (-((1 - c) * (1 - c) * (n 1 * n 2))) * hn
    · linear_combination (n 0 * n 0 + n 1 * n 1) * hsc
        + ((1 - c) * (1 - c) * (n 0 * n 0 + n 1 * n 1)) * hn
  · rw [mat3_det]
    linear_combination (s * s - (1 - c) * (1 + c - (1 - c) * (n 0 * n 0 + n 1 * n 1 + n 2 * n 2)))
      * hn + hsc

theorem rodrigues_mulVec (s c : α) (n v : Vec3 α) (hn : Eigen.dot n n = 1) :
    (1 + s • Eigen.skew n + (1 - c) • (Eigen.skew n * Eigen.skew n)).mulVec v =
      fun i => c * v i + s * Eigen.cross n v i + (1 - c) * Eigen.dot n v * n i := by
  rw [rodrigues_entries]
  unfold Eigen.dot at hn
  funext i
  fin_cases i
  · simp [Matrix.mulVec, Matrix.dotProduct, Fin.sum_univ_three, Eigen.cross, Eigen.dot]
    linear_combination (-((1 - c) * v 0)) * hn
  · simp [Matrix.mulVec, Matrix.dotProduct, Fin.sum_univ_three, Eigen.cross, Eigen.dot]
    linear_combination (-((1 - c) * v 1)) * hn
  · simp [Matrix.mulVec, Matrix.dotProduct, Fin.sum_univ_three, Eigen.cross, Eigen.dot]
    linear_combination (-((1 - c) * v 2)) * hn

/-- Above the threshold `get3DLocalTransformMat_` builds the Rodrigues matrix of the
normalized pose row. -/
theorem localRotation_realLibm_of_gt (w : Vec3 ℝ) (h : Eigen.norm realLibm w > 0.0001) :
    localRotation realLibm w =
      1 + Real.sin (Eigen.norm realLibm w) • Eigen.skew (Eigen.normalized realLibm w)
        + (1 - Real.cos (Eigen.norm realLibm w)) •
          (Eigen.skew (Eigen.normalized realLibm w) *
            Eigen.skew (Eigen.normalized realLibm w)) := by
  have hw : w ≠ 0 := by
    intro h0
    rw [h0, realLibm_norm_zero] at h
    norm_num at h
  rw [localRotation_of_gt realLibm w h, divScalar_skew, mulScalar_eq_smul, mulScalar_eq_smul,
    (realLibm_normalized w hw).1, add_assoc]
  rfl

theorem localRotation_isRotation (w : Vec3 ℝ) : IsRotation (localRotation realLibm w) := by
  by_cases h : Eigen.norm realLibm w > 0.0001
  · have hw : w ≠ 0 := by
      intro h0
      rw [h0, realLibm_norm_zero] at h
      norm_num at h
    rw [localRotation_realLibm_of_gt w h]
    refine rodrigues_isRotation _ _ _ ?_ (realLibm_normalized w hw).2
    have := Real.sin_sq_add_cos_sq (Eigen.norm realLibm w)
    linear_combination this
  · rw [localRotation_of_le realLibm w h]
    exact isRotation_one

/-- The rotation block of a local transform applied to a vector is `rotate_by_angle_axis_`
of the vector and the pose row, above the threshold. -/
theorem localRotation_mulVec (w v : Vec3 ℝ) (h : Eigen.norm realLibm w > 0.0001) :
    (localRotation realLibm w).mulVec v = rotate_by_angle_axis_ realLibm v w := by
  have hw : w ≠ 0 := by
    intro h0
    rw [h0, realLibm_norm_zero] at h
    norm_num at h
  rw [localRotation_realLibm_of_gt w h, rodrigues_mulVec _ _ _ _ (realLibm_normalized w hw).2]
  rfl

theorem dot_eq_dotProduct (a b : Vec3 α) : Eigen.dot a b = Matrix.dotProduct a b := by
  simp [Eigen.dot, Matrix.dotProduct, Fin.sum_univ_three]

theorem IsRotation.dot_transpose_mulVec {G : Mat3 α} (hG : IsRotation G) (a : Vec3 α) :
    Eigen.dot (G.transpose.mulVec a) (G.transpose.mulVec a) = Eigen.dot a a := by
  rw [dot_eq_dotProduct, dot_eq_dotProduct]
  nth_rewrite 1 [Matrix.mulVec_transpose]
  rw [← Matrix.dotProduct_mulVec, Matrix.mulVec_mulVec, hG.mul_transpose, Matrix.one_mulVec]

theorem IsRotation.dot_mulVec {G : Mat3 α} (hG : IsRotation G) (a : Vec3 α) :
    Eigen.dot (G.mulVec a) (G.mulVec a) = Eigen.dot a a := by
  rw [dot_eq_dotProduct, dot_eq_dotProduct]
  nth_rewrite 1 [← Matrix.transpose_transpose G]
  rw [Matrix.mulVec_transpose, ← Matrix.dotProduct_mulVec, Matrix.mulVec_mulVec, hG.1,
    Matrix.one_mulVec]

theorem IsRotation.adjugate {G : Mat3 α} (hG : IsRotation G) : G.adjugate = G.transpose := by
  have h := congrArg (fun X => X * G.transpose) (Matrix.adjugate_mul G)
  simp only [Matrix.mul_assoc, hG.mul_transpose, Matrix.mul_one, hG.2, one_smul,
    Matrix.one_mul] at h
  exact h

theorem transpose_mul_skew_mul (G : Mat3 α) (a : Vec3 α) :
    G.transpose * Eigen.skew a * G = Eigen.skew (G.adjugate.mulVec a) := by
  rw [Matrix.adjugate_fin_three]
  ext i j
  fin_cases i <;> fin_cases j <;>
    simp [Eigen.skew, Matrix.mul_apply, Fin.sum_univ_three, Matrix.mulVec, Matrix.dotProduct] <;>
    ring

theorem IsRotation.skew_transpose_mulVec {G : Mat3 α} (hG : IsRotation G) (a : Vec3 α) :
    Eigen.skew (G.transpose.mulVec a) = G.transpose * Eigen.skew a * G := by
  rw [transpose_mul_skew_mul, hG.adjugate]

theorem divScalar_eq_smul (m : Mat3 α) (s : α) : Eigen.divScalar m s = s⁻¹ • m := by
  ext i j
  simp [Eigen.divScalar, div_eq_inv_mul]

/-- The local rotation of a pose row taken to the frame of a rotation `G` is the local
rotation of the pose row conjugated by `G`. -/
theorem localRotation_conj (M : Libm α) (G : Mat3 α) (hG : IsRotation G) (a : Vec3 α) :
    localRotation M (G.transpose.mulVec a) = G.transpose * localRotation M a * G := by
  have hn : Eigen.norm M (G.transpose.mulVec a) = Eigen.norm M a := by
    unfold Eigen.norm
    rw [hG.dot_transpose_mulVec]
  by_cases h : Eigen.norm M a > 0.0001
  · rw [localRotation_of_gt M _ (hn.symm ▸ h), localRotation_of_gt M a h, hn,
      hG.skew_transpose_mulVec]
    generalize Eigen.norm M a = N
    simp only [divScalar_eq_smul, mulScalar_eq_smul]
    have hK : N⁻¹ • (G.transpose * Eigen.skew a * G) =
        G.transpose * (N⁻¹ • Eigen.skew a) * G := by
      rw [Matrix.mul_smul, Matrix.smul_mul]
    have hKK : (G.transpose * (N⁻¹ • Eigen.skew a) * G) *
        (G.transpose * (N⁻¹ • Eigen.skew a) * G) =
        G.transpose * ((N⁻¹ • Eigen.skew a) * (N⁻¹ • Eigen.skew a)) * G := by
      calc (G.transpose * (N⁻¹ • Eigen.skew a) * G) * (G.transpose * (N⁻¹ • Eigen.skew a) * G)
          = G.transpose * (N⁻¹ • Eigen.skew a) * (G * G.transpose) *
              (N⁻¹ • Eigen.skew a) * G := by
            simp only [Matrix.mul_assoc]
        _ = G.transpose * ((N⁻¹ • Eigen.skew a) * (N⁻¹ • Eigen.skew a)) * G := by
            rw [hG.mul_transpose, Matrix.mul_one]
            simp only [Matrix.mul_assoc]
    rw [hK, hKK]
    generalize N⁻¹ • Eigen.skew a = K
    rw [Matrix.mul_add, Matrix.add_mul, Matrix.mul_one, hG.1, Matrix.mul_add, Matrix.add_mul,
      Matrix.mul_smul, Matrix.smul_mul, Matrix.mul_smul, Matrix.smul_mul]
  · rw [localRotation_of_le M _ (hn.symm ▸ h), localRotation_of_le M a h, Matrix.mul_one, hG.1]

/-! ### The global rotations of the joints -/

theorem localTransformOf_eq_homo (M : Libm α) (parents : Nat → Int) (pose rest : MatX3 α)
    (j : Nat) :
    localTransformOf M parents pose rest j =
      homo (localRotation M (pose j))
        (if j = 0 then rest 0 else rest j - rest (parents j).toNat) := by
  unfold localTransformOf
  split_ifs with h
  · rw [get3DLocalTransformMat_eq_homo, h]
  · rw [get3DLocalTransformMat_eq_homo]

/-- Every forward-kinematics transform is a rotation block with a translation column. -/
theorem fk_eq_homo (self : SMPLWrapper α) (M : Libm α) (pose rest : MatX3 α)
    (hpar : ParentsBelow self.joints_parents_ self.JOINTS_NUM) (j : Nat) :
    j < self.JOINTS_NUM →
    (self.updateJointsFKTransforms_ M pose rest).fk_transforms_ j =
      homo (Eigen.block33 ((self.updateJointsFKTransforms_ M pose rest).fk_transforms_ j))
        (Eigen.lastCol ((self.updateJointsFKTransforms_ M pose rest).fk_transforms_ j)) := by
  induction j using Nat.strong_induction_on with
  | _ j ih =>
    intro hj
    have hrec := (updateJointsFKTransforms_rec self M pose rest hpar j hj).1
    by_cases h0 : j = 0
    · rw [if_pos h0, localTransformOf_eq_homo] at hrec
      rw [hrec, block33_homo, lastCol_homo]
    · rw [if_neg h0, localTransformOf_eq_homo] at hrec
      have hp := hpar j (by omega) hj
      have hlt : (self.joints_parents_ j).toNat < j := by omega
      have ihp := ih _ hlt (by omega)
      rw [ihp, homo_mul] at hrec
      rw [hrec, block33_homo, lastCol_homo]

/-- The global rotation and the location of a joint in terms of those of its parent. -/
theorem fk_step (self : SMPLWrapper α) (M : Libm α) (pose rest : MatX3 α)
    (hpar : ParentsBelow self.joints_parents_ self.JOINTS_NUM) (j : Nat) (h0 : 0 < j)
    (hj : j < self.JOINTS_NUM) :
    Eigen.block33 ((self.updateJointsFKTransforms_ M pose rest).fk_transforms_ j) =
      Eigen.block33 ((self.updateJointsFKTransforms_ M pose rest).fk_transforms_
        (self.joints_parents_ j).toNat) * localRotation M (pose j) ∧
    Eigen.lastCol ((self.updateJointsFKTransforms_ M pose rest).fk_transforms_ j) =
      (Eigen.block33 ((self.updateJointsFKTransforms_ M pose rest).fk_transforms_
        (self.joints_parents_ j).toNat)).mulVec (rest j - rest (self.joints_parents_ j).toNat)
      + Eigen.lastCol ((self.updateJointsFKTransforms_ M pose rest).fk_transforms_
        (self.joints_parents_ j).toNat) := by
  have hrec := (updateJointsFKTransforms_rec self M pose rest hpar j hj).1
  have hp := hpar j h0 hj
  have hlt : (self.joints_parents_ j).toNat < j := by omega
  rw [if_neg (by omega), localTransformOf_eq_homo, if_neg (by omega),
    fk_eq_homo self M pose rest hpar (self.joints_parents_ j).toNat (by omega), homo_mul] at hrec
  rw [hrec, block33_homo, lastCol_homo]
  exact ⟨rfl, rfl⟩

theorem fk_root (self : SMPLWrapper α) (M : Libm α) (pose rest : MatX3 α)
    (hpar : ParentsBelow self.joints_parents_ self.JOINTS_NUM) (hJ : 0 < self.JOINTS_NUM) :
    Eigen.block33 ((self.updateJointsFKTransforms_ M pose rest).fk_transforms_ 0) =
      localRotation M (pose 0) := by
  have hrec := (updateJointsFKTransforms_rec self M pose rest hpar 0 hJ).1
  rw [if_pos rfl, localTransformOf_eq_homo] at hrec
  rw [hrec, block33_homo]

/-- Over the real numbers the global rotation of every joint is a rotation matrix. -/
theorem fk_isRotation (self : SMPLWrapper ℝ) (pose rest : MatX3 ℝ)
    (hpar : ParentsBelow self.joints_parents_ self.JOINTS_NUM) (j : Nat) :
    j < self.JOINTS_NUM →
    IsRotation (Eigen.block33
      ((self.updateJointsFKTransforms_ realLibm pose rest).fk_transforms_ j)) := by
  induction j using Nat.strong_induction_on with
  | _ j ih =>
    intro hj
    by_cases h0 : j = 0
    · subst h0
      rw [fk_root self realLibm pose rest hpar hj]
      exact localRotation_isRotation _
    · have hp := hpar j (by omega) hj
      have hlt : (self.joints_parents_ j).toNat < j := by omega
      rw [(fk_step self realLibm pose rest hpar j (by omega) hj).1]
      exact (ih _ hlt (by omega)).mul (localRotation_isRotation _)

/-- The transforms of the joints below `m` depend on the pose rows below `m` only. -/
theorem fk_agree (self : SMPLWrapper α) (M : Libm α) (pose pose2 rest : MatX3 α)
    (hpar : ParentsBelow self.joints_parents_ self.JOINTS_NUM) (m : Nat)
    (h : ∀ k, k < m → pose k = pose2 k) (j : Nat) :
    j < m → j < self.JOINTS_NUM →
    (self.updateJointsFKTransforms_ M pose rest).fk_transforms_ j =
      (self.updateJointsFKTransforms_ M pose2 rest).fk_transforms_ j := by
  induction j using Nat.strong_induction_on with
  | _ j ih =>
    intro hjm hj
    have hloc : localTransformOf M self.joints_parents_ pose rest j =
        localTransformOf M self.joints_parents_ pose2 rest j := by
      rw [localTransformOf_eq_homo, localTransformOf_eq_homo, h j hjm]
    rw [(updateJointsFKTransforms_rec self M pose rest hpar j hj).1,
      (updateJointsFKTransforms_rec self M pose2 rest hpar j hj).1, hloc]
    by_cases h0 : j = 0
    · rw [if_pos h0, if_pos h0, ← h0, hloc]
    · have hp := hpar j (by omega) hj
      have hlt : (self.joints_parents_ j).toNat < j := by omega
      rw [if_neg h0, if_neg h0, ih _ hlt (by omega) (by omega)]

/-- The joint locations and the transforms `calcJointLocations_` leaves for a pose. -/
theorem calcJointLocations_fk (self : SMPLWrapper α) (M : Libm α) (pose : MatX3 α) (j : Nat)
    (hj : j < self.JOINTS_NUM) :
    (self.calcJointLocations_ M none none (some pose)).1 j =
      Eigen.lastCol ((self.updateJointsFKTransforms_ M pose
        (self.calcJointLocations_ M none none none).1).fk_transforms_ j) ∧
    (self.calcJointLocations_ M none none (some pose)).2.fk_transforms_ =
      (self.updateJointsFKTransforms_ M pose
        (self.calcJointLocations_ M none none none).1).fk_transforms_ := by
  rw [calcJointLocations_pose]
  exact ⟨extractJointLocation_apply _ _ j hj, rfl⟩

/-! ### Pointing a bone in a direction -/

theorem findChild_some (self : SMPLWrapper α) (joint_id c : Nat)
    (h : self.findChild joint_id = some c) :
    c < self.JOINTS_NUM ∧ self.joints_parents_ c = (joint_id : Int) := by
  unfold findChild at h
  have h1 := List.mem_of_find?_eq_some h
  have h2 := List.find?_some h
  exact ⟨List.mem_range.mp h1, of_decide_eq_true h2⟩

theorem realLibm_normalized_smul_pos (k : ℝ) (hk : 0 < k) (v : Vec3 ℝ) :
    Eigen.normalized realLibm (fun i => k * v i) = Eigen.normalized realLibm v := by
  by_cases hv : v = 0
  · rw [hv]
    have : (fun i => k * (0 : Vec3 ℝ) i) = 0 := by
      funext i
      simp
    rw [this]
  · have hkv : (fun i => k * v i) ≠ (0 : Vec3 ℝ) := by
      intro h0
      apply hv
      funext i
      have := congrFun h0 i
      simp only [Pi.zero_apply, mul_eq_zero] at this
      rcases this with h | h
      · exact absurd h hk.ne.symm
      · exact h
    have hdot : Eigen.dot (fun i => k * v i) (fun i => k * v i) = k * k * Eigen.dot v v := by
      simp only [Eigen.dot]
      ring
    have hnorm : Eigen.norm realLibm (fun i => k * v i) = k * Eigen.norm realLibm v := by
      rw [realLibm_norm, hdot, Real.sqrt_mul (mul_self_nonneg k), Real.sqrt_mul_self hk.le,
        realLibm_norm]
    rw [(realLibm_normalized _ hkv).1, (realLibm_normalized _ hv).1, hnorm]
    funext i
    have := realLibm_norm_pos v hv
    field_simp
    ring

/-- A vector `angle_axis_` returns with a positive norm comes from two non-zero vectors with a
non-zero cross product. -/
theorem angle_axis_norm_pos (f t : Vec3 ℝ)
    (h : 0 < Eigen.norm realLibm (angle_axis_ realLibm f t)) :
    f ≠ 0 ∧ t ≠ 0 ∧ Eigen.cross f t ≠ 0 := by
  refine ⟨?_, ?_, ?_⟩
  · intro h0
    rw [h0, angle_axis_zero_left, realLibm_norm_zero] at h
    exact lt_irrefl _ h
  · intro h0
    rw [h0, angle_axis_zero_right, realLibm_norm_zero] at h
    exact lt_irrefl _ h
  · intro hc
    have hf : f ≠ 0 := by
      intro h0
      rw [h0, angle_axis_zero_left, realLibm_norm_zero] at h
      exact lt_irrefl _ h
    have ht : t ≠ 0 := by
      intro h0
      rw [h0, angle_axis_zero_right, realLibm_norm_zero] at h
      exact lt_irrefl _ h
    rw [angle_axis_of_ne_zero f t hf ht, hc, realLibm_normalized_zero] at h
    have : (fun i => realLibm.atan2
        (Eigen.norm realLibm (0 : Vec3 ℝ) / (Eigen.norm realLibm f * Eigen.norm realLibm t))
        (Eigen.dot f t / (Eigen.norm realLibm f * Eigen.norm realLibm t))
        * (0 : Vec3 ℝ) i) = 0 := by
      funext i
      simp
    rw [this, realLibm_norm_zero] at h
    exact lt_irrefl _ h

/-- With the pose row of joint `j` zero, writing `transpose(G) a` into it, `G` the global
rotation of `j`, turns the bone from `j` to its child `c` by the local rotation of `a`. -/
theorem bone_after_assignment (self : SMPLWrapper ℝ) (pose rest : MatX3 ℝ) (j c : Nat)
    (a : Vec3 ℝ) (hpar : ParentsBelow self.joints_parents_ self.JOINTS_NUM)
    (h0 : 0 < j) (hc0 : 0 < c) (hc : c < self.JOINTS_NUM)
    (hchild : self.joints_parents_ c = (j : Int)) (hown : pose j = 0) :
    Eigen.lastCol ((self.updateJointsFKTransforms_ realLibm
        (Function.update pose j
          ((Eigen.block33 ((self.updateJointsFKTransforms_ realLibm pose rest).fk_transforms_
            j)).transpose.mulVec a)) rest).fk_transforms_ c)
      - Eigen.lastCol ((self.updateJointsFKTransforms_ realLibm
        (Function.update pose j
          ((Eigen.block33 ((self.updateJointsFKTransforms_ realLibm pose rest).fk_transforms_
            j)).transpose.mulVec a)) rest).fk_transforms_ j) =
      (localRotation realLibm a).mulVec
        (Eigen.lastCol ((self.updateJointsFKTransforms_ realLibm pose rest).fk_transforms_ c)
          - Eigen.lastCol ((self.updateJointsFKTransforms_ realLibm pose rest).fk_transforms_
            j)) := by
  have hpc := hpar c hc0 hc
  have hjc : j < c := by omega
  have hj : j < self.JOINTS_NUM := by omega
  have hcj : (self.joints_parents_ c).toNat = j := by omega
  have hpj := hpar j h0 hj
  have hP : (self.joints_parents_ j).toNat < j := by omega
  generalize hG : Eigen.block33
    ((self.updateJointsFKTransforms_ realLibm pose rest).fk_transforms_ j) = G
  have hGrot : IsRotation G := hG ▸ fk_isRotation self pose rest hpar j hj
  obtain ⟨hj1, hj2⟩ := fk_step self realLibm pose rest hpar j h0 hj
  obtain ⟨-, hc2⟩ := fk_step self realLibm pose rest hpar c hc0 hc
  rw [hcj] at hc2
  rw [hown, localRotation_zero realLibm realLibm_sqrt_zero, Matrix.mul_one, hG] at hj1
  generalize hp2 : Function.update pose j (G.transpose.mulVec a) = pose2
  have hagree : ∀ k, k < j → pose k = pose2 k := by
    intro k hk
    rw [← hp2, Function.update_noteq (by omega)]
  have hPeq := fk_agree self realLibm pose pose2 rest hpar j hagree _ hP (by omega)
  obtain ⟨hj1', hj2'⟩ := fk_step self realLibm pose2 rest hpar j h0 hj
  obtain ⟨-, hc2'⟩ := fk_step self realLibm pose2 rest hpar c hc0 hc
  rw [hcj] at hc2'
  have hrow : pose2 j = G.transpose.mulVec a := by rw [← hp2, Function.update_same]
  rw [← hPeq, ← hj1, hrow, localRotation_conj realLibm G hGrot, ← Matrix.mul_assoc,
    ← Matrix.mul_assoc, hGrot.mul_transpose, Matrix.one_mul] at hj1'
  rw [← hPeq] at hj2'
  rw [hc2', hc2, hG, hj1', add_sub_cancel_right, add_sub_cancel_right, Matrix.mulVec_mulVec]

/-- The pose `rotateLimbToDirection` leaves for an accepted joint when both directions have a
positive norm: the row of the joint holds `transpose(G) * angle_axis_(default, direction)`,
`G` the global rotation of the joint for the pose before the call. -/
theorem rotateLimbToDirection_pose (self : SMPLWrapper α) (M : Libm α) (child_id_uninit : Nat)
    (joint_name : String) (direction : Vec3 α) (j : Nat)
    (hlook : self.joint_names_.lookup joint_name = some j) (hroot : j ≠ 0)
    (hback : ¬ (joint_name = "LowBack" ∨ joint_name = "MiddleBack" ∨ joint_name = "TopBack"))
    (hcond : Eigen.norm M direction * Eigen.norm M
      ((self.calcJointLocations_ M none none (some self.state_.pose)).1
          ((self.findChild j).getD child_id_uninit)
        - (self.calcJointLocations_ M none none (some self.state_.pose)).1 j) > 0) :
    SameAssets (self.rotateLimbToDirection M child_id_uninit joint_name direction).2 self ∧
    (self.rotateLimbToDirection M child_id_uninit joint_name direction).2.state_.pose =
      Function.update self.state_.pose j
        ((Eigen.block33 ((self.calcJointLocations_ M none none
            (some self.state_.pose)).2.fk_transforms_ j)).transpose.mulVec
          (angle_axis_ M
            ((self.calcJointLocations_ M none none (some self.state_.pose)).1
                ((self.findChild j).getD child_id_uninit)
              - (self.calcJointLocations_ M none none (some self.state_.pose)).1 j)
            direction)) := by
  refine ⟨(rotateLimbToDirection_frame self M child_id_uninit joint_name direction).1, ?_⟩
  rw [rotateLimbToDirection_accepted_snd self M child_id_uninit joint_name direction j hlook
    hroot hback]
  have hA : (afterLimbAssignment self M ((self.findChild j).getD child_id_uninit) j
      direction).state_.pose =
      Function.update self.state_.pose j
        ((Eigen.block33 ((self.calcJointLocations_ M none none
            (some self.state_.pose)).2.fk_transforms_ j)).transpose.mulVec
          (angle_axis_ M
            ((self.calcJointLocations_ M none none (some self.state_.pose)).1
                ((self.findChild j).getD child_id_uninit)
              - (self.calcJointLocations_ M none none (some self.state_.pose)).1 j)
            direction)) := by
    unfold afterLimbAssignment
    dsimp only
    rw [if_pos hcond]
    unfold assignJointGlobalRotation_
    dsimp only
    rw [if_pos (by omega : j > 0), (calcJointLocations_frame self M none none _).2]
  generalize afterLimbAssignment self M ((self.findChild j).getD child_id_uninit) j
    direction = A at hA
  have hJ := calcJointLocations_frame A M none none (some A.state_.pose)
  generalize (A.calcJointLocations_ M none none (some A.state_.pose)).2 = B at hJ
  have hC := calcModel_frame B M (some B.state_.translation) (some B.state_.pose)
    (some B.state_.shape) (some B.state_.displacements)
  unfold calcModelCurrent
  rw [hC.2, hJ.2, hA]

/-! ### `rotateLimbToDirection` on the small body -/

theorem unit_z : Eigen.dot (![0, 0, 1] : Vec3 ℝ) ![0, 0, 1] = 1 := by
  simp [Eigen.dot]

theorem quarterTurnZ_eq :
    (![0, 0, Real.pi / 2] : Vec3 ℝ) = fun i => Real.pi / 2 * (![0, 0, 1] : Vec3 ℝ) i := by
  funext i
  fin_cases i <;> simp

theorem quarterTurnZ_norm : Eigen.norm realLibm ![0, 0, Real.pi / 2] = Real.pi / 2 := by
  rw [quarterTurnZ_eq, realLibm_norm_smul _ _ (by positivity) unit_z]

theorem quarterTurn_norm : Eigen.norm realLibm ![0, 0, -(Real.pi / 2)] = Real.pi / 2 := by
  rw [quarterTurn_eq, realLibm_norm_smul _ _ (by positivity) unit_z_neg]

theorem quarter_gt_threshold : Real.pi / 2 > (0.0001 : ℝ) := by
  have := Real.pi_gt_three
  norm_num
  linarith

theorem angle_axis_x_to_y :
    angle_axis_ realLibm ![1, 0, 0] ![0, 1, 0] = ![0, 0, Real.pi / 2] := by
  have hf : (![1, 0, 0] : Vec3 ℝ) ≠ 0 := fun h => one_ne_zero (congrFun h 0)
  have ht : (![0, 1, 0] : Vec3 ℝ) ≠ 0 := fun h => one_ne_zero (congrFun h 1)
  have hc : Eigen.cross (![1, 0, 0] : Vec3 ℝ) ![0, 1, 0] = fun i => 1 * (![0, 0, 1] : Vec3 ℝ) i := by
    funext i
    fin_cases i <;> simp [Eigen.cross]
  have hd : Eigen.dot (![1, 0, 0] : Vec3 ℝ) ![0, 1, 0] = 0 := by simp [Eigen.dot]
  rw [angle_axis_of_ne_zero _ _ hf ht, hc, realLibm_norm_smul 1 _ zero_le_one unit_z,
    realLibm_normalized_smul 1 _ zero_lt_one unit_z, hd, unit_y_norm, unit_x_norm, mul_one,
    div_one, zero_div, realLibm_atan2_pos_zero 1 zero_lt_one]
  funext i
  fin_cases i <;> simp

/-- The quarter turn about `z` takes `(1, 0, 0)` to `(0, 1, 0)`. -/
theorem rotate_by_quarterTurnZ :
    rotate_by_angle_axis_ realLibm ![1, 0, 0] ![0, 0, Real.pi / 2] = ![0, 1, 0] := by
  rw [quarterTurnZ_eq, rotate_by_angle_axis_unit _ _ (Real.pi / 2) (by positivity) unit_z]
  funext i
  fin_cases i <;> simp [Real.cos_pi_div_two, Real.sin_pi_div_two, Eigen.dot, Eigen.cross]

theorem localRotation_quarterTurnZ :
    localRotation realLibm ![0, 0, Real.pi / 2] = !![0, -1, 0; 1, 0, 0; 0, 0, 1] := by
  have hgt : Eigen.norm realLibm ![0, 0, Real.pi / 2] > 0.0001 := by
    rw [quarterTurnZ_norm]
    exact quarter_gt_threshold
  rw [localRotation_realLibm_of_gt _ hgt, quarterTurnZ_norm, quarterTurnZ_eq,
    realLibm_normalized_smul _ _ (by positivity) unit_z, rodrigues_entries,
    Real.sin_pi_div_two, Real.cos_pi_div_two]
  ext i j
  fin_cases i <;> fin_cases j <;> simp

theorem smallBody_findChild_hip : (smallBody ℝ).findChild 2 = some 3 := by
  simp [findChild, smallBody, List.range_succ, List.find?]

/-- The bone from `LHip` to `LKnee` of the small body when only the pose row of `LHip` is
not zero, and the global rotation of `LHip`. -/
theorem smallBody_hip_bone (self : SMPLWrapper ℝ) (hS : SameAssets self (smallBody ℝ))
    (p : MatX3 ℝ) (hz : ∀ k, k ≠ 2 → p k = 0) :
    (self.calcJointLocations_ realLibm none none (some p)).1 3
        - (self.calcJointLocations_ realLibm none none (some p)).1 2 =
      (localRotation realLibm (p 2)).mulVec ![1, 0, 0] ∧
    Eigen.block33 ((self.calcJointLocations_ realLibm none none (some p)).2.fk_transforms_ 2) =
      localRotation realLibm (p 2) := by
  have hpar := hS.symm.parentsBelow (smallBody_parentsBelow ℝ)
  have hJ : self.JOINTS_NUM = 4 := hS.1
  have hrest : ∀ k, (self.calcJointLocations_ realLibm none none none).1 k = ![(k : ℝ), 0, 0] := by
    intro k
    rw [calcJointLocations_congr self (smallBody ℝ) realLibm hS hpar, smallBody_rest]
  have hparents : self.joints_parents_ = (smallBody ℝ).joints_parents_ :=
    hS.2.2.2.2.2.2.2.2.2.2.1
  have hchild : self.joints_parents_ 3 = ((2 : Nat) : Int) := by
    rw [hparents]
    simp [smallBody]
  have h := single_joint_locations self realLibm none p 2 3 Real.sqrt_zero hpar
    (by omega) (by omega) (by decide) hchild (fun k _ hk => hz k hk)
  have h2 := single_joint_positions self realLibm p
    (self.calcJointLocations_ realLibm none none none).1 2 3 Real.sqrt_zero hpar
    (by omega) (by omega) (by decide) hchild (fun k _ hk => hz k hk)
  constructor
  · have hd : (![((3 : Nat) : ℝ), 0, 0] - ![((2 : Nat) : ℝ), 0, 0] : Vec3 ℝ) = ![1, 0, 0] := by
      funext i
      fin_cases i <;> simp
      norm_num
    rw [h.1, hrest, hrest, hd]
  · rw [(calcJointLocations_fk self realLibm p 2 (by omega)).2, h2.1, block33_homo]

theorem realLibm_normalized_unit (v : Vec3 ℝ) (h : Eigen.dot v v = 1) :
    Eigen.normalized realLibm v = v := by
  unfold Eigen.normalized
  rw [h, if_pos zero_lt_one]
  funext i
  show v i / Real.sqrt 1 = v i
  rw [Real.sqrt_one, div_one]

theorem turnedHipBody_sameAssets : SameAssets turnedHipBody (smallBody ℝ) :=
  ⟨rfl, rfl, rfl, rfl, rfl, rfl, rfl, rfl, rfl, rfl, rfl, rfl, rfl⟩

/-- The bone from `LHip` to `LKnee` after `rotateLimbToDirection("LHip", (1, 0, 0))` on the
body with `LHip` turned by a quarter turn: it points along `(0, -1, 0)`. -/
theorem turnedHipBody_bone :
    ((turnedHipBody.rotateLimbToDirection realLibm 0 "LHip"
          ![1, 0, 0]).2.calcJointLocations_ realLibm none none
        (some (turnedHipBody.rotateLimbToDirection realLibm 0 "LHip"
          ![1, 0, 0]).2.state_.pose)).1 3
      - ((turnedHipBody.rotateLimbToDirection realLibm 0 "LHip"
          ![1, 0, 0]).2.calcJointLocations_ realLibm none none
        (some (turnedHipBody.rotateLimbToDirection realLibm 0 "LHip"
          ![1, 0, 0]).2.state_.pose)).1 2 = ![0, -1, 0] := by
  have hB := turnedHipBody_sameAssets
  have hp2 : turnedHipBody.state_.pose 2 = ![0, 0, Real.pi / 2] := by simp [turnedHipBody]
  have hz : ∀ k, k ≠ 2 → turnedHipBody.state_.pose k = 0 := by
    intro k hk
    simp [turnedHipBody, hk]
  have hgt : Eigen.norm realLibm ![0, 0, Real.pi / 2] > 0.0001 := by
    rw [quarterTurnZ_norm]
    exact quarter_gt_threshold
  have hgt2 : Eigen.norm realLibm ![0, 0, -(Real.pi / 2)] > 0.0001 := by
    rw [quarterTurn_norm]
    exact quarter_gt_threshold
  obtain ⟨hbone, hG⟩ := smallBody_hip_bone turnedHipBody hB turnedHipBody.state_.pose hz
  rw [hp2, localRotation_mulVec _ _ hgt, rotate_by_quarterTurnZ] at hbone
  rw [hp2, localRotation_quarterTurnZ] at hG
  have hchild : turnedHipBody.findChild 2 = some 3 := smallBody_findChild_hip
  have hlook : turnedHipBody.joint_names_.lookup "LHip" = some 2 := by
    simp [turnedHipBody, smallBody, List.lookup]
  have hcond : Eigen.norm realLibm ![1, 0, 0] * Eigen.norm realLibm
      ((turnedHipBody.calcJointLocations_ realLibm none none
          (some turnedHipBody.state_.pose)).1 ((turnedHipBody.findChild 2).getD 0)
        - (turnedHipBody.calcJointLocations_ realLibm none none
          (some turnedHipBody.state_.pose)).1 2) > 0 := by
    rw [hchild]
    show Eigen.norm realLibm ![1, 0, 0] * Eigen.norm realLibm
      ((turnedHipBody.calcJointLocations_ realLibm none none
          (some turnedHipBody.state_.pose)).1 3
        - (turnedHipBody.calcJointLocations_ realLibm none none
          (some turnedHipBody.state_.pose)).1 2) > 0
    rw [hbone, unit_x_norm, unit_y_norm]
    norm_num
  obtain ⟨hS, hpose⟩ := rotateLimbToDirection_pose turnedHipBody realLibm 0 "LHip" ![1, 0, 0] 2
    hlook (by decide) (by decide) hcond
  rw [hchild] at hpose
  have hpose2 : (turnedHipBody.rotateLimbToDirection realLibm 0 "LHip" ![1, 0, 0]).2.state_.pose
      = Function.update turnedHipBody.state_.pose 2 ![0, 0, -(Real.pi / 2)] := by
    rw [hpose]
    show Function.update turnedHipBody.state_.pose 2 ((Eigen.block33 ((turnedHipBody.calcJointLocations_ realLibm none none
        (some turnedHipBody.state_.pose)).2.fk_transforms_ 2)).transpose.mulVec
      (angle_axis_ realLibm
        ((turnedHipBody.calcJointLocations_ realLibm none none
            (some turnedHipBody.state_.pose)).1 3
          - (turnedHipBody.calcJointLocations_ realLibm none none
            (some turnedHipBody.state_.pose)).1 2) ![1, 0, 0])) = _
    have hrow : (!![0, -1, 0; 1, 0, 0; 0, 0, 1] : Mat3 ℝ).transpose.mulVec
        ![0, 0, -(Real.pi / 2)] = ![0, 0, -(Real.pi / 2)] := by
      rw [Matrix.mulVec_transpose]
      funext i
      fin_cases i <;>
        simp [Matrix.vecMul, Matrix.dotProduct, Fin.sum_univ_three, Matrix.vecHead,
          Matrix.vecTail]
    rw [hG, hbone, angle_axis_y_to_x, hrow]
  generalize (turnedHipBody.rotateLimbToDirection realLibm 0 "LHip" ![1, 0, 0]).2 = S
    at hS hpose2
  have hz2 : ∀ k, k ≠ 2 → S.state_.pose k = 0 := by
    intro k hk
    rw [hpose2, Function.update_noteq hk]
    exact hz k hk
  have h2 : S.state_.pose 2 = ![0, 0, -(Real.pi / 2)] := by
    rw [hpose2, Function.update_same]
  rw [(smallBody_hip_bone S (hS.trans hB) S.state_.pose hz2).1, h2,
    localRotation_mulVec _ _ hgt2, rotate_by_quarterTurn.2]

/-- Where `rotateLimbToDirection` does reach the target: over the real numbers, for an
accepted joint `j` with a child `c` in a
parents-first tree whose root has no parent, if the pose row stored for `j` is zero and the
rotation `angle_axis_` computes from the current bone direction to the target has a norm above
`0.0001` (so the target is neither zero nor parallel or anti-parallel to the bone), then after
`rotateLimbToDirection` the recomputed direction from `j` to `c`, normalized, equals the
target direction normalized. -/
theorem rotateLimbToDirection_points_bone (self : SMPLWrapper ℝ) (child_id_uninit : Nat)
    (joint_name : String) (direction : Vec3 ℝ) (j c : Nat)
    (hpar : ParentsBelow self.joints_parents_ self.JOINTS_NUM)
    (hrootpar : self.joints_parents_ 0 < 0)
    (hlook : self.joint_names_.lookup joint_name = some j) (hroot : j ≠ 0)
    (hback : ¬ (joint_name = "LowBack" ∨ joint_name = "MiddleBack" ∨ joint_name = "TopBack"))
    (hchild : self.findChild j = some c)
    (hown : self.state_.pose j = 0)
    (hangle : Eigen.norm realLibm (angle_axis_ realLibm
      ((self.calcJointLocations_ realLibm none none (some self.state_.pose)).1 c
        - (self.calcJointLocations_ realLibm none none (some self.state_.pose)).1 j)
      direction) > 0.0001) :
    Eigen.normalized realLibm
      (((self.rotateLimbToDirection realLibm child_id_uninit joint_name
            direction).2.calcJointLocations_ realLibm none none
          (some (self.rotateLimbToDirection realLibm child_id_uninit joint_name
            direction).2.state_.pose)).1 c
        - ((self.rotateLimbToDirection realLibm child_id_uninit joint_name
            direction).2.calcJointLocations_ realLibm none none
          (some (self.rotateLimbToDirection realLibm child_id_uninit joint_name
            direction).2.state_.pose)).1 j) =
      Eigen.normalized realLibm direction := by
  obtain ⟨hcJ, hpc⟩ := findChild_some self j c hchild
  have hc0 : 0 < c := by
    rcases Nat.eq_zero_or_pos c with h | h
    · exfalso
      subst h
      omega
    · exact h
  have hpc2 := hpar c hc0 hcJ
  have hjJ : j < self.JOINTS_NUM := by omega
  have hj0 : 0 < j := by omega
  have hgetD : (self.findChild j).getD child_id_uninit = c := by rw [hchild]; rfl
  have hapos : 0 < Eigen.norm realLibm (angle_axis_ realLibm
      ((self.calcJointLocations_ realLibm none none (some self.state_.pose)).1 c
        - (self.calcJointLocations_ realLibm none none (some self.state_.pose)).1 j)
      direction) := lt_trans (by norm_num) hangle
  obtain ⟨hdef, hdir, hcross⟩ := angle_axis_norm_pos _ _ hapos
  have hcond : Eigen.norm realLibm direction * Eigen.norm realLibm
      ((self.calcJointLocations_ realLibm none none (some self.state_.pose)).1
          ((self.findChild j).getD child_id_uninit)
        - (self.calcJointLocations_ realLibm none none (some self.state_.pose)).1 j) > 0 := by
    rw [hgetD]
    exact mul_pos (realLibm_norm_pos _ hdir) (realLibm_norm_pos _ hdef)
  obtain ⟨hS, hpose⟩ := rotateLimbToDirection_pose self realLibm child_id_uninit joint_name
    direction j hlook hroot hback hcond
  rw [hgetD] at hpose
  generalize (self.rotateLimbToDirection realLibm child_id_uninit joint_name direction).2 = S
    at hS hpose
  rw [calcJointLocations_congr S self realLibm hS (hS.symm.parentsBelow hpar), hpose]
  have hfkc := calcJointLocations_fk self realLibm self.state_.pose c hcJ
  have hfkj := calcJointLocations_fk self realLibm self.state_.pose j hjJ
  rw [hfkc.1, hfkj.1] at hangle hdef hcross ⊢
  rw [hfkj.2]
  rw [(calcJointLocations_fk self realLibm _ c hcJ).1,
    (calcJointLocations_fk self realLibm _ j hjJ).1,
    bone_after_assignment self self.state_.pose _ j c _ hpar hj0 hc0 hcJ hpc hown,
    localRotation_mulVec _ _ hangle,
    rotate_by_angle_axis_angle_axis _ _ hdef hdir (fun h => hcross h.1)]
  exact realLibm_normalized_smul_pos _
    (div_pos (realLibm_norm_pos _ hdef) (realLibm_norm_pos _ hdir)) direction

theorem rotateLimbToDirection_points_bone_example :
    ParentsBelow (smallBody ℝ).joints_parents_ (smallBody ℝ).JOINTS_NUM ∧
    (smallBody ℝ).joints_parents_ 0 < 0 ∧
    (smallBody ℝ).joint_names_.lookup "LHip" = some 2 ∧
    (smallBody ℝ).findChild 2 = some 3 ∧
    (smallBody ℝ).state_.pose 2 = 0 ∧
    Eigen.norm realLibm (angle_axis_ realLibm
      (((smallBody ℝ).calcJointLocations_ realLibm none none
          (some (smallBody ℝ).state_.pose)).1 3
        - ((smallBody ℝ).calcJointLocations_ realLibm none none
          (some (smallBody ℝ).state_.pose)).1 2)
      ![0, 1, 0]) > 0.0001 ∧
    Eigen.normalized realLibm
      ((((smallBody ℝ).rotateLimbToDirection realLibm 0 "LHip"
            ![0, 1, 0]).2.calcJointLocations_ realLibm none none
          (some ((smallBody ℝ).rotateLimbToDirection realLibm 0 "LHip"
            ![0, 1, 0]).2.state_.pose)).1 3
        - (((smallBody ℝ).rotateLimbToDirection realLibm 0 "LHip"
            ![0, 1, 0]).2.calcJointLocations_ realLibm none none
          (some ((smallBody ℝ).rotateLimbToDirection realLibm 0 "LHip"
            ![0, 1, 0]).2.state_.pose)).1 2) =
      Eigen.normalized realLibm ![0, 1, 0] := by
  have hrootpar : (smallBody ℝ).joints_parents_ 0 < 0 := by simp [smallBody]
  have hlook : (smallBody ℝ).joint_names_.lookup "LHip" = some 2 := by
    simp [smallBody, List.lookup]
  have hown : (smallBody ℝ).state_.pose 2 = 0 := rfl
  have hbone := (smallBody_hip_bone (smallBody ℝ) (SameAssets.refl _) (smallBody ℝ).state_.pose
    (fun _ _ => rfl)).1
  rw [hown, localRotation_zero realLibm realLibm_sqrt_zero, Matrix.one_mulVec] at hbone
  have hangle : Eigen.norm realLibm (angle_axis_ realLibm
      (((smallBody ℝ).calcJointLocations_ realLibm none none
          (some (smallBody ℝ).state_.pose)).1 3
        - ((smallBody ℝ).calcJointLocations_ realLibm none none
          (some (smallBody ℝ).state_.pose)).1 2)
      ![0, 1, 0]) > 0.0001 := by
    rw [hbone, angle_axis_x_to_y, quarterTurnZ_norm]
    exact quarter_gt_threshold
  exact ⟨smallBody_parentsBelow ℝ, hrootpar, hlook, smallBody_findChild_hip, hown, hangle,
    rotateLimbToDirection_points_bone (smallBody ℝ) 0 "LHip" ![0, 1, 0] 2 3 (smallBody_parentsBelow ℝ)
      hrootpar hlook (by decide) (by decide) smallBody_findChild_hip hown hangle⟩

/-- A joint that already holds a rotation: on `turnedHipBody` (`LHip` turned by a quarter turn
about `z`, the bone to `LKnee` pointing along `(0, 1, 0)`),
`rotateLimbToDirection("LHip", (1, 0, 0))` leaves the bone pointing along `(0, -1, 0)`; the
pose row is overwritten with the new rotation taken to the frame that still contains the old
one. -/
theorem rotateLimbToDirection_stored_rotation_example :
    turnedHipBody.joint_names_.lookup "LHip" = some 2 ∧
    turnedHipBody.findChild 2 = some 3 ∧
    Eigen.normalized realLibm
      (((turnedHipBody.rotateLimbToDirection realLibm 0 "LHip"
            ![1, 0, 0]).2.calcJointLocations_ realLibm none none
          (some (turnedHipBody.rotateLimbToDirection realLibm 0 "LHip"
            ![1, 0, 0]).2.state_.pose)).1 3
        - ((turnedHipBody.rotateLimbToDirection realLibm 0 "LHip"
            ![1, 0, 0]).2.calcJointLocations_ realLibm none none
          (some (turnedHipBody.rotateLimbToDirection realLibm 0 "LHip"
            ![1, 0, 0]).2.state_.pose)).1 2) = ![0, -1, 0] ∧
    Eigen.normalized realLibm ![1, 0, 0] = ![1, 0, 0] ∧
    (![0, -1, 0] : Vec3 ℝ) ≠ ![1, 0, 0] := by
  refine ⟨by simp [turnedHipBody, smallBody, List.lookup], smallBody_findChild_hip, ?_,
    realLibm_normalized_unit _ unit_x, ?_⟩
  · rw [turnedHipBody_bone]
    exact realLibm_normalized_unit _ (by simp [Eigen.dot])
  · intro h
    have := congrFun h 0
    simp at this

/-! ### `twistBack` -/

/-- The angle `angle_axis_` computes is smaller than its tangent, for vectors at an acute
angle. -/
theorem angle_axis_norm_lt (f t : Vec3 ℝ) (hf : f ≠ 0) (ht : t ≠ 0)
    (hc : Eigen.cross f t ≠ 0) (hdot : 0 < Eigen.dot f t) :
    Eigen.norm realLibm (angle_axis_ realLibm f t) <
      Eigen.norm realLibm (Eigen.cross f t) / Eigen.dot f t := by
  have hF := realLibm_norm_pos f hf
  have hT := realLibm_norm_pos t ht
  have hN := realLibm_norm_pos _ hc
  obtain ⟨hcos, hsin⟩ := angle_axis_cos_sin f t hf ht
  have hrange := realLibm_atan2_range
    (Eigen.dot f t / (Eigen.norm realLibm f * Eigen.norm realLibm t))
    (Eigen.norm realLibm (Eigen.cross f t) / (Eigen.norm realLibm f * Eigen.norm realLibm t))
    (div_nonneg (realLibm_norm_nonneg _) (mul_pos hF hT).le)
  rw [angle_axis_of_ne_zero f t hf ht]
  generalize realLibm.atan2
    (Eigen.norm realLibm (Eigen.cross f t) / (Eigen.norm realLibm f * Eigen.norm realLibm t))
    (Eigen.dot f t / (Eigen.norm realLibm f * Eigen.norm realLibm t)) = θ at hcos hsin hrange
  rw [realLibm_norm_smul θ _ hrange.1 (realLibm_normalized _ hc).2]
  have hcpos : 0 < Real.cos θ := by
    rw [hcos]
    exact div_pos hdot (mul_pos hF hT)
  have hspos : 0 < Real.sin θ := by
    rw [hsin]
    exact div_pos hN (mul_pos hF hT)
  have hθ0 : 0 < θ := by
    rcases hrange.1.lt_or_eq with h | h
    · exact h
    · rw [← h, Real.sin_zero] at hspos
      exact absurd hspos (lt_irrefl _)
  have hθ2 : θ < Real.pi / 2 := by
    by_contra hge
    have := Real.cos_nonpos_of_pi_div_two_le_of_le (not_lt.mp hge)
      (by linarith [hrange.2, Real.pi_pos])
    linarith
  have htan := Real.lt_tan hθ0 hθ2
  rw [Real.tan_eq_sin_div_cos, hsin, hcos] at htan
  have hFT : Eigen.norm realLibm f * Eigen.norm realLibm t ≠ 0 := (mul_pos hF hT).ne.symm
  have he : Eigen.norm realLibm (Eigen.cross f t) /
      (Eigen.norm realLibm f * Eigen.norm realLibm t) /
      (Eigen.dot f t / (Eigen.norm realLibm f * Eigen.norm realLibm t)) =
      Eigen.norm realLibm (Eigen.cross f t) / Eigen.dot f t := by
    field_simp
  rw [he] at htan
  exact htan

/-- On the small body in its rest pose, `rotateLimbToDirection("LHip", nearlyX)` leaves the
bone from `LHip` to `LKnee` along the x axis: the rotation it stores is below the threshold of
`get3DLocalTransformMat_`. -/
theorem smallBody_bone_nearlyX :
    (((smallBody ℝ).rotateLimbToDirection realLibm 0 "LHip"
          (nearlyX ℝ)).2.calcJointLocations_ realLibm none none
        (some ((smallBody ℝ).rotateLimbToDirection realLibm 0 "LHip"
          (nearlyX ℝ)).2.state_.pose)).1 3
      - (((smallBody ℝ).rotateLimbToDirection realLibm 0 "LHip"
          (nearlyX ℝ)).2.calcJointLocations_ realLibm none none
        (some ((smallBody ℝ).rotateLimbToDirection realLibm 0 "LHip"
          (nearlyX ℝ)).2.state_.pose)).1 2 = ![1, 0, 0] := by
  have hf : (![1, 0, 0] : Vec3 ℝ) ≠ 0 := fun h => one_ne_zero (congrFun h 0)
  have ht : nearlyX ℝ ≠ 0 := fun h => one_ne_zero (congrFun h 0)
  have hcr : Eigen.cross (![1, 0, 0] : Vec3 ℝ) (nearlyX ℝ) =
      fun i => (1 / 20000 : ℝ) * (![0, 0, 1] : Vec3 ℝ) i := by
    funext i
    fin_cases i <;> simp [Eigen.cross, nearlyX]
  have hc : Eigen.cross (![1, 0, 0] : Vec3 ℝ) (nearlyX ℝ) ≠ 0 := by
    intro h
    have := congrFun h 2
    simp [Eigen.cross, nearlyX] at this
  have hd : Eigen.dot (![1, 0, 0] : Vec3 ℝ) (nearlyX ℝ) = 1 := by simp [Eigen.dot, nearlyX]
  have hsmall : ¬ Eigen.norm realLibm (angle_axis_ realLibm ![1, 0, 0] (nearlyX ℝ)) > 0.0001 := by
    have h := angle_axis_norm_lt _ _ hf ht hc (by rw [hd]; exact zero_lt_one)
    rw [hd, hcr, realLibm_norm_smul _ _ (by norm_num) unit_z] at h
    intro hgt
    norm_num at h hgt
    linarith
  have hown : (smallBody ℝ).state_.pose 2 = 0 := rfl
  obtain ⟨hbone, hG⟩ := smallBody_hip_bone (smallBody ℝ) (SameAssets.refl _)
    (smallBody ℝ).state_.pose (fun _ _ => rfl)
  rw [hown, localRotation_zero realLibm realLibm_sqrt_zero] at hG
  rw [hown, localRotation_zero realLibm realLibm_sqrt_zero, Matrix.one_mulVec] at hbone
  have hlook : (smallBody ℝ).joint_names_.lookup "LHip" = some 2 := by
    simp [smallBody, List.lookup]
  have hcond : Eigen.norm realLibm (nearlyX ℝ) * Eigen.norm realLibm
      (((smallBody ℝ).calcJointLocations_ realLibm none none
          (some (smallBody ℝ).state_.pose)).1 (((smallBody ℝ).findChild 2).getD 0)
        - ((smallBody ℝ).calcJointLocations_ realLibm none none
          (some (smallBody ℝ).state_.pose)).1 2) > 0 := by
    rw [smallBody_findChild_hip]
    show Eigen.norm realLibm (nearlyX ℝ) * Eigen.norm realLibm
      (((smallBody ℝ).calcJointLocations_ realLibm none none
          (some (smallBody ℝ).state_.pose)).1 3
        - ((smallBody ℝ).calcJointLocations_ realLibm none none
          (some (smallBody ℝ).state_.pose)).1 2) > 0
    rw [hbone]
    exact mul_pos (realLibm_norm_pos _ ht) (realLibm_norm_pos _ hf)
  obtain ⟨hS, hpose⟩ := rotateLimbToDirection_pose (smallBody ℝ) realLibm 0 "LHip" (nearlyX ℝ) 2
    hlook (by decide) (by decide) hcond
  rw [smallBody_findChild_hip] at hpose
  have hpose2 : ((smallBody ℝ).rotateLimbToDirection realLibm 0 "LHip" (nearlyX ℝ)).2.state_.pose
      = Function.update (smallBody ℝ).state_.pose 2
        (angle_axis_ realLibm ![1, 0, 0] (nearlyX ℝ)) := by
    rw [hpose]
    show Function.update (smallBody ℝ).state_.pose 2 ((Eigen.block33
        (((smallBody ℝ).calcJointLocations_ realLibm none none
          (some (smallBody ℝ).state_.pose)).2.fk_transforms_ 2)).transpose.mulVec
      (angle_axis_ realLibm
        (((smallBody ℝ).calcJointLocations_ realLibm none none
            (some (smallBody ℝ).state_.pose)).1 3
          - ((smallBody ℝ).calcJointLocations_ realLibm none none
            (some (smallBody ℝ).state_.pose)).1 2) (nearlyX ℝ))) = _
    rw [hG, hbone, Matrix.transpose_one, Matrix.one_mulVec]
  generalize ((smallBody ℝ).rotateLimbToDirection realLibm 0 "LHip" (nearlyX ℝ)).2 = S
    at hS hpose2
  have hz2 : ∀ k, k ≠ 2 → S.state_.pose k = 0 := by
    intro k hk
    rw [hpose2, Function.update_noteq hk]
    rfl
  have h2 : S.state_.pose 2 = angle_axis_ realLibm ![1, 0, 0] (nearlyX ℝ) := by
    rw [hpose2, Function.update_same]
  rw [(smallBody_hip_bone S hS S.state_.pose hz2).1, h2,
    localRotation_of_le realLibm _ hsmall, Matrix.one_mulVec]

/-- A target at a small angle from the bone (the degenerate case of a near-zero rotation):
on `smallBody` in its rest pose the bone from `LHip` to `LKnee` points along `(1, 0, 0)`; after
`rotateLimbToDirection("LHip", (1, 1/20000, 0))` it still points along `(1, 0, 0)`, because the
rotation stored has a norm below the threshold `0.0001` of `get3DLocalTransformMat_`, while
the normalized target has a non-zero second coordinate. -/
theorem rotateLimbToDirection_small_angle_example :
    (smallBody ℝ).joint_names_.lookup "LHip" = some 2 ∧
    (smallBody ℝ).findChild 2 = some 3 ∧
    Eigen.normalized realLibm
      ((((smallBody ℝ).rotateLimbToDirection realLibm 0 "LHip"
            (nearlyX ℝ)).2.calcJointLocations_ realLibm none none
          (some ((smallBody ℝ).rotateLimbToDirection realLibm 0 "LHip"
            (nearlyX ℝ)).2.state_.pose)).1 3
        - (((smallBody ℝ).rotateLimbToDirection realLibm 0 "LHip"
            (nearlyX ℝ)).2.calcJointLocations_ realLibm none none
          (some ((smallBody ℝ).rotateLimbToDirection realLibm 0 "LHip"
            (nearlyX ℝ)).2.state_.pose)).1 2) = ![1, 0, 0] ∧
    Eigen.normalized realLibm (nearlyX ℝ) 1 ≠ 0 ∧
    Eigen.normalized realLibm
      ((((smallBody ℝ).rotateLimbToDirection realLibm 0 "LHip"
            (nearlyX ℝ)).2.calcJointLocations_ realLibm none none
          (some ((smallBody ℝ).rotateLimbToDirection realLibm 0 "LHip"
            (nearlyX ℝ)).2.state_.pose)).1 3
        - (((smallBody ℝ).rotateLimbToDirection realLibm 0 "LHip"
            (nearlyX ℝ)).2.calcJointLocations_ realLibm none none
          (some ((smallBody ℝ).rotateLimbToDirection realLibm 0 "LHip"
            (nearlyX ℝ)).2.state_.pose)).1 2) ≠
      Eigen.normalized realLibm (nearlyX ℝ) := by
  have ht : nearlyX ℝ ≠ 0 := fun h => one_ne_zero (congrFun h 0)
  have h1 : Eigen.normalized realLibm (nearlyX ℝ) 1 ≠ 0 := by
    rw [(realLibm_normalized _ ht).1]
    have hN := realLibm_norm_pos _ ht
    show nearlyX ℝ 1 / Eigen.norm realLibm (nearlyX ℝ) ≠ 0
    have : nearlyX ℝ 1 = 1 / 20000 := by simp [nearlyX]
    rw [this]
    positivity
  refine ⟨by simp [smallBody, List.lookup], smallBody_findChild_hip, ?_, h1, ?_⟩
  · rw [smallBody_bone_nearlyX]
    exact realLibm_normalized_unit _ unit_x
  · rw [smallBody_bone_nearlyX, realLibm_normalized_unit _ unit_x]
    intro h
    apply h1
    rw [← h]
    rfl

theorem block33_setBlock33 (m : Mat4 α) (r : Mat3 α) :
    Eigen.block33 (Eigen.setBlock33 m r) = r := by
  funext i j
  fin_cases i <;> fin_cases j <;> rfl

theorem lastCol_setBlock33 (m : Mat4 α) (r : Mat3 α) (i : Fin 4) :
    Eigen.setBlock33 m r i 3 = m i 3 := by
  fin_cases i <;> rfl

theorem get3DLocalTransformJac_of_le (M : Libm α) (w : Vec3 α) (T : Mat4 α)
    (h : ¬ Eigen.norm M w > 0.0001) (i : Fin 3) :
    Eigen.block33 (get3DLocalTransformJac_ M w T i) = Eigen.skew (Pi.single i 1) := by
  unfold get3DLocalTransformJac_
  simp only [if_neg h, block33_setBlock33]
  fin_cases i
  · funext r c
    fin_cases r <;> fin_cases c <;> simp [Eigen.skew]
  · funext r c
    fin_cases r <;> fin_cases c <;> simp [Eigen.skew]
  · funext r c
    fin_cases r <;> fin_cases c <;> simp [Eigen.skew]

/-- C25: for a rotation vector whose norm does not exceed `1e-4` (the zero vector included),
the rotation block of `get3DLocalTransformMat_` is exactly the identity and slot `i` of
`get3DLocalTransformJac_` holds exactly the skew generator of axis `i`; both values are
constants, independent of the vector and of its norm. -/
theorem C25_small_rotation_is_identity (M : Libm α) (w t : Vec3 α) (T : Mat4 α)
    (h : Eigen.norm M w ≤ 0.0001) :
    Eigen.block33 (get3DLocalTransformMat_ M w t) = 1 ∧
    (∀ i, Eigen.block33 (get3DLocalTransformJac_ M w T i) = Eigen.skew (Pi.single i 1)) ∧
    Eigen.block33 (get3DLocalTransformJac_ M w T 0) = !![0, 0, 0; 0, 0, -1; 0, 1, 0] ∧
    Eigen.block33 (get3DLocalTransformJac_ M w T 1) = !![0, 0, 1; 0, 0, 0; -1, 0, 0] ∧
    Eigen.block33 (get3DLocalTransformJac_ M w T 2) = !![0, -1, 0; 1, 0, 0; 0, 0, 0] := by
  have h2 : ¬ Eigen.norm M w > 0.0001 := not_lt.mpr h
  refine ⟨?_, fun i => get3DLocalTransformJac_of_le M w T h2 i, ?_, ?_, ?_⟩
  · rw [get3DLocalTransformMat_eq_homo, block33_homo, localRotation_of_le M w h2]
  · unfold get3DLocalTransformJac_
    simp only [if_neg h2, block33_setBlock33]
    rfl
  · unfold get3DLocalTransformJac_
    simp only [if_neg h2, block33_setBlock33]
    rfl
  · unfold get3DLocalTransformJac_
    simp only [if_neg h2, block33_setBlock33]
    rfl

theorem C25_small_rotation_is_identity_witness :
    Eigen.norm ratLibm (0 : Vec3 ℚ) ≤ 0.0001 ∧
    Eigen.block33 (get3DLocalTransformMat_ ratLibm (0 : Vec3 ℚ) 0) = 1 ∧
    Eigen.block33 (get3DLocalTransformJac_ ratLibm (0 : Vec3 ℚ) 1 2) =
      !![0, -1, 0; 1, 0, 0; 0, 0, 0] := by
  have h : Eigen.norm ratLibm (0 : Vec3 ℚ) ≤ 0.0001 := by
    have hs : ratLibm.sqrt 0 = 0 := by simp [ratLibm, Rat.sqrt]
    simp only [Eigen.norm, Eigen.dot, Pi.zero_apply, mul_zero, add_zero, hs]
    norm_num
  have := C25_small_rotation_is_identity ratLibm (0 : Vec3 ℚ) 0 1 h
  exact ⟨h, this.1, this.2.2.2.2⟩

theorem rotateLimbToDirection_rejected (self : SMPLWrapper α) (M : Libm α) (child_id_uninit : Nat)
    (joint_name : String) (direction : Vec3 α)
    (h : self.joint_names_.lookup joint_name = none ∨
      self.joint_names_.lookup joint_name = some 0 ∨
      joint_name = "LowBack" ∨ joint_name = "MiddleBack" ∨ joint_name = "TopBack") :
    (self.rotateLimbToDirection M child_id_uninit joint_name direction).2 = self := by
  rcases hlook : self.joint_names_.lookup joint_name with _ | joint_id
  · simp [rotateLimbToDirection, hlook]
  · by_cases hroot : joint_id = 0
    · simp [rotateLimbToDirection, hlook, hroot]
    · have hback : joint_name = "LowBack" ∨ joint_name = "MiddleBack" ∨ joint_name = "TopBack" := by
        rcases h with h | h | h
        · rw [hlook] at h
          cases h
        · rw [hlook] at h
          exact absurd (Option.some.inj h) hroot
        · exact h
      simp [rotateLimbToDirection, hlook, hroot, hback]

theorem rotateLimbToDirection_no_turn (self : SMPLWrapper α) (M : Libm α)
    (child_id_uninit : Nat) (joint_name : String) (direction : Vec3 α) (joint_id : Nat)
    (hlook : self.joint_names_.lookup joint_name = some joint_id) (hroot : joint_id ≠ 0)
    (hback : ¬ (joint_name = "LowBack" ∨ joint_name = "MiddleBack" ∨ joint_name = "TopBack"))
    (hcond : ¬ Eigen.norm M direction * Eigen.norm M
      ((self.calcJointLocations_ M none none (some self.state_.pose)).1
          ((self.findChild joint_id).getD child_id_uninit)
        - (self.calcJointLocations_ M none none (some self.state_.pose)).1 joint_id) > 0) :
    (self.rotateLimbToDirection M child_id_uninit joint_name direction).2.state_ =
      self.state_ := by
  rw [rotateLimbToDirection_accepted_snd self M child_id_uninit joint_name direction
    joint_id hlook hroot hback]
  have hA : (afterLimbAssignment self M ((self.findChild joint_id).getD child_id_uninit)
      joint_id direction).state_ = self.state_ := by
    unfold afterLimbAssignment
    dsimp only
    rw [if_neg hcond]
    exact (calcJointLocations_frame self M none none (some self.state_.pose)).2
  generalize afterLimbAssignment self M ((self.findChild joint_id).getD child_id_uninit)
    joint_id direction = A at hA
  have hJ := calcJointLocations_frame A M none none (some A.state_.pose)
  generalize (A.calcJointLocations_ M none none (some A.state_.pose)).2 = B at hJ
  have hC := calcModel_frame B M (some B.state_.translation) (some B.state_.pose)
    (some B.state_.shape) (some B.state_.displacements)
  unfold calcModelCurrent
  rw [hC.2, hJ.2, hA]

theorem norm_zero_vec (M : Libm α) (hsqrt : M.sqrt 0 = 0) (v : Vec3 α) (hv : v = 0) :
    Eigen.norm M v = 0 := by
  subst hv
  simp [Eigen.norm, Eigen.dot, hsqrt]

/-- C29: `rotateLimbToDirection` leaves the translation, the shape, the displacement and
every pose row other than the row of the named joint as they were; when the call is rejected
(unknown name, root, or one of the three back joints), and when an accepted call is given the
zero vector as target or finds the bone from the joint to its child to be the zero vector,
the whole pose is left as it was. -/
theorem C29_rotateLimb_changes_one_row (self : SMPLWrapper α) (M : Libm α)
    (hsqrt : M.sqrt 0 = 0) (child_id_uninit : Nat) (joint_name : String) (direction : Vec3 α) :
    (self.rotateLimbToDirection M child_id_uninit joint_name direction).2.state_.translation =
      self.state_.translation ∧
    (self.rotateLimbToDirection M child_id_uninit joint_name direction).2.state_.shape =
      self.state_.shape ∧
    (self.rotateLimbToDirection M child_id_uninit joint_name direction).2.state_.displacements =
      self.state_.displacements ∧
    (∀ k, self.joint_names_.lookup joint_name ≠ some k →
      (self.rotateLimbToDirection M child_id_uninit joint_name direction).2.state_.pose k =
        self.state_.pose k) ∧
    ((self.joint_names_.lookup joint_name = none ∨
        self.joint_names_.lookup joint_name = some 0 ∨
        joint_name = "LowBack" ∨ joint_name = "MiddleBack" ∨ joint_name = "TopBack") →
      (self.rotateLimbToDirection M child_id_uninit joint_name direction).2.state_.pose =
        self.state_.pose) ∧
    (∀ joint_id, self.joint_names_.lookup joint_name = some joint_id →
      (direction = 0 ∨
        (self.calcJointLocations_ M none none (some self.state_.pose)).1
            ((self.findChild joint_id).getD child_id_uninit)
          - (self.calcJointLocations_ M none none (some self.state_.pose)).1 joint_id = 0) →
      (self.rotateLimbToDirection M child_id_uninit joint_name direction).2.state_.pose =
        self.state_.pose) := by
  have hF := rotateLimbToDirection_frame self M child_id_uninit joint_name direction
  refine ⟨hF.2.1, hF.2.2.1, hF.2.2.2.1, hF.2.2.2.2, ?_, ?_⟩
  · intro h
    rw [rotateLimbToDirection_rejected self M child_id_uninit joint_name direction h]
  · intro joint_id hlook hz
    by_cases hrej : joint_id = 0 ∨
        (joint_name = "LowBack" ∨ joint_name = "MiddleBack" ∨ joint_name = "TopBack")
    · rw [rotateLimbToDirection_rejected self M child_id_uninit joint_name direction]
      rcases hrej with h | h
      · exact Or.inr (Or.inl (by rw [hlook, h]))
      · exact Or.inr (Or.inr h)
    · rw [not_or] at hrej
      rw [rotateLimbToDirection_no_turn self M child_id_uninit joint_name direction joint_id
        hlook hrej.1 hrej.2]
      rcases hz with hz | hz
      · rw [norm_zero_vec M hsqrt direction hz, zero_mul]
        exact lt_irrefl 0
      · rw [norm_zero_vec M hsqrt _ hz, mul_zero]
        exact lt_irrefl 0

theorem C29_rotateLimb_changes_one_row_witness :
    ratLibm.sqrt 0 = 0 ∧
    (∀ k, (smallBody ℚ).joint_names_.lookup "LHip" ≠ some k →
      ((smallBody ℚ).rotateLimbToDirection ratLibm 0 "LHip" ![0, 1, 0]).2.state_.pose k =
        (smallBody ℚ).state_.pose k) ∧
    ((smallBody ℚ).rotateLimbToDirection ratLibm 0 "LHip" 0).2.state_.pose =
      (smallBody ℚ).state_.pose :=
  have hs : ratLibm.sqrt 0 = 0 := by simp [ratLibm, Rat.sqrt]
  ⟨hs, (C29_rotateLimb_changes_one_row (smallBody ℚ) ratLibm hs 0 "LHip" ![0, 1, 0]).2.2.2.1,
   (C29_rotateLimb_changes_one_row (smallBody ℚ) ratLibm hs 0 "LHip" 0).2.2.2.2.2 2
     (by simp [smallBody, List.lookup]) (Or.inl rfl)⟩

theorem smallBody_findChild_knee (α : Type) [LinearOrderedField α] :
    (smallBody α).findChild 3 = none := by
  simp [findChild, smallBody, List.range_succ, List.find?]

theorem rotateLimbToDirection_returns (self : SMPLWrapper α) (M : Libm α)
    (child_id_uninit : Nat) (joint_name : String) (direction : Vec3 α) (joint_id : Nat)
    (hnum : self.use_pose_blendshapes_ = true →
      (self.JOINTS_NUM - 1) * 9 ≤ self.POSE_BLENDSHAPES_NUM)
    (hlook : self.joint_names_.lookup joint_name = some joint_id) (hroot : joint_id ≠ 0)
    (hback : ¬ (joint_name = "LowBack" ∨ joint_name = "MiddleBack" ∨ joint_name = "TopBack")) :
    (self.rotateLimbToDirection M child_id_uninit joint_name direction).1 = Except.ok () := by
  obtain ⟨s, h1, h2, h3, hs⟩ :=
    rotateLimbToDirection_accepted self M child_id_uninit joint_name direction joint_id
      hlook hroot hback
  obtain ⟨v, hv⟩ := calcModel_ok s M (by rw [h1, h2, h3]; exact hnum)
    (some s.state_.translation) (some s.state_.pose) (some s.state_.shape)
    (some s.state_.displacements)
  rw [hs]
  unfold calcModelCurrent
  generalize s.calcModel M (some s.state_.translation) (some s.state_.pose)
    (some s.state_.shape) (some s.state_.displacements) = q at hv
  obtain ⟨r, s2⟩ := q
  simp only at hv
  subst hv
  rfl

theorem angle_axis_negx_to_y :
    angle_axis_ realLibm ![-1, 0, 0] ![0, 1, 0] = ![0, 0, -(Real.pi / 2)] := by
  have hf : (![-1, 0, 0] : Vec3 ℝ) ≠ 0 := fun h => by
    have := congrFun h 0
    simp at this
  have ht : (![0, 1, 0] : Vec3 ℝ) ≠ 0 := fun h => one_ne_zero (congrFun h 1)
  have hc : Eigen.cross (![-1, 0, 0] : Vec3 ℝ) ![0, 1, 0] =
      fun i => 1 * (![0, 0, -1] : Vec3 ℝ) i := by
    funext i
    fin_cases i <;> simp [Eigen.cross]
  have hd : Eigen.dot (![-1, 0, 0] : Vec3 ℝ) ![0, 1, 0] = 0 := by simp [Eigen.dot]
  have hn : Eigen.norm realLibm ![-1, 0, 0] = 1 := by
    rw [realLibm_norm]
    simp [Eigen.dot]
  rw [angle_axis_of_ne_zero _ _ hf ht, hc, realLibm_norm_smul 1 _ zero_le_one unit_z_neg,
    realLibm_normalized_smul 1 _ zero_lt_one unit_z_neg, hd, unit_y_norm, hn, mul_one,
    div_one, zero_div, realLibm_atan2_pos_zero 1 zero_lt_one]
  funext i
  fin_cases i <;> simp

/-- C30: on the small body the leaf joint `LKnee` is accepted by `rotateLimbToDirection`
although no joint has it as parent: the child search assigns nothing and the bone is taken
to the joint whose index the unset variable happens to hold, so the stored pose row depends
on that value (index 3 leaves the row at zero, index 2 stores a quarter turn). -/
theorem C30_leaf_joint_has_no_child :
    (smallBody ℝ).joint_names_.lookup "LKnee" = some 3 ∧
    (∀ u, ((smallBody ℝ).rotateLimbToDirection realLibm u "LKnee" ![0, 1, 0]).1 =
      Except.ok ()) ∧
    (smallBody ℝ).findChild 3 = none ∧
    (∀ i, i < (smallBody ℝ).JOINTS_NUM → (smallBody ℝ).joints_parents_ i ≠ 3) ∧
    ((smallBody ℝ).rotateLimbToDirection realLibm 3 "LKnee" ![0, 1, 0]).2.state_.pose 3 = 0 ∧
    ((smallBody ℝ).rotateLimbToDirection realLibm 2 "LKnee" ![0, 1, 0]).2.state_.pose 3 =
      ![0, 0, -(Real.pi / 2)] := by
  have hlook : (smallBody ℝ).joint_names_.lookup "LKnee" = some 3 := by
    simp [smallBody, List.lookup]
  have hback : ¬ ("LKnee" = "LowBack" ∨ "LKnee" = "MiddleBack" ∨ "LKnee" = "TopBack") := by
    decide
  have hnone := smallBody_findChild_knee ℝ
  have hB := smallBody_hip_bone (smallBody ℝ) (SameAssets.refl _) 0 (fun _ _ => rfl)
  have hp0 : (smallBody ℝ).state_.pose = 0 := rfl
  have hR0 : localRotation realLibm ((0 : MatX3 ℝ) 2) = 1 := localRotation_zero realLibm Real.sqrt_zero
  rw [hR0, Matrix.one_mulVec] at hB
  have hbone : ((smallBody ℝ).calcJointLocations_ realLibm none none
        (some (smallBody ℝ).state_.pose)).1 2
      - ((smallBody ℝ).calcJointLocations_ realLibm none none
        (some (smallBody ℝ).state_.pose)).1 3 = ![-1, 0, 0] := by
    rw [hp0, ← neg_sub, hB.1]
    funext i
    fin_cases i <;> simp
  have hG : Eigen.block33 (((smallBody ℝ).calcJointLocations_ realLibm none none
      (some (smallBody ℝ).state_.pose)).2.fk_transforms_ 3) = 1 := by
    rw [hp0, (calcJointLocations_fk (smallBody ℝ) realLibm 0 3 (by decide)).2,
      (fk_step (smallBody ℝ) realLibm 0 _ (smallBody_parentsBelow ℝ) 3 (by decide)
        (by decide)).1]
    have h2 : ((smallBody ℝ).joints_parents_ 3).toNat = 2 := by simp [smallBody]
    rw [h2, ← (calcJointLocations_fk (smallBody ℝ) realLibm 0 2 (by decide)).2, hB.2]
    show (1 : Mat3 ℝ) * localRotation realLibm (0 : Vec3 ℝ) = 1
    rw [localRotation_zero realLibm Real.sqrt_zero, mul_one]
  refine ⟨hlook, ?_, hnone, ?_, ?_, ?_⟩
  · intro u
    exact rotateLimbToDirection_returns (smallBody ℝ) realLibm u "LKnee" ![0, 1, 0] 3
      (fun _ => by decide) hlook (by decide) hback
  · intro i hi
    have hi4 : i < 4 := hi
    interval_cases i <;> simp [smallBody]
  · have h := rotateLimbToDirection_no_turn (smallBody ℝ) realLibm 3 "LKnee" ![0, 1, 0] 3
      hlook (by decide) hback (by
        rw [hnone, Option.getD_none, sub_self, norm_zero_vec realLibm Real.sqrt_zero 0 rfl, mul_zero]
        exact lt_irrefl 0)
    rw [h]
    rfl
  · have h := (rotateLimbToDirection_pose (smallBody ℝ) realLibm 2 "LKnee" ![0, 1, 0] 3
      hlook (by decide) hback (by
        rw [hnone, Option.getD_none, hbone, unit_y_norm, one_mul, realLibm_norm]
        simp [Eigen.dot])).2
    rw [h, Function.update_same, hG, hnone, Option.getD_none, hbone, Matrix.transpose_one, Matrix.one_mulVec, angle_axis_negx_to_y]

/-- C26: with the real sine and cosine and a parents-first tree, the rotation block `R` of
every `fk_transforms_[j]` satisfies `Rᵀ R = 1`; for a non-root joint
`assignJointGlobalRotation_` stores `Rᵀ * rotation`, which `R` takes back to `rotation`, and
for the root it stores `rotation` itself. -/
theorem C26_fk_rotation_orthonormal (self : SMPLWrapper ℝ) (pose rest : MatX3 ℝ)
    (hpar : ParentsBelow self.joints_parents_ self.JOINTS_NUM) (j : Nat)
    (hj : j < self.JOINTS_NUM) (other : SMPLWrapper ℝ) (rotation : Vec3 ℝ) :
    (Eigen.block33 ((self.updateJointsFKTransforms_ realLibm pose rest).fk_transforms_
        j)).transpose *
      Eigen.block33 ((self.updateJointsFKTransforms_ realLibm pose rest).fk_transforms_ j) = 1 ∧
    (0 < j →
      (other.assignJointGlobalRotation_ j rotation
          (self.updateJointsFKTransforms_ realLibm pose rest).fk_transforms_).state_.pose j =
        (Eigen.block33 ((self.updateJointsFKTransforms_ realLibm pose rest).fk_transforms_
          j)).transpose.mulVec rotation ∧
      (Eigen.block33 ((self.updateJointsFKTransforms_ realLibm pose rest).fk_transforms_
          j)).mulVec
        ((other.assignJointGlobalRotation_ j rotation
          (self.updateJointsFKTransforms_ realLibm pose rest).fk_transforms_).state_.pose j) =
        rotation) ∧
    (other.assignJointGlobalRotation_ 0 rotation
        (self.updateJointsFKTransforms_ realLibm pose rest).fk_transforms_).state_.pose 0 =
      rotation := by
  have hR := fk_isRotation self pose rest hpar j hj
  refine ⟨hR.1, ?_, ?_⟩
  · intro h0
    have hrow : (other.assignJointGlobalRotation_ j rotation
          (self.updateJointsFKTransforms_ realLibm pose rest).fk_transforms_).state_.pose j =
        (Eigen.block33 ((self.updateJointsFKTransforms_ realLibm pose rest).fk_transforms_
          j)).transpose.mulVec rotation := by
      unfold assignJointGlobalRotation_
      simp only [Function.update_same, gt_iff_lt, if_pos h0]
    refine ⟨hrow, ?_⟩
    rw [hrow, Matrix.mulVec_mulVec, hR.mul_transpose, Matrix.one_mulVec]
  · unfold assignJointGlobalRotation_
    simp

theorem C26_fk_rotation_orthonormal_witness :
    ParentsBelow (smallBody ℝ).joints_parents_ (smallBody ℝ).JOINTS_NUM ∧
    3 < (smallBody ℝ).JOINTS_NUM ∧
    (Eigen.block33 (((smallBody ℝ).updateJointsFKTransforms_ realLibm
        (fun _ => ![0, 0, Real.pi / 2]) 0).fk_transforms_ 3)).mulVec
      (((smallBody ℝ).assignJointGlobalRotation_ 3 ![0, 0, 1]
        ((smallBody ℝ).updateJointsFKTransforms_ realLibm
          (fun _ => ![0, 0, Real.pi / 2]) 0).fk_transforms_).state_.pose 3) = ![0, 0, 1] :=
  ⟨smallBody_parentsBelow ℝ, by decide,
   ((C26_fk_rotation_orthonormal (smallBody ℝ) (fun _ => ![0, 0, Real.pi / 2]) 0
      (smallBody_parentsBelow ℝ) 3 (by decide) (smallBody ℝ) ![0, 0, 1]).2.1 (by decide)).2⟩

theorem foldlM_error_eq {β γ : Type} (f : β → γ → Except Err β) (E : Err)
    (hf : ∀ b c e, f b c = Except.error e → e = E) (l : List γ) (b : β) (e : Err)
    (h : l.foldlM f b = Except.error e) : e = E := by
  induction l generalizing b with
  | nil => cases h
  | cons c l ih =>
    rw [List.foldlM_cons] at h
    cases hb : f b c with
    | error e2 =>
      rw [hb] at h
      have : e2 = e := by
        injection h
      exact this ▸ hf b c e2 hb
    | ok b2 =>
      rw [hb] at h
      exact ih b2 h

theorem addJointPoseBlendshape_error (self : SMPLWrapper α) (off : Nat) (coeff : Mat3 α)
    (verts : MatX3 α) (e : Err) (h : self.addJointPoseBlendshape_ off coeff verts = Except.error e) :
    e = Err.out_of_range := by
  unfold addJointPoseBlendshape_ at h
  refine foldlM_error_eq _ Err.out_of_range ?_ _ _ e h
  intro b c e2 h2
  refine foldlM_error_eq _ Err.out_of_range ?_ _ _ e2 h2
  intro b3 c3 e3 h3
  dsimp only at h3
  split_ifs at h3
  injection h3 with h3
  exact h3.symm

theorem addPoseBlendshapes_error (self : SMPLWrapper α) (lr : Nat → Mat3 α)
    (verts : MatX3 α) (e : Err) (h : self.addPoseBlendshapes_ lr verts = Except.error e) :
    e = Err.out_of_range := by
  unfold addPoseBlendshapes_ at h
  refine foldlM_error_eq _ Err.out_of_range ?_ _ _ e h
  intro b c e2 h2
  exact addJointPoseBlendshape_error self _ _ _ e2 h2

theorem calcModel_error_out_of_range (self : SMPLWrapper α) (M : Libm α)
    (translation : Option (Vec3 α)) (pose : Option (MatX3 α)) (shape : Option (Nat → α))
    (displacement : Option (MatX3 α)) (e : Err)
    (h : (self.calcModel M translation pose shape displacement).1 = Except.error e) :
    e = Err.out_of_range := by
  cases pose with
  | none =>
    rw [calcModel_no_pose] at h
    cases h
  | some p =>
    rw [calcModel_error_iff] at h
    split_ifs at h
    exact addPoseBlendshapes_error self _ _ e h

theorem construct_invalid_iff (self : SMPLWrapper α) (M : Libm α) (gender : Char)
    (files : AssetFiles α) (pose_blendshapes : Bool) :
    self.construct M gender files pose_blendshapes = Except.error Err.invalid_argument ↔
      ((gender ≠ 'f' ∧ gender ≠ 'm') ∨ files.shapeAv = none ∨
        (files.joints_mat_header.1 ≠ (self.JOINTS_NUM : Int) ∨
          files.joints_mat_header.2 ≠ (self.VERTICES_NUM : Int)) ∨
        files.stiffness_header.1 ≠ files.stiffness_header.2 ∨
        files.stiffness_header.1 ≠ (self.POSE_SIZE : Int) - 3 ∨
        files.joint_names_header ≠ (self.JOINTS_NUM : Int) ∨
        (files.weight_header.1 ≠ (self.JOINTS_NUM : Int) ∨
          files.weight_header.2 ≠ (self.VERTICES_NUM : Int)) ∨
        files.jointsHierarchy_header ≠ (self.JOINTS_NUM : Int)) := by
  unfold construct
  by_cases hg : gender ≠ 'f' ∧ gender ≠ 'm'
  · simp [hg]
  rw [if_neg hg]
  rcases hT : files.shapeAv with _ | ⟨vt, rows⟩
  · simp [readTemplate_, hT]
  by_cases h1 : files.joints_mat_header.1 ≠ (self.JOINTS_NUM : Int) ∨
      files.joints_mat_header.2 ≠ (self.VERTICES_NUM : Int)
  · simp [readTemplate_, hT, readJointMat_, h1]
  by_cases h2 : files.stiffness_header.1 ≠ files.stiffness_header.2
  · simp [readTemplate_, hT, readJointMat_, h1, readPoseStiffnessMat_, h2]
  by_cases h3 : files.stiffness_header.1 ≠ (self.POSE_SIZE : Int) - 3
  · simp [readTemplate_, hT, readJointMat_, h1, readPoseStiffnessMat_, h2, h3]
  by_cases h4 : files.joint_names_header ≠ (self.JOINTS_NUM : Int)
  · simp [readTemplate_, hT, readJointMat_, h1, readPoseStiffnessMat_, h2, h3, readJointNames_, h4]
  by_cases h5 : files.weight_header.1 ≠ (self.JOINTS_NUM : Int) ∨
      files.weight_header.2 ≠ (self.VERTICES_NUM : Int)
  · cases pose_blendshapes <;>
      simp [readTemplate_, hT, readJointMat_, h1, readPoseStiffnessMat_, h2, h3, readJointNames_,
        h4, readShapes_, readPoseBlendshapes_, readWeights_, h5]
  by_cases h6 : files.jointsHierarchy_header ≠ (self.JOINTS_NUM : Int)
  · cases pose_blendshapes <;>
      simp [readTemplate_, hT, readJointMat_, h1, readPoseStiffnessMat_, h2, h3, readJointNames_,
        h4, readShapes_, readPoseBlendshapes_, readWeights_, h5, readHierarchy_, h6]
  cases pose_blendshapes
  · simp [readTemplate_, hT, readJointMat_, h1, readPoseStiffnessMat_, h2, h3, readJointNames_,
      h4, readShapes_, readPoseBlendshapes_, readWeights_, h5, readHierarchy_, h6]
    have hg2 : ¬ (¬ gender = 'f' ∧ ¬ gender = 'm') := hg
    simp only [hg2, iff_false]
    intro h
    split at h
    · next e _ heq =>
      have h1 := calcModel_error_out_of_range _ M _ _ _ _ e (congrArg Prod.fst heq)
      rw [h1] at h
      cases h
    · cases h
  · simp [readTemplate_, hT, readJointMat_, h1, readPoseStiffnessMat_, h2, h3, readJointNames_,
      h4, readShapes_, readPoseBlendshapes_, readWeights_, h5, readHierarchy_, h6]
    have hg2 : ¬ (¬ gender = 'f' ∧ ¬ gender = 'm') := hg
    simp only [hg2, iff_false]
    intro h
    split at h
    · next e _ heq =>
      have h1 := calcModel_error_out_of_range _ M _ _ _ _ e (congrArg Prod.fst heq)
      rw [h1] at h
      cases h
    · cases h


/-- C24: the constructor ends with `std::invalid_argument` whenever the header of the joint
regressor or of the weights is not `(JOINTS_NUM, VERTICES_NUM)`, the header of the hierarchy
or of the joint names is not `JOINTS_NUM`, the stiffness header has `rows != cols` or
`rows != POSE_SIZE - SPACE_DIM`, or the gender is neither `f` nor `m`; when the gender is
valid and every header fits, each reader passes its check, and the constructor ends with
`std::invalid_argument` only if the template mesh cannot be read. -/
theorem C24_constructor_checks_headers (self : SMPLWrapper α) (M : Libm α) (gender : Char)
    (files : AssetFiles α) (pose_blendshapes : Bool) :
    ((files.joints_mat_header ≠ ((self.JOINTS_NUM : Int), (self.VERTICES_NUM : Int)) ∨
        files.weight_header ≠ ((self.JOINTS_NUM : Int), (self.VERTICES_NUM : Int)) ∨
        files.jointsHierarchy_header ≠ (self.JOINTS_NUM : Int) ∨
        files.joint_names_header ≠ (self.JOINTS_NUM : Int) ∨
        files.stiffness_header.1 ≠ files.stiffness_header.2 ∨
        files.stiffness_header.1 ≠ (self.POSE_SIZE : Int) - 3 ∨
        (gender ≠ 'f' ∧ gender ≠ 'm')) →
      self.construct M gender files pose_blendshapes = Except.error Err.invalid_argument) ∧
    ((files.joints_mat_header = ((self.JOINTS_NUM : Int), (self.VERTICES_NUM : Int)) ∧
        files.weight_header = ((self.JOINTS_NUM : Int), (self.VERTICES_NUM : Int)) ∧
        files.jointsHierarchy_header = (self.JOINTS_NUM : Int) ∧
        files.joint_names_header = (self.JOINTS_NUM : Int) ∧
        files.stiffness_header.1 = files.stiffness_header.2 ∧
        files.stiffness_header.1 = (self.POSE_SIZE : Int) - 3 ∧
        (gender = 'f' ∨ gender = 'm')) →
      (∃ s, self.readJointMat_ files = Except.ok s) ∧
      (∃ s, self.readPoseStiffnessMat_ files = Except.ok s) ∧
      (∃ s, self.readJointNames_ files = Except.ok s) ∧
      (∃ s, self.readWeights_ files = Except.ok s) ∧
      (∃ s, self.readHierarchy_ files = Except.ok s) ∧
      (self.construct M gender files pose_blendshapes = Except.error Err.invalid_argument ↔
        files.shapeAv = none)) := by
  have hpair : ∀ (p : Int × Int) (a b : Int), p ≠ (a, b) ↔ (p.1 ≠ a ∨ p.2 ≠ b) := by
    intro p a b
    rw [Ne, Prod.ext_iff, not_and_or]
  constructor
  · intro h
    rw [construct_invalid_iff]
    rcases h with h | h | h | h | h | h | h
    · exact Or.inr (Or.inr (Or.inl ((hpair _ _ _).mp h)))
    · exact Or.inr (Or.inr (Or.inr (Or.inr (Or.inr (Or.inr (Or.inl ((hpair _ _ _).mp h)))))))
    · exact Or.inr (Or.inr (Or.inr (Or.inr (Or.inr (Or.inr (Or.inr h))))))
    · exact Or.inr (Or.inr (Or.inr (Or.inr (Or.inr (Or.inl h)))))
    · exact Or.inr (Or.inr (Or.inr (Or.inl h)))
    · exact Or.inr (Or.inr (Or.inr (Or.inr (Or.inl h))))
    · exact Or.inl h
  · rintro ⟨h1, h2, h3, h4, h5, h6, h7⟩
    have h1a : files.joints_mat_header.1 = (self.JOINTS_NUM : Int) := by rw [h1]
    have h1b : files.joints_mat_header.2 = (self.VERTICES_NUM : Int) := by rw [h1]
    have h2a : files.weight_header.1 = (self.JOINTS_NUM : Int) := by rw [h2]
    have h2b : files.weight_header.2 = (self.VERTICES_NUM : Int) := by rw [h2]
    refine ⟨?_, ?_, ?_, ?_, ?_, ?_⟩
    · exact ⟨_, by simp only [readJointMat_, h1a, h1b, ne_eq, not_true_eq_false, or_self, if_false]; rfl⟩
    · exact ⟨_, by simp only [readPoseStiffnessMat_, ← h5, ← h6, ne_eq, not_true_eq_false, if_false]; rfl⟩
    · exact ⟨_, by simp only [readJointNames_, h4, ne_eq, not_true_eq_false, if_false]; rfl⟩
    · exact ⟨_, by simp only [readWeights_, h2a, h2b, ne_eq, not_true_eq_false, or_self, if_false]; rfl⟩
    · exact ⟨_, by simp only [readHierarchy_, h3, ne_eq, not_true_eq_false, if_false]; rfl⟩
    · rw [construct_invalid_iff]
      constructor
      · rintro (h | h | h | h | h | h | h | h)
        · rcases h7 with h7 | h7
          · exact absurd h7 h.1
          · exact absurd h7 h.2
        · exact h
        · rcases h with h | h
          · exact absurd h1a h
          · exact absurd h1b h
        · exact absurd h5 h
        · exact absurd h6 h
        · exact absurd h4 h
        · rcases h with h | h
          · exact absurd h2a h
          · exact absurd h2b h
        · exact absurd h3 h
      · intro h
        exact Or.inr (Or.inl h)

theorem C24_constructor_checks_headers_witness :
    ((smallBodyFiles ℚ).joints_mat_header = (((smallBody ℚ).JOINTS_NUM : Int),
        ((smallBody ℚ).VERTICES_NUM : Int)) ∧
      (smallBodyFiles ℚ).weight_header = (((smallBody ℚ).JOINTS_NUM : Int),
        ((smallBody ℚ).VERTICES_NUM : Int)) ∧
      (smallBodyFiles ℚ).jointsHierarchy_header = ((smallBody ℚ).JOINTS_NUM : Int) ∧
      (smallBodyFiles ℚ).joint_names_header = ((smallBody ℚ).JOINTS_NUM : Int) ∧
      (smallBodyFiles ℚ).stiffness_header.1 = (smallBodyFiles ℚ).stiffness_header.2 ∧
      (smallBodyFiles ℚ).stiffness_header.1 = ((smallBody ℚ).POSE_SIZE : Int) - 3 ∧
      ('f' = 'f' ∨ 'f' = 'm')) ∧
    (smallBody ℚ).construct ratLibm 'f' (smallBodyFiles ℚ) true ≠
      Except.error Err.invalid_argument ∧
    (smallBody ℚ).construct ratLibm 'x' (smallBodyFiles ℚ) true =
      Except.error Err.invalid_argument ∧
    (smallBody ℚ).construct ratLibm 'f'
        { smallBodyFiles ℚ with jointsHierarchy_header := 24 } true =
      Except.error Err.invalid_argument := by
  have hm : (smallBodyFiles ℚ).joints_mat_header = (((smallBody ℚ).JOINTS_NUM : Int),
        ((smallBody ℚ).VERTICES_NUM : Int)) ∧
      (smallBodyFiles ℚ).weight_header = (((smallBody ℚ).JOINTS_NUM : Int),
        ((smallBody ℚ).VERTICES_NUM : Int)) ∧
      (smallBodyFiles ℚ).jointsHierarchy_header = ((smallBody ℚ).JOINTS_NUM : Int) ∧
      (smallBodyFiles ℚ).joint_names_header = ((smallBody ℚ).JOINTS_NUM : Int) ∧
      (smallBodyFiles ℚ).stiffness_header.1 = (smallBodyFiles ℚ).stiffness_header.2 ∧
      (smallBodyFiles ℚ).stiffness_header.1 = ((smallBody ℚ).POSE_SIZE : Int) - 3 ∧
      ('f' = 'f' ∨ 'f' = 'm') := by
    refine ⟨rfl, rfl, rfl, rfl, rfl, ?_, Or.inl rfl⟩
    decide
  refine ⟨hm, ?_, ?_, ?_⟩
  · intro h
    have h2 := ((C24_constructor_checks_headers (smallBody ℚ) ratLibm 'f' (smallBodyFiles ℚ)
      true).2 hm).2.2.2.2.2.mp h
    cases h2
  · exact (C24_constructor_checks_headers (smallBody ℚ) ratLibm 'x' (smallBodyFiles ℚ) true).1
      (Or.inr (Or.inr (Or.inr (Or.inr (Or.inr (Or.inr (by decide)))))))
  · exact (C24_constructor_checks_headers (smallBody ℚ) ratLibm 'f'
      { smallBodyFiles ℚ with jointsHierarchy_header := 24 } true).1
      (Or.inr (Or.inr (Or.inl (by decide))))

theorem fkLoopBodyJac_fold_struct (M : Libm α) (pose rest : MatX3 α) (l : List Nat)
    (s : SMPLWrapper α) :
    l.foldl (fkLoopBodyJac M pose rest) s =
      { s with
        fk_transforms_ := (l.foldl (fkLoopBody M s.joints_parents_ pose rest)
          ⟨s.fk_transforms_, s.local_rotations_⟩).fk_transforms_
        local_rotations_ := (l.foldl (fkLoopBody M s.joints_parents_ pose rest)
          ⟨s.fk_transforms_, s.local_rotations_⟩).local_rotations_
        fk_derivatives_ := (l.foldl (fkLoopBodyJac M pose rest) s).fk_derivatives_
        local_rotations_jac_ := (l.foldl (fkLoopBodyJac M pose rest) s).local_rotations_jac_ } := by
  induction l generalizing s with
  | nil => rfl
  | cons a l ih =>
    rw [List.foldl_cons, List.foldl_cons]
    rw [ih (fkLoopBodyJac M pose rest s a)]
    rfl

/-- The derivative-carrying update differs from the plain one only in the two derivative
members. -/
theorem updateJointsFKTransforms_withDerivatives_eq (self : SMPLWrapper α) (M : Libm α)
    (pose rest : MatX3 α) :
    self.updateJointsFKTransforms_withDerivatives M pose rest =
      { self.updateJointsFKTransforms_ M pose rest with
        fk_derivatives_ :=
          (self.updateJointsFKTransforms_withDerivatives M pose rest).fk_derivatives_
        local_rotations_jac_ :=
          (self.updateJointsFKTransforms_withDerivatives M pose rest).local_rotations_jac_ } := by
  unfold updateJointsFKTransforms_withDerivatives updateJointsFKTransforms_
  dsimp only
  rw [fkLoopBodyJac_fold_struct]

theorem fkLoopBodyJac_fold_parents (M : Libm α) (pose rest : MatX3 α) (l : List Nat)
    (s : SMPLWrapper α) :
    (l.foldl (fkLoopBodyJac M pose rest) s).joints_parents_ = s.joints_parents_ := by
  rw [fkLoopBodyJac_fold_struct]

theorem fkLoopBodyJac_fold_other (M : Libm α) (pose rest : MatX3 α) (l : List Nat)
    (s : SMPLWrapper α) (j : Nat) (hj : j ∉ l) (p : Nat) :
    (l.foldl (fkLoopBodyJac M pose rest) s).fk_derivatives_ j p = s.fk_derivatives_ j p := by
  induction l generalizing s with
  | nil => rfl
  | cons a l ih =>
    have hne : j ≠ a := fun h => hj (h ▸ List.mem_cons_self _ _)
    have hl : j ∉ l := fun h => hj (List.mem_cons_of_mem _ h)
    rw [List.foldl_cons, ih _ hl]
    simp [fkLoopBodyJac, hne]

theorem fkLoopBodyJac_fold_other_rot (M : Libm α) (pose rest : MatX3 α) (l : List Nat)
    (s : SMPLWrapper α) (p : Nat) (hp : p / 3 ∉ l) :
    (l.foldl (fkLoopBodyJac M pose rest) s).local_rotations_jac_ p =
      s.local_rotations_jac_ p := by
  induction l generalizing s with
  | nil => rfl
  | cons a l ih =>
    have hne : p / 3 ≠ a := fun h => hp (h ▸ List.mem_cons_self _ _)
    have hl : p / 3 ∉ l := fun h => hp (List.mem_cons_of_mem _ h)
    rw [List.foldl_cons, ih _ hl]
    simp [fkLoopBodyJac, hne]

/-- The slots after a single iteration of the joint loop. -/
theorem fkLoopBodyJac_slot (M : Libm α) (pose rest : MatX3 α) (t : SMPLWrapper α) (a : Nat)
    (h0 : 0 < a) (hpa : 0 ≤ t.joints_parents_ a ∧ t.joints_parents_ a < (a : Int)) (p : Nat) :
    (p / 3 = a →
      (fkLoopBodyJac M pose rest t a).fk_derivatives_ a p =
        some (t.fk_transforms_ (t.joints_parents_ a).toNat *
          localTransformJacOf M t.joints_parents_ pose rest a (Fin.ofNat p))) ∧
    (∀ d, t.fk_derivatives_ (t.joints_parents_ a).toNat p = some d →
      (p : Int) < (t.joints_parents_ a + 1) * 3 →
      (fkLoopBodyJac M pose rest t a).fk_derivatives_ a p =
        some (d * localTransformOf M t.joints_parents_ pose rest a)) ∧
    (p / 3 ≠ a → (t.fk_derivatives_ (t.joints_parents_ a).toNat p = none ∨
        ¬ (p : Int) < (t.joints_parents_ a + 1) * 3) →
      (fkLoopBodyJac M pose rest t a).fk_derivatives_ a p = t.fk_derivatives_ a p) ∧
    (∀ j, j ≠ a → (fkLoopBodyJac M pose rest t a).fk_derivatives_ j p = t.fk_derivatives_ j p) ∧
    (p / 3 = a → (fkLoopBodyJac M pose rest t a).local_rotations_jac_ p =
      Eigen.block33 (localTransformJacOf M t.joints_parents_ pose rest a (Fin.ofNat p))) := by
  have ha : a ≠ 0 := by omega
  have hloc : localTransformOf M t.joints_parents_ pose rest a =
      get3DLocalTransformMat_ M (pose a) (rest a - rest (t.joints_parents_ a).toNat) := by
    simp [localTransformOf, ha]
  have hne : (t.joints_parents_ a).toNat ≠ a := by omega
  have hown : ∀ q, q / 3 = a → ¬ (q : Int) < (t.joints_parents_ a + 1) * 3 := by
    intro q hq
    have : a * 3 ≤ q := by omega
    omega
  refine ⟨?_, ?_, ?_, ?_, ?_⟩
  · intro hp
    simp only [fkLoopBodyJac, localTransformJacOf, hloc, hp, true_and, hown p hp, and_false,
      if_false, if_true, Function.update_noteq hne]
  · intro d hd hlt
    have hpa3 : p / 3 ≠ a := fun h => hown p h hlt
    simp only [fkLoopBodyJac, hloc, hlt, and_true, true_and, if_true, hne, false_and, if_false, hd]
  · intro hp hor
    rcases hor with hnone | hnlt
    · by_cases hlt : (p : Int) < (t.joints_parents_ a + 1) * 3
      · simp only [fkLoopBodyJac, hlt, and_true, true_and, if_true, hne, false_and, if_false,
          hnone, hp, and_false]
      · simp only [fkLoopBodyJac, hlt, and_false, if_false, hp]
    · simp only [fkLoopBodyJac, hnlt, and_false, if_false, hp]
  · intro j hj
    simp only [fkLoopBodyJac, hj, false_and, if_false]
  · intro hp
    simp only [fkLoopBodyJac, localTransformJacOf, hloc, hp, if_true]

theorem fkLoopBodyJac_fk (M : Libm α) (pose rest : MatX3 α) (t : SMPLWrapper α) (a j : Nat)
    (hj : j ≠ a) :
    (fkLoopBodyJac M pose rest t a).fk_transforms_ j = t.fk_transforms_ j := by
  simp [fkLoopBodyJac, Function.update_noteq hj]

theorem fkLoopBodyJac_fold_fk_other (M : Libm α) (pose rest : MatX3 α) (l : List Nat)
    (s : SMPLWrapper α) (j : Nat) (hj : j ∉ l) :
    (l.foldl (fkLoopBodyJac M pose rest) s).fk_transforms_ j = s.fk_transforms_ j := by
  induction l generalizing s with
  | nil => rfl
  | cons a l ih =>
    have hne : j ≠ a := fun h => hj (h ▸ List.mem_cons_self _ _)
    have hl : j ∉ l := fun h => hj (List.mem_cons_of_mem _ h)
    rw [List.foldl_cons, ih _ hl, fkLoopBodyJac_fk M pose rest s a j hne]

/-- The slots of joint `j` after the joint loop has run over `1 .. n`. -/
theorem fkLoopBodyJac_fold_range (M : Libm α) (pose rest : MatX3 α) (s : SMPLWrapper α)
    (n : Nat) (hpar : ParentsBelow s.joints_parents_ (n + 1)) (j : Nat) (h1 : 0 < j)
    (hn : j ≤ n) (p : Nat) :
    (p / 3 = j →
      ((List.range' 1 n).foldl (fkLoopBodyJac M pose rest) s).fk_derivatives_ j p =
        some (((List.range' 1 n).foldl (fkLoopBodyJac M pose rest) s).fk_transforms_
            (s.joints_parents_ j).toNat *
          localTransformJacOf M s.joints_parents_ pose rest j (Fin.ofNat p))) ∧
    (∀ d, ((List.range' 1 n).foldl (fkLoopBodyJac M pose rest) s).fk_derivatives_
        (s.joints_parents_ j).toNat p = some d →
      (p : Int) < (s.joints_parents_ j + 1) * 3 →
      ((List.range' 1 n).foldl (fkLoopBodyJac M pose rest) s).fk_derivatives_ j p =
        some (d * localTransformOf M s.joints_parents_ pose rest j)) ∧
    (p / 3 ≠ j →
      (((List.range' 1 n).foldl (fkLoopBodyJac M pose rest) s).fk_derivatives_
          (s.joints_parents_ j).toNat p = none ∨
        ¬ (p : Int) < (s.joints_parents_ j + 1) * 3) →
      ((List.range' 1 n).foldl (fkLoopBodyJac M pose rest) s).fk_derivatives_ j p =
        s.fk_derivatives_ j p) ∧
    (p / 3 = j →
      ((List.range' 1 n).foldl (fkLoopBodyJac M pose rest) s).local_rotations_jac_ p =
        Eigen.block33 (localTransformJacOf M s.joints_parents_ pose rest j (Fin.ofNat p))) := by
  induction n with
  | zero => omega
  | succ n ih =>
    have hpar' : ParentsBelow s.joints_parents_ (n + 1) := fun k hk hk' => hpar k hk (by omega)
    rw [List.range'_concat, List.foldl_concat]
    have e : 1 + 1 * n = n + 1 := by omega
    rw [e]
    have hp := hpar j h1 (by omega)
    have hpj : (s.joints_parents_ j).toNat < j := by omega
    have hT := fkLoopBodyJac_fold_parents M pose rest (List.range' 1 n) s
    have hnotin : n + 1 ∉ List.range' 1 n := by
      simp only [List.mem_range']
      rintro ⟨i, hi, hi2⟩
      omega
    generalize hTdef : (List.range' 1 n).foldl (fkLoopBodyJac M pose rest) s = T at hT ih
    by_cases hjn : j = n + 1
    · subst hjn
      have hslot := fkLoopBodyJac_slot M pose rest T (n + 1) h1 (by rw [hT]; exact hp) p
      rw [hT] at hslot
      have hne : (s.joints_parents_ (n + 1)).toNat ≠ n + 1 := by omega
      have hsame : T.fk_derivatives_ (n + 1) p = s.fk_derivatives_ (n + 1) p := by
        rw [← hTdef]
        exact fkLoopBodyJac_fold_other M pose rest _ s (n + 1) hnotin p
      rw [hslot.2.2.2.1 _ hne, fkLoopBodyJac_fk M pose rest T (n + 1) _ hne]
      refine ⟨hslot.1, hslot.2.1, ?_, hslot.2.2.2.2⟩
      intro h3 hor
      rw [hslot.2.2.1 h3 hor, hsame]
    · have hne : (s.joints_parents_ j).toNat ≠ n + 1 := by omega
      have hslot := fkLoopBodyJac_slot M pose rest T (n + 1) (by omega)
        (by rw [hT]; exact hpar (n + 1) (by omega) (by omega)) p
      have hih := ih hpar' (by omega)
      rw [hslot.2.2.2.1 _ hjn, hslot.2.2.2.1 _ hne, fkLoopBodyJac_fk M pose rest T (n + 1) _ hne]
      refine ⟨hih.1, hih.2.1, hih.2.2.1, ?_⟩
      intro h3
      have hp3 : p / 3 ≠ n + 1 := by omega
      have : (fkLoopBodyJac M pose rest T (n + 1)).local_rotations_jac_ p =
          T.local_rotations_jac_ p := by
        simp [fkLoopBodyJac, hp3]
      rw [this]
      exact hih.2.2.2 h3

theorem treePath_succ (parents : Nat → Int) (n : Nat) (hpar : ParentsBelow parents n) (j : Nat)
    (h0 : 0 < j) (hj : j < n) :
    treePath parents j j =
      treePath parents (parents j).toNat (parents j).toNat ++ [j] := by
  cases j with
  | zero => omega
  | succ k =>
    have hp := hpar (k + 1) (by omega) hj
    have hlt : (parents (k + 1)).toNat < k + 1 := by omega
    simp only [treePath, if_neg (Nat.succ_ne_zero k)]
    rw [treePath_fuel parents n hpar _ (by omega) k (by omega)]

theorem treePath_le (parents : Nat → Int) (n : Nat) (hpar : ParentsBelow parents n) (j : Nat) :
    j < n → ∀ k ∈ treePath parents j j, k ≤ j := by
  induction j using Nat.strong_induction_on with
  | _ j ih =>
    intro hj k hk
    by_cases h0 : j = 0
    · subst h0
      rw [treePath_zero] at hk
      simp at hk
      omega
    · have hp := hpar j (by omega) hj
      have hlt : (parents j).toNat < j := by omega
      rw [treePath_succ parents n hpar j (by omega) hj] at hk
      rcases List.mem_append.mp hk with hk | hk
      · have := ih _ hlt (by omega) k hk
        omega
      · simp at hk
        omega

theorem treePath_self_mem (parents : Nat → Int) (n : Nat) (hpar : ParentsBelow parents n)
    (j : Nat) (hj : j < n) : j ∈ treePath parents j j := by
  by_cases h0 : j = 0
  · subst h0
    rw [treePath_zero]
    simp
  · rw [treePath_succ parents n hpar j (by omega) hj]
    simp

/-- The slots of the root after the derivative-carrying update. -/
theorem fk_derivatives_root (self : SMPLWrapper α) (M : Libm α) (pose rest : MatX3 α) (p : Nat) :
    (self.updateJointsFKTransforms_withDerivatives M pose rest).fk_derivatives_ 0 p =
      (if p < 3 then
        some (localTransformJacOf M self.joints_parents_ pose rest 0 (Fin.ofNat p))
      else self.fk_derivatives_ 0 p) ∧
    (p < 3 →
      (self.updateJointsFKTransforms_withDerivatives M pose rest).local_rotations_jac_ p =
        Eigen.block33 (localTransformJacOf M self.joints_parents_ pose rest 0 (Fin.ofNat p))) := by
  have hmem : (0 : Nat) ∉ List.range' 1 (self.JOINTS_NUM - 1) := by
    simp only [List.mem_range']
    rintro ⟨i, _, hi⟩
    omega
  constructor
  · unfold updateJointsFKTransforms_withDerivatives
    dsimp only
    rw [fkLoopBodyJac_fold_other M pose rest _ _ 0 hmem p]
    simp [localTransformJacOf, localTransformOf]
  · intro hp
    have hp3 : p / 3 ∉ List.range' 1 (self.JOINTS_NUM - 1) := by
      have : p / 3 = 0 := by omega
      rw [this]
      exact hmem
    unfold updateJointsFKTransforms_withDerivatives
    dsimp only
    rw [fkLoopBodyJac_fold_other_rot M pose rest _ _ p hp3]
    simp [localTransformJacOf, localTransformOf, hp]

/-- The slots of a joint other than the root after the derivative-carrying update: the own
coordinates hold the parent's transform times the local derivative, a coordinate whose slot
at the parent is filled holds that slot times the local transform, and every other slot is
left as it was. -/
theorem fk_derivatives_rec (self : SMPLWrapper α) (M : Libm α) (pose rest : MatX3 α)
    (hpar : ParentsBelow self.joints_parents_ self.JOINTS_NUM) (j : Nat) (h0 : 0 < j)
    (hj : j < self.JOINTS_NUM) (p : Nat) :
    (p / 3 = j →
      (self.updateJointsFKTransforms_withDerivatives M pose rest).fk_derivatives_ j p =
        some ((self.updateJointsFKTransforms_ M pose rest).fk_transforms_
            (self.joints_parents_ j).toNat *
          localTransformJacOf M self.joints_parents_ pose rest j (Fin.ofNat p))) ∧
    (∀ d, (self.updateJointsFKTransforms_withDerivatives M pose rest).fk_derivatives_
        (self.joints_parents_ j).toNat p = some d →
      (p : Int) < (self.joints_parents_ j + 1) * 3 →
      (self.updateJointsFKTransforms_withDerivatives M pose rest).fk_derivatives_ j p =
        some (d * localTransformOf M self.joints_parents_ pose rest j)) ∧
    (p / 3 ≠ j →
      ((self.updateJointsFKTransforms_withDerivatives M pose rest).fk_derivatives_
          (self.joints_parents_ j).toNat p = none ∨
        ¬ (p : Int) < (self.joints_parents_ j + 1) * 3) →
      (self.updateJointsFKTransforms_withDerivatives M pose rest).fk_derivatives_ j p =
        self.fk_derivatives_ j p) ∧
    (p / 3 = j →
      (self.updateJointsFKTransforms_withDerivatives M pose rest).local_rotations_jac_ p =
        Eigen.block33 (localTransformJacOf M self.joints_parents_ pose rest j (Fin.ofNat p))) := by
  have hfk : (self.updateJointsFKTransforms_ M pose rest).fk_transforms_ =
      (self.updateJointsFKTransforms_withDerivatives M pose rest).fk_transforms_ := by
    rw [updateJointsFKTransforms_withDerivatives_eq]
  rw [hfk]
  have hpar' : ParentsBelow self.joints_parents_ (self.JOINTS_NUM - 1 + 1) := by
    have : self.JOINTS_NUM - 1 + 1 = self.JOINTS_NUM := by omega
    rw [this]; exact hpar
  have hne0 : j ≠ 0 := by omega
  have h := fkLoopBodyJac_fold_range M pose rest
    { self with
      fk_transforms_ := Function.update self.fk_transforms_ 0
        (get3DLocalTransformMat_ M (pose 0) (rest 0))
      local_rotations_ := Function.update self.local_rotations_ 0
        (Eigen.block33 (get3DLocalTransformMat_ M (pose 0) (rest 0)))
      fk_derivatives_ := fun j p =>
        if j = 0 ∧ p < 3 then
          some (get3DLocalTransformJac_ M (pose 0)
            (get3DLocalTransformMat_ M (pose 0) (rest 0)) (Fin.ofNat p))
        else self.fk_derivatives_ j p
      local_rotations_jac_ := fun p =>
        if p < 3 then Eigen.block33 (get3DLocalTransformJac_ M (pose 0)
          (get3DLocalTransformMat_ M (pose 0) (rest 0)) (Fin.ofNat p))
        else self.local_rotations_jac_ p }
    (self.JOINTS_NUM - 1) hpar' j h0 (by omega) p
  simp only [hne0, false_and, if_false] at h
  exact h

/-- On an object whose derivative slots are all empty, the derivative-carrying update fills
exactly the slots of the coordinates that belong to a joint on the path from the root, each
with the path product in which that joint's local transform is replaced by its local
derivative. -/
theorem fk_derivatives_fresh (self : SMPLWrapper α) (M : Libm α) (pose rest : MatX3 α)
    (hpar : ParentsBelow self.joints_parents_ self.JOINTS_NUM)
    (hfresh : self.fk_derivatives_ = fun _ _ => none) (j : Nat) :
    j < self.JOINTS_NUM → ∀ p,
    (self.updateJointsFKTransforms_withDerivatives M pose rest).fk_derivatives_ j p =
      if p / 3 ∈ treePath self.joints_parents_ j j then
        some (pathDerivative M self.joints_parents_ pose rest j p)
      else none := by
  induction j using Nat.strong_induction_on with
  | _ j ih =>
    intro hj p
    by_cases h0 : j = 0
    · subst h0
      rw [(fk_derivatives_root self M pose rest p).1, hfresh, treePath_zero]
      by_cases hp : p < 3
      · have hp3 : p / 3 = 0 := by omega
        simp [hp, hp3, pathDerivative, treePath_zero]
      · have hp3 : p / 3 ≠ 0 := by omega
        simp [hp, hp3]
    · have hpj := hpar j (by omega) hj
      have hlt : (self.joints_parents_ j).toNat < j := by omega
      have hrec := fk_derivatives_rec self M pose rest hpar j (by omega) hj p
      have hih := ih _ hlt (by omega) p
      have hpath := treePath_succ self.joints_parents_ _ hpar j (by omega) hj
      have hle := treePath_le self.joints_parents_ _ hpar (self.joints_parents_ j).toNat
        (by omega)
      by_cases hown : p / 3 = j
      · have hmem : p / 3 ∈ treePath self.joints_parents_ j j := by
          rw [hown]
          exact treePath_self_mem self.joints_parents_ _ hpar j hj
        rw [hrec.1 hown, if_pos hmem]
        congr 1
        unfold pathDerivative
        rw [hpath, List.map_append, List.prod_append, List.map_singleton, List.prod_singleton,
          if_pos hown.symm, updateJointsFKTransforms_path self M pose rest hpar _ (by omega)]
        congr 1
        congr 1
        refine List.map_congr_left ?_
        intro k hk
        have := hle k hk
        rw [if_neg (by omega)]
      · by_cases hanc : p / 3 ∈ treePath self.joints_parents_ (self.joints_parents_ j).toNat
            (self.joints_parents_ j).toNat
        · have hmem : p / 3 ∈ treePath self.joints_parents_ j j := by
            rw [hpath]
            exact List.mem_append_left _ hanc
          rw [if_pos hanc] at hih
          have hplt : (p : Int) < (self.joints_parents_ j + 1) * 3 := by
            have := hle _ hanc
            omega
          rw [hrec.2.1 _ hih hplt, if_pos hmem]
          congr 1
          unfold pathDerivative
          rw [hpath, List.map_append, List.prod_append, List.map_singleton, List.prod_singleton,
            if_neg (fun h => hown h.symm)]
        · have hmem : p / 3 ∉ treePath self.joints_parents_ j j := by
            rw [hpath]
            intro h
            rcases List.mem_append.mp h with h | h
            · exact hanc h
            · simp at h
              exact hown h
          rw [if_neg hanc] at hih
          rw [hrec.2.2.1 hown (Or.inl hih), if_neg hmem, hfresh]

theorem jacsTotal_fold_zero (self : SMPLWrapper α) (J : MatX3 α)
    (D : Nat → Nat → Option (Mat4 α)) (n p k : Nat) (c : Fin 3) (hk : 4 * n ≤ k) :
    (List.range n).foldl (fun (jacsTotal : Nat → MatX3 α) j =>
      let inverse_t_pose_translate := get3DTranslationMat_ (-(J j))
      fun p k c =>
        if h : 4 * j ≤ k ∧ k < 4 * j + 4 then
          let tmpPointGlobalJac := (D j p).getD 0 * inverse_t_pose_translate
          if (p : Int) < (self.joints_parents_ j + 1) * 3 ∧
              (D (self.joints_parents_ j).toNat p).isSome then
            tmpPointGlobalJac.transpose ⟨k - 4 * j, by omega⟩ c.castSucc
          else if p / 3 = j then
            tmpPointGlobalJac.transpose ⟨k - 4 * j, by omega⟩ c.castSucc
          else
            jacsTotal p k c
        else
          jacsTotal p k c) (fun _ => 0) p k c = 0 := by
  induction n with
  | zero => rfl
  | succ n ih =>
    rw [List.range_succ, List.foldl_concat]
    have hout : ¬ (4 * n ≤ k ∧ k < 4 * n + 4) := by omega
    simp only [dif_neg hout]
    exact ih (by omega)

theorem jacsTotal_apply (self : SMPLWrapper α) (J : MatX3 α)
    (D : Nat → Nat → Option (Mat4 α)) (p j : Nat) (hj : j < self.JOINTS_NUM) (d : Fin 4)
    (c : Fin 3) :
    self.extractLBSJointTransformFromFKTransform_jacsTotal J D p (j * 4 + d.val) c =
      jacBlock self J D j p c.castSucc d := by
  unfold extractLBSJointTransformFromFKTransform_jacsTotal
  generalize self.JOINTS_NUM = n at hj
  induction n with
  | zero => omega
  | succ n ih =>
    rw [List.range_succ, List.foldl_concat]
    have hd := d.isLt
    by_cases h : j = n
    · subst h
      have hin : 4 * j ≤ j * 4 + d.val ∧ j * 4 + d.val < 4 * j + 4 := by omega
      have hidx : (⟨j * 4 + d.val - 4 * j, by omega⟩ : Fin 4) = d := Fin.ext (by simp; omega)
      simp only [dif_pos hin, Matrix.transpose_apply, hidx, jacBlock]
      by_cases h1 : (p : Int) < (self.joints_parents_ j + 1) * 3 ∧
          (D (self.joints_parents_ j).toNat p).isSome
      · simp only [if_pos h1, h1, true_or, and_self, if_true]
      · by_cases h2 : p / 3 = j
        · simp only [if_neg h1, if_pos h2, h2, or_true, if_true]
        · have hor : ¬ (((p : Int) < (self.joints_parents_ j + 1) * 3 ∧
              (D (self.joints_parents_ j).toNat p).isSome) ∨ p / 3 = j) := by
            rintro (h | h)
            · exact h1 h
            · exact h2 h
          simp only [if_neg h1, if_neg h2, if_neg hor]
          exact jacsTotal_fold_zero self J D j p _ c (by omega)
    · have hout : ¬ (4 * n ≤ j * 4 + d.val ∧ j * 4 + d.val < 4 * n + 4) := by omega
      simp only [dif_neg hout]
      exact ih (by omega)

theorem mulSparse_jacsTotal_row (self : SMPLWrapper α) (J X : MatX3 α)
    (D : Nat → Nat → Option (Mat4 α)) (p : Nat)
    (hcol : ∀ t ∈ self.weights_, t.col < self.JOINTS_NUM) (r : Nat) (c : Fin 3) :
    Eigen.mulSparse (self.getLBSMatrix_ X)
        (self.extractLBSJointTransformFromFKTransform_jacsTotal J D p) r c =
      ((self.weights_.filter (fun t => t.row = r)).map (fun t =>
        t.value * ((jacBlock self J D t.col p).mulVec
          ![X r 0, X r 1, X r 2, 1]) c.castSucc)).sum := by
  rw [mulSparse_getLBSMatrix]
  congr 1
  refine List.map_congr_left (fun t ht => ?_)
  have htc := hcol t (List.mem_of_mem_filter ht)
  have e0 := jacsTotal_apply self J D p t.col htc 0 c
  have e1 := jacsTotal_apply self J D p t.col htc 1 c
  have e2 := jacsTotal_apply self J D p t.col htc 2 c
  have e3 := jacsTotal_apply self J D p t.col htc 3 c
  simp only [Fin.val_zero, Fin.val_one, Fin.val_two] at e0 e1 e2
  have e3' : self.extractLBSJointTransformFromFKTransform_jacsTotal J D p (t.col * 4 + 3) c =
      jacBlock self J D t.col p c.castSucc 3 := e3
  rw [e0, e1, e2, e3']
  have x0 : (![X r 0, X r 1, X r 2, 1] : Fin 4 → α) 0 = X r 0 := rfl
  have x1 : (![X r 0, X r 1, X r 2, 1] : Fin 4 → α) 1 = X r 1 := rfl
  have x2 : (![X r 0, X r 1, X r 2, 1] : Fin 4 → α) 2 = X r 2 := rfl
  have x3 : (![X r 0, X r 1, X r 2, 1] : Fin 4 → α) 3 = 1 := rfl
  simp only [Matrix.mulVec, Matrix.dotProduct, Fin.sum_univ_four, x0, x1, x2, x3]
  ring

/-- C28: on an object whose derivative slots are all empty and whose tree is stored
parents-first, after `updateJointsFKTransforms_` with derivatives the slot
`fk_derivatives_[j][p]` is filled exactly when the joint `p / 3` is `j` or an ancestor of `j`
(lies on the path from the root to `j`); it then holds the product of the transforms along
that path with the local transform of joint `p / 3` replaced by its local derivative for
dimension `p % 3`: the own slots are `fk_transforms_[parent] * localJac` (the local
derivative itself at the root) and an ancestor's slot is the parent's slot times the local
transform.  The block of joint `j` in `jacsTotal[p]` is zero for every other `p`. -/
theorem C28_derivative_slots_follow_ancestors (self : SMPLWrapper α) (M : Libm α)
    (pose rest : MatX3 α) (hpar : ParentsBelow self.joints_parents_ self.JOINTS_NUM)
    (hroot : self.joints_parents_ 0 < 0) (hfresh : self.fk_derivatives_ = fun _ _ => none)
    (j : Nat) (hj : j < self.JOINTS_NUM) (p : Nat) :
    (((self.updateJointsFKTransforms_withDerivatives M pose rest).fk_derivatives_ j p).isSome ↔
      p / 3 ∈ treePath self.joints_parents_ j j) ∧
    (p / 3 ∈ treePath self.joints_parents_ j j →
      (self.updateJointsFKTransforms_withDerivatives M pose rest).fk_derivatives_ j p =
        some (pathDerivative M self.joints_parents_ pose rest j p)) ∧
    (p / 3 = j →
      (self.updateJointsFKTransforms_withDerivatives M pose rest).fk_derivatives_ j p =
        some (if j = 0 then localTransformJacOf M self.joints_parents_ pose rest 0 (Fin.ofNat p)
          else (self.updateJointsFKTransforms_withDerivatives M pose rest).fk_transforms_
              (self.joints_parents_ j).toNat *
            localTransformJacOf M self.joints_parents_ pose rest j (Fin.ofNat p))) ∧
    (0 < j → p / 3 ∈ treePath self.joints_parents_ (self.joints_parents_ j).toNat
        (self.joints_parents_ j).toNat →
      (self.updateJointsFKTransforms_withDerivatives M pose rest).fk_derivatives_ j p =
        ((self.updateJointsFKTransforms_withDerivatives M pose rest).fk_derivatives_
          (self.joints_parents_ j).toNat p).map
            (fun d => d * localTransformOf M self.joints_parents_ pose rest j)) ∧
    (p / 3 ∉ treePath self.joints_parents_ j j → ∀ (d : Fin 4) (c : Fin 3),
      (self.updateJointsFKTransforms_withDerivatives M pose
          rest).extractLBSJointTransformFromFKTransform_jacsTotal rest
        (self.updateJointsFKTransforms_withDerivatives M pose rest).fk_derivatives_ p
        (j * 4 + d.val) c = 0) := by
  have hF := fk_derivatives_fresh self M pose rest hpar hfresh
  have hfk : (self.updateJointsFKTransforms_withDerivatives M pose rest).fk_transforms_ =
      (self.updateJointsFKTransforms_ M pose rest).fk_transforms_ := by
    rw [updateJointsFKTransforms_withDerivatives_eq]
  have hJ : (self.updateJointsFKTransforms_withDerivatives M pose rest).JOINTS_NUM =
      self.JOINTS_NUM := by
    rw [updateJointsFKTransforms_withDerivatives_eq]
    rfl
  have hP : (self.updateJointsFKTransforms_withDerivatives M pose rest).joints_parents_ =
      self.joints_parents_ := by
    rw [updateJointsFKTransforms_withDerivatives_eq]
    rfl
  refine ⟨?_, ?_, ?_, ?_, ?_⟩
  · rw [hF j hj p]
    by_cases h : p / 3 ∈ treePath self.joints_parents_ j j
    · simp [h]
    · simp [h]
  · intro h
    rw [hF j hj p, if_pos h]
  · intro h
    by_cases h0 : j = 0
    · subst h0
      have hp : p < 3 := by omega
      rw [(fk_derivatives_root self M pose rest p).1, if_pos hp, if_pos rfl]
    · rw [(fk_derivatives_rec self M pose rest hpar j (by omega) hj p).1 h, if_neg h0, hfk]
  · intro h0 hanc
    have hpj := hpar j h0 hj
    have hle := treePath_le self.joints_parents_ _ hpar (self.joints_parents_ j).toNat
      (by omega) _ hanc
    have hD := hF (self.joints_parents_ j).toNat (by omega) p
    rw [if_pos hanc] at hD
    rw [(fk_derivatives_rec self M pose rest hpar j h0 hj p).2.1 _ hD (by omega), hD]
    rfl
  · intro h d c
    rw [jacsTotal_apply _ rest _ p j (by rw [hJ]; exact hj) d c]
    unfold jacBlock
    rw [hP]
    have hne : p / 3 ≠ j := fun e => h (e ▸ treePath_self_mem self.joints_parents_ _ hpar j hj)
    have hcond : ¬ (((p : Int) < (self.joints_parents_ j + 1) * 3 ∧
        ((self.updateJointsFKTransforms_withDerivatives M pose rest).fk_derivatives_
          (self.joints_parents_ j).toNat p).isSome) ∨ p / 3 = j) := by
      rintro (⟨hlt, hs⟩ | he)
      · by_cases h0 : j = 0
        · subst h0
          omega
        · have hpj := hpar j (by omega) hj
          rw [hF (self.joints_parents_ j).toNat (by omega) p] at hs
          by_cases hanc : p / 3 ∈ treePath self.joints_parents_ (self.joints_parents_ j).toNat
              (self.joints_parents_ j).toNat
          · apply h
            rw [treePath_succ self.joints_parents_ _ hpar j (by omega) hj]
            exact List.mem_append_left _ hanc
          · rw [if_neg hanc] at hs
            cases hs
      · exact hne he
    rw [if_neg hcond]
    rfl

theorem C28_derivative_slots_follow_ancestors_witness :
    ParentsBelow (smallBody ℚ).joints_parents_ (smallBody ℚ).JOINTS_NUM ∧
    (smallBody ℚ).joints_parents_ 0 < 0 ∧
    ((smallBody ℚ).fk_derivatives_ = fun _ _ => none) ∧
    3 < (smallBody ℚ).JOINTS_NUM ∧
    (((smallBody ℚ).updateJointsFKTransforms_withDerivatives ratLibm (fun _ => ![3, 4, 0])
      0).fk_derivatives_ 3 6).isSome = true ∧
    (((smallBody ℚ).updateJointsFKTransforms_withDerivatives ratLibm (fun _ => ![3, 4, 0])
      0).fk_derivatives_ 3 3).isSome = false := by
  have h6 := (C28_derivative_slots_follow_ancestors (smallBody ℚ) ratLibm (fun _ => ![3, 4, 0])
    0 (smallBody_parentsBelow ℚ) (by decide) rfl 3 (by decide) 6).1
  have h3 := (C28_derivative_slots_follow_ancestors (smallBody ℚ) ratLibm (fun _ => ![3, 4, 0])
    0 (smallBody_parentsBelow ℚ) (by decide) rfl 3 (by decide) 3).1
  have hpath : treePath (smallBody ℚ).joints_parents_ 3 3 = [0, 2, 3] := by
    simp [treePath, smallBody]
  rw [hpath] at h6 h3
  refine ⟨smallBody_parentsBelow ℚ, by decide, rfl, by decide, h6.mpr (by decide), ?_⟩
  cases hs : (((smallBody ℚ).updateJointsFKTransforms_withDerivatives ratLibm
    (fun _ => ![3, 4, 0]) 0).fk_derivatives_ 3 3).isSome
  · rfl
  · exact absurd (h3.mp hs) (by decide)

theorem homo_mulVec_point (G : Mat3 α) (t y : Vec3 α) (c : Fin 3) :
    ((homo G t).mulVec ![y 0, y 1, y 2, 1]) c.castSucc = (G.mulVec y + t) c := by
  have h2 : (Fin.castSucc (2 : Fin 3) : Fin 4) = 2 := rfl
  rw [homo_eq]
  fin_cases c <;>
    simp [Matrix.mulVec, Matrix.dotProduct, Fin.sum_univ_four, Fin.sum_univ_three, h2]

/-- A posed joint transform applied to a rest-pose point: rotate the offset from the rest
joint location, then move to the posed joint location. -/
theorem skin_point (G : Mat3 α) (l J y : Vec3 α) (c : Fin 3) :
    ((homo G l * get3DTranslationMat_ (-J)).mulVec ![y 0, y 1, y 2, 1]) c.castSucc =
      (G.mulVec (y - J) + l) c := by
  rw [get3DTranslationMat_eq_homo, homo_mul, mul_one, homo_mulVec_point]
  simp only [Pi.add_apply, Matrix.mulVec_sub, Matrix.mulVec_neg, Pi.sub_apply, Pi.neg_apply]
  ring

theorem get3DLocalTransformJac_eq_homo (M : Libm α) (w : Vec3 α) (R : Mat3 α) (t : Vec3 α)
    (i : Fin 3) :
    get3DLocalTransformJac_ M w (homo R t) i =
      homo (Eigen.block33 (get3DLocalTransformJac_ M w (homo R t) i)) t := by
  have hl : Eigen.lastCol (get3DLocalTransformJac_ M w (homo R t) i) = t := by
    funext r
    unfold get3DLocalTransformJac_
    dsimp only
    split_ifs <;> fin_cases r <;> rfl
  have h := homo_block33_lastCol (get3DLocalTransformJac_ M w (homo R t) i)
    (by
      intro j
      unfold get3DLocalTransformJac_
      dsimp only
      split_ifs <;> fin_cases j <;> rfl)
    (by
      unfold get3DLocalTransformJac_
      dsimp only
      split_ifs <;> rfl)
  rw [hl] at h
  exact h.symm

/-- The rotation block written by `get3DLocalTransformJac_` depends on the rotation block of
the transform it is given only. -/
theorem block33_get3DLocalTransformJac (M : Libm α) (w : Vec3 α) (R : Mat3 α) (t : Vec3 α)
    (i : Fin 3) :
    Eigen.block33 (get3DLocalTransformJac_ M w (homo R t) i) =
      Eigen.block33 (get3DLocalTransformJac_ M w (homo R 0) i) := by
  unfold get3DLocalTransformJac_
  dsimp only
  split_ifs
  · rw [block33_setBlock33, block33_setBlock33, block33_homo, block33_homo]
  · rw [block33_setBlock33, block33_setBlock33]

theorem localRotationJac_eq (M : Libm α) (w : Vec3 α) (t : Vec3 α) (i : Fin 3) :
    get3DLocalTransformJac_ M w (get3DLocalTransformMat_ M w t) i =
      homo (localRotationJac M w i) t := by
  rw [get3DLocalTransformMat_eq_homo, get3DLocalTransformJac_eq_homo,
    block33_get3DLocalTransformJac]
  unfold localRotationJac
  rw [get3DLocalTransformMat_eq_homo]

theorem posedObjectJac_eq (self : SMPLWrapper α) (M : Libm α) (pose verts : MatX3 α) :
    posedObjectJac self M pose verts =
      { posedObject self M pose verts with
        fk_derivatives_ := (posedObjectJac self M pose verts).fk_derivatives_
        local_rotations_jac_ := (posedObjectJac self M pose verts).local_rotations_jac_ } := by
  unfold posedObjectJac
  rw [updateJointsFKTransforms_withDerivatives_eq]
  rfl

/-- `poseSMPL_` with the pose Jacobian on an object without pose blendshapes. -/
theorem poseSMPL_withJac_plain (self : SMPLWrapper α) (M : Libm α) (pose verts : MatX3 α)
    (displacement : Option (MatX3 α)) (hB : self.use_pose_blendshapes_ = false) :
    self.poseSMPL_withJac M pose verts displacement false =
      (Except.ok
        (skinned self (posedObject self M pose verts).fk_transforms_ (restJoints self verts)
          (displaced verts displacement),
         plainPoseJac self M pose verts displacement),
       posedObjectJac self M pose verts) := by
  have hE := posedObjectJac_eq self M pose verts
  have hB' : (posedObjectJac self M pose verts).use_pose_blendshapes_ = false := by
    rw [hE]
    exact hB
  unfold poseSMPL_withJac plainPoseJac
  simp only [Bool.not_false, if_true]
  unfold posedObjectJac at hE hB' ⊢
  generalize ({ self with
      joint_locations_ := Eigen.mulDense self.VERTICES_NUM self.jointRegressorMat_ verts } :
    SMPLWrapper α).updateJointsFKTransforms_withDerivatives M pose
      (Eigen.mulDense self.VERTICES_NUM self.jointRegressorMat_ verts) = S at hE hB' ⊢
  simp only [hB', Bool.false_eq_true, if_false]
  rw [hE]
  cases displacement <;> rfl

theorem poseSMPL_plain (self : SMPLWrapper α) (M : Libm α) (pose verts : MatX3 α)
    (displacement : Option (MatX3 α)) (hB : self.use_pose_blendshapes_ = false) :
    self.poseSMPL_ M pose verts displacement false =
      (Except.ok (skinned self (posedObject self M pose verts).fk_transforms_
          (restJoints self verts) (displaced verts displacement)),
       posedObject self M pose verts) := by
  rw [poseSMPL_eq, hB]
  cases displacement <;> rfl

theorem poseSMPL_previous_plain (self : SMPLWrapper α) (M : Libm α) (pose verts : MatX3 α)
    (hB : self.use_pose_blendshapes_ = false) :
    self.poseSMPL_ M pose verts none true =
      (Except.ok (skinned self self.fk_transforms_ self.joint_locations_ verts), self) := by
  unfold poseSMPL_ skinned
  simp only [Bool.not_true, Bool.false_eq_true, if_false, hB]

/-- The loop that fills `displacement_jac`, on an object without pose blendshapes: every
matrix is the skinning of the unit displacement field with the transforms and rest joint
locations the object holds. -/
theorem poseDisplacementJac_plain (self : SMPLWrapper α) (M : Libm α) (pose : MatX3 α)
    (a : Nat → MatX3 α) (hB : self.use_pose_blendshapes_ = false) :
    self.poseDisplacementJac M pose a =
      (Except.ok (fun axis =>
        if h : axis < 3 then
          skinned self self.fk_transforms_ self.joint_locations_
            (onesColumn self.VERTICES_NUM ⟨axis, h⟩)
        else a axis), self) := by
  unfold poseDisplacementJac
  rw [finRange_three]
  simp only [List.foldl_cons, List.foldl_nil, poseSMPL_previous_plain _ M pose _ hB]
  congr 2
  funext axis
  by_cases h0 : axis = 0
  · subst h0
    simp [Function.update]
    rfl
  by_cases h1 : axis = 1
  · subst h1
    simp [Function.update]
    rfl
  by_cases h2 : axis = 2
  · subst h2
    simp [Function.update]
    rfl
  have h3 : ¬ axis < 3 := by omega
  simp [Function.update, h0, h1, h2, h3]

/-- The loop that poses the shape Jacobian when there is one shape coefficient and no pose
blendshapes. -/
theorem poseShapeJac_plain (self : SMPLWrapper α) (M : Libm α) (pose : MatX3 α)
    (displacement : Option (MatX3 α)) (a : Nat → MatX3 α)
    (hB : self.use_pose_blendshapes_ = false) (hS : self.SHAPE_SIZE = 1) :
    self.poseShapeJac M pose displacement a =
      (Except.ok (Function.update a 0
          (skinned self (posedObject self M pose (a 0)).fk_transforms_ (restJoints self (a 0))
            (displaced (a 0) displacement))),
       posedObject self M pose (a 0)) := by
  unfold poseShapeJac
  rw [hS]
  simp only [List.range_succ, List.range_zero, List.nil_append, List.foldl_cons, List.foldl_nil,
    poseSMPL_plain self M pose _ displacement hB]

theorem calcModelJac_pose_jac (self : SMPLWrapper α) (M : Libm α) (pose : MatX3 α)
    (displacement : Option (MatX3 α)) (a : Nat → MatX3 α)
    (hB : self.use_pose_blendshapes_ = false) :
    self.calcModelJac M none (some pose) none displacement ⟨some a, none, none⟩ =
      (Except.ok
        (skinned self (posedObject self M pose self.verts_template_normalized_).fk_transforms_
          (restJoints self self.verts_template_normalized_)
          (displaced self.verts_template_normalized_ displacement),
        ⟨some (plainPoseJac self M pose self.verts_template_normalized_ displacement),
          none, none⟩),
       posedObjectJac self M pose self.verts_template_normalized_) := by
  unfold calcModelJac
  simp only [poseSMPL_withJac_plain self M pose _ displacement hB]

/-- `calcModel` asked for the shape Jacobian only, with one shape coefficient and no pose
blendshapes: the entry of the array is the blendshape posed as if it were a mesh, after the
vertices have been posed. -/
theorem calcModelJac_shape_jac (self : SMPLWrapper α) (M : Libm α) (pose : MatX3 α)
    (shape : Nat → α) (displacement : Option (MatX3 α)) (a : Nat → MatX3 α)
    (hB : self.use_pose_blendshapes_ = false) (hS : self.SHAPE_SIZE = 1) :
    self.calcModelJac M none (some pose) (some shape) displacement ⟨none, some a, none⟩ =
      (Except.ok
        (skinned self (posedObject self M pose
            (self.shapeSMPL_ shape self.verts_template_normalized_)).fk_transforms_
          (restJoints self (self.shapeSMPL_ shape self.verts_template_normalized_))
          (displaced (self.shapeSMPL_ shape self.verts_template_normalized_) displacement),
        ⟨none, some (Function.update
          (fun i => if i < self.SHAPE_SIZE then self.shape_diffs_ i else a i) 0
          (skinned self (posedObject (posedObject self M pose
              (self.shapeSMPL_ shape self.verts_template_normalized_)) M pose
              (self.shape_diffs_ 0)).fk_transforms_
            (restJoints self (self.shape_diffs_ 0))
            (displaced (self.shape_diffs_ 0) displacement))), none⟩),
       posedObject (posedObject self M pose
          (self.shapeSMPL_ shape self.verts_template_normalized_)) M pose
        (self.shape_diffs_ 0)) := by
  unfold calcModelJac
  have hB1 : (posedObject self M pose
      (self.shapeSMPL_ shape self.verts_template_normalized_)).use_pose_blendshapes_ = false := hB
  have hS1 : (posedObject self M pose
      (self.shapeSMPL_ shape self.verts_template_normalized_)).SHAPE_SIZE = 1 := hS
  have h01 : 0 < self.SHAPE_SIZE := by omega
  simp only [poseSMPL_plain self M pose _ displacement hB, Option.map_some',
    poseShapeJac_plain _ M pose displacement _ hB1 hS1, h01, if_true]
  rfl

/-- `calcModel` asked for the displacement Jacobian only, without pose blendshapes: the
unit displacement fields are skinned with the members the posing has left. -/
theorem calcModelJac_displacement_jac (self : SMPLWrapper α) (M : Libm α) (pose : MatX3 α)
    (shape : Nat → α) (displacement : Option (MatX3 α)) (a : Nat → MatX3 α)
    (hB : self.use_pose_blendshapes_ = false) :
    self.calcModelJac M none (some pose) (some shape) displacement ⟨none, none, some a⟩ =
      (Except.ok
        (skinned self (posedObject self M pose
            (self.shapeSMPL_ shape self.verts_template_normalized_)).fk_transforms_
          (restJoints self (self.shapeSMPL_ shape self.verts_template_normalized_))
          (displaced (self.shapeSMPL_ shape self.verts_template_normalized_) displacement),
        ⟨none, none, some (fun axis =>
          if h : axis < 3 then
            skinned (posedObject self M pose
                (self.shapeSMPL_ shape self.verts_template_normalized_))
              (posedObject self M pose
                (self.shapeSMPL_ shape self.verts_template_normalized_)).fk_transforms_
              (posedObject self M pose
                (self.shapeSMPL_ shape self.verts_template_normalized_)).joint_locations_
              (onesColumn self.VERTICES_NUM ⟨axis, h⟩)
          else a axis)⟩),
       posedObject self M pose (self.shapeSMPL_ shape self.verts_template_normalized_)) := by
  unfold calcModelJac
  have hB1 : (posedObject self M pose
      (self.shapeSMPL_ shape self.verts_template_normalized_)).use_pose_blendshapes_ = false := hB
  simp only [poseSMPL_plain self M pose _ displacement hB, Option.map_none']
  rw [poseDisplacementJac_plain (posedObject self M pose
      (self.shapeSMPL_ shape self.verts_template_normalized_)) M pose a hB1]
  rfl

/-- `calcModel` asked for the shape and the displacement Jacobian, with one shape coefficient
and no pose blendshapes: the unit displacement fields are skinned with the members left by
the posing of the shape blendshape. -/
theorem calcModelJac_shape_displacement_jac (self : SMPLWrapper α) (M : Libm α)
    (pose : MatX3 α) (shape : Nat → α) (displacement : Option (MatX3 α))
    (a b : Nat → MatX3 α) (hB : self.use_pose_blendshapes_ = false)
    (hS : self.SHAPE_SIZE = 1) :
    self.calcModelJac M none (some pose) (some shape) displacement ⟨none, some a, some b⟩ =
      (Except.ok
        (skinned self (posedObject self M pose
            (self.shapeSMPL_ shape self.verts_template_normalized_)).fk_transforms_
          (restJoints self (self.shapeSMPL_ shape self.verts_template_normalized_))
          (displaced (self.shapeSMPL_ shape self.verts_template_normalized_) displacement),
        ⟨none, some (Function.update
          (fun i => if i < self.SHAPE_SIZE then self.shape_diffs_ i else a i) 0
          (skinned self (posedObject (posedObject self M pose
              (self.shapeSMPL_ shape self.verts_template_normalized_)) M pose
              (self.shape_diffs_ 0)).fk_transforms_
            (restJoints self (self.shape_diffs_ 0))
            (displaced (self.shape_diffs_ 0) displacement))),
          some (fun axis =>
          if h : axis < 3 then
            skinned (posedObject (posedObject self M pose
                (self.shapeSMPL_ shape self.verts_template_normalized_)) M pose
                (self.shape_diffs_ 0))
              (posedObject (posedObject self M pose
                (self.shapeSMPL_ shape self.verts_template_normalized_)) M pose
                (self.shape_diffs_ 0)).fk_transforms_
              (posedObject (posedObject self M pose
                (self.shapeSMPL_ shape self.verts_template_normalized_)) M pose
                (self.shape_diffs_ 0)).joint_locations_
              (onesColumn self.VERTICES_NUM ⟨axis, h⟩)
          else b axis)⟩),
       posedObject (posedObject self M pose
          (self.shapeSMPL_ shape self.verts_template_normalized_)) M pose
        (self.shape_diffs_ 0)) := by
  unfold calcModelJac
  have hB1 : (posedObject self M pose
      (self.shapeSMPL_ shape self.verts_template_normalized_)).use_pose_blendshapes_ = false := hB
  have hS1 : (posedObject self M pose
      (self.shapeSMPL_ shape self.verts_template_normalized_)).SHAPE_SIZE = 1 := hS
  have h01 : 0 < self.SHAPE_SIZE := by omega
  have hB2 : (posedObject (posedObject self M pose
      (self.shapeSMPL_ shape self.verts_template_normalized_)) M pose
      (self.shape_diffs_ 0)).use_pose_blendshapes_ = false := hB
  simp only [poseSMPL_plain self M pose _ displacement hB, Option.map_some',
    poseShapeJac_plain _ M pose displacement _ hB1 hS1, h01, if_true]
  rw [poseDisplacementJac_plain (posedObject (posedObject self M pose
      (self.shapeSMPL_ shape self.verts_template_normalized_)) M pose
      (self.shape_diffs_ 0)) M pose b hB2]
  rfl

theorem pivotBody_parentsBelow (α : Type) [LinearOrderedField α] :
    ParentsBelow (pivotBody α).joints_parents_ (pivotBody α).JOINTS_NUM := by
  intro j h0 hj
  have hj' : j < 2 := hj
  interval_cases j
  simp [pivotBody]

theorem pivot_restJoints (S : SMPLWrapper α) (hS : SameAssets S (pivotBody α)) (X : MatX3 α) :
    restJoints S X 0 = 0 ∧ restJoints S X 1 = X 0 := by
  obtain ⟨-, h2, -, -, -, -, h7, -, -, -, -, -, -⟩ := hS
  unfold restJoints
  rw [h2, h7]
  constructor
  · funext c
    simp [Eigen.mulDense, pivotBody]
  · funext c
    simp [Eigen.mulDense, pivotBody]

theorem pivot_skinned (S : SMPLWrapper α) (hS : SameAssets S (pivotBody α))
    (fk : Nat → Mat4 α) (J X : MatX3 α) (c : Fin 3) :
    skinned S fk J X 0 c =
      ((fk 1 * get3DTranslationMat_ (-(J 1))).mulVec ![X 0 0, X 0 1, X 0 2, 1]) c.castSucc := by
  have hW : S.weights_ = [⟨0, 1, 1⟩] := hS.2.2.2.2.2.2.2.1
  have hJ : S.JOINTS_NUM = 2 := hS.1
  unfold skinned
  rw [mulSparse_LBS_row S fk J X (by
    intro t ht
    rw [hW] at ht
    simp at ht
    rw [ht, hJ]
    exact Nat.one_lt_two) 0 c, hW]
  simp

/-- The transforms of a chain of two joints. -/
theorem chain_fk (S : SMPLWrapper α) (M : Libm α) (pose rest : MatX3 α)
    (hpar : ParentsBelow S.joints_parents_ S.JOINTS_NUM) (hJ : 1 < S.JOINTS_NUM)
    (hP : S.joints_parents_ 1 = 0) :
    (S.updateJointsFKTransforms_ M pose rest).fk_transforms_ 0 =
      homo (localRotation M (pose 0)) (rest 0) ∧
    (S.updateJointsFKTransforms_ M pose rest).fk_transforms_ 1 =
      homo (localRotation M (pose 0) * localRotation M (pose 1))
        ((localRotation M (pose 0)).mulVec (rest 1 - rest 0) + rest 0) := by
  have h0 := (updateJointsFKTransforms_rec S M pose rest hpar 0 (by omega)).1
  have h1 := (updateJointsFKTransforms_rec S M pose rest hpar 1 hJ).1
  rw [if_pos rfl] at h0
  rw [if_neg one_ne_zero, hP, Int.toNat_zero, h0] at h1
  have e0 : localTransformOf M S.joints_parents_ pose rest 0 =
      homo (localRotation M (pose 0)) (rest 0) := by
    simp only [localTransformOf, if_true, get3DLocalTransformMat_eq_homo]
  have e1 : localTransformOf M S.joints_parents_ pose rest 1 =
      homo (localRotation M (pose 1)) (rest 1 - rest 0) := by
    simp only [localTransformOf, if_neg one_ne_zero, get3DLocalTransformMat_eq_homo, hP]
    rfl
  rw [e0] at h0
  refine ⟨h0, ?_⟩
  rw [h1, e0, e1, homo_mul]

/-- Posing on the pivot body: the vertex follows the second joint, whose rest location is the
vertex that was handed in. -/
theorem pivot_posed (S T : SMPLWrapper α) (hS : SameAssets S (pivotBody α))
    (hT : SameAssets T (pivotBody α)) (M : Libm α) (pose X Y J : MatX3 α) (hJ : J 1 = X 0) :
    skinned S (posedObject T M pose X).fk_transforms_ J Y 0 =
      (localRotation M (pose 0) * localRotation M (pose 1)).mulVec (Y 0 - X 0)
        + (localRotation M (pose 0)).mulVec (X 0) := by
  have hpar := hT.symm.parentsBelow (pivotBody_parentsBelow α)
  have hJ2 : T.JOINTS_NUM = 2 := hT.1
  have hP : T.joints_parents_ 1 = 0 := by
    rw [hT.2.2.2.2.2.2.2.2.2.2.1]
    simp [pivotBody]
  have hfk := (chain_fk T M pose (restJoints T X) hpar (by omega) hP).2
  have hr := pivot_restJoints T hT X
  funext c
  rw [pivot_skinned S hS]
  show (((T.updateJointsFKTransforms_ M pose (restJoints T X)).fk_transforms_ 1 * _).mulVec _) _
    = _
  rw [hfk, skin_point, hr.1, hr.2, sub_zero, add_zero, hJ]

/-- The pose Jacobian on the pivot body for the three coordinates of the second joint: the
rotational part, and on top of it the posed location of the joint. -/
theorem pivot_pose_jac (M : Libm α) (pose X : MatX3 α) (displacement : Option (MatX3 α))
    (i : Fin 3) :
    plainPoseJac (pivotBody α) M pose X displacement (3 + i.val) 0 =
      (localRotation M (pose 0) * localRotationJac M (pose 1) i).mulVec
          (displaced X displacement 0 - X 0)
        + (localRotation M (pose 0)).mulVec (X 0) := by
  have hpar := pivotBody_parentsBelow α
  have hr := pivot_restJoints (pivotBody α) (SameAssets.refl _) X
  have hlt : 3 + i.val < (pivotBody α).POSE_SIZE := by
    have := i.isLt
    show 3 + i.val < 2 * 3
    omega
  have hp3 : (3 + i.val) / 3 = 1 := by
    have := i.isLt
    omega
  have hof : (Fin.ofNat (3 + i.val) : Fin 3) = i := by
    apply Fin.ext
    have := i.isLt
    show (3 + i.val) % 3 = i.val
    omega
  have hD : (posedObjectJac (pivotBody α) M pose X).fk_derivatives_ 1 (3 + i.val) =
      some (homo (localRotation M (pose 0) * localRotationJac M (pose 1) i)
        ((localRotation M (pose 0)).mulVec (X 0))) := by
    unfold posedObjectJac
    have h := (fk_derivatives_rec ({ pivotBody α with
      joint_locations_ := Eigen.mulDense (pivotBody α).VERTICES_NUM
        (pivotBody α).jointRegressorMat_ X }) M pose (restJoints (pivotBody α) X) hpar 1
      Nat.one_pos Nat.one_lt_two (3 + i.val)).1 hp3
    have hfk := (chain_fk ({ pivotBody α with
      joint_locations_ := Eigen.mulDense (pivotBody α).VERTICES_NUM
        (pivotBody α).jointRegressorMat_ X }) M pose (restJoints (pivotBody α) X) hpar
      Nat.one_lt_two (by simp [pivotBody])).1
    have hP : (pivotBody α).joints_parents_ 1 = 0 := by simp [pivotBody]
    have hjac : localTransformJacOf M (pivotBody α).joints_parents_ pose
        (restJoints (pivotBody α) X) 1 i =
        homo (localRotationJac M (pose 1) i) (X 0) := by
      unfold localTransformJacOf localTransformOf
      rw [if_neg one_ne_zero, hP, Int.toNat_zero, localRotationJac_eq, hr.1, hr.2, sub_zero]
    have hP2 : ({ pivotBody α with
      joint_locations_ := Eigen.mulDense (pivotBody α).VERTICES_NUM
        (pivotBody α).jointRegressorMat_ X } : SMPLWrapper α).joints_parents_ =
        (pivotBody α).joints_parents_ := rfl
    rw [hP2, hP, Int.toNat_zero, hfk, hof, hjac, homo_mul, hr.1, add_zero] at h
    exact h
  funext c
  unfold plainPoseJac
  rw [if_pos hlt, mulSparse_jacsTotal_row (pivotBody α) _ _ _ _ (by
    intro t ht
    have hW : (pivotBody α).weights_ = [⟨0, 1, 1⟩] := rfl
    rw [hW] at ht
    simp at ht
    rw [ht]
    exact Nat.one_lt_two) 0 c]
  have hW : (pivotBody α).weights_ = [⟨0, 1, 1⟩] := rfl
  have hB : jacBlock (pivotBody α) (restJoints (pivotBody α) X)
      (posedObjectJac (pivotBody α) M pose X).fk_derivatives_ 1 (3 + i.val) =
      homo (localRotation M (pose 0) * localRotationJac M (pose 1) i)
        ((localRotation M (pose 0)).mulVec (X 0)) *
      get3DTranslationMat_ (-(X 0)) := by
    unfold jacBlock
    rw [if_pos (Or.inr hp3), hD, hr.2]
    rfl
  rw [hW]
  simp only [List.filter_cons_of_pos, List.filter_nil, List.map_cons, List.map_nil,
    List.sum_cons, List.sum_nil, add_zero, one_mul, decide_True, hB]
  rw [skin_point]

theorem calcModel_plain (self : SMPLWrapper α) (M : Libm α) (pose : MatX3 α) (shape : Nat → α)
    (displacement : Option (MatX3 α)) (hB : self.use_pose_blendshapes_ = false) :
    self.calcModel M none (some pose) (some shape) displacement =
      (Except.ok
        (skinned self (posedObject self M pose
            (self.shapeSMPL_ shape self.verts_template_normalized_)).fk_transforms_
          (restJoints self (self.shapeSMPL_ shape self.verts_template_normalized_))
          (displaced (self.shapeSMPL_ shape self.verts_template_normalized_) displacement)),
       posedObject self M pose (self.shapeSMPL_ shape self.verts_template_normalized_)) := by
  unfold calcModel
  simp only [poseSMPL_plain self M pose _ displacement hB]

theorem pivot_shaped (shape : Nat → α) :
    (pivotBody α).shapeSMPL_ shape (pivotBody α).verts_template_normalized_ 0 =
      ![1, shape 0, 0] := by
  unfold shapeSMPL_
  have hS : (pivotBody α).SHAPE_SIZE = 1 := rfl
  rw [hS]
  simp only [List.range_succ, List.range_zero, List.nil_append, List.foldl_cons, List.foldl_nil]
  funext c
  fin_cases c <;> simp [pivotBody]

theorem quarterTurnZ_mulVec_x :
    (localRotation realLibm ![0, 0, Real.pi / 2]).mulVec ![1, 0, 0] = ![0, 1, 0] := by
  rw [localRotation_quarterTurnZ]
  funext c
  fin_cases c <;> simp [Matrix.mulVec, Matrix.dotProduct, Fin.sum_univ_three]

/-- C21: on the pivot body (no pose blendshapes, no displacement) with both joints turned by
a quarter turn about `z` (norm above `1e-4`), the returned vertex is `(0, 1, 0)` whatever the
pose row of the second joint is, so its partial derivative with respect to each of the pose
coordinates 3, 4, 5 is zero; the matrices `pose_jac[3]`, `pose_jac[4]`, `pose_jac[5]`
returned by the same call hold `(0, 1, 0)`, the posed location of the second joint, in the
row of that vertex. -/
theorem C21_pose_jacobian_adds_joint_location :
    Eigen.norm realLibm ![0, 0, Real.pi / 2] > 0.0001 ∧
    (∀ row : Vec3 ℝ, ∃ verts jac s,
      (pivotBody ℝ).calcModelJac realLibm none
          (some (fun k => if k = 1 then row else ![0, 0, Real.pi / 2])) none none
          ⟨some 0, none, none⟩ = (Except.ok (verts, jac), s) ∧
        verts 0 = ![0, 1, 0]) ∧
    (∃ verts pose_jac s,
      (pivotBody ℝ).calcModelJac realLibm none (some (fun _ => ![0, 0, Real.pi / 2])) none none
          ⟨some 0, none, none⟩ = (Except.ok (verts, ⟨some pose_jac, none, none⟩), s) ∧
        pose_jac 3 0 = ![0, 1, 0] ∧ pose_jac 4 0 = ![0, 1, 0] ∧ pose_jac 5 0 = ![0, 1, 0]) := by
  have hX : (pivotBody ℝ).verts_template_normalized_ 0 = ![1, 0, 0] := rfl
  refine ⟨?_, ?_, ?_⟩
  · rw [quarterTurnZ_norm]
    exact quarter_gt_threshold
  · intro row
    refine ⟨_, _, _, calcModelJac_pose_jac (pivotBody ℝ) realLibm _ none 0 rfl, ?_⟩
    rw [pivot_posed (pivotBody ℝ) (pivotBody ℝ) (SameAssets.refl _) (SameAssets.refl _) realLibm _ _ _ _
      (pivot_restJoints (pivotBody ℝ) (SameAssets.refl _) _).2]
    show (_ : Mat3 ℝ).mulVec ((pivotBody ℝ).verts_template_normalized_ 0
        - (pivotBody ℝ).verts_template_normalized_ 0)
      + (localRotation realLibm ![0, 0, Real.pi / 2]).mulVec
        ((pivotBody ℝ).verts_template_normalized_ 0) = _
    rw [sub_self, Matrix.mulVec_zero, zero_add, hX, quarterTurnZ_mulVec_x]
  · refine ⟨_, _, _, calcModelJac_pose_jac (pivotBody ℝ) realLibm _ none 0 rfl, ?_, ?_, ?_⟩
    · have h := pivot_pose_jac realLibm (fun _ => ![0, 0, Real.pi / 2])
        (pivotBody ℝ).verts_template_normalized_ none 0
      simp only [Fin.val_zero, add_zero] at h
      rw [h]
      show (_ : Mat3 ℝ).mulVec ((pivotBody ℝ).verts_template_normalized_ 0
          - (pivotBody ℝ).verts_template_normalized_ 0) + _ = _
      rw [sub_self, Matrix.mulVec_zero, zero_add, hX, quarterTurnZ_mulVec_x]
    · have h := pivot_pose_jac realLibm (fun _ => ![0, 0, Real.pi / 2])
        (pivotBody ℝ).verts_template_normalized_ none 1
      have e : 3 + ((1 : Fin 3) : Nat) = 4 := rfl
      rw [e] at h
      rw [h]
      show (_ : Mat3 ℝ).mulVec ((pivotBody ℝ).verts_template_normalized_ 0
          - (pivotBody ℝ).verts_template_normalized_ 0) + _ = _
      rw [sub_self, Matrix.mulVec_zero, zero_add, hX, quarterTurnZ_mulVec_x]
    · have h := pivot_pose_jac realLibm (fun _ => ![0, 0, Real.pi / 2])
        (pivotBody ℝ).verts_template_normalized_ none 2
      have e : 3 + ((2 : Fin 3) : Nat) = 5 := rfl
      rw [e] at h
      rw [h]
      show (_ : Mat3 ℝ).mulVec ((pivotBody ℝ).verts_template_normalized_ 0
          - (pivotBody ℝ).verts_template_normalized_ 0) + _ = _
      rw [sub_self, Matrix.mulVec_zero, zero_add, hX, quarterTurnZ_mulVec_x]

/-- C22: on the pivot body at the zero pose with shape `0` and the displacement `(0, 0, 1)`,
raising the shape coefficient by one moves the returned vertex by `(0, 1, 0)` (the shape
blendshape), while the matrix `shape_jac[0]` returned for the same pose, shape and
displacement holds `(0, 1, 1)`: the displacement has been added to the blendshape before it
was posed. -/
theorem C22_shape_jacobian_carries_displacement :
    ∃ v1 v0 s1 s0 verts shape_jac s,
      (pivotBody ℚ).calcModel ratLibm none (some 0) (some (fun i => if i = 0 then 1 else 0))
        (some (fun _ => ![0, 0, 1])) = (Except.ok v1, s1) ∧
      (pivotBody ℚ).calcModel ratLibm none (some 0) (some 0) (some (fun _ => ![0, 0, 1])) =
        (Except.ok v0, s0) ∧
      (pivotBody ℚ).calcModelJac ratLibm none (some 0) (some 0) (some (fun _ => ![0, 0, 1]))
        ⟨none, some 0, none⟩ = (Except.ok (verts, ⟨none, some shape_jac, none⟩), s) ∧
      v1 0 - v0 0 = ![0, 1, 0] ∧ shape_jac 0 0 = ![0, 1, 1] := by
  have hs : ratLibm.sqrt 0 = 0 := by simp [ratLibm, Rat.sqrt]
  have hR : localRotation ratLibm ((0 : MatX3 ℚ) 0) = 1 := localRotation_zero ratLibm hs
  have hR1 : localRotation ratLibm ((0 : MatX3 ℚ) 1) = 1 := localRotation_zero ratLibm hs
  have hposed : ∀ (S T : SMPLWrapper ℚ) (hS : SameAssets S (pivotBody ℚ))
      (hT : SameAssets T (pivotBody ℚ)) (X J : MatX3 ℚ) (hJ : J 1 = X 0),
      skinned S (posedObject T ratLibm 0 X).fk_transforms_ J
        (displaced X (some (fun _ => ![0, 0, 1]))) 0 = ![0, 0, 1] + X 0 := by
    intro S T hS hT X J hJ
    rw [pivot_posed S T hS hT ratLibm 0 X _ J hJ, hR, hR1, mul_one, Matrix.one_mulVec,
      Matrix.one_mulVec]
    congr 1
    show (X + (fun _ => ![0, 0, 1] : MatX3 ℚ)) 0 - X 0 = ![0, 0, 1]
    rw [Pi.add_apply, add_sub_cancel_left]
  refine ⟨_, _, _, _, _, _, _, calcModel_plain (pivotBody ℚ) ratLibm 0 _ _ rfl,
    calcModel_plain (pivotBody ℚ) ratLibm 0 _ _ rfl,
    calcModelJac_shape_jac (pivotBody ℚ) ratLibm 0 0 _ 0 rfl rfl, ?_, ?_⟩
  · rw [hposed _ _ (SameAssets.refl _) (SameAssets.refl _) _ _
        (pivot_restJoints (pivotBody ℚ) (SameAssets.refl _) _).2,
      hposed _ _ (SameAssets.refl _) (SameAssets.refl _) _ _
        (pivot_restJoints (pivotBody ℚ) (SameAssets.refl _) _).2,
      pivot_shaped, pivot_shaped]
    funext c
    fin_cases c <;> simp
  · rw [Function.update_same,
      hposed _ _ (SameAssets.refl _) (posedObject_frame (pivotBody ℚ) ratLibm 0 _).1 _ _
        (pivot_restJoints (pivotBody ℚ) (SameAssets.refl _) _).2]
    funext c
    fin_cases c <;> simp [pivotBody]

theorem quarterTurnZ_sq :
    localRotation realLibm ![0, 0, Real.pi / 2] * localRotation realLibm ![0, 0, Real.pi / 2] =
      !![-1, 0, 0; 0, -1, 0; 0, 0, 1] := by
  rw [localRotation_quarterTurnZ]
  ext i j
  fin_cases i <;> fin_cases j <;>
    simp [Matrix.mul_apply, Fin.sum_univ_three, Matrix.vecHead, Matrix.vecTail]

/-- C23: on the pivot body with both joints turned by a quarter turn about `z`, shape `0` and
displacement `0`, displacing the vertex by one unit along `x` moves the returned vertex by
`(-1, 0, 0)`; the row of that vertex in `displacement_jac[0]` is `(0, 1, 0)` when the call
asks for the displacement Jacobian alone and `(-2, 1, 0)` when it asks for the shape
Jacobian as well. -/
theorem C23_displacement_jacobian_is_posed_field :
    ∃ v1 v0 s1 s0 vertsA jacA sA vertsB shape_jacB jacB sB,
      (pivotBody ℝ).calcModel realLibm none (some (fun _ => ![0, 0, Real.pi / 2])) (some 0)
        (some (onesColumn 1 0)) = (Except.ok v1, s1) ∧
      (pivotBody ℝ).calcModel realLibm none (some (fun _ => ![0, 0, Real.pi / 2])) (some 0)
        (some 0) = (Except.ok v0, s0) ∧
      (pivotBody ℝ).calcModelJac realLibm none (some (fun _ => ![0, 0, Real.pi / 2])) (some 0)
        (some 0) ⟨none, none, some 0⟩ =
          (Except.ok (vertsA, ⟨none, none, some jacA⟩), sA) ∧
      (pivotBody ℝ).calcModelJac realLibm none (some (fun _ => ![0, 0, Real.pi / 2])) (some 0)
        (some 0) ⟨none, some 0, some 0⟩ =
          (Except.ok (vertsB, ⟨none, some shape_jacB, some jacB⟩), sB) ∧
      v1 0 - v0 0 = ![-1, 0, 0] ∧ jacA 0 0 = ![0, 1, 0] ∧ jacB 0 0 = ![-2, 1, 0] := by
  have hposed : ∀ (S T : SMPLWrapper ℝ) (hS : SameAssets S (pivotBody ℝ))
      (hT : SameAssets T (pivotBody ℝ)) (X Y J : MatX3 ℝ) (hJ : J 1 = X 0),
      skinned S (posedObject T realLibm (fun _ => ![0, 0, Real.pi / 2]) X).fk_transforms_ J
        Y 0 = (!![-1, 0, 0; 0, -1, 0; 0, 0, 1] : Mat3 ℝ).mulVec (Y 0 - X 0)
          + (!![0, -1, 0; 1, 0, 0; 0, 0, 1] : Mat3 ℝ).mulVec (X 0) := by
    intro S T hS hT X Y J hJ
    rw [pivot_posed S T hS hT realLibm _ X Y J hJ, quarterTurnZ_sq, localRotation_quarterTurnZ]
  have hE : (onesColumn (pivotBody ℝ).VERTICES_NUM (0 : Fin 3) : MatX3 ℝ) 0 = ![1, 0, 0] := by
    funext c
    fin_cases c <;> simp [onesColumn, pivotBody, Matrix.vecHead, Matrix.vecTail]
  have hE1 : (onesColumn 1 (0 : Fin 3) : MatX3 ℝ) 0 = ![1, 0, 0] := hE
  have hS1 := (posedObject_frame (pivotBody ℝ) realLibm (fun _ => ![0, 0, Real.pi / 2])
    ((pivotBody ℝ).shapeSMPL_ 0 (pivotBody ℝ).verts_template_normalized_)).1
  have hS2 := (posedObject_frame (posedObject (pivotBody ℝ) realLibm
    (fun _ => ![0, 0, Real.pi / 2])
    ((pivotBody ℝ).shapeSMPL_ 0 (pivotBody ℝ).verts_template_normalized_)) realLibm
    (fun _ => ![0, 0, Real.pi / 2]) ((pivotBody ℝ).shape_diffs_ 0)).1.trans hS1
  refine ⟨_, _, _, _, _, _, _, _, _, _, _, calcModel_plain (pivotBody ℝ) realLibm _ _ _ rfl,
    calcModel_plain (pivotBody ℝ) realLibm _ _ _ rfl,
    calcModelJac_displacement_jac (pivotBody ℝ) realLibm _ 0 _ 0 rfl,
    calcModelJac_shape_displacement_jac (pivotBody ℝ) realLibm _ 0 _ 0 0 rfl rfl, ?_, ?_, ?_⟩
  · rw [hposed _ _ (SameAssets.refl _) (SameAssets.refl _) _ _ _
        (pivot_restJoints (pivotBody ℝ) (SameAssets.refl _) _).2,
      hposed _ _ (SameAssets.refl _) (SameAssets.refl _) _ _ _
        (pivot_restJoints (pivotBody ℝ) (SameAssets.refl _) _).2, pivot_shaped]
    have h1 : displaced ((pivotBody ℝ).shapeSMPL_ 0 (pivotBody ℝ).verts_template_normalized_)
        (some (onesColumn 1 0)) 0 = ![1, 0, 0] + ![1, 0, 0] := by
      show ((pivotBody ℝ).shapeSMPL_ 0 (pivotBody ℝ).verts_template_normalized_
        + (onesColumn 1 0 : MatX3 ℝ)) 0 = _
      rw [Pi.add_apply, pivot_shaped, hE1]
      simp
    have h0 : displaced ((pivotBody ℝ).shapeSMPL_ 0 (pivotBody ℝ).verts_template_normalized_)
        (some 0) 0 = ![1, 0, 0] := by
      show ((pivotBody ℝ).shapeSMPL_ 0 (pivotBody ℝ).verts_template_normalized_
        + (0 : MatX3 ℝ)) 0 = _
      rw [add_zero, pivot_shaped]
      simp
    rw [h1, h0]
    funext c
    fin_cases c <;> simp [Matrix.mulVec, Matrix.dotProduct, Fin.sum_univ_three]
  · rw [dif_pos (by decide : 0 < 3)]
    rw [hposed _ _ hS1 (SameAssets.refl _) _ _
      (posedObject (pivotBody ℝ) realLibm (fun _ => ![0, 0, Real.pi / 2])
        ((pivotBody ℝ).shapeSMPL_ 0 (pivotBody ℝ).verts_template_normalized_)).joint_locations_
      (pivot_restJoints (pivotBody ℝ) (SameAssets.refl _) _).2, pivot_shaped]
    show (_ : Mat3 ℝ).mulVec ((onesColumn (pivotBody ℝ).VERTICES_NUM (0 : Fin 3) : MatX3 ℝ) 0
      - _) + _ = _
    rw [hE]
    funext c
    fin_cases c <;> simp [Matrix.mulVec, Matrix.dotProduct, Fin.sum_univ_three]
  · rw [dif_pos (by decide : 0 < 3)]
    rw [hposed _ _ hS2 hS1 _ _
      (posedObject (posedObject (pivotBody ℝ) realLibm (fun _ => ![0, 0, Real.pi / 2])
        ((pivotBody ℝ).shapeSMPL_ 0 (pivotBody ℝ).verts_template_normalized_)) realLibm
        (fun _ => ![0, 0, Real.pi / 2]) ((pivotBody ℝ).shape_diffs_ 0)).joint_locations_
      (pivot_restJoints _ hS1 _).2]
    show (_ : Mat3 ℝ).mulVec ((onesColumn (pivotBody ℝ).VERTICES_NUM (0 : Fin 3) : MatX3 ℝ) 0
      - _) + _ = _
    rw [hE]
    funext c
    fin_cases c <;> simp [Matrix.mulVec, Matrix.dotProduct, Fin.sum_univ_three, pivotBody]
    norm_num

theorem mat3_ext (A B : Mat3 α) (h00 : A 0 0 = B 0 0) (h01 : A 0 1 = B 0 1)
    (h02 : A 0 2 = B 0 2) (h10 : A 1 0 = B 1 0) (h11 : A 1 1 = B 1 1) (h12 : A 1 2 = B 1 2)
    (h20 : A 2 0 = B 2 0) (h21 : A 2 1 = B 2 1) (h22 : A 2 2 = B 2 2) : A = B := by
  ext r c
  fin_cases r <;> fin_cases c <;> assumption

theorem jac_entry_000 (w : Vec3 α) (ι s c : α)
    (hι : ι * ι * (w 0 * w 0 + w 1 * w 1 + w 2 * w 2) = 1) (hsc : s * s + c * c = 1) :
    jacCode w ι s c 0 0 0 = jacTermwise w ι s c 0 0 0 := by
  simp only [jacCode, jacTermwise, rotationPoly, skew_mul_skew]
  simp [Eigen.skew, Eigen.cross, Matrix.mul_apply, Fin.sum_univ_three, Matrix.one_apply]
  linear_combination (-w 0 * ι ^ 2 + w 0 * ι ^ 2 * c ^ 2 + w 0 * ι ^ 2 * s ^ 2 + w 0 * w 2 ^ 2 * ι ^ 4 - 2 * w 0 * w 2 ^ 2 * ι ^ 4 * c + w 0 * w 2 ^ 2 * ι ^ 4 * c ^ 2 + w 0 * w 1 ^ 2 * ι ^ 4 - 2 * w 0 * w 1 ^ 2 * ι ^ 4 * c + w 0 * w 1 ^ 2 * ι ^ 4 * c ^ 2) * hι + (w 0 * ι ^ 2 - w 0 ^ 3 * ι ^ 4) * hsc

theorem jac_entry_001 (w : Vec3 α) (ι s c : α)
    (hι : ι * ι * (w 0 * w 0 + w 1 * w 1 + w 2 * w 2) = 1) (hsc : s * s + c * c = 1) :
    jacCode w ι s c 0 0 1 = jacTermwise w ι s c 0 0 1 := by
  simp only [jacCode, jacTermwise, rotationPoly, skew_mul_skew]
  simp [Eigen.skew, Eigen.cross, Matrix.mul_apply, Fin.sum_univ_three, Matrix.one_apply]
  linear_combination (w 1 * ι ^ 2 - w 1 * ι ^ 2 * c + w 0 * w 2 * ι ^ 2 - w 0 * w 2 * ι ^ 2 * c - w 0 ^ 2 * w 1 * ι ^ 4 + 2 * w 0 ^ 2 * w 1 * ι ^ 4 * c - w 0 ^ 2 * w 1 * ι ^ 4 * c ^ 2) * hι + (-w 0 ^ 2 * w 1 * ι ^ 4) * hsc

theorem jac_entry_002 (w : Vec3 α) (ι s c : α)
    (hι : ι * ι * (w 0 * w 0 + w 1 * w 1 + w 2 * w 2) = 1) (hsc : s * s + c * c = 1) :
    jacCode w ι s c 0 0 2 = jacTermwise w ι s c 0 0 2 := by
  simp only [jacCode, jacTermwise, rotationPoly, skew_mul_skew]
  simp [Eigen.skew, Eigen.cross, Matrix.mul_apply, Fin.sum_univ_three, Matrix.one_apply]
  linear_combination (w 2 * ι ^ 2 - w 2 * ι ^ 2 * c - w 0 * w 1 * ι ^ 2 + w 0 * w 1 * ι ^ 2 * c - w 0 ^ 2 * w 2 * ι ^ 4 + 2 * w 0 ^ 2 * w 2 * ι ^ 4 * c - w 0 ^ 2 * w 2 * ι ^ 4 * c ^ 2) * hι + (-w 0 ^ 2 * w 2 * ι ^ 4) * hsc

theorem jac_entry_010 (w : Vec3 α) (ι s c : α)
    (hι : ι * ι * (w 0 * w 0 + w 1 * w 1 + w 2 * w 2) = 1) (hsc : s * s + c * c = 1) :
    jacCode w ι s c 0 1 0 = jacTermwise w ι s c 0 1 0 := by
  simp only [jacCode, jacTermwise, rotationPoly, skew_mul_skew]
  simp [Eigen.skew, Eigen.cross, Matrix.mul_apply, Fin.sum_univ_three, Matrix.one_apply]
  linear_combination (-w 1 * ι ^ 2 * c + w 1 * ι ^ 2 * c ^ 2 + w 1 * ι ^ 2 * s ^ 2 + w 1 * w 2 ^ 2 * ι ^ 4 - 2 * w 1 * w 2 ^ 2 * ι ^ 4 * c + w 1 * w 2 ^ 2 * ι ^ 4 * c ^ 2 + w 1 ^ 3 * ι ^ 4 - 2 * w 1 ^ 3 * ι ^ 4 * c + w 1 ^ 3 * ι ^ 4 * c ^ 2 - w 0 * w 2 * ι ^ 2 + w 0 * w 2 * ι ^ 2 * c) * hι + (w 1 * ι ^ 2 - w 0 ^ 2 * w 1 * ι ^ 4) * hsc

theorem jac_entry_011 (w : Vec3 α) (ι s c : α)
    (hι : ι * ι * (w 0 * w 0 + w 1 * w 1 + w 2 * w 2) = 1) (hsc : s * s + c * c = 1) :
    jacCode w ι s c 0 1 1 = jacTermwise w ι s c 0 1 1 := by
  simp only [jacCode, jacTermwise, rotationPoly, skew_mul_skew]
  simp [Eigen.skew, Eigen.cross, Matrix.mul_apply, Fin.sum_univ_three, Matrix.one_apply]
  linear_combination (-2 * w 0 * ι ^ 2 + 2 * w 0 * ι ^ 2 * c - w 0 * w 1 ^ 2 * ι ^ 4 + 2 * w 0 * w 1 ^ 2 * ι ^ 4 * c - w 0 * w 1 ^ 2 * ι ^ 4 * c ^ 2) * hι + (-w 0 * w 1 ^ 2 * ι ^ 4) * hsc

theorem jac_entry_012 (w : Vec3 α) (ι s c : α)
    (hι : ι * ι * (w 0 * w 0 + w 1 * w 1 + w 2 * w 2) = 1) (hsc : s * s + c * c = 1) :
    jacCode w ι s c 0 1 2 = jacTermwise w ι s c 0 1 2 := by
  simp only [jacCode, jacTermwise, rotationPoly, skew_mul_skew]
  simp [Eigen.skew, Eigen.cross, Matrix.mul_apply, Fin.sum_univ_three, Matrix.one_apply]
  linear_combination (-ι * s - w 0 * w 1 * w 2 * ι ^ 4 + 2 * w 0 * w 1 * w 2 * ι ^ 4 * c - w 0 * w 1 * w 2 * ι ^ 4 * c ^ 2 + w 0 ^ 2 * ι ^ 2 - w 0 ^ 2 * ι ^ 2 * c) * hι + (-w 0 * w 1 * w 2 * ι ^ 4) * hsc

theorem jac_entry_020 (w : Vec3 α) (ι s c : α)
    (hι : ι * ι * (w 0 * w 0 + w 1 * w 1 + w 2 * w 2) = 1) (hsc : s * s + c * c = 1) :
    jacCode w ι s c 0 2 0 = jacTermwise w ι s c 0 2 0 := by
  simp only [jacCode, jacTermwise, rotationPoly, skew_mul_skew]
  simp [Eigen.skew, Eigen.cross, Matrix.mul_apply, Fin.sum_univ_three, Matrix.one_apply]
  linear_combination (-w 2 * ι ^ 2 * c + w 2 * ι ^ 2 * c ^ 2 + w 2 * ι ^ 2 * s ^ 2 + w 2 ^ 3 * ι ^ 4 - 2 * w 2 ^ 3 * ι ^ 4 * c + w 2 ^ 3 * ι ^ 4 * c ^ 2 + w 1 ^ 2 * w 2 * ι ^ 4 - 2 * w 1 ^ 2 * w 2 * ι ^ 4 * c + w 1 ^ 2 * w 2 * ι ^ 4 * c ^ 2 + w 0 * w 1 * ι ^ 2 - w 0 * w 1 * ι ^ 2 * c) * hι + (w 2 * ι ^ 2 - w 0 ^ 2 * w 2 * ι ^ 4) * hsc

theorem jac_entry_021 (w : Vec3 α) (ι s c : α)
    (hι : ι * ι * (w 0 * w 0 + w 1 * w 1 + w 2 * w 2) = 1) (hsc : s * s + c * c = 1) :
    jacCode w ι s c 0 2 1 = jacTermwise w ι s c 0 2 1 := by
  simp only [jacCode, jacTermwise, rotationPoly, skew_mul_skew]
  simp [Eigen.skew, Eigen.cross, Matrix.mul_apply, Fin.sum_univ_three, Matrix.one_apply]
  linear_combination (ι * s - w 0 * w 1 * w 2 * ι ^ 4 + 2 * w 0 * w 1 * w 2 * ι ^ 4 * c - w 0 * w 1 * w 2 * ι ^ 4 * c ^ 2 - w 0 ^ 2 * ι ^ 2 + w 0 ^ 2 * ι ^ 2 * c) * hι + (-w 0 * w 1 * w 2 * ι ^ 4) * hsc

theorem jac_entry_022 (w : Vec3 α) (ι s c : α)
    (hι : ι * ι * (w 0 * w 0 + w 1 * w 1 + w 2 * w 2) = 1) (hsc : s * s + c * c = 1) :
    jacCode w ι s c 0 2 2 = jacTermwise w ι s c 0 2 2 := by
  simp only [jacCode, jacTermwise, rotationPoly, skew_mul_skew]
  simp [Eigen.skew, Eigen.cross, Matrix.mul_apply, Fin.sum_univ_three, Matrix.one_apply]
  linear_combination (-w 0 * ι ^ 2 + 2 * w 0 * ι ^ 2 * c - w 0 * ι ^ 2 * c ^ 2 - w 0 * ι ^ 2 * s ^ 2 - w 0 * w 2 ^ 2 * ι ^ 4 + 2 * w 0 * w 2 ^ 2 * ι ^ 4 * c - w 0 * w 2 ^ 2 * ι ^ 4 * c ^ 2) * hι + (-w 0 * ι ^ 2 + w 0 * w 1 ^ 2 * ι ^ 4 + w 0 ^ 3 * ι ^ 4) * hsc

theorem jac_entry_100 (w : Vec3 α) (ι s c : α)
    (hι : ι * ι * (w 0 * w 0 + w 1 * w 1 + w 2 * w 2) = 1) (hsc : s * s + c * c = 1) :
    jacCode w ι s c 1 0 0 = jacTermwise w ι s c 1 0 0 := by
  simp only [jacCode, jacTermwise, rotationPoly, skew_mul_skew]
  simp [Eigen.skew, Eigen.cross, Matrix.mul_apply, Fin.sum_univ_three, Matrix.one_apply]
  linear_combination (-2 * w 1 * ι ^ 2 + 2 * w 1 * ι ^ 2 * c - w 0 ^ 2 * w 1 * ι ^ 4 + 2 * w 0 ^ 2 * w 1 * ι ^ 4 * c - w 0 ^ 2 * w 1 * ι ^ 4 * c ^ 2) * hι + (-w 0 ^ 2 * w 1 * ι ^ 4) * hsc

theorem jac_entry_101 (w : Vec3 α) (ι s c : α)
    (hι : ι * ι * (w 0 * w 0 + w 1 * w 1 + w 2 * w 2) = 1) (hsc : s * s + c * c = 1) :
    jacCode w ι s c 1 0 1 = jacTermwise w ι s c 1 0 1 := by
  simp only [jacCode, jacTermwise, rotationPoly, skew_mul_skew]
  simp [Eigen.skew, Eigen.cross, Matrix.mul_apply, Fin.sum_univ_three, Matrix.one_apply]
  linear_combination (w 1 * w 2 * ι ^ 2 - w 1 * w 2 * ι ^ 2 * c - w 0 * ι ^ 2 * c + w 0 * ι ^ 2 * c ^ 2 + w 0 * ι ^ 2 * s ^ 2 + w 0 * w 2 ^ 2 * ι ^ 4 - 2 * w 0 * w 2 ^ 2 * ι ^ 4 * c + w 0 * w 2 ^ 2 * ι ^ 4 * c ^ 2 + w 0 ^ 3 * ι ^ 4 - 2 * w 0 ^ 3 * ι ^ 4 * c + w 0 ^ 3 * ι ^ 4 * c ^ 2) * hι + (w 0 * ι ^ 2 - w 0 * w 1 ^ 2 * ι ^ 4) * hsc

theorem jac_entry_102 (w : Vec3 α) (ι s c : α)
    (hι : ι * ι * (w 0 * w 0 + w 1 * w 1 + w 2 * w 2) = 1) (hsc : s * s + c * c = 1) :
    jacCode w ι s c 1 0 2 = jacTermwise w ι s c 1 0 2 := by
  simp only [jacCode, jacTermwise, rotationPoly, skew_mul_skew]
  simp [Eigen.skew, Eigen.cross, Matrix.mul_apply, Fin.sum_univ_three, Matrix.one_apply]
  linear_combination (ι * s - w 1 ^ 2 * ι ^ 2 + w 1 ^ 2 * ι ^ 2 * c - w 0 * w 1 * w 2 * ι ^ 4 + 2 * w 0 * w 1 * w 2 * ι ^ 4 * c - w 0 * w 1 * w 2 * ι ^ 4 * c ^ 2) * hι + (-w 0 * w 1 * w 2 * ι ^ 4) * hsc

theorem jac_entry_110 (w : Vec3 α) (ι s c : α)
    (hι : ι * ι * (w 0 * w 0 + w 1 * w 1 + w 2 * w 2) = 1) (hsc : s * s + c * c = 1) :
    jacCode w ι s c 1 1 0 = jacTermwise w ι s c 1 1 0 := by
  simp only [jacCode, jacTermwise, rotationPoly, skew_mul_skew]
  simp [Eigen.skew, Eigen.cross, Matrix.mul_apply, Fin.sum_univ_three, Matrix.one_apply]
  linear_combination (-w 1 * w 2 * ι ^ 2 + w 1 * w 2 * ι ^ 2 * c + w 0 * ι ^ 2 - w 0 * ι ^ 2 * c - w 0 * w 1 ^ 2 * ι ^ 4 + 2 * w 0 * w 1 ^ 2 * ι ^ 4 * c - w 0 * w 1 ^ 2 * ι ^ 4 * c ^ 2) * hι + (-w 0 * w 1 ^ 2 * ι ^ 4) * hsc

theorem jac_entry_111 (w : Vec3 α) (ι s c : α)
    (hι : ι * ι * (w 0 * w 0 + w 1 * w 1 + w 2 * w 2) = 1) (hsc : s * s + c * c = 1) :
    jacCode w ι s c 1 1 1 = jacTermwise w ι s c 1 1 1 := by
  simp only [jacCode, jacTermwise, rotationPoly, skew_mul_skew]
  simp [Eigen.skew, Eigen.cross, Matrix.mul_apply, Fin.sum_univ_three, Matrix.one_apply]
  linear_combination (-w 1 * ι ^ 2 + w 1 * ι ^ 2 * c ^ 2 + w 1 * ι ^ 2 * s ^ 2 + w 1 * w 2 ^ 2 * ι ^ 4 - 2 * w 1 * w 2 ^ 2 * ι ^ 4 * c + w 1 * w 2 ^ 2 * ι ^ 4 * c ^ 2 + w 0 ^ 2 * w 1 * ι ^ 4 - 2 * w 0 ^ 2 * w 1 * ι ^ 4 * c + w 0 ^ 2 * w 1 * ι ^ 4 * c ^ 2) * hι + (w 1 * ι ^ 2 - w 1 ^ 3 * ι ^ 4) * hsc

theorem jac_entry_112 (w : Vec3 α) (ι s c : α)
    (hι : ι * ι * (w 0 * w 0 + w 1 * w 1 + w 2 * w 2) = 1) (hsc : s * s + c * c = 1) :
    jacCode w ι s c 1 1 2 = jacTermwise w ι s c 1 1 2 := by
  simp only [jacCode, jacTermwise, rotationPoly, skew_mul_skew]
  simp [Eigen.skew, Eigen.cross, Matrix.mul_apply, Fin.sum_univ_three, Matrix.one_apply]
  linear_combination (w 2 * ι ^ 2 - w 2 * ι ^ 2 * c - w 1 ^ 2 * w 2 * ι ^ 4 + 2 * w 1 ^ 2 * w 2 * ι ^ 4 * c - w 1 ^ 2 * w 2 * ι ^ 4 * c ^ 2 + w 0 * w 1 * ι ^ 2 - w 0 * w 1 * ι ^ 2 * c) * hι + (-w 1 ^ 2 * w 2 * ι ^ 4) * hsc

theorem jac_entry_120 (w : Vec3 α) (ι s c : α)
    (hι : ι * ι * (w 0 * w 0 + w 1 * w 1 + w 2 * w 2) = 1) (hsc : s * s + c * c = 1) :
    jacCode w ι s c 1 2 0 = jacTermwise w ι s c 1 2 0 := by
  simp only [jacCode, jacTermwise, rotationPoly, skew_mul_skew]
  simp [Eigen.skew, Eigen.cross, Matrix.mul_apply, Fin.sum_univ_three, Matrix.one_apply]
  linear_combination (-ι * s + w 1 ^ 2 * ι ^ 2 - w 1 ^ 2 * ι ^ 2 * c - w 0 * w 1 * w 2 * ι ^ 4 + 2 * w 0 * w 1 * w 2 * ι ^ 4 * c - w 0 * w 1 * w 2 * ι ^ 4 * c ^ 2) * hι + (-w 0 * w 1 * w 2 * ι ^ 4) * hsc

theorem jac_entry_121 (w : Vec3 α) (ι s c : α)
    (hι : ι * ι * (w 0 * w 0 + w 1 * w 1 + w 2 * w 2) = 1) (hsc : s * s + c * c = 1) :
    jacCode w ι s c 1 2 1 = jacTermwise w ι s c 1 2 1 := by
  simp only [jacCode, jacTermwise, rotationPoly, skew_mul_skew]
  simp [Eigen.skew, Eigen.cross, Matrix.mul_apply, Fin.sum_univ_three, Matrix.one_apply]
  linear_combination (-w 2 * ι ^ 2 * c + w 2 * ι ^ 2 * c ^ 2 + w 2 * ι ^ 2 * s ^ 2 + w 2 ^ 3 * ι ^ 4 - 2 * w 2 ^ 3 * ι ^ 4 * c + w 2 ^ 3 * ι ^ 4 * c ^ 2 - w 0 * w 1 * ι ^ 2 + w 0 * w 1 * ι ^ 2 * c + w 0 ^ 2 * w 2 * ι ^ 4 - 2 * w 0 ^ 2 * w 2 * ι ^ 4 * c + w 0 ^ 2 * w 2 * ι ^ 4 * c ^ 2) * hι + (w 2 * ι ^ 2 - w 1 ^ 2 * w 2 * ι ^ 4) * hsc

theorem jac_entry_122 (w : Vec3 α) (ι s c : α)
    (hι : ι * ι * (w 0 * w 0 + w 1 * w 1 + w 2 * w 2) = 1) (hsc : s * s + c * c = 1) :
    jacCode w ι s c 1 2 2 = jacTermwise w ι s c 1 2 2 := by
  simp only [jacCode, jacTermwise, rotationPoly, skew_mul_skew]
  simp [Eigen.skew, Eigen.cross, Matrix.mul_apply, Fin.sum_univ_three, Matrix.one_apply]
  linear_combination (-w 1 * ι ^ 2 + 2 * w 1 * ι ^ 2 * c - w 1 * ι ^ 2 * c ^ 2 - w 1 * ι ^ 2 * s ^ 2 - w 1 * w 2 ^ 2 * ι ^ 4 + 2 * w 1 * w 2 ^ 2 * ι ^ 4 * c - w 1 * w 2 ^ 2 * ι ^ 4 * c ^ 2) * hι + (-w 1 * ι ^ 2 + w 1 ^ 3 * ι ^ 4 + w 0 ^ 2 * w 1 * ι ^ 4) * hsc

theorem jac_entry_200 (w : Vec3 α) (ι s c : α)
    (hι : ι * ι * (w 0 * w 0 + w 1 * w 1 + w 2 * w 2) = 1) (hsc : s * s + c * c = 1) :
    jacCode w ι s c 2 0 0 = jacTermwise w ι s c 2 0 0 := by
  simp only [jacCode, jacTermwise, rotationPoly, skew_mul_skew]
  simp [Eigen.skew, Eigen.cross, Matrix.mul_apply, Fin.sum_univ_three, Matrix.one_apply]
  linear_combination (-2 * w 2 * ι ^ 2 + 2 * w 2 * ι ^ 2 * c - w 0 ^ 2 * w 2 * ι ^ 4 + 2 * w 0 ^ 2 * w 2 * ι ^ 4 * c - w 0 ^ 2 * w 2 * ι ^ 4 * c ^ 2) * hι + (-w 0 ^ 2 * w 2 * ι ^ 4) * hsc

theorem jac_entry_201 (w : Vec3 α) (ι s c : α)
    (hι : ι * ι * (w 0 * w 0 + w 1 * w 1 + w 2 * w 2) = 1) (hsc : s * s + c * c = 1) :
    jacCode w ι s c 2 0 1 = jacTermwise w ι s c 2 0 1 := by
  simp only [jacCode, jacTermwise, rotationPoly, skew_mul_skew]
  simp [Eigen.skew, Eigen.cross, Matrix.mul_apply, Fin.sum_univ_three, Matrix.one_apply]
  linear_combination (-ι * s + w 2 ^ 2 * ι ^ 2 - w 2 ^ 2 * ι ^ 2 * c - w 0 * w 1 * w 2 * ι ^ 4 + 2 * w 0 * w 1 * w 2 * ι ^ 4 * c - w 0 * w 1 * w 2 * ι ^ 4 * c ^ 2) * hι + (-w 0 * w 1 * w 2 * ι ^ 4) * hsc

theorem jac_entry_202 (w : Vec3 α) (ι s c : α)
    (hι : ι * ι * (w 0 * w 0 + w 1 * w 1 + w 2 * w 2) = 1) (hsc : s * s + c * c = 1) :
    jacCode w ι s c 2 0 2 = jacTermwise w ι s c 2 0 2 := by
  simp only [jacCode, jacTermwise, rotationPoly, skew_mul_skew]
  simp [Eigen.skew, Eigen.cross, Matrix.mul_apply, Fin.sum_univ_three, Matrix.one_apply]
  linear_combination (-w 1 * w 2 * ι ^ 2 + w 1 * w 2 * ι ^ 2 * c + w 0 * ι ^ 2 - w 0 * ι ^ 2 * c + w 0 * w 1 ^ 2 * ι ^ 4 - 2 * w 0 * w 1 ^ 2 * ι ^ 4 * c + w 0 * w 1 ^ 2 * ι ^ 4 * c ^ 2 + w 0 ^ 3 * ι ^ 4 - 2 * w 0 ^ 3 * ι ^ 4 * c + w 0 ^ 3 * ι ^ 4 * c ^ 2) * hι + (w 0 * w 1 ^ 2 * ι ^ 4 + w 0 ^ 3 * ι ^ 4) * hsc

theorem jac_entry_210 (w : Vec3 α) (ι s c : α)
    (hι : ι * ι * (w 0 * w 0 + w 1 * w 1 + w 2 * w 2) = 1) (hsc : s * s + c * c = 1) :
    jacCode w ι s c 2 1 0 = jacTermwise w ι s c 2 1 0 := by
  simp only [jacCode, jacTermwise, rotationPoly, skew_mul_skew]
  simp [Eigen.skew, Eigen.cross, Matrix.mul_apply, Fin.sum_univ_three, Matrix.one_apply]
  linear_combination (ι * s - w 2 ^ 2 * ι ^ 2 + w 2 ^ 2 * ι ^ 2 * c - w 0 * w 1 * w 2 * ι ^ 4 + 2 * w 0 * w 1 * w 2 * ι ^ 4 * c - w 0 * w 1 * w 2 * ι ^ 4 * c ^ 2) * hι + (-w 0 * w 1 * w 2 * ι ^ 4) * hsc

theorem jac_entry_211 (w : Vec3 α) (ι s c : α)
    (hι : ι * ι * (w 0 * w 0 + w 1 * w 1 + w 2 * w 2) = 1) (hsc : s * s + c * c = 1) :
    jacCode w ι s c 2 1 1 = jacTermwise w ι s c 2 1 1 := by
  simp only [jacCode, jacTermwise, rotationPoly, skew_mul_skew]
  simp [Eigen.skew, Eigen.cross, Matrix.mul_apply, Fin.sum_univ_three, Matrix.one_apply]
  linear_combination (-2 * w 2 * ι ^ 2 + 2 * w 2 * ι ^ 2 * c - w 1 ^ 2 * w 2 * ι ^ 4 + 2 * w 1 ^ 2 * w 2 * ι ^ 4 * c - w 1 ^ 2 * w 2 * ι ^ 4 * c ^ 2) * hι + (-w 1 ^ 2 * w 2 * ι ^ 4) * hsc

theorem jac_entry_212 (w : Vec3 α) (ι s c : α)
    (hι : ι * ι * (w 0 * w 0 + w 1 * w 1 + w 2 * w 2) = 1) (hsc : s * s + c * c = 1) :
    jacCode w ι s c 2 1 2 = jacTermwise w ι s c 2 1 2 := by
  simp only [jacCode, jacTermwise, rotationPoly, skew_mul_skew]
  simp [Eigen.skew, Eigen.cross, Matrix.mul_apply, Fin.sum_univ_three, Matrix.one_apply]
  linear_combination (w 1 * ι ^ 2 - w 1 * ι ^ 2 * c + w 1 ^ 3 * ι ^ 4 - 2 * w 1 ^ 3 * ι ^ 4 * c + w 1 ^ 3 * ι ^ 4 * c ^ 2 + w 0 * w 2 * ι ^ 2 - w 0 * w 2 * ι ^ 2 * c + w 0 ^ 2 * w 1 * ι ^ 4 - 2 * w 0 ^ 2 * w 1 * ι ^ 4 * c + w 0 ^ 2 * w 1 * ι ^ 4 * c ^ 2) * hι + (w 1 ^ 3 * ι ^ 4 + w 0 ^ 2 * w 1 * ι ^ 4) * hsc

theorem jac_entry_220 (w : Vec3 α) (ι s c : α)
    (hι : ι * ι * (w 0 * w 0 + w 1 * w 1 + w 2 * w 2) = 1) (hsc : s * s + c * c = 1) :
    jacCode w ι s c 2 2 0 = jacTermwise w ι s c 2 2 0 := by
  simp only [jacCode, jacTermwise, rotationPoly, skew_mul_skew]
  simp [Eigen.skew, Eigen.cross, Matrix.mul_apply, Fin.sum_univ_three, Matrix.one_apply]
  linear_combination (w 1 * w 2 * ι ^ 2 - w 1 * w 2 * ι ^ 2 * c + 2 * w 0 * ι ^ 2 - w 0 * ι ^ 2 * c - w 0 * ι ^ 2 * c ^ 2 - w 0 * ι ^ 2 * s ^ 2 - w 0 * w 2 ^ 2 * ι ^ 4 + 2 * w 0 * w 2 ^ 2 * ι ^ 4 * c - w 0 * w 2 ^ 2 * ι ^ 4 * c ^ 2) * hι + (-w 0 * ι ^ 2 + w 0 * w 1 ^ 2 * ι ^ 4 + w 0 ^ 3 * ι ^ 4) * hsc

theorem jac_entry_221 (w : Vec3 α) (ι s c : α)
    (hι : ι * ι * (w 0 * w 0 + w 1 * w 1 + w 2 * w 2) = 1) (hsc : s * s + c * c = 1) :
    jacCode w ι s c 2 2 1 = jacTermwise w ι s c 2 2 1 := by
  simp only [jacCode, jacTermwise, rotationPoly, skew_mul_skew]
  simp [Eigen.skew, Eigen.cross, Matrix.mul_apply, Fin.sum_univ_three, Matrix.one_apply]
  linear_combination (2 * w 1 * ι ^ 2 - w 1 * ι ^ 2 * c - w 1 * ι ^ 2 * c ^ 2 - w 1 * ι ^ 2 * s ^ 2 - w 1 * w 2 ^ 2 * ι ^ 4 + 2 * w 1 * w 2 ^ 2 * ι ^ 4 * c - w 1 * w 2 ^ 2 * ι ^ 4 * c ^ 2 - w 0 * w 2 * ι ^ 2 + w 0 * w 2 * ι ^ 2 * c) * hι + (-w 1 * ι ^ 2 + w 1 ^ 3 * ι ^ 4 + w 0 ^ 2 * w 1 * ι ^ 4) * hsc

theorem jac_entry_222 (w : Vec3 α) (ι s c : α)
    (hι : ι * ι * (w 0 * w 0 + w 1 * w 1 + w 2 * w 2) = 1) (hsc : s * s + c * c = 1) :
    jacCode w ι s c 2 2 2 = jacTermwise w ι s c 2 2 2 := by
  simp only [jacCode, jacTermwise, rotationPoly, skew_mul_skew]
  simp [Eigen.skew, Eigen.cross, Matrix.mul_apply, Fin.sum_univ_three, Matrix.one_apply]
  linear_combination (w 1 ^ 2 * w 2 * ι ^ 4 - 2 * w 1 ^ 2 * w 2 * ι ^ 4 * c + w 1 ^ 2 * w 2 * ι ^ 4 * c ^ 2 + w 0 ^ 2 * w 2 * ι ^ 4 - 2 * w 0 ^ 2 * w 2 * ι ^ 4 * c + w 0 ^ 2 * w 2 * ι ^ 4 * c ^ 2) * hι + (w 1 ^ 2 * w 2 * ι ^ 4 + w 0 ^ 2 * w 2 * ι ^ 4) * hsc

/-- The block written by `get3DLocalTransformJac_` is the term-by-term derivative of
Rodrigues' formula. -/
theorem jacCode_eq_jacTermwise (w : Vec3 α) (ι s c : α)
    (hι : ι * ι * (w 0 * w 0 + w 1 * w 1 + w 2 * w 2) = 1) (hsc : s * s + c * c = 1)
    (i : Fin 3) : jacCode w ι s c i = jacTermwise w ι s c i := by
  fin_cases i
  · exact mat3_ext _ _ (jac_entry_000 w ι s c hι hsc) (jac_entry_001 w ι s c hι hsc) (jac_entry_002 w ι s c hι hsc) (jac_entry_010 w ι s c hι hsc) (jac_entry_011 w ι s c hι hsc) (jac_entry_012 w ι s c hι hsc) (jac_entry_020 w ι s c hι hsc) (jac_entry_021 w ι s c hι hsc) (jac_entry_022 w ι s c hι hsc)
  · exact mat3_ext _ _ (jac_entry_100 w ι s c hι hsc) (jac_entry_101 w ι s c hι hsc) (jac_entry_102 w ι s c hι hsc) (jac_entry_110 w ι s c hι hsc) (jac_entry_111 w ι s c hι hsc) (jac_entry_112 w ι s c hι hsc) (jac_entry_120 w ι s c hι hsc) (jac_entry_121 w ι s c hι hsc) (jac_entry_122 w ι s c hι hsc)
  · exact mat3_ext _ _ (jac_entry_200 w ι s c hι hsc) (jac_entry_201 w ι s c hι hsc) (jac_entry_202 w ι s c hι hsc) (jac_entry_210 w ι s c hι hsc) (jac_entry_211 w ι s c hι hsc) (jac_entry_212 w ι s c hι hsc) (jac_entry_220 w ι s c hι hsc) (jac_entry_221 w ι s c hι hsc) (jac_entry_222 w ι s c hι hsc)

theorem rotationPoly_entry (w : Vec3 α) (ι s c : α) (r k : Fin 3) :
    rotationPoly w ι s c r k =
      (if r = k then 1 else 0) + s * ι * Eigen.skew w r k
        + (1 - c) * ι * ι * (Eigen.skew w * Eigen.skew w) r k := by
  simp [rotationPoly, Matrix.add_apply, Matrix.smul_apply, Matrix.one_apply]

theorem jacTermwise_entry (w : Vec3 α) (ι s c : α) (i r k : Fin 3) :
    jacTermwise w ι s c i r k =
      (c - s * ι) * w i * ι * ι * Eigen.skew w r k + s * ι * Eigen.skew (Pi.single i 1) r k
        + (s * ι - 2 * (1 - c) * ι * ι) * w i * ι * ι * (Eigen.skew w * Eigen.skew w) r k
        + (1 - c) * ι * ι * ((Eigen.skew (Pi.single i 1) * Eigen.skew w : Mat3 α) r k
          + (Eigen.skew w * Eigen.skew (Pi.single i 1) : Mat3 α) r k) := by
  simp only [jacTermwise, Matrix.add_apply, Matrix.smul_apply, smul_eq_mul]

/-- The code's rotation block above the threshold, in terms of the inverse norm. -/
theorem localRotation_eq_rotationPoly (M : Libm α) (w : Vec3 α)
    (h : Eigen.norm M w > 0.0001) :
    localRotation M w =
      rotationPoly w (Eigen.norm M w)⁻¹ (M.sin (Eigen.norm M w)) (M.cos (Eigen.norm M w)) := by
  rw [localRotation_of_gt M w h, divScalar_eq_smul, mulScalar_eq_smul, mulScalar_eq_smul]
  unfold rotationPoly
  rw [Matrix.smul_mul, Matrix.mul_smul, smul_smul, smul_smul, smul_smul, add_assoc]

/-- The block `get3DLocalTransformJac_` writes above the threshold, in terms of the inverse
norm. -/
theorem block33_jac_eq_jacCode (M : Libm α) (w t : Vec3 α) (h : Eigen.norm M w > 0.0001)
    (i : Fin 3) :
    Eigen.block33 (get3DLocalTransformJac_ M w (get3DLocalTransformMat_ M w t) i) =
      jacCode w (Eigen.norm M w)⁻¹ (M.sin (Eigen.norm M w)) (M.cos (Eigen.norm M w)) i := by
  have hrot : Eigen.block33 (get3DLocalTransformMat_ M w t) =
      rotationPoly w (Eigen.norm M w)⁻¹ (M.sin (Eigen.norm M w)) (M.cos (Eigen.norm M w)) := by
    rw [get3DLocalTransformMat_eq_homo, block33_homo, localRotation_eq_rotationPoly M w h]
  unfold get3DLocalTransformJac_
  simp only [if_pos h, block33_setBlock33, hrot]
  unfold jacCode
  congr 1
  rw [divScalar_eq_smul, divScalar_eq_smul, mulScalar_eq_smul, smul_smul, smul_smul]
  congr 2
  · ring
  · refine congrArg Eigen.skew ?_
    funext k
    rw [div_eq_mul_inv, mul_inv]
theorem hasDerivAt_update (w : Vec3 ℝ) (i k : Fin 3) (x : ℝ) :
    HasDerivAt (fun y => Function.update w i y k) ((Pi.single i 1 : Vec3 ℝ) k) x := by
  by_cases h : k = i
  · subst h
    simp only [Function.update_same, Pi.single_eq_same]
    exact hasDerivAt_id x
  · simp only [Function.update_noteq h, Pi.single_eq_of_ne h]
    exact hasDerivAt_const x (w k)

theorem hasDerivAt_skew_entry (f : ℝ → Vec3 ℝ) (f' : Vec3 ℝ) (x : ℝ)
    (hf : ∀ k, HasDerivAt (fun y => f y k) (f' k) x) (r c : Fin 3) :
    HasDerivAt (fun y => Eigen.skew (f y) r c) (Eigen.skew f' r c) x := by
  fin_cases r <;> fin_cases c
  · simpa [Eigen.skew] using hasDerivAt_const x (0 : ℝ)
  · simpa [Eigen.skew] using (hf 2).neg
  · simpa [Eigen.skew] using hf 1
  · simpa [Eigen.skew] using hf 2
  · simpa [Eigen.skew] using hasDerivAt_const x (0 : ℝ)
  · simpa [Eigen.skew] using (hf 0).neg
  · simpa [Eigen.skew] using (hf 1).neg
  · simpa [Eigen.skew] using hf 0
  · simpa [Eigen.skew] using hasDerivAt_const x (0 : ℝ)

theorem hasDerivAt_mul_entry (A B : ℝ → Mat3 ℝ) (A' B' : Mat3 ℝ) (x : ℝ)
    (hA : ∀ r c, HasDerivAt (fun y => A y r c) (A' r c) x)
    (hB : ∀ r c, HasDerivAt (fun y => B y r c) (B' r c) x) (r c : Fin 3) :
    HasDerivAt (fun y => (A y * B y) r c) ((A' * B x + A x * B') r c) x := by
  have h := ((hA r 0).mul (hB 0 c)).add (((hA r 1).mul (hB 1 c)).add ((hA r 2).mul (hB 2 c)))
  have e : (fun y => (A y * B y) r c) =
      fun y => A y r 0 * B y 0 c + (A y r 1 * B y 1 c + A y r 2 * B y 2 c) := by
    funext y
    simp [Matrix.mul_apply, Fin.sum_univ_three, add_assoc]
  rw [e]
  refine h.congr_deriv ?_
  simp only [Matrix.add_apply, Matrix.mul_apply, Fin.sum_univ_three]
  ring

theorem hasDerivAt_dot (f : ℝ → Vec3 ℝ) (f' : Vec3 ℝ) (x : ℝ)
    (hf : ∀ k, HasDerivAt (fun y => f y k) (f' k) x) :
    HasDerivAt (fun y => Eigen.dot (f y) (f y)) (2 * Eigen.dot (f x) f') x := by
  have h := (((hf 0).mul (hf 0)).add ((hf 1).mul (hf 1))).add ((hf 2).mul (hf 2))
  refine h.congr_deriv ?_
  simp only [Eigen.dot]
  ring

theorem hasDerivAt_norm (f : ℝ → Vec3 ℝ) (f' : Vec3 ℝ) (x : ℝ)
    (hf : ∀ k, HasDerivAt (fun y => f y k) (f' k) x) (hx : f x ≠ 0) :
    HasDerivAt (fun y => Eigen.norm realLibm (f y))
      (Eigen.dot (f x) f' / Eigen.norm realLibm (f x)) x := by
  have h := (hasDerivAt_dot f f' x hf).sqrt (ne_of_gt (dot_self_pos (f x) hx))
  refine h.congr_deriv ?_
  rw [realLibm_norm]
  have hpos := Real.sqrt_pos.mpr (dot_self_pos (f x) hx)
  field_simp
  ring
theorem dot_single (w : Vec3 ℝ) (i : Fin 3) : Eigen.dot w (Pi.single i 1) = w i := by
  fin_cases i <;> simp [Eigen.dot]

/-- Rodrigues' formula, written with the inverse norm, has the term-by-term derivative along
each coordinate of the rotation vector. -/
theorem hasDerivAt_rotationPoly (w : Vec3 ℝ) (hw : w ≠ 0) (i r c : Fin 3) :
    HasDerivAt (fun y => rotationPoly (Function.update w i y)
        (Eigen.norm realLibm (Function.update w i y))⁻¹
        (Real.sin (Eigen.norm realLibm (Function.update w i y)))
        (Real.cos (Eigen.norm realLibm (Function.update w i y))) r c)
      (jacTermwise w (Eigen.norm realLibm w)⁻¹ (Real.sin (Eigen.norm realLibm w))
        (Real.cos (Eigen.norm realLibm w)) i r c) (w i) := by
  have hself : Function.update w i (w i) = w := Function.update_eq_self i w
  have hf : ∀ k, HasDerivAt (fun y => Function.update w i y k) ((Pi.single i 1 : Vec3 ℝ) k)
      (w i) := fun k => hasDerivAt_update w i k (w i)
  have hne : Eigen.norm realLibm w ≠ 0 := ne_of_gt (realLibm_norm_pos w hw)
  have hθ : HasDerivAt (fun y => Eigen.norm realLibm (Function.update w i y))
      (w i / Eigen.norm realLibm w) (w i) := by
    have h := hasDerivAt_norm (fun y => Function.update w i y) (Pi.single i 1) (w i) hf
      (by show Function.update w i (w i) ≠ 0; rw [hself]; exact hw)
    simp only [hself, dot_single] at h
    exact h
  have hι := hθ.inv (by rw [hself]; exact hne)
  have hs := hθ.sin
  have hc := hθ.cos
  have hk := hasDerivAt_skew_entry (fun y => Function.update w i y) (Pi.single i 1) (w i) hf r c
  have hk2 := hasDerivAt_mul_entry (fun y => Eigen.skew (Function.update w i y))
    (fun y => Eigen.skew (Function.update w i y)) (Eigen.skew (Pi.single i 1))
    (Eigen.skew (Pi.single i 1)) (w i)
    (hasDerivAt_skew_entry (fun y => Function.update w i y) (Pi.single i 1) (w i) hf)
    (hasDerivAt_skew_entry (fun y => Function.update w i y) (Pi.single i 1) (w i) hf) r c
  simp only [hself] at hk2
  have h := ((hasDerivAt_const (w i) (if r = c then (1 : ℝ) else 0)).add
    ((hs.mul hι).mul hk)).add ((((hc.const_sub 1).mul hι).mul hι).mul hk2)
  have e : (fun y => rotationPoly (Function.update w i y)
        (Eigen.norm realLibm (Function.update w i y))⁻¹
        (Real.sin (Eigen.norm realLibm (Function.update w i y)))
        (Real.cos (Eigen.norm realLibm (Function.update w i y))) r c) =
      fun y => (if r = c then (1 : ℝ) else 0)
        + Real.sin (Eigen.norm realLibm (Function.update w i y))
            * (Eigen.norm realLibm (Function.update w i y))⁻¹
            * Eigen.skew (Function.update w i y) r c
        + (1 - Real.cos (Eigen.norm realLibm (Function.update w i y)))
            * (Eigen.norm realLibm (Function.update w i y))⁻¹
            * (Eigen.norm realLibm (Function.update w i y))⁻¹
            * (Eigen.skew (Function.update w i y) * Eigen.skew (Function.update w i y)) r c := by
    funext y
    rw [rotationPoly_entry]
  rw [e]
  refine h.congr_deriv ?_
  rw [jacTermwise_entry]
  simp only [hself, Matrix.add_apply]
  generalize Eigen.skew w r c = k0
  generalize (Eigen.skew w * Eigen.skew w) r c = k2
  generalize (Eigen.skew (Pi.single i 1 : Vec3 ℝ) * Eigen.skew w) r c = ek
  generalize (Eigen.skew w * Eigen.skew (Pi.single i 1 : Vec3 ℝ)) r c = ke
  generalize Eigen.skew (Pi.single i 1 : Vec3 ℝ) r c = e0
  generalize Real.sin (Eigen.norm realLibm w) = s
  generalize Real.cos (Eigen.norm realLibm w) = co
  generalize Eigen.norm realLibm w = θ at hne
  field_simp
  ring
theorem skew_mul_scalar (v : Vec3 α) (a : α) :
    Eigen.skew (fun k => v k * a) = a • Eigen.skew v := by
  ext r c
  fin_cases r <;> fin_cases c <;> simp [Eigen.skew, mul_comm]

theorem jacCode_eq_formula (w : Vec3 α) (ι s c : α) (i : Fin 3) :
    jacCode w ι s c i =
      ((ι * ι) • (w i • Eigen.skew w +
        Eigen.skew (Eigen.cross w (fun r => ((1 : Mat3 α) - rotationPoly w ι s c) r i)))) *
        rotationPoly w ι s c := by
  unfold jacCode
  rw [skew_mul_scalar, smul_add, smul_smul]
  congr 3
  ring

theorem norm_gt_ne_zero (w : Vec3 ℝ) (hw : Eigen.norm realLibm w > 0.0001) : w ≠ 0 := by
  intro h
  rw [h, realLibm_norm_zero] at hw
  norm_num at hw

/-- C27: for a rotation vector `w` with `|w| > 1e-4`, the rotation block that
`get3DLocalTransformJac_` writes to slot `i` is
`(w_i [w]ₓ + [w × (I - R) e_i]ₓ) / |w|² * R`, with `R` the rotation block of
`get3DLocalTransformMat_` (Rodrigues' rotation of `w`), and each of its entries is the
derivative of the corresponding entry of that rotation block with respect to the coordinate
`w_i`. -/
theorem C27_jacobian_block_is_derivative (w t : Vec3 ℝ)
    (hw : Eigen.norm realLibm w > 0.0001) (i : Fin 3) :
    Eigen.block33 (get3DLocalTransformJac_ realLibm w (get3DLocalTransformMat_ realLibm w t) i) =
      ((Eigen.norm realLibm w)⁻¹ * (Eigen.norm realLibm w)⁻¹) •
        (w i • Eigen.skew w + Eigen.skew (Eigen.cross w
          (fun r => ((1 : Mat3 ℝ) - localRotation realLibm w) r i))) *
        localRotation realLibm w ∧
    ∀ r c, HasDerivAt (fun y => localRotation realLibm (Function.update w i y) r c)
      (Eigen.block33
        (get3DLocalTransformJac_ realLibm w (get3DLocalTransformMat_ realLibm w t) i) r c)
      (w i) := by
  have hne := norm_gt_ne_zero w hw
  have hpos := realLibm_norm_pos w hne
  constructor
  · rw [block33_jac_eq_jacCode realLibm w t hw i, jacCode_eq_formula,
      ← localRotation_eq_rotationPoly realLibm w hw]
  · intro r c
    have hι : (Eigen.norm realLibm w)⁻¹ * (Eigen.norm realLibm w)⁻¹ *
        (w 0 * w 0 + w 1 * w 1 + w 2 * w 2) = 1 := by
      have h := realLibm_norm_mul_self w
      unfold Eigen.dot at h
      rw [← h]
      field_simp
    have hsc : Real.sin (Eigen.norm realLibm w) * Real.sin (Eigen.norm realLibm w)
        + Real.cos (Eigen.norm realLibm w) * Real.cos (Eigen.norm realLibm w) = 1 := by
      have h := Real.sin_sq_add_cos_sq (Eigen.norm realLibm w)
      rw [sq, sq] at h
      exact h
    rw [block33_jac_eq_jacCode realLibm w t hw i]
    show HasDerivAt _ (jacCode w (Eigen.norm realLibm w)⁻¹ (Real.sin (Eigen.norm realLibm w))
      (Real.cos (Eigen.norm realLibm w)) i r c) (w i)
    rw [jacCode_eq_jacTermwise w _ _ _ hι hsc i]
    have hself : Function.update w i (w i) = w := Function.update_eq_self i w
    have hθ := hasDerivAt_norm (fun y => Function.update w i y) (Pi.single i 1) (w i)
      (fun k => hasDerivAt_update w i k (w i))
      (by show Function.update w i (w i) ≠ 0; rw [hself]; exact hne)
    have hev : ∀ᶠ y in nhds (w i),
        (0.0001 : ℝ) < Eigen.norm realLibm (Function.update w i y) :=
      hθ.continuousAt.eventually (lt_mem_nhds (by
        show (0.0001 : ℝ) < Eigen.norm realLibm (Function.update w i (w i))
        rw [hself]
        exact hw))
    refine (hasDerivAt_rotationPoly w hne i r c).congr_of_eventuallyEq ?_
    filter_upwards [hev] with y hy
    rw [localRotation_eq_rotationPoly realLibm _ hy]
    rfl

theorem C27_jacobian_block_is_derivative_witness :
    Eigen.norm realLibm ![0, 0, Real.pi / 2] > 0.0001 ∧
    HasDerivAt (fun y => localRotation realLibm
        (Function.update (![0, 0, Real.pi / 2] : Vec3 ℝ) 2 y) 0 1)
      (Eigen.block33 (get3DLocalTransformJac_ realLibm ![0, 0, Real.pi / 2]
        (get3DLocalTransformMat_ realLibm ![0, 0, Real.pi / 2] 0) 2) 0 1)
      ((![0, 0, Real.pi / 2] : Vec3 ℝ) 2) :=
  have h : Eigen.norm realLibm ![0, 0, Real.pi / 2] > 0.0001 := by
    rw [quarterTurnZ_norm]
    exact quarter_gt_threshold
  ⟨h, (C27_jacobian_block_is_derivative ![0, 0, Real.pi / 2] 0 h 2).2 0 1⟩

/-- The body with `LHip` turned by a quarter turn, before and after
`rotateLimbToDirection("LHip", (1, 0, 0))`: the bone to `LKnee` points along `(0, 1, 0)`
before the call, and the call stores the row `(0, 0, -π/2)` for `LHip`. -/
theorem turnedHipBody_row :
    (turnedHipBody.calcJointLocations_ realLibm none none (some turnedHipBody.state_.pose)).1 3
      - (turnedHipBody.calcJointLocations_ realLibm none none
          (some turnedHipBody.state_.pose)).1 2 = ![0, 1, 0] ∧
    (turnedHipBody.rotateLimbToDirection realLibm 0 "LHip" ![1, 0, 0]).2.state_.pose 2 =
      ![0, 0, -(Real.pi / 2)] := by
  have hB := turnedHipBody_sameAssets
  have hp2 : turnedHipBody.state_.pose 2 = ![0, 0, Real.pi / 2] := by simp [turnedHipBody]
  have hz : ∀ k, k ≠ 2 → turnedHipBody.state_.pose k = 0 := by
    intro k hk
    simp [turnedHipBody, hk]
  have hgt : Eigen.norm realLibm ![0, 0, Real.pi / 2] > 0.0001 := by
    rw [quarterTurnZ_norm]
    exact quarter_gt_threshold
  obtain ⟨hbone, hG⟩ := smallBody_hip_bone turnedHipBody hB turnedHipBody.state_.pose hz
  rw [hp2, localRotation_mulVec _ _ hgt, rotate_by_quarterTurnZ] at hbone
  rw [hp2, localRotation_quarterTurnZ] at hG
  have hchild : turnedHipBody.findChild 2 = some 3 := smallBody_findChild_hip
  have hlook : turnedHipBody.joint_names_.lookup "LHip" = some 2 := by
    simp [turnedHipBody, smallBody, List.lookup]
  have hcond : Eigen.norm realLibm ![1, 0, 0] * Eigen.norm realLibm
      ((turnedHipBody.calcJointLocations_ realLibm none none
          (some turnedHipBody.state_.pose)).1 ((turnedHipBody.findChild 2).getD 0)
        - (turnedHipBody.calcJointLocations_ realLibm none none
          (some turnedHipBody.state_.pose)).1 2) > 0 := by
    rw [hchild]
    show Eigen.norm realLibm ![1, 0, 0] * Eigen.norm realLibm
      ((turnedHipBody.calcJointLocations_ realLibm none none
          (some turnedHipBody.state_.pose)).1 3
        - (turnedHipBody.calcJointLocations_ realLibm none none
          (some turnedHipBody.state_.pose)).1 2) > 0
    rw [hbone, unit_x_norm, unit_y_norm]
    norm_num
  obtain ⟨-, hpose⟩ := rotateLimbToDirection_pose turnedHipBody realLibm 0 "LHip" ![1, 0, 0] 2
    hlook (by decide) (by decide) hcond
  rw [hchild] at hpose
  refine ⟨hbone, ?_⟩
  rw [hpose, Function.update_same]
  show (Eigen.block33 ((turnedHipBody.calcJointLocations_ realLibm none none
        (some turnedHipBody.state_.pose)).2.fk_transforms_ 2)).transpose.mulVec
      (angle_axis_ realLibm
        ((turnedHipBody.calcJointLocations_ realLibm none none
            (some turnedHipBody.state_.pose)).1 3
          - (turnedHipBody.calcJointLocations_ realLibm none none
            (some turnedHipBody.state_.pose)).1 2) ![1, 0, 0]) = _
  have hrow : (!![0, -1, 0; 1, 0, 0; 0, 0, 1] : Mat3 ℝ).transpose.mulVec
      ![0, 0, -(Real.pi / 2)] = ![0, 0, -(Real.pi / 2)] := by
    rw [Matrix.mulVec_transpose]
    funext i
    fin_cases i <;>
      simp [Matrix.vecMul, Matrix.dotProduct, Fin.sum_univ_three, Matrix.vecHead,
        Matrix.vecTail]
  rw [hG, hbone, angle_axis_y_to_x, hrow]

/-- C11: on the body with the row `(0, 0, π/2)` stored for `LHip` (the bone from `LHip` to its
child `LKnee` pointing along `(0, 1, 0)`), the call `rotateLimbToDirection("LHip", (1, 0, 0))`
is accepted, at a right angle between bone and target; it overwrites the row of `LHip` with
`(0, 0, -π/2)`, and the recomputed direction from `LHip` to `LKnee`, normalized, is
`(0, -1, 0)`, not the normalized target `(1, 0, 0)`. -/
theorem C11_rotateLimb_misses_target_on_turned_joint :
    turnedHipBody.joint_names_.lookup "LHip" = some 2 ∧
    turnedHipBody.findChild 2 = some 3 ∧
    turnedHipBody.state_.pose 2 = ![0, 0, Real.pi / 2] ∧
    (turnedHipBody.calcJointLocations_ realLibm none none (some turnedHipBody.state_.pose)).1 3
      - (turnedHipBody.calcJointLocations_ realLibm none none
          (some turnedHipBody.state_.pose)).1 2 = ![0, 1, 0] ∧
    angle_axis_ realLibm ![0, 1, 0] ![1, 0, 0] = ![0, 0, -(Real.pi / 2)] ∧
    (turnedHipBody.rotateLimbToDirection realLibm 0 "LHip" ![1, 0, 0]).1 = Except.ok () ∧
    (turnedHipBody.rotateLimbToDirection realLibm 0 "LHip" ![1, 0, 0]).2.state_.pose 2 =
      ![0, 0, -(Real.pi / 2)] ∧
    Eigen.normalized realLibm
      (((turnedHipBody.rotateLimbToDirection realLibm 0 "LHip"
            ![1, 0, 0]).2.calcJointLocations_ realLibm none none
          (some (turnedHipBody.rotateLimbToDirection realLibm 0 "LHip"
            ![1, 0, 0]).2.state_.pose)).1 3
        - ((turnedHipBody.rotateLimbToDirection realLibm 0 "LHip"
            ![1, 0, 0]).2.calcJointLocations_ realLibm none none
          (some (turnedHipBody.rotateLimbToDirection realLibm 0 "LHip"
            ![1, 0, 0]).2.state_.pose)).1 2) = ![0, -1, 0] ∧
    Eigen.normalized realLibm ![1, 0, 0] = ![1, 0, 0] ∧
    (![0, -1, 0] : Vec3 ℝ) ≠ ![1, 0, 0] := by
  have hlook : turnedHipBody.joint_names_.lookup "LHip" = some 2 := by
    simp [turnedHipBody, smallBody, List.lookup]
  refine ⟨hlook, smallBody_findChild_hip, by simp [turnedHipBody], turnedHipBody_row.1,
    angle_axis_y_to_x,
    rotateLimbToDirection_returns turnedHipBody realLibm 0 "LHip" ![1, 0, 0] 2
      (fun _ => by decide) hlook (by decide) (by decide),
    turnedHipBody_row.2, ?_, realLibm_normalized_unit _ unit_x, ?_⟩
  · rw [turnedHipBody_bone]
    exact realLibm_normalized_unit _ (by simp [Eigen.dot])
  · intro h
    have := congrFun h 0
    simp at this

end SMPLWrapper

end SMPL
